import Mathlib

/-!
Verification of the trust database core (g10/trustdb.c) against its
specification.  The C code is shallowly embedded: the record store is an
association list from record numbers to typed records, every function that
can call die_invalid_db is modelled with an Option result (none = abort),
and chain walks over on-disk records take an explicit fuel argument (the
C code would loop forever on a cyclic chain; with fuel at least the chain
length the two agree on every well-formed store).
-/

namespace Trustdb

/-! ### Constants

The numeric values of the trust levels, the signature flag bits and the
directory flag bits live in headers (trustdb.h, tdbio.h) that are not part
of this repository snapshot.  Modelled from the spec: the spec fixes the
order unknown < expired < undefined < never < marginal < fully < ultimate,
that the ownertrust byte is masked by TRUST_MASK, that the revoked overlay
is a flag bit outside the mask, and that the signature flags CHECKED,
VALID, EXPIRED, REVOKED, NOPUBKEY and the dir flags CHECKED, REVOKED are
independent bits.  The concrete bit assignments below realize that. -/

def TRUST_MASK : Nat := 15
def TRUST_UNKNOWN : Nat := 0
def TRUST_EXPIRED : Nat := 1
def TRUST_UNDEFINED : Nat := 2
def TRUST_NEVER : Nat := 3
def TRUST_MARGINAL : Nat := 4
def TRUST_FULLY : Nat := 5
def TRUST_ULTIMATE : Nat := 6
def TRUST_FLAG_REVOKED : Nat := 32

def SIGF_CHECKED : Nat := 1
def SIGF_VALID : Nat := 2
def SIGF_EXPIRED : Nat := 4
def SIGF_REVOKED : Nat := 8
def SIGF_NOPUBKEY : Nat := 16

def UIDF_CHECKED : Nat := 1
def UIDF_VALID : Nat := 2

def DIRF_CHECKED : Nat := 1
def DIRF_REVOKED : Nat := 8

/-- Modelled from the spec: error codes from errors.h (not in the
snapshot); only their distinctness matters. -/
def G10ERR_GENERAL : Nat := 1
def G10ERR_TIME_CONFLICT : Nat := 34
def G10ERR_TRUSTDB : Nat := 29
def G10ERR_NO_PUBKEY : Nat := 9

/-! ### Record model

One structure per record kind of the on-disk trust database (spec section
3, struct trust_record in tdbio.h).  The recnum is the key under which a
record is stored and is kept outside the record body; dir and sdir records
carry their own recnum in their lid field by convention. -/

structure DirRec where
  lid : Nat
  keylist : Nat
  uidlist : Nat
  ownertrust : Nat
  dirflags : Nat
  deriving Repr, DecidableEq

structure KeyRec where
  lid : Nat
  next : Nat
  pubkey_algo : Nat
  fingerprint : List Nat
  deriving Repr, DecidableEq

structure UidRec where
  lid : Nat
  next : Nat
  prefrec : Nat
  siglist : Nat
  uidflags : Nat
  namehash : List Nat
  deriving Repr, DecidableEq

structure PrefRec where
  lid : Nat
  next : Nat
  data : List Nat
  deriving Repr, DecidableEq

/-- One signature slot: (signer lid, flag byte); lid 0 means deleted. -/
structure SigSlot where
  lid : Nat
  flag : Nat
  deriving Repr, DecidableEq

structure SigRec where
  lid : Nat
  next : Nat
  sigs : List SigSlot
  deriving Repr, DecidableEq

structure SdirRec where
  lid : Nat
  keyid : Nat × Nat
  pubkey_algo : Nat
  hintlist : Nat
  deriving Repr, DecidableEq

structure HlstRec where
  next : Nat
  rnum : List Nat
  deriving Repr, DecidableEq

inductive Rec where
  | dir (d : DirRec)
  | key (k : KeyRec)
  | uid (u : UidRec)
  | pref (p : PrefRec)
  | sig (s : SigRec)
  | sdir (s : SdirRec)
  | hlst (h : HlstRec)
  deriving Repr, DecidableEq

/-- The record store: association list recnum to record plus the next
fresh record number (tdbio_new_recnum) and the dirty flag maintained by
the tdbio layer (tdbio_is_dirty: set by any write or delete). -/
structure Store where
  recs : List (Nat × Rec)
  nextRec : Nat
  dirty : Bool
  deriving Repr, DecidableEq

def lookupRec (st : Store) (n : Nat) : Option Rec :=
  match st.recs.lookup n with
  | some r => some r
  | none => none

def writeRec (st : Store) (n : Nat) (r : Rec) : Store :=
  { st with recs := (n, r) :: st.recs.filter (fun p => p.1 ≠ n), dirty := true }

def deleteRec (st : Store) (n : Nat) : Store :=
  { st with recs := st.recs.filter (fun p => p.1 ≠ n), dirty := true }

/-- tdbio_new_recnum: a fresh, never used record number. -/
def newRecnum (st : Store) : Nat × Store :=
  (st.nextRec, { st with nextRec := st.nextRec + 1 })

/-- read_record with expected type RECTYPE_DIR; none models
die_invalid_db. -/
def readDir (st : Store) (n : Nat) : Option DirRec :=
  match lookupRec st n with
  | some (Rec.dir d) => some d
  | _ => none

def readKey (st : Store) (n : Nat) : Option KeyRec :=
  match lookupRec st n with
  | some (Rec.key k) => some k
  | _ => none

def readUid (st : Store) (n : Nat) : Option UidRec :=
  match lookupRec st n with
  | some (Rec.uid u) => some u
  | _ => none

def readPref (st : Store) (n : Nat) : Option PrefRec :=
  match lookupRec st n with
  | some (Rec.pref p) => some p
  | _ => none

def readSig (st : Store) (n : Nat) : Option SigRec :=
  match lookupRec st n with
  | some (Rec.sig s) => some s
  | _ => none

def readHlst (st : Store) (n : Nat) : Option HlstRec :=
  match lookupRec st n with
  | some (Rec.hlst h) => some h
  | _ => none

/-! ### The trust evaluator (verify_key, trustdb.c lines 700-815)

The C function recurses with depth+1 while depth < max_depth, so the
number of remaining levels max_depth - depth is the decreasing measure;
verify_key_aux takes it as an explicit fuel argument and the wrapper
verify_key recovers the (depth, max_depth) interface.  The nested loops
over the uid chain, the sig-record chains and the slots of each sig
record are flattened by collect_sig_slots into the scanned slot sequence
(chain walks take fuel; none models a record read that dies). -/

/-- Walk one uid's sig-record chain collecting every slot, in order. -/
def sigChainSlots (st : Store) : Nat → Nat → Option (List SigSlot)
  | _, 0 => some []
  | 0, _ + 1 => none
  | fuel + 1, rn + 1 =>
    match readSig st (rn + 1) with
    | none => none
    | some s =>
      match sigChainSlots st fuel s.next with
      | none => none
      | some rest => some (s.sigs ++ rest)

/-- Walk the uid chain; for each uid record append the slots of its
signature chain. -/
def collectSlotsAux (st : Store) : Nat → Nat → Option (List SigSlot)
  | _, 0 => some []
  | 0, _ + 1 => none
  | fuel + 1, rn + 1 =>
    match readUid st (rn + 1) with
    | none => none
    | some u =>
      match sigChainSlots st (st.nextRec + 1) u.siglist with
      | none => none
      | some here =>
        match collectSlotsAux st fuel u.next with
        | none => none
        | some rest => some (here ++ rest)

/-- The sequence of signature slots verify_key scans for a dir record. -/
def collect_sig_slots (st : Store) (drec : DirRec) : Option (List SigSlot) :=
  collectSlotsAux st (st.nextRec + 1) drec.uidlist

/-- qry_lid_table_flag on the ultimately-trusted table, as a membership
test on the set of ultimately trusted lids. -/
def inUltikeyTable (ulti : List Nat) (lid : Nat) : Bool :=
  ulti.contains lid

/-- The slot scan of verify_key: the two counters are the local variables
marginal and fully of the C function; vk is the recursive call at
depth + 1 (passed as a function so that the recursion is structural). -/
def verify_slots (st : Store) (completes marginals : Nat)
    (vk : DirRec → Option Nat) :
    List SigSlot → Nat → Nat → Option Nat
  | [], marginal, _ =>
    some (if marginal ≠ 0 then TRUST_MARGINAL else TRUST_UNDEFINED)
  | s :: rest, marginal, fully =>
    if s.lid = 0 then verify_slots st completes marginals vk rest marginal fully
    else if s.flag &&& SIGF_CHECKED = 0 then
      verify_slots st completes marginals vk rest marginal fully
    else if s.flag &&& SIGF_VALID = 0 then
      verify_slots st completes marginals vk rest marginal fully
    else if s.flag &&& SIGF_EXPIRED ≠ 0 then
      verify_slots st completes marginals vk rest marginal fully
    else if s.flag &&& SIGF_REVOKED ≠ 0 then
      verify_slots st completes marginals vk rest marginal fully
    else
      match readDir st s.lid with
      | none => none
      | some tmp =>
        let ot0 := tmp.ownertrust &&& TRUST_MASK
        let ot := if TRUST_FULLY ≤ ot0 then TRUST_FULLY else ot0
        match vk tmp with
        | none => none
        | some nt0 =>
          let nt := nt0 &&& TRUST_MASK
          if nt < TRUST_MARGINAL then
            verify_slots st completes marginals vk rest marginal fully
          else if nt = TRUST_ULTIMATE then some ot
          else
            let fully' := if TRUST_FULLY ≤ nt then fully + 1 else fully
            let marginal' := if TRUST_MARGINAL ≤ nt then marginal + 1 else marginal
            if completes ≤ fully' ∨ marginals ≤ marginal' then some TRUST_FULLY
            else verify_slots st completes marginals vk rest marginal' fully'

/-- verify_key with fuel = max_depth - depth. -/
def verify_key_aux (st : Store) (ulti : List Nat)
    (completes marginals : Nat) : Nat → DirRec → Option Nat
  | 0, _ => some TRUST_UNDEFINED
  | fuel + 1, drec =>
    if inUltikeyTable ulti drec.lid then some TRUST_ULTIMATE
    else
      match collect_sig_slots st drec with
      | none => none
      | some slots =>
        verify_slots st completes marginals
          (verify_key_aux st ulti completes marginals fuel) slots 0 0

/-- verify_key(depth, max_depth, drec), trustdb.c line 700. -/
def verify_key (st : Store) (ulti : List Nat) (completes marginals : Nat)
    (depth max_depth : Nat) (drec : DirRec) : Option Nat :=
  verify_key_aux st ulti completes marginals (max_depth - depth) drec

/-! ### Packets and key blocks (consumed interface)

The parsed keyblock the reconciler walks.  The packet parser, the
cryptographic verifier and the keyring are external collaborators (spec
section 6); the fields below carry exactly what trustdb.c reads from a
packet.  The preference subpackets that parse_sig_subpkt2 would extract
are carried on the signature packet directly. -/

structure PubKeyPkt where
  fingerprint : List Nat
  pubkey_algo : Nat
  keyid : Nat × Nat
  local_id : Nat
  deriving Repr, DecidableEq

structure UserIdPkt where
  name : List Nat
  deriving Repr, DecidableEq

structure SigPkt where
  sig_class : Nat
  keyid : Nat × Nat
  pubkey_algo : Nat
  prefSym : Option (List Nat)
  prefHash : Option (List Nat)
  prefCompr : Option (List Nat)
  deriving Repr, DecidableEq

inductive KBNode where
  | publicKey (pk : PubKeyPkt)
  | publicSubkey (pk : PubKeyPkt)
  | userId (u : UserIdPkt)
  | signature (s : SigPkt)
  | other
  deriving Repr, DecidableEq

def KeyBlock := List KBNode

/-- The fields of a PKT_public_key that check_trust and the dir lookup
read.  local_id is the cached LID (0 when not yet known). -/
structure PubKey where
  local_id : Nat
  timestamp : Nat
  expiredate : Nat
  fingerprint : List Nat
  pubkey_algo : Nat
  keyid : Nat × Nat
  deriving Repr, DecidableEq

/-- Modelled from the spec: tdbio_search_dir_bypk (record store ABI,
search_dir_by_pk) finds the directory record of the key with this
public key, here realized by matching the key record chains against the
key's fingerprint, scanning record numbers in ascending order.  Returns
the dir recnum and the record, or none when the key is not in the
trust database. -/
def searchDirByFprFrom (st : Store) (fpr : List Nat) : Nat → Nat → Option (Nat × DirRec)
  | _, 0 => none
  | n, count + 1 =>
    match lookupRec st n with
    | some (Rec.key k) =>
      if k.fingerprint = fpr then
        match readDir st k.lid with
        | some d => some (k.lid, d)
        | none => searchDirByFprFrom st fpr (n + 1) count
      else searchDirByFprFrom st fpr (n + 1) count
    | _ => searchDirByFprFrom st fpr (n + 1) count

def tdbio_search_dir_byfpr (st : Store) (fpr : List Nat) : Option (Nat × DirRec) :=
  searchDirByFprFrom st fpr 0 st.nextRec

def tdbio_search_dir_bypk (st : Store) (pk : PubKey) : Option (Nat × DirRec) :=
  tdbio_search_dir_byfpr st pk.fingerprint

/-! ### do_check and check_trust (trustdb.c lines 928-946 and 1387-1451) -/

/-- do_check: evaluator entry; the revoked overlay is OR'd in here, and
only here.  Except.error carries the returned error code, Except.ok the
trust level written to the output parameter. -/
def do_check (st : Store) (ulti : List Nat) (completes marginals : Nat)
    (dr : DirRec) : Option (Except Nat Nat) :=
  if dr.keylist = 0 then some (Except.error G10ERR_TRUSTDB)
  else if dr.uidlist = 0 then some (Except.error G10ERR_TRUSTDB)
  else
    match verify_key st ulti completes marginals 1 5 dr with
    | none => none
    | some lvl =>
      if dr.dirflags &&& DIRF_REVOKED ≠ 0 then
        some (Except.ok (lvl ||| TRUST_FLAG_REVOKED))
      else some (Except.ok lvl)

/-- The tail of check_trust after the dir record has been resolved:
the time-conflict test, the expiry test and the call to do_check. -/
def check_trust_core (st : Store) (ulti : List Nat)
    (completes marginals : Nat) (pk : PubKey) (now : Nat) (rec : DirRec) :
    Option (Except Nat Nat) :=
  if now < pk.timestamp then some (Except.error G10ERR_TIME_CONFLICT)
  else if pk.expiredate ≠ 0 ∧ pk.expiredate ≤ now then some (Except.ok TRUST_EXPIRED)
  else do_check st ulti completes marginals rec

/-- check_trust(pk).  The branch for a key that is not yet in the trust
database calls insert_trust_record and the external keyring; it is passed
in as insertTR (returning the new lid and store, or the error code).  On
an insert failure the C code takes the leave label, which stores
TRUST_UNKNOWN and returns 0. -/
def check_trust (st : Store) (ulti : List Nat) (completes marginals : Nat)
    (insertTR : Store → PubKey → Except Nat (Nat × Store))
    (pk : PubKey) (now : Nat) : Option (Except Nat Nat × Store) :=
  if pk.local_id ≠ 0 then
    match readDir st pk.local_id with
    | none => none
    | some rec => (check_trust_core st ulti completes marginals pk now rec).map (·, st)
  else
    match tdbio_search_dir_bypk st pk with
    | some (_, rec) => (check_trust_core st ulti completes marginals pk now rec).map (·, st)
    | none =>
      match insertTR st pk with
      | Except.error _ => some (Except.ok TRUST_UNKNOWN, st)
      | Except.ok (lid, st') =>
        match readDir st' lid with
        | none => none
        | some rec => (check_trust_core st' ulti completes marginals pk now rec).map (·, st')

/-! ### Ownertrust accessors (trustdb.c lines 1504-1511 and 2639-2649) -/

/-- get_ownertrust(lid): read the dir record and return its ownertrust
field; none models die_invalid_db. -/
def get_ownertrust (st : Store) (lid : Nat) : Option Nat :=
  (readDir st lid).map (·.ownertrust)

/-- update_ownertrust(lid, new_trust). -/
def update_ownertrust (st : Store) (lid : Nat) (new_trust : Nat) : Option Store :=
  match readDir st lid with
  | none => none
  | some rec => some (writeRec st lid (Rec.dir { rec with ownertrust := new_trust }))

/-! ### Shadow directories (create_shadow_dir, trustdb.c lines 1841-1904) -/

/-- Modelled from the spec: an Hlst record holds ITEMS_PER_HLST_RECORD
packed lid slots (the exact count comes from the record layout in
tdbio.h, which is not in this snapshot; no claim depends on it). -/
def ITEMS_PER_HLST_RECORD : Nat := 7

/-- Modelled from the spec: tdbio_search_sdir looks up a shadow dir
record by (keyid, pubkey_algo), scanning record numbers in ascending
order. -/
def searchSdirFrom (st : Store) (keyid : Nat × Nat) (algo : Nat) :
    Nat → Nat → Option (Nat × SdirRec)
  | _, 0 => none
  | n, count + 1 =>
    match lookupRec st n with
    | some (Rec.sdir s) =>
      if s.keyid = keyid ∧ s.pubkey_algo = algo then some (n, s)
      else searchSdirFrom st keyid algo (n + 1) count
    | _ => searchSdirFrom st keyid algo (n + 1) count

def tdbio_search_sdir (st : Store) (keyid : Nat × Nat) (algo : Nat) :
    Option (Nat × SdirRec) :=
  searchSdirFrom st keyid algo 0 st.nextRec

/-- Result of scanning the hint list chain for a referring lid: either
the lid is already present (early return, no write), or it is absent and
tmp is the first record with an empty slot (with its recnum and slot
index), if any. -/
inductive HintScan where
  | foundLid
  | absent (tmp : Option (Nat × HlstRec × Nat))
  deriving Repr, DecidableEq

/-- The slot loop of the hint list scan: remembers the first empty slot,
returns early when the lid is already present. -/
def hintSlotScan (lid recno : Nat) (h : HlstRec) :
    List Nat → Nat → Option (Nat × HlstRec × Nat) → HintScan
  | [], _, tmp => HintScan.absent tmp
  | r :: rest, i, tmp =>
    if r = 0 then
      hintSlotScan lid recno h rest (i + 1)
        (match tmp with
         | none => some (recno, h, i)
         | some t => some t)
    else if r = lid then HintScan.foundLid
    else hintSlotScan lid recno h rest (i + 1) tmp

/-- The chain loop of the hint list scan; none models a failing
read_record (die_invalid_db). -/
def hintChainScan (st : Store) (lid : Nat) :
    Nat → Nat → Option (Nat × HlstRec × Nat) → Option HintScan
  | _, 0, tmp => some (HintScan.absent tmp)
  | 0, _ + 1, _ => none
  | fuel + 1, rn + 1, tmp =>
    match readHlst st (rn + 1) with
    | none => none
    | some h =>
      match hintSlotScan lid (rn + 1) h h.rnum 0 tmp with
      | HintScan.foundLid => some HintScan.foundLid
      | HintScan.absent tmp' => hintChainScan st lid fuel h.next tmp'

/-- create_shadow_dir(sig, lid): find or create the Sdir for the
signature's (keyid, algo) and make sure the referring lid is in its hint
list.  Returns the Sdir's lid (its recnum) and the new store. -/
def create_shadow_dir (st : Store) (sig : SigPkt) (lid : Nat) :
    Option (Nat × Store) :=
  let found := tdbio_search_sdir st sig.keyid sig.pubkey_algo
  let (sdirRn, sdir, st1) :=
    match found with
    | some (rn, s) => (rn, s, st)
    | none =>
      let (n, st') := newRecnum st
      let s : SdirRec :=
        { lid := n, keyid := sig.keyid, pubkey_algo := sig.pubkey_algo,
          hintlist := 0 }
      (n, s, writeRec st' n (Rec.sdir s))
  match hintChainScan st1 lid (st1.nextRec + 1) sdir.hintlist none with
  | none => none
  | some HintScan.foundLid => some (sdirRn, st1)
  | some (HintScan.absent (some (rn, h, idx))) =>
    some (sdirRn, writeRec st1 rn (Rec.hlst { h with rnum := h.rnum.set idx lid }))
  | some (HintScan.absent none) =>
    let (m, st2) := newRecnum st1
    let h : HlstRec :=
      { next := sdir.hintlist,
        rnum := lid :: List.replicate (ITEMS_PER_HLST_RECORD - 1) 0 }
    let st3 := writeRec st2 m (Rec.hlst h)
    some (sdirRn, writeRec st3 sdirRn (Rec.sdir { sdir with hintlist := m }))

/-! ### Ownertrust export and import (trustdb.c lines 1031-1161)

Text is modelled as lists of byte values (ASCII codes); 10 is the
newline, 35 the hash mark, 58 the colon, 48 the digit zero.  A line
carries its terminating newline, as the fgets buffer does. -/

def isxdigitB (c : Nat) : Bool :=
  (48 ≤ c ∧ c ≤ 57) ∨ (65 ≤ c ∧ c ≤ 70) ∨ (97 ≤ c ∧ c ≤ 102)

def isdigitB (c : Nat) : Bool := 48 ≤ c ∧ c ≤ 57

/-- isspace in the C locale: space, tab, newline, vertical tab, form
feed, carriage return. -/
def isspaceB (c : Nat) : Bool := c = 32 ∨ (9 ≤ c ∧ c ≤ 13)

/-- The HEXTOBIN macro (trustdb.c line 102). -/
def HEXTOBIN (c : Nat) : Nat :=
  if 48 ≤ c ∧ c ≤ 57 then c - 48
  else if 65 ≤ c ∧ c ≤ 70 then c - 65 + 10
  else c - 97 + 10

/-- One hex digit as printed by printf %02X (uppercase). -/
def hexDigitUpper (d : Nat) : Nat := if d < 10 then 48 + d else 55 + d

def byteToHex (b : Nat) : List Nat := [hexDigitUpper (b / 16), hexDigitUpper (b % 16)]

def fprToHex (fpr : List Nat) : List Nat := (fpr.map byteToHex).flatten

/-- The in-place hex-to-binary conversion of import_ownertrust (pairs of
hex digits until the colon). -/
def hexPairsToBytes : List Nat → List Nat
  | a :: b :: rest => (HEXTOBIN a * 16 + HEXTOBIN b) :: hexPairsToBytes rest
  | _ => []

/-- Decimal digits of n as printed by printf %u; the fuel argument is an
upper bound on the value and makes the recursion structural (the
quotient by ten strictly decreases, so fuel = n is always enough). -/
def natToDecGo : Nat → Nat → List Nat → List Nat
  | _, 0, acc => acc
  | 0, _ + 1, acc => acc
  | fuel + 1, n + 1, acc =>
    natToDecGo fuel ((n + 1) / 10) ((48 + (n + 1) % 10) :: acc)

def natToDec (n : Nat) : List Nat :=
  if n = 0 then [48] else natToDecGo n n []

/-- The value sscanf %u assigns for a run of decimal digits. -/
def decValue (ds : List Nat) : Nat := ds.foldl (fun acc c => acc * 10 + (c - 48)) 0

/-- One data line of the export: fingerprint hex, colon, ownertrust,
colon, newline. -/
def export_line (fpr : List Nat) (otrust : Nat) : List Nat :=
  fprToHex fpr ++ [58] ++ natToDec otrust ++ [58, 10]

/-- The record scan of export_ownertrust: every dir record with a
primary key and a non-zero ownertrust yields one line; a dir without a
key list and a failing key-record read are logged and skipped. -/
def exportFrom (st : Store) : Nat → Nat → List (List Nat)
  | _, 0 => []
  | n, count + 1 =>
    let rest := exportFrom st (n + 1) count
    match lookupRec st n with
    | some (Rec.dir d) =>
      if d.keylist = 0 then rest
      else if d.ownertrust = 0 then rest
      else
        match readKey st d.keylist with
        | none => rest
        | some k => export_line k.fingerprint d.ownertrust :: rest
    | _ => rest

/-- The two header comment lines (their text beyond the leading hash
mark and the timestamp is never inspected by the importer and is
abbreviated here). -/
def export_header (ts : List Nat) : List (List Nat) :=
  [35 :: 32 :: ts ++ [10], [35, 10]]

/-- export_ownertrust: header comment lines followed by one line per
dir record with assigned trust, in ascending recnum order. -/
def export_ownertrust (st : Store) (ts : List Nat) : List (List Nat) :=
  export_header ts ++ exportFrom st 0 st.nextRec

/-- Outcome of processing one input line: continue with the next line,
or abort the read loop (the line-too-long break). -/
inductive ImportStep where
  | cont (st : Store)
  | stop (st : Store)
  deriving Repr

/-- The subject sequence of the sscanf(":%u:") trust-field conversion:
the decimal digit run after the colon, past any leading white space and
one optional plus or minus sign (C99 7.19.6.2: %u skips white space,
then matches the subject sequence of strtoul with base 10). -/
def trustField (line : List Nat) : List Nat :=
  let pre := line.takeWhile (fun b => isxdigitB b)
  let field := (line.drop (pre.length + 1)).dropWhile (fun b => isspaceB b)
  let body :=
    if field.head? = some 43 ∨ field.head? = some 45 then field.drop 1
    else field
  body.takeWhile (fun b => isdigitB b)

/-- The value the sscanf(":%u:") conversion stores into the unsigned
otrust: the digit run's value, negated in 32-bit unsigned arithmetic
when the sign is minus (the negation is defined unsigned wrap-around; a
magnitude beyond UINT_MAX is undefined behaviour under C99 7.19.6.2p10
and is modelled as the exact value). -/
def trustValue (line : List Nat) : Nat :=
  let pre := line.takeWhile (fun b => isxdigitB b)
  let field := (line.drop (pre.length + 1)).dropWhile (fun b => isspaceB b)
  if field.head? = some 45 then
    (2 ^ 32 - decValue (trustField line) % 2 ^ 32) % 2 ^ 32
  else decValue (trustField line)

/-- import_ownertrust, one line.  ringBranch covers the not-found branch
(trustdb.c lines 1132-1151): consulting the external keyring via
get_pubkey_byfprint, inserting a trust record and retrying the update;
it receives the store, the binary fingerprint and the trust value.
The sscanf(p, ":%u:", &otrust) call returns 1 exactly when a digit run
follows the colon after optional white space and one optional sign (%u
converts as strtoul; the format's trailing colon never affects the
returned conversion count). -/
def import_step (ringBranch : Store → List Nat → Nat → Store)
    (st : Store) (line : List Nat) : ImportStep :=
  match line with
  | [] => ImportStep.cont st
  | c :: _ =>
    if c = 35 then ImportStep.cont st
    else if line.getLast? ≠ some 10 then ImportStep.stop st
    else
      let pre := line.takeWhile (fun b => isxdigitB b)
      if line.get? pre.length ≠ some 58 then ImportStep.cont st
      else if pre.length ≠ 32 ∧ pre.length ≠ 40 then ImportStep.cont st
      else if trustField line = [] then ImportStep.cont st
      else
        let otrust := trustValue line
        if otrust = 0 then ImportStep.cont st
        else
          let fprBin := hexPairsToBytes pre
          match tdbio_search_dir_byfpr st fprBin with
          | some (rn, rec) =>
            ImportStep.cont
              (writeRec st rn (Rec.dir { rec with ownertrust := otrust }))
          | none => ImportStep.cont (ringBranch st fprBin otrust)

/-- The fgets loop of import_ownertrust. -/
def import_lines (ringBranch : Store → List Nat → Nat → Store) :
    Store → List (List Nat) → Store
  | st, [] => st
  | st, l :: ls =>
    match import_step ringBranch st l with
    | ImportStep.cont st' => import_lines ringBranch st' ls
    | ImportStep.stop st' => st'

/-- import_ownertrust on an already line-split input. -/
def import_ownertrust (ringBranch : Store → List Nat → Nat → Store)
    (st : Store) (input : List (List Nat)) : Store :=
  import_lines ringBranch st input

/-! ### The keyblock reconciler (update_trust_record and helpers,
trustdb.c lines 1907-2527)

External collaborators are passed in one bundle: the RIPEMD-160 hash of
a user id string, the cryptographic signature check (by keyblock and the
index of the signature node) and the public key retrieval service. -/

structure Ext where
  rmd160 : List Nat → List Nat
  checkKeySig : KeyBlock → Nat → Nat
  getPubkey : Nat × Nat → Option PubKey

/-- Modelled from the spec: record type tags as used in the retained
recno list (the numeric values come from tdbio.h, absent from this
snapshot; only distinctness matters). -/
def RECTYPE_DIR : Nat := 2
def RECTYPE_KEY : Nat := 3
def RECTYPE_UID : Nat := 4
def RECTYPE_PREF : Nat := 5
def RECTYPE_SIG : Nat := 6
def RECTYPE_SDIR : Nat := 8
def RECTYPE_HLST : Nat := 10

/-- Modelled from the spec: slots per Sig record and bytes per Pref
record (record layout constants from tdbio.h). -/
def SIGS_PER_RECORD : Nat := 6
def ITEMS_PER_PREF_RECORD : Nat := 30

/-- Modelled from the spec: preference type tags (packet.h). -/
def PREFTYPE_SYM : Nat := 1
def PREFTYPE_HASH : Nat := 2
def PREFTYPE_COMPR : Nat := 3

/-- ins_recno_list / qry_recno_list (trustdb.c lines 184-203). -/
def qryRecnoList (rl : List (Nat × Nat)) (recno ty : Nat) : Bool :=
  rl.any (fun p => p.1 = recno ∧ (ty = 0 ∨ p.2 = ty))

/-- The mutable locals of the update_trust_record pass: the store, the
in-memory dir record with its recnum and dirty flag, the retained recno
list, and the current-uid cursor with its namehash. -/
structure UTState where
  st : Store
  drec : DirRec
  drecRn : Nat
  drecDirty : Bool
  recnoList : List (Nat × Nat)
  uidrecno : Nat
  uidhash : List Nat

/-- The fingerprint scan of upd_key_record over the dir's key chain:
some (some rn) = found at rn, some none = not found, none = a record
read died. -/
def findKeyByFpr (st : Store) (fpr : List Nat) : Nat → Nat → Option (Option Nat)
  | _, 0 => some none
  | 0, _ + 1 => none
  | fuel + 1, rn + 1 =>
    match readKey st (rn + 1) with
    | none => none
    | some k =>
      if k.fingerprint = fpr then some (some (rn + 1))
      else findKeyByFpr st fpr fuel k.next

/-- Walk to the last record of a non-empty key chain. -/
def lastKeyRec (st : Store) : Nat → Nat → Option (Nat × KeyRec)
  | 0, _ => none
  | fuel + 1, rn =>
    match readKey st rn with
    | none => none
    | some k => if k.next = 0 then some (rn, k) else lastKeyRec st fuel k.next

/-- upd_key_record (trustdb.c lines 1907-1949). -/
def upd_key_record (pk : PubKeyPkt) (s : UTState) : Option UTState :=
  let fpr := pk.fingerprint
  match findKeyByFpr s.st fpr (s.st.nextRec + 1) s.drec.keylist with
  | none => none
  | some (some recno) =>
    some { s with recnoList := (recno, RECTYPE_KEY) :: s.recnoList }
  | some none =>
    let (newrecno, st1) := newRecnum s.st
    let krec : KeyRec :=
      { lid := s.drecRn, next := 0, pubkey_algo := pk.pubkey_algo,
        fingerprint := fpr }
    let st2 := writeRec st1 newrecno (Rec.key krec)
    let s' := { s with st := st2,
                       recnoList := (newrecno, RECTYPE_KEY) :: s.recnoList }
    if s'.drec.keylist = 0 then
      some { s' with drec := { s'.drec with keylist := newrecno },
                     drecDirty := true }
    else
      match lastKeyRec s'.st (s'.st.nextRec + 1) s'.drec.keylist with
      | none => none
      | some (rn, k) =>
        some { s' with st := writeRec s'.st rn (Rec.key { k with next := newrecno }) }

/-- The namehash scan of upd_uid_record over the dir's uid chain. -/
def findUidByHash (st : Store) (hash : List Nat) : Nat → Nat → Option (Option Nat)
  | _, 0 => some none
  | 0, _ + 1 => none
  | fuel + 1, rn + 1 =>
    match readUid st (rn + 1) with
    | none => none
    | some u =>
      if u.namehash = hash then some (some (rn + 1))
      else findUidByHash st hash fuel u.next

/-- Walk to the last record of a non-empty uid chain.  (The C loop reads
the next pointer through the key member of the record union; in the
on-disk layout the key and uid next fields coincide, so this is the uid
next field.) -/
def lastUidRec (st : Store) : Nat → Nat → Option (Nat × UidRec)
  | 0, _ => none
  | fuel + 1, rn =>
    match readUid st rn with
    | none => none
    | some u => if u.next = 0 then some (rn, u) else lastUidRec st fuel u.next

/-- upd_uid_record (trustdb.c lines 1952-1990). -/
def upd_uid_record (ext : Ext) (uid : UserIdPkt) (s : UTState) : Option UTState :=
  let uidhash := ext.rmd160 uid.name
  match findUidByHash s.st uidhash (s.st.nextRec + 1) s.drec.uidlist with
  | none => none
  | some (some recno) =>
    some { s with recnoList := (recno, RECTYPE_UID) :: s.recnoList,
                  uidrecno := recno, uidhash := uidhash }
  | some none =>
    let (newrecno, st1) := newRecnum s.st
    let urec : UidRec :=
      { lid := s.drecRn, next := 0, prefrec := 0, siglist := 0,
        uidflags := 0, namehash := uidhash }
    let st2 := writeRec st1 newrecno (Rec.uid urec)
    let s' := { s with st := st2,
                       recnoList := (newrecno, RECTYPE_UID) :: s.recnoList,
                       uidrecno := newrecno, uidhash := uidhash }
    if s'.drec.uidlist = 0 then
      some { s' with drec := { s'.drec with uidlist := newrecno },
                     drecDirty := true }
    else
      match lastUidRec s'.st (s'.st.nextRec + 1) s'.drec.uidlist with
      | none => none
      | some (rn, u) =>
        some { s' with st := writeRec s'.st rn (Rec.uid { u with next := newrecno }) }

/-- Delete a preference chain record by record (the loop at the start of
upd_pref_record and the cascade in update_trust_record). -/
def deletePrefChain (st : Store) : Nat → Nat → Option Store
  | _, 0 => some st
  | 0, _ + 1 => none
  | fuel + 1, rn + 1 =>
    match readPref st (rn + 1) with
    | none => none
    | some p => deletePrefChain (deleteRec st (rn + 1)) fuel p.next

/-- Delete a signature-record chain (the cascade in
update_trust_record). -/
def deleteSigChain (st : Store) : Nat → Nat → Option Store
  | _, 0 => some st
  | 0, _ + 1 => none
  | fuel + 1, rn + 1 =>
    match readSig st (rn + 1) with
    | none => none
    | some sg => deleteSigChain (deleteRec st (rn + 1)) fuel sg.next

/-- The (preftype, value) byte stream upd_pref_record builds from the
preference subpackets, in the table order symmetric, hash,
compression. -/
def prefData (sig : SigPkt) : List Nat :=
  (match sig.prefSym with
   | some s => (s.map (fun b => [PREFTYPE_SYM, b])).flatten
   | none => []) ++
  (match sig.prefHash with
   | some s => (s.map (fun b => [PREFTYPE_HASH, b])).flatten
   | none => []) ++
  (match sig.prefCompr with
   | some s => (s.map (fun b => [PREFTYPE_COMPR, b])).flatten
   | none => [])

/-- Split the preference byte stream into record-sized chunks (the fuel
argument, instantiated with the stream length, makes the recursion
structural; every step consumes at least one byte). -/
def chunkPrefGo : Nat → List Nat → List (List Nat)
  | _, [] => []
  | 0, _ :: _ => []
  | fuel + 1, a :: t =>
    List.take ITEMS_PER_PREF_RECORD (a :: t) ::
      chunkPrefGo fuel (List.drop ITEMS_PER_PREF_RECORD (a :: t))

def chunkPref (l : List Nat) : List (List Nat) := chunkPrefGo l.length l

/-- Allocate and write the new preference records, each linked to the
next freshly allocated recnum (the C writes each record once unlinked
and then a second time with the link; the resulting store is this). -/
def writePrefChunks (lid : Nat) : Store → List (List Nat) → Store
  | st, [] => st
  | st, c :: rest =>
    let (n, st1) := newRecnum st
    let nxt := if rest = [] then 0 else st1.nextRec
    writePrefChunks lid
      (writeRec st1 n (Rec.pref { lid := lid, next := nxt, data := c })) rest

/-- upd_pref_record (trustdb.c lines 1993-2064): delete the old chain,
pack the subpacket data into at most 10 fresh records (excess is logged
and dropped), link them, and point the uid record at the chain head. -/
def upd_pref_record (sig : SigPkt) (lid : Nat) (st : Store) (urec : UidRec) :
    Option (Store × UidRec) :=
  match deletePrefChain st (st.nextRec + 1) urec.prefrec with
  | none => none
  | some st1 =>
    let chunks := (chunkPref (prefData sig)).take 10
    let head := if chunks = [] then 0 else st1.nextRec
    let st2 := writePrefChunks lid st1 chunks
    some (st2, { urec with prefrec := head })

/-- upd_self_key_sigs (trustdb.c lines 2070-2097).  The boolean is the
urec dirty flag. -/
def upd_self_key_sigs (ext : Ext) (kb : KeyBlock) (signode : Nat)
    (sig : SigPkt) (lid : Nat) (st : Store) (urec : UidRec) (udirty : Bool) :
    Option (Store × UidRec × Bool) :=
  if urec.uidflags &&& UIDF_CHECKED = 0 then
    if ext.checkKeySig kb signode = 0 then
      match upd_pref_record sig lid st urec with
      | none => none
      | some (st', urec') =>
        some (st', { urec' with uidflags := UIDF_CHECKED ||| UIDF_VALID }, true)
    else some (st, { urec with uidflags := UIDF_CHECKED }, true)
  else some (st, urec, udirty)

/-- The pk_lid resolution at the start of upd_nonself_key_sigs: the
signer's lid through the keyring, the dir search, or an existing shadow
dir; 0 when unknown. -/
def nonselfPkLid (ext : Ext) (st : Store) (sig : SigPkt) : Nat :=
  match ext.getPubkey sig.keyid with
  | none => 0
  | some pk =>
    if pk.local_id ≠ 0 then pk.local_id
    else
      match tdbio_search_dir_bypk st pk with
      | some (rn, _) => rn
      | none =>
        match tdbio_search_sdir st pk.keyid pk.pubkey_algo with
        | some (rn, _) => rn
        | none => 0

/-- The slot loop of upd_nonself_key_sigs over one sig record: returns
the mutated slots, the found-sig flag, the index of the first free slot
of this record, and the record dirty flag; none models
die_invalid_db (a slot pointing to a record that is neither dir nor
sdir). -/
def nonselfSlots (ext : Ext) (kb : KeyBlock) (signode : Nat) (sig : SigPkt)
    (st : Store) (pk_lid : Nat) :
    List SigSlot → Nat → Bool → Option Nat → Bool →
    Option (List SigSlot × Bool × Option Nat × Bool)
  | [], _, fs, ff, dy => some ([], fs, ff, dy)
  | sl :: rest, i, fs, ff, dy =>
    if sl.lid = 0 then
      let ff' := match ff with
                 | none => some i
                 | some j => some j
      match nonselfSlots ext kb signode sig st pk_lid rest (i + 1) fs ff' dy with
      | none => none
      | some (tail, fs', ff'', dy') => some (sl :: tail, fs', ff'', dy')
    else
      if sl.lid = pk_lid ∧ fs then
        match nonselfSlots ext kb signode sig st pk_lid rest (i + 1) fs ff true with
        | none => none
        | some (tail, fs', ff', dy') =>
          some ({ sl with lid := 0 } :: tail, fs', ff', dy')
      else
        let fs1 := fs ∨ sl.lid = pk_lid
        if sl.flag &&& SIGF_CHECKED ≠ 0 ∨ sl.flag &&& SIGF_NOPUBKEY ≠ 0 then
          match nonselfSlots ext kb signode sig st pk_lid rest (i + 1) fs1 ff dy with
          | none => none
          | some (tail, fs', ff', dy') => some (sl :: tail, fs', ff', dy')
        else
          match lookupRec st sl.lid with
          | some (Rec.dir _) =>
            let rc := ext.checkKeySig kb signode
            let fl :=
              if rc = 0 then SIGF_CHECKED ||| SIGF_VALID
              else if rc = G10ERR_NO_PUBKEY then SIGF_NOPUBKEY
              else SIGF_CHECKED
            match nonselfSlots ext kb signode sig st pk_lid rest (i + 1) fs1 ff true with
            | none => none
            | some (tail, fs', ff', dy') =>
              some ({ sl with flag := fl } :: tail, fs', ff', dy')
          | some (Rec.sdir sd) =>
            if sd.keyid = sig.keyid ∧
               (sd.pubkey_algo = 0 ∨ sd.pubkey_algo = sig.pubkey_algo) then
              match nonselfSlots ext kb signode sig st pk_lid rest (i + 1) fs1 ff true with
              | none => none
              | some (tail, fs', ff', dy') =>
                some ({ sl with flag := SIGF_NOPUBKEY } :: tail, fs', ff', dy')
            else
              match nonselfSlots ext kb signode sig st pk_lid rest (i + 1) fs1 ff dy with
              | none => none
              | some (tail, fs', ff', dy') => some (sl :: tail, fs', ff', dy')
          | _ => none

/-- The record-chain loop of upd_nonself_key_sigs.  delrec is the first
record holding a free slot, as a (recnum, final record value, slot
index) snapshot taken after the record was processed. -/
def nonselfChain (ext : Ext) (kb : KeyBlock) (signode : Nat) (sig : SigPkt)
    (pk_lid : Nat) :
    Nat → Store → Nat → Bool → Option (Nat × SigRec × Nat) →
    Option (Store × Bool × Option (Nat × SigRec × Nat))
  | _, st, 0, fs, dr => some (st, fs, dr)
  | 0, _, _ + 1, _, _ => none
  | fuel + 1, st, rn + 1, fs, dr =>
    match readSig st (rn + 1) with
    | none => none
    | some rec =>
      match nonselfSlots ext kb signode sig st pk_lid rec.sigs 0 fs none false with
      | none => none
      | some (newSlots, fs', ff, dirty) =>
        let newRec : SigRec := { rec with sigs := newSlots }
        let dr' :=
          match dr, ff with
          | none, some i => some (rn + 1, newRec, i)
          | _, _ => dr
        let st' := if dirty then writeRec st (rn + 1) (Rec.sig newRec) else st
        nonselfChain ext kb signode sig pk_lid fuel st' rec.next fs' dr'

/-- upd_nonself_key_sigs (trustdb.c lines 2103-2306). -/
def upd_nonself_key_sigs (ext : Ext) (kb : KeyBlock) (signode : Nat)
    (sig : SigPkt) (lid : Nat) (st : Store) (urec : UidRec) (udirty : Bool) :
    Option (Store × UidRec × Bool) :=
  let pk_lid := nonselfPkLid ext st sig
  match nonselfChain ext kb signode sig pk_lid (st.nextRec + 1) st
      urec.siglist false none with
  | none => none
  | some (st1, foundSig, delrec) =>
    if foundSig then some (st1, urec, udirty)
    else
      let rc := if pk_lid = 0 then G10ERR_NO_PUBKEY else ext.checkKeySig kb signode
      let resolved : Option (Nat × Nat × Store) :=
        if rc = 0 then some (pk_lid, SIGF_CHECKED ||| SIGF_VALID, st1)
        else if rc = G10ERR_NO_PUBKEY then
          (create_shadow_dir st1 sig lid).map (fun p => (p.1, SIGF_NOPUBKEY, p.2))
        else
          (create_shadow_dir st1 sig lid).map (fun p => (p.1, SIGF_CHECKED, p.2))
      match resolved with
      | none => none
      | some (newlid, newflag, st2) =>
        match delrec with
        | some (rn, rec, idx) =>
          some (writeRec st2 rn
                  (Rec.sig { rec with
                             sigs := rec.sigs.set idx { lid := newlid, flag := newflag } }),
                urec, udirty)
        | none =>
          let (n, st3) := newRecnum st2
          let tmp : SigRec :=
            { lid := lid, next := urec.siglist,
              sigs := { lid := newlid, flag := newflag } ::
                        List.replicate (SIGS_PER_RECORD - 1) { lid := 0, flag := 0 } }
          some (writeRec st3 n (Rec.sig tmp), { urec with siglist := n }, true)

/-- The all-zero uid record the 0x18/0x20/0x28 classes run with when no
user id preceded the signature (the memset in upd_sig_record). -/
def zeroUid : UidRec :=
  { lid := 0, next := 0, prefrec := 0, siglist := 0, uidflags := 0, namehash := [] }

/-- upd_sig_record (trustdb.c lines 2314-2383).  keyid is the primary
key's keyid; signode the index of the signature node in the keyblock.
The 0x18/0x20/0x28/0x30 self cases and the bogus cross-key cases are
recognized but (like the C stubs) change nothing. -/
def upd_sig_record (ext : Ext) (kb : KeyBlock) (signode : Nat) (sig : SigPkt)
    (keyid : Nat × Nat) (s : UTState) : Option UTState :=
  let lid := s.drecRn
  let urec0 : Option (Option UidRec) :=
    if s.uidrecno = 0 then
      if sig.sig_class = 32 ∨ sig.sig_class = 40 ∨ sig.sig_class = 24 then
        some (some zeroUid)
      else some none
    else
      match readUid s.st s.uidrecno with
      | none => none
      | some u => some (some u)
  match urec0 with
  | none => none
  | some none => some s
  | some (some urec) =>
    let run : Option (Store × UidRec × Bool) :=
      if keyid = sig.keyid then
        if sig.sig_class &&& 252 = 16 then
          upd_self_key_sigs ext kb signode sig lid s.st urec false
        else some (s.st, urec, false)
      else if sig.sig_class &&& 252 = 16 then
        upd_nonself_key_sigs ext kb signode sig lid s.st urec false
      else some (s.st, urec, false)
    match run with
    | none => none
    | some (st', urec', udirty) =>
      if udirty then some { s with st := writeRec st' s.uidrecno (Rec.uid urec') }
      else some { s with st := st' }

/-- Write back the in-memory dir record when it is dirty (done before
every user id and signature node). -/
def flushDrec (s : UTState) : UTState :=
  if s.drecDirty then
    { s with st := writeRec s.st s.drecRn (Rec.dir s.drec), drecDirty := false }
  else s

/-- The node loop of update_trust_record (lines 2429-2458). -/
def utrNodes (ext : Ext) (kb : KeyBlock) (keyid : Nat × Nat) :
    List (KBNode × Nat) → UTState → Option UTState
  | [], s => some s
  | (node, idx) :: rest, s =>
    let step : Option UTState :=
      match node with
      | KBNode.publicKey pk => upd_key_record pk { s with uidrecno := 0 }
      | KBNode.publicSubkey pk => upd_key_record pk { s with uidrecno := 0 }
      | KBNode.userId u => upd_uid_record ext u (flushDrec s)
      | KBNode.signature sg => upd_sig_record ext kb idx sg keyid (flushDrec s)
      | KBNode.other => some s
    match step with
    | none => none
    | some s' => utrNodes ext kb keyid rest s'

/-- The key-chain deletion pass (lines 2461-2480): delete every key
record not in the retained list, relinking the predecessor or the dir's
keylist head. -/
def delKeyPass (rl : List (Nat × Nat)) :
    Nat → Store → DirRec → Bool → Nat → Nat → Option (Store × DirRec × Bool)
  | _, st, d, dd, _, 0 => some (st, d, dd)
  | 0, _, _, _, _, _ + 1 => none
  | fuel + 1, st, d, dd, lastrecno, rn + 1 =>
    match readKey st (rn + 1) with
    | none => none
    | some k =>
      if qryRecnoList rl (rn + 1) RECTYPE_KEY then
        delKeyPass rl fuel st d dd (rn + 1) k.next
      else if lastrecno = 0 then
        delKeyPass rl fuel (deleteRec st (rn + 1))
          { d with keylist := k.next } true 0 k.next
      else
        match readKey st lastrecno with
        | none => none
        | some h =>
          delKeyPass rl fuel
            (deleteRec (writeRec st lastrecno (Rec.key { h with next := k.next })) (rn + 1))
            d dd lastrecno k.next

/-- The uid-chain deletion pass (lines 2483-2510): delete every uid
record not in the retained list, cascading into its preference chain and
its signature chain. -/
def delUidPass (rl : List (Nat × Nat)) :
    Nat → Store → DirRec → Bool → Nat → Nat → Option (Store × DirRec × Bool)
  | _, st, d, dd, _, 0 => some (st, d, dd)
  | 0, _, _, _, _, _ + 1 => none
  | fuel + 1, st, d, dd, lastrecno, rn + 1 =>
    match readUid st (rn + 1) with
    | none => none
    | some u =>
      if qryRecnoList rl (rn + 1) RECTYPE_UID then
        delUidPass rl fuel st d dd (rn + 1) u.next
      else
        let relinked : Option (Store × DirRec × Bool) :=
          if lastrecno = 0 then some (st, { d with uidlist := u.next }, true)
          else
            match readUid st lastrecno with
            | none => none
            | some h =>
              some (writeRec st lastrecno (Rec.uid { h with next := u.next }), d, dd)
        match relinked with
        | none => none
        | some (st1, d1, dd1) =>
          match deletePrefChain st1 (st1.nextRec + 1) u.prefrec with
          | none => none
          | some st2 =>
            match deleteSigChain st2 (st2.nextRec + 1) u.siglist with
            | none => none
            | some st3 =>
              delUidPass rl fuel (deleteRec st3 (rn + 1)) d1 dd1 lastrecno u.next

/-- find_kbnode(keyblock, PKT_PUBLIC_KEY). -/
def find_kbnode_pk : KeyBlock → Option PubKeyPkt
  | [] => none
  | KBNode.publicKey pk :: _ => some pk
  | _ :: rest => find_kbnode_pk rest

/-- get_dir_record on the primary key packet: some none is the rc = -1
not-found result, none models a dying read. -/
def get_dir_record_pkt (st : Store) (pk : PubKeyPkt) :
    Option (Option (Nat × DirRec)) :=
  if pk.local_id ≠ 0 then
    match readDir st pk.local_id with
    | none => none
    | some d => some (some (pk.local_id, d))
  else
    match tdbio_search_dir_byfpr st pk.fingerprint with
    | some (rn, d) => some (some (rn, d))
    | none => some none

/-- Attach node indices (for the signature-node argument of the external
verifier). -/
def withIdx : List KBNode → Nat → List (KBNode × Nat)
  | [], _ => []
  | n :: rest, i => (n, i) :: withIdx rest (i + 1)

/-- update_trust_record (trustdb.c lines 2393-2527).  Returns
(rc, modified, store): rc is 0 on success and -1 when the primary key
has no dir record; modified is the value stored through the modified
output parameter.  The tdbio transaction layer is not part of this
snapshot; modelled from the spec, beginning the transaction clears the
store's dirty flag so that tdbio_is_dirty at the end of the pass tells
whether the pass wrote or deleted any record. -/
def update_trust_record (ext : Ext) (st : Store) (kb : KeyBlock) :
    Option (Int × Nat × Store) :=
  match find_kbnode_pk kb with
  | none => none
  | some primary =>
    match get_dir_record_pkt st primary with
    | none => none
    | some none => some (-1, 0, st)
    | some (some (rn, drec)) =>
      let keyid := primary.keyid
      let s0 : UTState :=
        { st := { st with dirty := false }, drec := drec, drecRn := rn,
          drecDirty := false, recnoList := [], uidrecno := 0, uidhash := [] }
      match utrNodes ext kb keyid (withIdx kb 0) s0 with
      | none => none
      | some s1 =>
        match delKeyPass s1.recnoList (s1.st.nextRec + 1) s1.st s1.drec
            s1.drecDirty 0 s1.drec.keylist with
        | none => none
        | some (st2, drec2, dd2) =>
          match delUidPass s1.recnoList (st2.nextRec + 1) st2 drec2 dd2 0
              drec2.uidlist with
          | none => none
          | some (st3, drec3, dd3) =>
            let st4 :=
              if dd3 then
                writeRec st3 rn
                  (Rec.dir { drec3 with
                             dirflags := drec3.dirflags -
                               (drec3.dirflags &&& DIRF_CHECKED) })
              else st3
            let m0 : Nat := 0
            let m1 := if st4.dirty then 0 else m0
            some (0, m1, st4)

/-! ## Store lemmas -/

theorem lookup_filter_ne {l : List (Nat × Rec)} {m n : Nat} (h : m ≠ n) :
    (l.filter (fun p => p.1 ≠ n)).lookup m = l.lookup m := by
  induction l with
  | nil => rfl
  | cons a t ih =>
    simp only [ne_eq, decide_not] at ih ⊢
    rcases a with ⟨k, r⟩
    by_cases hk : k = n
    · subst hk
      have hm : (m == k) = false := by simp [h]
      simp [List.filter_cons, List.lookup, hm, ih]
    · by_cases hm : m = k
      · subst hm
        simp [List.filter_cons, hk, List.lookup]
      · have hb : (m == k) = false := by simp [hm]
        simp [List.filter_cons, hk, List.lookup, hb, ih]

theorem lookup_filter_self {l : List (Nat × Rec)} {n : Nat} :
    (l.filter (fun p => p.1 ≠ n)).lookup n = none := by
  induction l with
  | nil => rfl
  | cons a t ih =>
    simp only [ne_eq, decide_not] at ih ⊢
    rcases a with ⟨k, r⟩
    by_cases hk : k = n
    · simp [List.filter_cons, hk, ih]
    · have hb : (n == k) = false := by
        simp
        omega
      simp [List.filter_cons, hk, List.lookup, hb, ih]

theorem lookupRec_writeRec_self (st : Store) (n : Nat) (r : Rec) :
    lookupRec (writeRec st n r) n = some r := by
  simp [lookupRec, writeRec, List.lookup]

theorem lookupRec_writeRec_other (st : Store) (n m : Nat) (r : Rec)
    (h : m ≠ n) : lookupRec (writeRec st n r) m = lookupRec st m := by
  have hb : (m == n) = false := by simp [h]
  simp only [lookupRec, writeRec, List.lookup, hb]
  rw [lookup_filter_ne h]

theorem lookupRec_deleteRec_self (st : Store) (n : Nat) :
    lookupRec (deleteRec st n) n = none := by
  simp only [lookupRec, deleteRec]
  rw [lookup_filter_self]

theorem lookupRec_deleteRec_other (st : Store) (n m : Nat) (h : m ≠ n) :
    lookupRec (deleteRec st n) m = lookupRec st m := by
  simp only [lookupRec, deleteRec]
  rw [lookup_filter_ne h]

/-! ## Claim C2: the depth bound of the trust evaluator -/

/-- C2: for every dir record and every depth, if depth is at least
max_depth then verify_key returns undefined, whatever the
ultimately-trusted set contains (the depth test precedes the ultimate
test); in particular max_depth = 0 always yields undefined. -/
theorem claim2_verify_key_depth_guard (st : Store) (ulti : List Nat)
    (completes marginals depth max_depth : Nat) (drec : DirRec)
    (h : max_depth ≤ depth) :
    verify_key st ulti completes marginals depth max_depth drec =
      some TRUST_UNDEFINED := by
  unfold verify_key
  rw [Nat.sub_eq_zero_of_le h]
  simp [verify_key_aux]

/-- Witness for C2 at a concrete input: max_depth 0, the dir's lid in
the ultimately-trusted set, yet the result is undefined. -/
theorem claim2_witness :
    (0 : Nat) ≤ 3 ∧
      verify_key { recs := [], nextRec := 1, dirty := false } [7] 1 3 3 0
          { lid := 7, keylist := 0, uidlist := 0, ownertrust := 0,
            dirflags := 0 } =
        some TRUST_UNDEFINED :=
  ⟨by decide,
   claim2_verify_key_depth_guard { recs := [], nextRec := 1, dirty := false }
     [7] 1 3 3 0
     { lid := 7, keylist := 0, uidlist := 0, ownertrust := 0, dirflags := 0 }
     (by decide)⟩

/-! ## Claim C10: update_ownertrust frame -/

/-- C10: for a lid naming a dir record, update_ownertrust sets exactly
the ownertrust field of that dir (the record is otherwise the same
value), leaves every other record number untouched, and get_ownertrust
then returns the new value. -/
theorem claim10_update_ownertrust_frame (st : Store) (lid v : Nat)
    (d : DirRec) (h : lookupRec st lid = some (Rec.dir d)) :
    ∃ st', update_ownertrust st lid v = some st' ∧
      lookupRec st' lid = some (Rec.dir { d with ownertrust := v }) ∧
      (∀ n, n ≠ lid → lookupRec st' n = lookupRec st n) ∧
      get_ownertrust st' lid = some v := by
  refine ⟨writeRec st lid (Rec.dir { d with ownertrust := v }), ?_, ?_, ?_, ?_⟩
  · simp [update_ownertrust, readDir, h]
  · exact lookupRec_writeRec_self ..
  · intro n hn
    exact lookupRec_writeRec_other st lid n _ hn
  · simp [get_ownertrust, readDir, lookupRec_writeRec_self]

/-- Witness for C10 at a concrete store. -/
theorem claim10_witness :
    lookupRec
        { recs := [(1, Rec.dir { lid := 1, keylist := 2, uidlist := 3,
                                 ownertrust := 0, dirflags := 0 })],
          nextRec := 4, dirty := false } 1 =
      some (Rec.dir { lid := 1, keylist := 2, uidlist := 3, ownertrust := 0,
                      dirflags := 0 }) ∧
    ∃ st', update_ownertrust
        { recs := [(1, Rec.dir { lid := 1, keylist := 2, uidlist := 3,
                                 ownertrust := 0, dirflags := 0 })],
          nextRec := 4, dirty := false } 1 5 = some st' ∧
      lookupRec st' 1 =
        some (Rec.dir { lid := 1, keylist := 2, uidlist := 3, ownertrust := 5,
                        dirflags := 0 }) ∧
      (∀ n, n ≠ 1 → lookupRec st' n =
        lookupRec
          { recs := [(1, Rec.dir { lid := 1, keylist := 2, uidlist := 3,
                                   ownertrust := 0, dirflags := 0 })],
            nextRec := 4, dirty := false } n) ∧
      get_ownertrust st' 1 = some 5 :=
  ⟨by decide,
   claim10_update_ownertrust_frame _ 1 5
     { lid := 1, keylist := 2, uidlist := 3, ownertrust := 0, dirflags := 0 }
     (by decide)⟩

/-! ## Claims C3 and C4: the slot scan of the evaluator -/

/-- A signature slot the evaluator does not skip: non-deleted, checked,
valid, not expired, not revoked (the guard chain of verify_key). -/
def qualifies (s : SigSlot) : Bool :=
  s.lid ≠ 0 && s.flag &&& SIGF_CHECKED ≠ 0 && s.flag &&& SIGF_VALID ≠ 0 &&
  s.flag &&& SIGF_EXPIRED = 0 && s.flag &&& SIGF_REVOKED = 0

theorem qualifies_iff (s : SigSlot) :
    qualifies s = true ↔
      s.lid ≠ 0 ∧ s.flag &&& SIGF_CHECKED ≠ 0 ∧ s.flag &&& SIGF_VALID ≠ 0 ∧
      s.flag &&& SIGF_EXPIRED = 0 ∧ s.flag &&& SIGF_REVOKED = 0 := by
  simp [qualifies, and_assoc]

/-- The masked trust level the recursion assigns to a slot's signer
(0 when a read or the recursion dies; the hypotheses of the theorems
below rule that out). -/
def slotNT (st : Store) (vk : DirRec → Option Nat) (s : SigSlot) : Nat :=
  match readDir st s.lid with
  | none => 0
  | some t =>
    match vk t with
    | none => 0
    | some n => n &&& TRUST_MASK

theorem verify_slots_nil (st : Store) (completes marginals : Nat)
    (vk : DirRec → Option Nat) (marg ful : Nat) :
    verify_slots st completes marginals vk [] marg ful =
      some (if marg ≠ 0 then TRUST_MARGINAL else TRUST_UNDEFINED) := by
  simp [verify_slots]

theorem verify_slots_skip (st : Store) (completes marginals : Nat)
    (vk : DirRec → Option Nat) (s : SigSlot) (rest : List SigSlot)
    (marg ful : Nat) (hq : qualifies s = false) :
    verify_slots st completes marginals vk (s :: rest) marg ful =
      verify_slots st completes marginals vk rest marg ful := by
  by_cases h1 : s.lid = 0
  · simp [verify_slots, h1]
  · by_cases h2 : s.flag &&& SIGF_CHECKED = 0
    · simp [verify_slots, h1, h2]
    · by_cases h3 : s.flag &&& SIGF_VALID = 0
      · simp [verify_slots, h1, h2, h3]
      · by_cases h4 : s.flag &&& SIGF_EXPIRED = 0
        · by_cases h5 : s.flag &&& SIGF_REVOKED = 0
          · exfalso
            have := (qualifies_iff s).mpr ⟨h1, h2, h3, h4, h5⟩
            rw [this] at hq
            exact Bool.noConfusion hq
          · simp [verify_slots, h1, h2, h3, h4, h5]
        · simp [verify_slots, h1, h2, h3, h4]

/-- One qualifying slot whose signer read and recursion succeed: the
generic unfolding of the scan body. -/
theorem verify_slots_cons_eval (st : Store) (completes marginals : Nat)
    (vk : DirRec → Option Nat) (s : SigSlot) (rest : List SigSlot)
    (marg ful : Nat) (t : DirRec) (n0 : Nat)
    (hq : qualifies s = true)
    (ht : readDir st s.lid = some t)
    (hv : vk t = some n0) :
    verify_slots st completes marginals vk (s :: rest) marg ful =
      (if n0 &&& TRUST_MASK < TRUST_MARGINAL then
         verify_slots st completes marginals vk rest marg ful
       else if n0 &&& TRUST_MASK = TRUST_ULTIMATE then
         some (if TRUST_FULLY ≤ t.ownertrust &&& TRUST_MASK then TRUST_FULLY
               else t.ownertrust &&& TRUST_MASK)
       else if completes ≤ (if TRUST_FULLY ≤ n0 &&& TRUST_MASK then ful + 1 else ful) ∨
               marginals ≤ (if TRUST_MARGINAL ≤ n0 &&& TRUST_MASK then marg + 1 else marg) then
         some TRUST_FULLY
       else
         verify_slots st completes marginals vk rest
           (if TRUST_MARGINAL ≤ n0 &&& TRUST_MASK then marg + 1 else marg)
           (if TRUST_FULLY ≤ n0 &&& TRUST_MASK then ful + 1 else ful)) := by
  obtain ⟨h1, h2, h3, h4, h5⟩ := (qualifies_iff s).mp hq
  simp only [verify_slots, h1, h2, h3, h4, h5, ht, hv, if_false, ite_false,
    not_true, ne_eq, not_false_iff, if_neg, reduceIte]

/-- C3: when the scan reaches a qualifying slot whose signer's recursive
verification (vk, the evaluator at depth + 1) yields ultimate,
verify_key returns that signer's ownertrust masked to TRUST_MASK and
capped at fully, immediately: the remaining slots (rest) and the
accumulated counters are arbitrary and do not influence the result. -/
theorem claim3_ultimate_short_circuit (st : Store) (ulti : List Nat)
    (completes marginals fuel : Nat) (s : SigSlot) (rest : List SigSlot)
    (marg ful : Nat) (t : DirRec) (n0 : Nat)
    (hq : qualifies s = true)
    (ht : readDir st s.lid = some t)
    (hv : verify_key_aux st ulti completes marginals fuel t = some n0)
    (hu : n0 &&& TRUST_MASK = TRUST_ULTIMATE) :
    verify_slots st completes marginals
        (verify_key_aux st ulti completes marginals fuel) (s :: rest) marg ful =
      some (if TRUST_FULLY ≤ t.ownertrust &&& TRUST_MASK then TRUST_FULLY
            else t.ownertrust &&& TRUST_MASK) := by
  rw [verify_slots_cons_eval st completes marginals
    (verify_key_aux st ulti completes marginals fuel) s rest marg ful t n0 hq ht hv]
  simp only [hu, TRUST_MARGINAL, TRUST_ULTIMATE]
  norm_num

/-- Witness for C3 at a concrete store: one checked valid slot whose
signer is ultimately trusted with ownertrust marginal; the scan returns
marginal at once. -/
theorem claim3_witness :
    qualifies { lid := 2, flag := 3 } = true ∧
    readDir { recs := [(2, Rec.dir { lid := 9, keylist := 0, uidlist := 0,
                                     ownertrust := 4, dirflags := 0 })],
              nextRec := 3, dirty := false } 2 =
      some { lid := 9, keylist := 0, uidlist := 0, ownertrust := 4,
             dirflags := 0 } ∧
    verify_key_aux { recs := [(2, Rec.dir { lid := 9, keylist := 0,
                                            uidlist := 0, ownertrust := 4,
                                            dirflags := 0 })],
                     nextRec := 3, dirty := false } [9] 1 3 1
        { lid := 9, keylist := 0, uidlist := 0, ownertrust := 4,
          dirflags := 0 } = some 6 ∧
    verify_slots { recs := [(2, Rec.dir { lid := 9, keylist := 0,
                                          uidlist := 0, ownertrust := 4,
                                          dirflags := 0 })],
                   nextRec := 3, dirty := false } 1 3
        (verify_key_aux { recs := [(2, Rec.dir { lid := 9, keylist := 0,
                                                 uidlist := 0, ownertrust := 4,
                                                 dirflags := 0 })],
                          nextRec := 3, dirty := false } [9] 1 3 1)
        [{ lid := 2, flag := 3 }] 0 0 =
      some (if TRUST_FULLY ≤ (4 : Nat) &&& TRUST_MASK then TRUST_FULLY
            else (4 : Nat) &&& TRUST_MASK) :=
  ⟨by decide, by decide, by decide,
   claim3_ultimate_short_circuit _ [9] 1 3 1 { lid := 2, flag := 3 } [] 0 0
     { lid := 9, keylist := 0, uidlist := 0, ownertrust := 4, dirflags := 0 } 6
     (by decide) (by decide) (by decide) (by decide)⟩

/-- Number of qualifying slots whose signer's masked recursive level is
at least lvl. -/
def countNT (st : Store) (vk : DirRec → Option Nat) (lvl : Nat)
    (slots : List SigSlot) : Nat :=
  slots.countP (fun s => qualifies s && decide (lvl ≤ slotNT st vk s))

theorem countNT_nil (st : Store) (vk : DirRec → Option Nat) (lvl : Nat) :
    countNT st vk lvl [] = 0 := rfl

theorem countNT_cons (st : Store) (vk : DirRec → Option Nat) (lvl : Nat)
    (s : SigSlot) (rest : List SigSlot) :
    countNT st vk lvl (s :: rest) =
      countNT st vk lvl rest +
        (if qualifies s = true ∧ lvl ≤ slotNT st vk s then 1 else 0) := by
  simp only [countNT, List.countP_cons]
  by_cases h1 : qualifies s = true
  · by_cases h2 : lvl ≤ slotNT st vk s
    · simp [h1, h2]
    · simp [h1, h2]
  · have : qualifies s = false := by
      cases h : qualifies s
      · rfl
      · exact absurd h h1
    simp [this]

/-- The quorum characterization of the slot scan: over a slot sequence
whose qualifying signers all evaluate below ultimate, the scan returns
fully exactly when the accumulated counters reach a threshold, else
marginal when the marginal counter is positive, else undefined. -/
theorem verify_slots_quorum (st : Store) (completes marginals : Nat)
    (vk : DirRec → Option Nat) :
    ∀ (slots : List SigSlot) (marg ful : Nat),
      (∀ s ∈ slots, qualifies s = true →
        ∃ t n, readDir st s.lid = some t ∧ vk t = some n ∧
          n &&& TRUST_MASK ≠ TRUST_ULTIMATE) →
      ful < completes → marg < marginals →
      verify_slots st completes marginals vk slots marg ful =
        some (if completes ≤ ful + countNT st vk TRUST_FULLY slots ∨
                 marginals ≤ marg + countNT st vk TRUST_MARGINAL slots then
                TRUST_FULLY
              else if marg + countNT st vk TRUST_MARGINAL slots ≠ 0 then
                TRUST_MARGINAL
              else TRUST_UNDEFINED) := by
  intro slots
  induction slots with
  | nil =>
    intro marg ful _ hf hm2
    rw [verify_slots_nil]
    simp only [countNT_nil, Nat.add_zero]
    have h1 : ¬(completes ≤ ful ∨ marginals ≤ marg) := by omega
    rw [if_neg h1]
  | cons s rest ih =>
    intro marg ful hok hf hm2
    by_cases hq : qualifies s = true
    · obtain ⟨t, n, ht, hv, hne⟩ := hok s (by simp) hq
      have hnt : slotNT st vk s = n &&& TRUST_MASK := by simp [slotNT, ht, hv]
      have hokr : ∀ x ∈ rest, qualifies x = true →
          ∃ t n, readDir st x.lid = some t ∧ vk t = some n ∧
            n &&& TRUST_MASK ≠ TRUST_ULTIMATE := by
        intro x hx
        exact hok x (by simp [hx])
      have e1 : ful + countNT st vk TRUST_FULLY (s :: rest) =
          (if TRUST_FULLY ≤ n &&& TRUST_MASK then ful + 1 else ful) +
            countNT st vk TRUST_FULLY rest := by
        rw [countNT_cons, hnt]
        by_cases h5 : TRUST_FULLY ≤ n &&& TRUST_MASK
        · simp [hq, h5]
          omega
        · simp [hq, h5]
      have e2 : marg + countNT st vk TRUST_MARGINAL (s :: rest) =
          (if TRUST_MARGINAL ≤ n &&& TRUST_MASK then marg + 1 else marg) +
            countNT st vk TRUST_MARGINAL rest := by
        rw [countNT_cons, hnt]
        by_cases h4 : TRUST_MARGINAL ≤ n &&& TRUST_MASK
        · simp [hq, h4]
          omega
        · simp [hq, h4]
      rw [verify_slots_cons_eval st completes marginals vk s rest marg ful t n
        hq ht hv]
      by_cases hlt : n &&& TRUST_MASK < TRUST_MARGINAL
      · rw [if_pos hlt]
        have c1 : ¬ TRUST_FULLY ≤ n &&& TRUST_MASK := by
          simp only [TRUST_FULLY, TRUST_MARGINAL] at *
          omega
        have c2 : ¬ TRUST_MARGINAL ≤ n &&& TRUST_MASK := by omega
        rw [if_neg c1] at e1
        rw [if_neg c2] at e2
        rw [ih marg ful hokr hf hm2, e1, e2]
      · rw [if_neg hlt, if_neg hne]
        by_cases hquo :
            completes ≤ (if TRUST_FULLY ≤ n &&& TRUST_MASK then ful + 1 else ful) ∨
            marginals ≤ (if TRUST_MARGINAL ≤ n &&& TRUST_MASK then marg + 1 else marg)
        · rw [if_pos hquo]
          have : completes ≤ ful + countNT st vk TRUST_FULLY (s :: rest) ∨
              marginals ≤ marg + countNT st vk TRUST_MARGINAL (s :: rest) := by
            rw [e1, e2]
            rcases hquo with h | h
            · left
              omega
            · right
              omega
          rw [if_pos this]
        · rw [if_neg hquo]
          push_neg at hquo
          have hf' : (if TRUST_FULLY ≤ n &&& TRUST_MASK then ful + 1 else ful) <
              completes := hquo.1
          have hm' : (if TRUST_MARGINAL ≤ n &&& TRUST_MASK then marg + 1 else marg) <
              marginals := hquo.2
          rw [ih _ _ hokr hf' hm', e1, e2]
    · have hqf : qualifies s = false := by
        cases h : qualifies s
        · rfl
        · exact absurd h hq
      rw [verify_slots_skip st completes marginals vk s rest marg ful hqf]
      have e1 : countNT st vk TRUST_FULLY (s :: rest) =
          countNT st vk TRUST_FULLY rest := by
        rw [countNT_cons]
        simp [hq]
      have e2 : countNT st vk TRUST_MARGINAL (s :: rest) =
          countNT st vk TRUST_MARGINAL rest := by
        rw [countNT_cons]
        simp [hq]
      have hokr : ∀ x ∈ rest, qualifies x = true →
          ∃ t n, readDir st x.lid = some t ∧ vk t = some n ∧
            n &&& TRUST_MASK ≠ TRUST_ULTIMATE := by
        intro x hx
        exact hok x (by simp [hx])
      rw [ih marg ful hokr hf hm2, e1, e2]

/-- C4: the scan of the qualifying slots accumulates a fully counter
(level at least fully) and a marginal counter (level at least marginal)
over signers whose recursive level is at least marginal and below
ultimate; it returns fully as soon as a counter reaches its quorum
threshold, and after exhausting the slots returns marginal when the
marginal counter is positive and undefined otherwise.  Equivalently,
starting from zero counters the result is fully when the totals reach
either threshold, else marginal when any qualifying signer reached
marginal, else undefined. -/
theorem claim4_quorum_accumulation (st : Store) (ulti : List Nat)
    (completes marginals fuel : Nat) (slots : List SigSlot)
    (hc : 1 ≤ completes) (hm : 1 ≤ marginals)
    (hok : ∀ s ∈ slots, qualifies s = true →
      ∃ t n, readDir st s.lid = some t ∧
        verify_key_aux st ulti completes marginals fuel t = some n ∧
        n &&& TRUST_MASK ≠ TRUST_ULTIMATE) :
    verify_slots st completes marginals
        (verify_key_aux st ulti completes marginals fuel) slots 0 0 =
      some (if completes ≤ countNT st
                (verify_key_aux st ulti completes marginals fuel) TRUST_FULLY
                slots ∨
               marginals ≤ countNT st
                (verify_key_aux st ulti completes marginals fuel) TRUST_MARGINAL
                slots then
              TRUST_FULLY
            else if countNT st
                (verify_key_aux st ulti completes marginals fuel) TRUST_MARGINAL
                slots ≠ 0 then
              TRUST_MARGINAL
            else TRUST_UNDEFINED) := by
  have := verify_slots_quorum st completes marginals
    (verify_key_aux st ulti completes marginals fuel) slots 0 0 hok
    (by omega) (by omega)
  simpa using this

/-- Witness for C4 at a concrete store: a single checked valid slot
whose signer evaluates to undefined; both counters stay zero and the
scan returns undefined. -/
theorem claim4_witness :
    verify_slots { recs := [(2, Rec.dir { lid := 4, keylist := 0, uidlist := 0,
                                          ownertrust := 5, dirflags := 0 })],
                   nextRec := 3, dirty := false } 1 1
        (verify_key_aux { recs := [(2, Rec.dir { lid := 4, keylist := 0,
                                                 uidlist := 0, ownertrust := 5,
                                                 dirflags := 0 })],
                          nextRec := 3, dirty := false } [] 1 1 1)
        [{ lid := 2, flag := 3 }] 0 0 =
      some (if 1 ≤ countNT { recs := [(2, Rec.dir { lid := 4, keylist := 0,
                                                    uidlist := 0,
                                                    ownertrust := 5,
                                                    dirflags := 0 })],
                             nextRec := 3, dirty := false }
                (verify_key_aux { recs := [(2, Rec.dir { lid := 4, keylist := 0,
                                                         uidlist := 0,
                                                         ownertrust := 5,
                                                         dirflags := 0 })],
                                  nextRec := 3, dirty := false } [] 1 1 1)
                TRUST_FULLY [{ lid := 2, flag := 3 }] ∨
               1 ≤ countNT { recs := [(2, Rec.dir { lid := 4, keylist := 0,
                                                    uidlist := 0,
                                                    ownertrust := 5,
                                                    dirflags := 0 })],
                             nextRec := 3, dirty := false }
                (verify_key_aux { recs := [(2, Rec.dir { lid := 4, keylist := 0,
                                                         uidlist := 0,
                                                         ownertrust := 5,
                                                         dirflags := 0 })],
                                  nextRec := 3, dirty := false } [] 1 1 1)
                TRUST_MARGINAL [{ lid := 2, flag := 3 }] then TRUST_FULLY
            else if countNT { recs := [(2, Rec.dir { lid := 4, keylist := 0,
                                                     uidlist := 0,
                                                     ownertrust := 5,
                                                     dirflags := 0 })],
                              nextRec := 3, dirty := false }
                (verify_key_aux { recs := [(2, Rec.dir { lid := 4, keylist := 0,
                                                         uidlist := 0,
                                                         ownertrust := 5,
                                                         dirflags := 0 })],
                                  nextRec := 3, dirty := false } [] 1 1 1)
                TRUST_MARGINAL [{ lid := 2, flag := 3 }] ≠ 0 then TRUST_MARGINAL
            else TRUST_UNDEFINED) :=
  claim4_quorum_accumulation
    { recs := [(2, Rec.dir { lid := 4, keylist := 0, uidlist := 0,
                             ownertrust := 5, dirflags := 0 })],
      nextRec := 3, dirty := false } [] 1 1 1 [{ lid := 2, flag := 3 }]
    (by decide) (by decide)
    (by
      intro s hs _
      rw [List.mem_singleton] at hs
      subst hs
      exact ⟨{ lid := 4, keylist := 0, uidlist := 0, ownertrust := 5,
               dirflags := 0 }, 2, by decide, by decide, by decide⟩)

/-! ## Claim C7: create_shadow_dir idempotence

Infrastructure: the hint-list chain as a list of (recnum, record) pairs,
and characterizations of the scan and of the sdir search. -/

/-- The hint-list chain walk (same fuel discipline as the scan). -/
def hlstChain (st : Store) : Nat → Nat → Option (List (Nat × HlstRec))
  | _, 0 => some []
  | 0, _ + 1 => none
  | fuel + 1, rn + 1 =>
    match readHlst st (rn + 1) with
    | none => none
    | some h =>
      match hlstChain st fuel h.next with
      | none => none
      | some rest => some ((rn + 1, h) :: rest)

/-- All referring lids stored in a chain. -/
def chainLids (ch : List (Nat × HlstRec)) : List Nat :=
  (ch.map (fun p => p.2.rnum)).flatten

/-- The shadow dir record matching predicate of the sdir search. -/
def sdirMatch (keyid : Nat × Nat) (algo : Nat) (s : SdirRec) : Prop :=
  s.keyid = keyid ∧ s.pubkey_algo = algo

/-- What the store holds at n, viewed as a shadow dir record. -/
def sdirAt (st : Store) (n : Nat) : Option SdirRec :=
  match lookupRec st n with
  | some (Rec.sdir s) => some s
  | _ => none

theorem hintSlotScan_found (lid recno : Nat) (g : HlstRec) (hlid : lid ≠ 0) :
    ∀ (slots : List Nat) (j : Nat) (tmp : Option (Nat × HlstRec × Nat)),
      lid ∈ slots → hintSlotScan lid recno g slots j tmp = HintScan.foundLid := by
  intro slots
  induction slots with
  | nil => intro j tmp h; exact absurd h (List.not_mem_nil lid)
  | cons r rest ih =>
    intro j tmp h
    by_cases hr0 : r = 0
    · subst hr0
      have hmem : lid ∈ rest := by
        rcases List.mem_cons.mp h with h | h
        · exact absurd h hlid
        · exact h
      simp only [hintSlotScan, eq_self_iff_true, if_true]
      exact ih (j + 1) _ hmem
    · by_cases hrl : r = lid
      · simp only [hintSlotScan]
        rw [if_neg hr0, if_pos hrl]
      · have hmem : lid ∈ rest := by
          rcases List.mem_cons.mp h with h | h
          · exact absurd h.symm hrl
          · exact h
        simp only [hintSlotScan]
        rw [if_neg hr0, if_neg hrl]
        exact ih (j + 1) tmp hmem

theorem hintSlotScan_keeps_some (lid recno : Nat) (g : HlstRec)
    (t : Nat × HlstRec × Nat) :
    ∀ (slots : List Nat) (j : Nat) (tmp' : Option (Nat × HlstRec × Nat)),
      hintSlotScan lid recno g slots j (some t) = HintScan.absent tmp' →
      tmp' = some t := by
  intro slots
  induction slots with
  | nil =>
    intro j tmp' h
    simp only [hintSlotScan] at h
    cases h
    rfl
  | cons r rest ih =>
    intro j tmp' h
    simp only [hintSlotScan] at h
    by_cases hr0 : r = 0
    · rw [if_pos hr0] at h
      exact ih (j + 1) tmp' h
    · rw [if_neg hr0] at h
      by_cases hrl : r = lid
      · rw [if_pos hrl] at h
        cases h
      · rw [if_neg hrl] at h
        exact ih (j + 1) tmp' h

theorem hintSlotScan_none_absent (lid recno : Nat) (g : HlstRec) :
    ∀ (slots : List Nat) (j : Nat) (tmp' : Option (Nat × HlstRec × Nat)),
      hintSlotScan lid recno g slots j none = HintScan.absent tmp' →
      tmp' = none ∨
        ∃ p, tmp' = some (recno, g, j + p) ∧ slots.get? p = some 0 := by
  intro slots
  induction slots with
  | nil =>
    intro j tmp' h
    simp only [hintSlotScan] at h
    cases h
    exact Or.inl rfl
  | cons r rest ih =>
    intro j tmp' h
    simp only [hintSlotScan] at h
    by_cases hr0 : r = 0
    · rw [if_pos hr0] at h
      have := hintSlotScan_keeps_some lid recno g (recno, g, j) rest (j + 1) tmp' h
      refine Or.inr ⟨0, ?_, ?_⟩
      · rw [this]
        simp
      · simp [hr0]
    · rw [if_neg hr0] at h
      by_cases hrl : r = lid
      · rw [if_pos hrl] at h
        cases h
      · rw [if_neg hrl] at h
        rcases ih (j + 1) tmp' h with h1 | ⟨p, h1, h2⟩
        · exact Or.inl h1
        · refine Or.inr ⟨p + 1, ?_, ?_⟩
          · rw [h1]
            have harith : j + 1 + p = j + (p + 1) := by omega
            rw [harith]
          · simpa using h2

/-- Membership in the chain forces the scan to report foundLid,
whatever the free-slot accumulator holds. -/
theorem hintChainScan_found (st : Store) (lid : Nat) (hlid : lid ≠ 0) :
    ∀ (fuel rn : Nat) (ch : List (Nat × HlstRec))
      (tmp : Option (Nat × HlstRec × Nat)),
      hlstChain st fuel rn = some ch → lid ∈ chainLids ch →
      hintChainScan st lid fuel rn tmp = some HintScan.foundLid := by
  intro fuel
  induction fuel with
  | zero =>
    intro rn ch tmp hch hmem
    cases rn with
    | zero =>
      simp only [hlstChain] at hch
      cases hch
      simp [chainLids] at hmem
    | succ n => simp [hlstChain] at hch
  | succ fuel ih =>
    intro rn ch tmp hch hmem
    cases rn with
    | zero =>
      simp only [hlstChain] at hch
      cases hch
      simp [chainLids] at hmem
    | succ n =>
      cases hg : readHlst st (n + 1) with
      | none => simp [hlstChain, hg] at hch
      | some g =>
        cases hrest : hlstChain st fuel g.next with
        | none => simp [hlstChain, hg, hrest] at hch
        | some rest =>
          simp only [hlstChain, hg, hrest, Option.some.injEq] at hch
          subst hch
          simp only [hintChainScan, hg]
          by_cases hmg : lid ∈ g.rnum
          · rw [hintSlotScan_found lid (n + 1) g hlid g.rnum 0 tmp hmg]
          · have hmem' : lid ∈ chainLids rest := by
              simp only [chainLids, List.map_cons, List.flatten_cons,
                List.mem_append] at hmem
              rcases hmem with h | h
              · exact absurd h hmg
              · exact h
            cases hscan : hintSlotScan lid (n + 1) g g.rnum 0 tmp with
            | foundLid => rfl
            | absent tmp1 => exact ih g.next rest tmp1 hrest hmem'

/-- A scan that ends in absent walked the whole chain. -/
theorem hintChainScan_absent_chain (st : Store) (lid : Nat) :
    ∀ (fuel rn : Nat) (tmp tmp' : Option (Nat × HlstRec × Nat)),
      hintChainScan st lid fuel rn tmp = some (HintScan.absent tmp') →
      ∃ ch, hlstChain st fuel rn = some ch := by
  intro fuel
  induction fuel with
  | zero =>
    intro rn tmp tmp' h
    cases rn with
    | zero => exact ⟨[], rfl⟩
    | succ n => simp [hintChainScan] at h
  | succ fuel ih =>
    intro rn tmp tmp' h
    cases rn with
    | zero => exact ⟨[], rfl⟩
    | succ n =>
      cases hg : readHlst st (n + 1) with
      | none => simp [hintChainScan, hg] at h
      | some g =>
        cases hscan : hintSlotScan lid (n + 1) g g.rnum 0 tmp with
        | foundLid => simp [hintChainScan, hg, hscan] at h
        | absent tmp1 =>
          simp only [hintChainScan, hg, hscan] at h
          obtain ⟨ch, hch⟩ := ih g.next tmp1 tmp' h
          exact ⟨(n + 1, g) :: ch, by simp [hlstChain, hg, hch]⟩

/-- Once the accumulator holds a slot it is the reported one. -/
theorem hintChainScan_keeps_some (st : Store) (lid : Nat)
    (t : Nat × HlstRec × Nat) :
    ∀ (fuel rn : Nat) (tmp' : Option (Nat × HlstRec × Nat)),
      hintChainScan st lid fuel rn (some t) = some (HintScan.absent tmp') →
      tmp' = some t := by
  intro fuel
  induction fuel with
  | zero =>
    intro rn tmp' h
    cases rn with
    | zero =>
      simp only [hintChainScan] at h
      cases h
      rfl
    | succ n => simp [hintChainScan] at h
  | succ fuel ih =>
    intro rn tmp' h
    cases rn with
    | zero =>
      simp only [hintChainScan] at h
      cases h
      rfl
    | succ n =>
      cases hg : readHlst st (n + 1) with
      | none => simp [hintChainScan, hg] at h
      | some g =>
        cases hscan : hintSlotScan lid (n + 1) g g.rnum 0 (some t) with
        | foundLid => simp [hintChainScan, hg, hscan] at h
        | absent tmp1 =>
          simp only [hintChainScan, hg, hscan] at h
          have := hintSlotScan_keeps_some lid (n + 1) g t g.rnum 0 tmp1 hscan
          subst this
          exact ih g.next tmp' h

/-- Analysis of a scan started with an empty accumulator that ends in
absent: the reported slot, if any, names a chain record holding 0 at the
reported index. -/
theorem hintChainScan_none_absent (st : Store) (lid : Nat) :
    ∀ (fuel rn : Nat) (tmp' : Option (Nat × HlstRec × Nat)),
      hintChainScan st lid fuel rn none = some (HintScan.absent tmp') →
      tmp' = none ∨
        ∃ r g i, tmp' = some (r, g, i) ∧ lookupRec st r = some (Rec.hlst g) ∧
          g.rnum.get? i = some 0 := by
  intro fuel
  induction fuel with
  | zero =>
    intro rn tmp' h
    cases rn with
    | zero =>
      simp only [hintChainScan] at h
      cases h
      exact Or.inl rfl
    | succ n => simp [hintChainScan] at h
  | succ fuel ih =>
    intro rn tmp' h
    cases rn with
    | zero =>
      simp only [hintChainScan] at h
      cases h
      exact Or.inl rfl
    | succ n =>
      cases hg : readHlst st (n + 1) with
      | none => simp [hintChainScan, hg] at h
      | some g =>
        cases hscan : hintSlotScan lid (n + 1) g g.rnum 0 none with
        | foundLid => simp [hintChainScan, hg, hscan] at h
        | absent tmp1 =>
          simp only [hintChainScan, hg, hscan] at h
          rcases hintSlotScan_none_absent lid (n + 1) g g.rnum 0 tmp1 hscan with
            h1 | ⟨p, h1, h2⟩
          · subst h1
            exact ih g.next tmp' h
          · subst h1
            have := hintChainScan_keeps_some st lid (n + 1, g, 0 + p) fuel
              g.next tmp' h
            refine Or.inr ⟨n + 1, g, 0 + p, this, ?_, by simpa using h2⟩
            simp only [readHlst] at hg
            cases hl : lookupRec st (n + 1) with
            | none => rw [hl] at hg; cases hg
            | some r =>
              rw [hl] at hg
              cases r with
              | hlst hr => cases hg; rfl
              | dir d => cases hg
              | key k => cases hg
              | uid u => cases hg
              | pref p => cases hg
              | sig s => cases hg
              | sdir s => cases hg

/-- Unfold one step of the sdir search through the sdirAt view. -/
theorem searchSdirFrom_succ (st : Store) (k : Nat × Nat) (a n count : Nat) :
    searchSdirFrom st k a n (count + 1) =
      (match sdirAt st n with
       | some s =>
         if s.keyid = k ∧ s.pubkey_algo = a then some (n, s)
         else searchSdirFrom st k a (n + 1) count
       | none => searchSdirFrom st k a (n + 1) count) := by
  cases hl : lookupRec st n with
  | none => simp [searchSdirFrom, sdirAt, hl]
  | some r =>
    cases r with
    | dir d => simp [searchSdirFrom, sdirAt, hl]
    | key x => simp [searchSdirFrom, sdirAt, hl]
    | uid x => simp [searchSdirFrom, sdirAt, hl]
    | pref x => simp [searchSdirFrom, sdirAt, hl]
    | sig x => simp [searchSdirFrom, sdirAt, hl]
    | sdir x => simp [searchSdirFrom, sdirAt, hl]
    | hlst x => simp [searchSdirFrom, sdirAt, hl]

theorem searchSdirFrom_some_spec (st : Store) (k : Nat × Nat) (a : Nat) :
    ∀ (count n rn : Nat) (sd : SdirRec),
      searchSdirFrom st k a n count = some (rn, sd) →
      n ≤ rn ∧ rn < n + count ∧ sdirAt st rn = some sd ∧ sdirMatch k a sd ∧
        ∀ j s, n ≤ j → j < rn → sdirAt st j = some s → ¬ sdirMatch k a s := by
  intro count
  induction count with
  | zero => intro n rn sd h; simp [searchSdirFrom] at h
  | succ count ih =>
    intro n rn sd h
    rw [searchSdirFrom_succ] at h
    cases hl : sdirAt st n with
    | none =>
      simp only [hl] at h
      obtain ⟨h1, h2, h3, h4, h5⟩ := ih (n + 1) rn sd h
      refine ⟨by omega, by omega, h3, h4, ?_⟩
      intro j s hj1 hj2 hjl
      by_cases hjn : j = n
      · subst hjn
        rw [hjl] at hl
        cases hl
      · exact h5 j s (by omega) hj2 hjl
    | some s0 =>
      simp only [hl] at h
      by_cases hm : s0.keyid = k ∧ s0.pubkey_algo = a
      · rw [if_pos hm] at h
        cases h
        exact ⟨le_refl _, by omega, hl, hm, fun j s hj1 hj2 _ => by omega⟩
      · rw [if_neg hm] at h
        obtain ⟨h1, h2, h3, h4, h5⟩ := ih (n + 1) rn sd h
        refine ⟨by omega, by omega, h3, h4, ?_⟩
        intro j s hj1 hj2 hjl
        by_cases hjn : j = n
        · subst hjn
          rw [hjl] at hl
          cases hl
          exact hm
        · exact h5 j s (by omega) hj2 hjl

theorem searchSdirFrom_none_spec (st : Store) (k : Nat × Nat) (a : Nat) :
    ∀ (count n : Nat),
      searchSdirFrom st k a n count = none →
      ∀ j s, n ≤ j → j < n + count → sdirAt st j = some s →
        ¬ sdirMatch k a s := by
  intro count
  induction count with
  | zero => intro n _ j s hj1 hj2 _; omega
  | succ count ih =>
    intro n h j s hj1 hj2 hjl
    rw [searchSdirFrom_succ] at h
    cases hl : sdirAt st n with
    | none =>
      simp only [hl] at h
      by_cases hjn : j = n
      · subst hjn
        rw [hjl] at hl
        cases hl
      · exact ih (n + 1) h j s (by omega) (by omega) hjl
    | some s0 =>
      simp only [hl] at h
      by_cases hm : s0.keyid = k ∧ s0.pubkey_algo = a
      · rw [if_pos hm] at h
        cases h
      · rw [if_neg hm] at h
        by_cases hjn : j = n
        · subst hjn
          rw [hjl] at hl
          cases hl
          exact hm
        · exact ih (n + 1) h j s (by omega) (by omega) hjl

theorem searchSdirFrom_build (st : Store) (k : Nat × Nat) (a : Nat) :
    ∀ (count n rn : Nat) (sd : SdirRec),
      n ≤ rn → rn < n + count → sdirAt st rn = some sd → sdirMatch k a sd →
      (∀ j s, n ≤ j → j < rn → sdirAt st j = some s → ¬ sdirMatch k a s) →
      searchSdirFrom st k a n count = some (rn, sd) := by
  intro count
  induction count with
  | zero => intro n rn sd h1 h2; omega
  | succ count ih =>
    intro n rn sd h1 h2 h3 h4 h5
    rw [searchSdirFrom_succ]
    by_cases hrn : rn = n
    · subst hrn
      simp only [h3]
      rw [if_pos ⟨h4.1, h4.2⟩]
    · cases hl : sdirAt st n with
      | none =>
        simp only [hl]
        exact ih (n + 1) rn sd (by omega) (by omega) h3 h4
          (fun j s hj1 hj2 hjl => h5 j s (by omega) hj2 hjl)
      | some s0 =>
        have hnm : ¬ (s0.keyid = k ∧ s0.pubkey_algo = a) :=
          fun hc => h5 n s0 (le_refl _) (by omega) hl ⟨hc.1, hc.2⟩
        simp only [hl]
        rw [if_neg hnm]
        exact ih (n + 1) rn sd (by omega) (by omega) h3 h4
          (fun j s hj1 hj2 hjl => h5 j s (by omega) hj2 hjl)

/-- Chain records are readable: membership in a successfully walked
chain gives the store content. -/
theorem hlstChain_mem_lookup (st : Store) :
    ∀ (fuel rn : Nat) (ch : List (Nat × HlstRec)),
      hlstChain st fuel rn = some ch →
      ∀ r g, (r, g) ∈ ch → lookupRec st r = some (Rec.hlst g) := by
  intro fuel
  induction fuel with
  | zero =>
    intro rn ch hch r g hm
    cases rn with
    | zero =>
      simp only [hlstChain] at hch
      cases hch
      simp at hm
    | succ n => simp [hlstChain] at hch
  | succ fuel ih =>
    intro rn ch hch r g hm
    cases rn with
    | zero =>
      simp only [hlstChain] at hch
      cases hch
      simp at hm
    | succ n =>
      cases hg : readHlst st (n + 1) with
      | none => simp [hlstChain, hg] at hch
      | some g0 =>
        cases hrest : hlstChain st fuel g0.next with
        | none => simp [hlstChain, hg, hrest] at hch
        | some rest =>
          simp only [hlstChain, hg, hrest, Option.some.injEq] at hch
          subst hch
          rcases List.mem_cons.mp hm with h | h
          · cases h
            simp only [readHlst] at hg
            cases hl : lookupRec st (n + 1) with
            | none => rw [hl] at hg; cases hg
            | some rr =>
              rw [hl] at hg
              cases rr with
              | hlst hr => cases hg; rfl
              | dir d => cases hg
              | key x => cases hg
              | uid x => cases hg
              | pref x => cases hg
              | sig x => cases hg
              | sdir x => cases hg
          · exact ih g0.next rest hrest r g h

/-- Rewriting one hint-list record (same next pointer) maps the chain
pointwise. -/
theorem hlstChain_update (st : Store) (hrn : Nat) (h h' : HlstRec)
    (hold : lookupRec st hrn = some (Rec.hlst h)) (hnext : h'.next = h.next) :
    ∀ (fuel rn : Nat) (ch : List (Nat × HlstRec)),
      hlstChain st fuel rn = some ch →
      hlstChain (writeRec st hrn (Rec.hlst h')) fuel rn =
        some (ch.map (fun p => if p.1 = hrn then (p.1, h') else p)) := by
  intro fuel
  induction fuel with
  | zero =>
    intro rn ch hch
    cases rn with
    | zero =>
      simp only [hlstChain] at hch
      cases hch
      rfl
    | succ n => simp [hlstChain] at hch
  | succ fuel ih =>
    intro rn ch hch
    cases rn with
    | zero =>
      simp only [hlstChain] at hch
      cases hch
      rfl
    | succ n =>
      cases hg : readHlst st (n + 1) with
      | none => simp [hlstChain, hg] at hch
      | some g =>
        cases hrest : hlstChain st fuel g.next with
        | none => simp [hlstChain, hg, hrest] at hch
        | some rest =>
          simp only [hlstChain, hg, hrest, Option.some.injEq] at hch
          subst hch
          by_cases heq : n + 1 = hrn
          · subst heq
            have hgh : g = h := by
              simp only [readHlst, hold] at hg
              cases hg
              rfl
            subst hgh
            have hr1 : readHlst (writeRec st (n + 1) (Rec.hlst h')) (n + 1) =
                some h' := by
              simp [readHlst, lookupRec_writeRec_self]
            simp only [hlstChain, hr1, hnext, ih g.next rest hrest]
            simp
          · have hr1 : readHlst (writeRec st hrn (Rec.hlst h')) (n + 1) =
                some g := by
              simp only [readHlst, lookupRec_writeRec_other st hrn (n + 1) _ heq]
              simp only [readHlst] at hg
              exact hg
            simp only [hlstChain, hr1, ih g.next rest hrest]
            simp [heq]

theorem lookupRec_nextRec_irrel (st : Store) (v j : Nat) :
    lookupRec { st with nextRec := v } j = lookupRec st j := rfl

theorem mem_chainLids {ch : List (Nat × HlstRec)} {r : Nat} {g : HlstRec}
    {a : Nat} (h1 : (r, g) ∈ ch) (h2 : a ∈ g.rnum) : a ∈ chainLids ch := by
  simp only [chainLids, List.mem_flatten]
  exact ⟨g.rnum, List.mem_map.mpr ⟨(r, g), h1, rfl⟩, h2⟩

theorem mem_set_self {l : List Nat} :
    ∀ {i : Nat}, i < l.length → ∀ a, a ∈ l.set i a := by
  induction l with
  | nil => intro i h; simp at h
  | cons x t ih =>
    intro i h a
    cases i with
    | zero => simp
    | succ j =>
      simp only [List.set_cons_succ, List.mem_cons]
      exact Or.inr (ih (by simpa using h) a)

/-- The free slot reported by a scan with empty accumulator lies on the
walked chain. -/
theorem hintChainScan_none_absent_mem (st : Store) (lid : Nat) :
    ∀ (fuel rn r i : Nat) (g : HlstRec) (ch : List (Nat × HlstRec)),
      hintChainScan st lid fuel rn none =
        some (HintScan.absent (some (r, g, i))) →
      hlstChain st fuel rn = some ch →
      (r, g) ∈ ch := by
  intro fuel
  induction fuel with
  | zero =>
    intro rn r i g ch h hch
    cases rn with
    | zero => simp [hintChainScan] at h
    | succ n => simp [hintChainScan] at h
  | succ fuel ih =>
    intro rn r i g ch h hch
    cases rn with
    | zero => simp [hintChainScan] at h
    | succ n =>
      cases hg : readHlst st (n + 1) with
      | none => simp [hintChainScan, hg] at h
      | some g0 =>
        cases hrest : hlstChain st fuel g0.next with
        | none => simp [hlstChain, hg, hrest] at hch
        | some rest =>
          simp only [hlstChain, hg, hrest, Option.some.injEq] at hch
          subst hch
          cases hscan : hintSlotScan lid (n + 1) g0 g0.rnum 0 none with
          | foundLid => simp [hintChainScan, hg, hscan] at h
          | absent tmp1 =>
            simp only [hintChainScan, hg, hscan] at h
            rcases hintSlotScan_none_absent lid (n + 1) g0 g0.rnum 0 tmp1 hscan
              with h1 | ⟨p, h1, _⟩
            · subst h1
              exact List.mem_cons_of_mem _ (ih g0.next r i g rest h hrest)
            · subst h1
              have := hintChainScan_keeps_some st lid (n + 1, g0, 0 + p) fuel
                g0.next _ h
              have heq : (r, g, i) = (n + 1, g0, 0 + p) := by
                injection this with h2
              have hr : r = n + 1 := by injection heq
              have hg' : g = g0 := by
                injection heq with _ h3
                injection h3
              subst hr; subst hg'
              exact List.mem_cons_self _ _

/-- The quiet path of create_shadow_dir: the sdir exists and the
referring lid is already on its hint list, so the call returns the
sdir's recnum and writes nothing. -/
theorem create_shadow_dir_present (st : Store) (sig : SigPkt) (lid : Nat)
    (hlid : lid ≠ 0) (rn : Nat) (sd : SdirRec) (ch : List (Nat × HlstRec))
    (hsearch : tdbio_search_sdir st sig.keyid sig.pubkey_algo = some (rn, sd))
    (hch : hlstChain st (st.nextRec + 1) sd.hintlist = some ch)
    (hmem : lid ∈ chainLids ch) :
    create_shadow_dir st sig lid = some (rn, st) := by
  simp only [create_shadow_dir, hsearch]
  rw [hintChainScan_found st lid hlid (st.nextRec + 1) sd.hintlist ch none hch
    hmem]

/-- After filling the free hint slot, a second call finds the same sdir
and sees the lid on the hint list. -/
theorem create_shadow_dir_refind_fill (st : Store) (sig : SigPkt) (lid : Nat)
    (hlid : lid ≠ 0) (rnS hrn idx : Nat) (sd : SdirRec) (h : HlstRec)
    (hs : tdbio_search_sdir st sig.keyid sig.pubkey_algo = some (rnS, sd))
    (hscan : hintChainScan st lid (st.nextRec + 1) sd.hintlist none =
      some (HintScan.absent (some (hrn, h, idx)))) :
    create_shadow_dir
        (writeRec st hrn (Rec.hlst { h with rnum := h.rnum.set idx lid }))
        sig lid =
      some (rnS,
        writeRec st hrn (Rec.hlst { h with rnum := h.rnum.set idx lid })) := by
  obtain ⟨ch, hch⟩ := hintChainScan_absent_chain st lid (st.nextRec + 1)
    sd.hintlist none _ hscan
  rcases hintChainScan_none_absent st lid (st.nextRec + 1) sd.hintlist _ hscan
    with hcontra | ⟨r, g, i, heq, hlook, hzero⟩
  · cases hcontra
  simp only [Option.some.injEq, Prod.mk.injEq] at heq
  obtain ⟨rfl, rfl, rfl⟩ := heq
  have hmemch : (hrn, h) ∈ ch :=
    hintChainScan_none_absent_mem st lid (st.nextRec + 1) sd.hintlist hrn idx h
      ch hscan hch
  obtain ⟨-, hlt, hat, hmatch, hmin⟩ := searchSdirFrom_some_spec st sig.keyid
    sig.pubkey_algo st.nextRec 0 rnS sd hs
  have htrans : ∀ n, sdirAt
      (writeRec st hrn (Rec.hlst { h with rnum := h.rnum.set idx lid })) n =
      sdirAt st n := by
    intro n
    by_cases hn : n = hrn
    · subst hn
      simp [sdirAt, lookupRec_writeRec_self, hlook]
    · simp [sdirAt, lookupRec_writeRec_other st hrn n _ hn]
  have hs1 : tdbio_search_sdir
      (writeRec st hrn (Rec.hlst { h with rnum := h.rnum.set idx lid }))
      sig.keyid sig.pubkey_algo = some (rnS, sd) := by
    unfold tdbio_search_sdir
    exact searchSdirFrom_build _ sig.keyid sig.pubkey_algo
      (writeRec st hrn (Rec.hlst { h with rnum := h.rnum.set idx lid })).nextRec
      0 rnS sd (by omega) (by simpa using hlt) (by rw [htrans]; exact hat)
      hmatch
      (fun j s hj1 hj2 hjl => hmin j s hj1 hj2 (by rw [← htrans]; exact hjl))
  have hch1 := hlstChain_update st hrn h { h with rnum := h.rnum.set idx lid }
    hlook rfl (st.nextRec + 1) sd.hintlist ch hch
  have hlen : idx < h.rnum.length := by
    rcases List.get?_eq_some.mp hzero with ⟨hl, _⟩
    exact hl
  have himg : (hrn, { h with rnum := h.rnum.set idx lid }) ∈
      ch.map (fun p =>
        if p.1 = hrn then (p.1, { h with rnum := h.rnum.set idx lid })
        else p) := by
    refine List.mem_map.mpr ⟨(hrn, h), hmemch, ?_⟩
    show (if (hrn, h).1 = hrn then
            ((hrn, h).1, { h with rnum := h.rnum.set idx lid })
          else (hrn, h)) =
        (hrn, { h with rnum := h.rnum.set idx lid })
    rw [if_pos rfl]
  exact create_shadow_dir_present _ sig lid hlid rnS sd _ hs1 hch1
    (mem_chainLids himg (mem_set_self hlen lid))

/-- After appending a fresh hint record, a second call finds the same
sdir, whose updated hint list starts with the lid. -/
theorem create_shadow_dir_refind_append (st : Store) (sig : SigPkt) (lid : Nat)
    (hlid : lid ≠ 0) (hnz : 1 ≤ st.nextRec) (rnS : Nat) (sd : SdirRec)
    (hs : tdbio_search_sdir st sig.keyid sig.pubkey_algo = some (rnS, sd)) :
    create_shadow_dir
        (writeRec
          (writeRec { st with nextRec := st.nextRec + 1 } st.nextRec
            (Rec.hlst { next := sd.hintlist,
                        rnum := lid ::
                          List.replicate (ITEMS_PER_HLST_RECORD - 1) 0 }))
          rnS (Rec.sdir { sd with hintlist := st.nextRec }))
        sig lid =
      some (rnS,
        writeRec
          (writeRec { st with nextRec := st.nextRec + 1 } st.nextRec
            (Rec.hlst { next := sd.hintlist,
                        rnum := lid ::
                          List.replicate (ITEMS_PER_HLST_RECORD - 1) 0 }))
          rnS (Rec.sdir { sd with hintlist := st.nextRec })) := by
  obtain ⟨-, hlt, hat, hmatch, hmin⟩ := searchSdirFrom_some_spec st sig.keyid
    sig.pubkey_algo st.nextRec 0 rnS sd hs
  have hltS : rnS < st.nextRec := by omega
  set hnew : HlstRec :=
    { next := sd.hintlist,
      rnum := lid :: List.replicate (ITEMS_PER_HLST_RECORD - 1) 0 } with hhnew
  set st1 := writeRec
    (writeRec { st with nextRec := st.nextRec + 1 } st.nextRec (Rec.hlst hnew))
    rnS (Rec.sdir { sd with hintlist := st.nextRec }) with hst1
  have hs1 : tdbio_search_sdir st1 sig.keyid sig.pubkey_algo =
      some (rnS, { sd with hintlist := st.nextRec }) := by
    unfold tdbio_search_sdir
    refine searchSdirFrom_build st1 sig.keyid sig.pubkey_algo st1.nextRec 0 rnS
      _ (by omega) ?_ ?_ ⟨hmatch.1, hmatch.2⟩ ?_
    · show rnS < 0 + st.nextRec + 1
      omega
    · show sdirAt st1 rnS = _
      simp [st1, sdirAt, lookupRec_writeRec_self]
    · intro j s hj1 hj2 hjl
      have hj3 : j ≠ rnS := by omega
      have hj4 : j ≠ st.nextRec := by omega
      have e : lookupRec st1 j = lookupRec st j := by
        rw [hst1, lookupRec_writeRec_other _ _ _ _ hj3,
          lookupRec_writeRec_other _ _ _ _ hj4, lookupRec_nextRec_irrel]
      refine hmin j s hj1 hj2 ?_
      rw [← hjl]
      simp only [sdirAt, e]
  have hscan1 : hintChainScan st1 lid (st1.nextRec + 1) st.nextRec none =
      some HintScan.foundLid := by
    have hread : readHlst st1 st.nextRec = some hnew := by
      have hne : st.nextRec ≠ rnS := by omega
      simp [st1, readHlst, lookupRec_writeRec_other _ _ _ _ hne,
        lookupRec_writeRec_self]
    cases hm : st.nextRec with
    | zero => omega
    | succ k =>
      rw [hm] at hread
      simp only [hintChainScan, hread]
      rw [hintSlotScan_found lid (k + 1) hnew hlid hnew.rnum 0 none
        (by simp [hhnew])]
  simp only [create_shadow_dir, hs1, hscan1]

/-- After creating the sdir and its first hint record, a second call
finds that sdir and sees the lid in slot 0. -/
theorem create_shadow_dir_refind_create (st : Store) (sig : SigPkt) (lid : Nat)
    (hlid : lid ≠ 0)
    (hs : tdbio_search_sdir st sig.keyid sig.pubkey_algo = none) :
    create_shadow_dir
        (writeRec
          (writeRec
            { writeRec { st with nextRec := st.nextRec + 1 } st.nextRec
                (Rec.sdir { lid := st.nextRec, keyid := sig.keyid,
                            pubkey_algo := sig.pubkey_algo, hintlist := 0 })
              with nextRec := st.nextRec + 2 }
            (st.nextRec + 1)
            (Rec.hlst { next := 0,
                        rnum := lid ::
                          List.replicate (ITEMS_PER_HLST_RECORD - 1) 0 }))
          st.nextRec
          (Rec.sdir { lid := st.nextRec, keyid := sig.keyid,
                      pubkey_algo := sig.pubkey_algo,
                      hintlist := st.nextRec + 1 }))
        sig lid =
      some (st.nextRec,
        writeRec
          (writeRec
            { writeRec { st with nextRec := st.nextRec + 1 } st.nextRec
                (Rec.sdir { lid := st.nextRec, keyid := sig.keyid,
                            pubkey_algo := sig.pubkey_algo, hintlist := 0 })
              with nextRec := st.nextRec + 2 }
            (st.nextRec + 1)
            (Rec.hlst { next := 0,
                        rnum := lid ::
                          List.replicate (ITEMS_PER_HLST_RECORD - 1) 0 }))
          st.nextRec
          (Rec.sdir { lid := st.nextRec, keyid := sig.keyid,
                      pubkey_algo := sig.pubkey_algo,
                      hintlist := st.nextRec + 1 })) := by
  have hnone := searchSdirFrom_none_spec st sig.keyid sig.pubkey_algo
    st.nextRec 0 hs
  set hnew : HlstRec :=
    { next := 0,
      rnum := lid :: List.replicate (ITEMS_PER_HLST_RECORD - 1) 0 } with hhnew
  set sd1 : SdirRec :=
    { lid := st.nextRec, keyid := sig.keyid, pubkey_algo := sig.pubkey_algo,
      hintlist := st.nextRec + 1 } with hsd1
  set st1 := writeRec
    (writeRec
      { writeRec { st with nextRec := st.nextRec + 1 } st.nextRec
          (Rec.sdir { lid := st.nextRec, keyid := sig.keyid,
                      pubkey_algo := sig.pubkey_algo, hintlist := 0 })
        with nextRec := st.nextRec + 2 }
      (st.nextRec + 1) (Rec.hlst hnew))
    st.nextRec (Rec.sdir sd1) with hst1
  have hs1 : tdbio_search_sdir st1 sig.keyid sig.pubkey_algo =
      some (st.nextRec, sd1) := by
    unfold tdbio_search_sdir
    refine searchSdirFrom_build st1 sig.keyid sig.pubkey_algo st1.nextRec 0
      st.nextRec sd1 (by omega) ?_ ?_ ⟨rfl, rfl⟩ ?_
    · show st.nextRec < 0 + (st.nextRec + 2)
      omega
    · show sdirAt st1 st.nextRec = some sd1
      simp [st1, sdirAt, lookupRec_writeRec_self]
    · intro j s hj1 hj2 hjl
      have hj3 : j ≠ st.nextRec := by omega
      have hj4 : j ≠ st.nextRec + 1 := by omega
      have e : lookupRec st1 j = lookupRec st j := by
        rw [hst1, lookupRec_writeRec_other _ _ _ _ hj3,
          lookupRec_writeRec_other _ _ _ _ hj4, lookupRec_nextRec_irrel,
          lookupRec_writeRec_other _ _ _ _ hj3, lookupRec_nextRec_irrel]
      refine hnone j s hj1 (by omega) ?_
      rw [← hjl]
      simp only [sdirAt, e]
  have hread : readHlst st1 (st.nextRec + 1) = some hnew := by
    have hne : st.nextRec + 1 ≠ st.nextRec := by omega
    simp [st1, readHlst, lookupRec_writeRec_other _ _ _ _ hne,
      lookupRec_writeRec_self]
  have hscan1 : hintChainScan st1 lid (st1.nextRec + 1) (st.nextRec + 1) none =
      some HintScan.foundLid := by
    simp only [hintChainScan, hread]
    rw [hintSlotScan_found lid (st.nextRec + 1) hnew hlid hnew.rnum 0 none
      (by simp [hhnew])]
  simp only [create_shadow_dir, hs1]
  rw [hscan1]

/-- C7: create_shadow_dir is idempotent.  First conjunct: when the Sdir
for the signature's (keyid, algo) exists and the referring lid is
already on its hint-list chain, the call returns that Sdir's recnum and
the unchanged store.  Second conjunct: a second call with the same
arguments returns the first call's lid and leaves the store exactly as
the first call left it. -/
theorem claim7_create_shadow_dir_idempotent (st : Store) (sig : SigPkt)
    (lid : Nat) (hlid : lid ≠ 0) (hnz : 1 ≤ st.nextRec) :
    (∀ rn sd ch,
      tdbio_search_sdir st sig.keyid sig.pubkey_algo = some (rn, sd) →
      hlstChain st (st.nextRec + 1) sd.hintlist = some ch →
      lid ∈ chainLids ch →
      create_shadow_dir st sig lid = some (rn, st)) ∧
    (∀ l1 st1, create_shadow_dir st sig lid = some (l1, st1) →
      create_shadow_dir st1 sig lid = some (l1, st1)) := by
  constructor
  · intro rn sd ch hsearch hch hmem
    exact create_shadow_dir_present st sig lid hlid rn sd ch hsearch hch hmem
  · intro l1 st1 hcall
    cases hs : tdbio_search_sdir st sig.keyid sig.pubkey_algo with
    | some p =>
      obtain ⟨rnS, sd⟩ := p
      cases hscan : hintChainScan st lid (st.nextRec + 1) sd.hintlist none with
      | none => simp [create_shadow_dir, hs, hscan] at hcall
      | some res =>
        cases res with
        | foundLid =>
          simp only [create_shadow_dir, hs, hscan, Option.some.injEq,
            Prod.mk.injEq] at hcall
          obtain ⟨rfl, rfl⟩ := hcall
          simp only [create_shadow_dir, hs, hscan]
        | absent tmp =>
          cases tmp with
          | none =>
            simp only [create_shadow_dir, hs, hscan, Option.some.injEq,
              Prod.mk.injEq] at hcall
            obtain ⟨rfl, rfl⟩ := hcall
            exact create_shadow_dir_refind_append st sig lid hlid hnz rnS sd hs
          | some t =>
            obtain ⟨hrn, hh, idx⟩ := t
            simp only [create_shadow_dir, hs, hscan, Option.some.injEq,
              Prod.mk.injEq] at hcall
            obtain ⟨rfl, rfl⟩ := hcall
            exact create_shadow_dir_refind_fill st sig lid hlid rnS hrn idx sd
              hh hs hscan
    | none =>
      simp only [create_shadow_dir, hs, hintChainScan, Option.some.injEq,
        Prod.mk.injEq] at hcall
      obtain ⟨rfl, rfl⟩ := hcall
      exact create_shadow_dir_refind_create st sig lid hlid hs

/-- Witness for C7: a store holding one sdir for keyid (7, 8), algo 1,
whose hint list already records lid 5; the call is a no-op returning the
sdir's recnum, and a repeated call is as well. -/
theorem claim7_witness :
    (5 : Nat) ≠ 0 ∧
    (1 : Nat) ≤ 4 ∧
    create_shadow_dir
        { recs := [(2, Rec.sdir { lid := 2, keyid := (7, 8), pubkey_algo := 1,
                                  hintlist := 3 }),
                   (3, Rec.hlst { next := 0, rnum := [0, 5, 0] })],
          nextRec := 4, dirty := false }
        { sig_class := 16, keyid := (7, 8), pubkey_algo := 1,
          prefSym := none, prefHash := none, prefCompr := none } 5 =
      some (2,
        { recs := [(2, Rec.sdir { lid := 2, keyid := (7, 8), pubkey_algo := 1,
                                  hintlist := 3 }),
                   (3, Rec.hlst { next := 0, rnum := [0, 5, 0] })],
          nextRec := 4, dirty := false }) :=
  ⟨by decide, by decide,
   (claim7_create_shadow_dir_idempotent
      { recs := [(2, Rec.sdir { lid := 2, keyid := (7, 8), pubkey_algo := 1,
                                hintlist := 3 }),
                 (3, Rec.hlst { next := 0, rnum := [0, 5, 0] })],
        nextRec := 4, dirty := false }
      { sig_class := 16, keyid := (7, 8), pubkey_algo := 1, prefSym := none,
        prefHash := none, prefCompr := none } 5 (by decide) (by decide)).1
     2 { lid := 2, keyid := (7, 8), pubkey_algo := 1, hintlist := 3 }
     [(3, { next := 0, rnum := [0, 5, 0] })]
     (by rfl) (by rfl) (by decide)⟩

/-! ## Claim C8: import_ownertrust line validation -/

/-- C8: import_ownertrust leaves the database untouched for a line that
is empty, starts with the hash mark, has no colon after the leading hex
digits (which covers a blank line, whose only byte is the newline), has
a hex field whose length is neither 32 nor 40, has no trust field after
the colon (no decimal digits once white space and one optional sign are
skipped, so the sscanf conversion fails), or converts to the trust
value 0; a well-formed line whose fingerprint is found updates exactly
that dir's ownertrust with the converted value.  The external keyring
branch (ringBranch) is arbitrary. -/
theorem claim8_import_line_validation
    (ringBranch : Store → List Nat → Nat → Store) (st : Store)
    (line : List Nat) :
    (line = [] → import_step ringBranch st line = ImportStep.cont st) ∧
    (∀ rest, line = 35 :: rest →
      import_step ringBranch st line = ImportStep.cont st) ∧
    (∀ c rest, line = c :: rest → c ≠ 35 → line.getLast? = some 10 →
      line.get? (line.takeWhile (fun b => isxdigitB b)).length ≠ some 58 →
      import_step ringBranch st line = ImportStep.cont st) ∧
    (∀ c rest, line = c :: rest → c ≠ 35 → line.getLast? = some 10 →
      line.get? (line.takeWhile (fun b => isxdigitB b)).length = some 58 →
      (line.takeWhile (fun b => isxdigitB b)).length ≠ 32 →
      (line.takeWhile (fun b => isxdigitB b)).length ≠ 40 →
      import_step ringBranch st line = ImportStep.cont st) ∧
    (∀ c rest, line = c :: rest → c ≠ 35 → line.getLast? = some 10 →
      line.get? (line.takeWhile (fun b => isxdigitB b)).length = some 58 →
      ((line.takeWhile (fun b => isxdigitB b)).length = 32 ∨
        (line.takeWhile (fun b => isxdigitB b)).length = 40) →
      trustField line = [] →
      import_step ringBranch st line = ImportStep.cont st) ∧
    (∀ c rest, line = c :: rest → c ≠ 35 → line.getLast? = some 10 →
      line.get? (line.takeWhile (fun b => isxdigitB b)).length = some 58 →
      ((line.takeWhile (fun b => isxdigitB b)).length = 32 ∨
        (line.takeWhile (fun b => isxdigitB b)).length = 40) →
      trustValue line = 0 →
      import_step ringBranch st line = ImportStep.cont st) ∧
    (∀ c rest rn rec, line = c :: rest → c ≠ 35 → line.getLast? = some 10 →
      line.get? (line.takeWhile (fun b => isxdigitB b)).length = some 58 →
      ((line.takeWhile (fun b => isxdigitB b)).length = 32 ∨
        (line.takeWhile (fun b => isxdigitB b)).length = 40) →
      trustField line ≠ [] →
      trustValue line ≠ 0 →
      tdbio_search_dir_byfpr st
          (hexPairsToBytes (line.takeWhile (fun b => isxdigitB b))) =
        some (rn, rec) →
      import_step ringBranch st line =
        ImportStep.cont (writeRec st rn (Rec.dir { rec with
          ownertrust := trustValue line }))) := by
  refine ⟨?_, ?_, ?_, ?_, ?_, ?_, ?_⟩
  · intro h
    subst h
    rfl
  · intro rest h
    subst h
    simp [import_step]
  · intro c rest h hc hnl hcol
    subst h
    simp only [import_step, if_neg hc, if_neg (by simp [hnl] : ¬ ((c :: rest).getLast? ≠ some 10))]
    rw [if_pos hcol]
  · intro c rest h hc hnl hcol h32 h40
    subst h
    simp only [import_step, if_neg hc, if_neg (by simp [hnl] : ¬ ((c :: rest).getLast? ≠ some 10))]
    rw [if_neg (by simp [← List.get?_eq_getElem?, hcol] : ¬ ((c :: rest).get? ((c :: rest).takeWhile (fun b => isxdigitB b)).length ≠ some 58))]
    rw [if_pos ⟨h32, h40⟩]
  · intro c rest h hc hnl hcol hlen htf
    subst h
    simp only [import_step, if_neg hc, if_neg (by simp [hnl] : ¬ ((c :: rest).getLast? ≠ some 10))]
    rw [if_neg (by simp [← List.get?_eq_getElem?, hcol] : ¬ ((c :: rest).get? ((c :: rest).takeWhile (fun b => isxdigitB b)).length ≠ some 58))]
    rw [if_neg (by
      rcases hlen with h | h
      · rw [h]; simp
      · rw [h]; simp)]
    rw [if_pos htf]
  · intro c rest h hc hnl hcol hlen hzero
    subst h
    simp only [import_step, if_neg hc, if_neg (by simp [hnl] : ¬ ((c :: rest).getLast? ≠ some 10))]
    rw [if_neg (by simp [← List.get?_eq_getElem?, hcol] : ¬ ((c :: rest).get? ((c :: rest).takeWhile (fun b => isxdigitB b)).length ≠ some 58))]
    rw [if_neg (by
      rcases hlen with h | h
      · rw [h]; simp
      · rw [h]; simp)]
    by_cases htf : trustField (c :: rest) = []
    · rw [if_pos htf]
    · rw [if_neg htf]
      rw [if_pos hzero]
  · intro c rest rn rec h hc hnl hcol hlen htf hzero hfound
    subst h
    simp only [import_step, if_neg hc, if_neg (by simp [hnl] : ¬ ((c :: rest).getLast? ≠ some 10))]
    rw [if_neg (by simp [← List.get?_eq_getElem?, hcol] : ¬ ((c :: rest).get? ((c :: rest).takeWhile (fun b => isxdigitB b)).length ≠ some 58))]
    rw [if_neg (by
      rcases hlen with h | h
      · rw [h]; simp
      · rw [h]; simp)]
    rw [if_neg htf, if_neg hzero, hfound]

/-- The store of the C8 witness: a dir with trust 3 and its key record
with a 16-byte zero fingerprint. -/
def c8wStore : Store :=
  { recs := [(1, Rec.dir { lid := 1, keylist := 2, uidlist := 0,
                           ownertrust := 3, dirflags := 0 }),
             (2, Rec.key { lid := 1, next := 0, pubkey_algo := 17,
                           fingerprint := List.replicate 16 0 })],
    nextRec := 3, dirty := false }

/-- The C8 witness line: 32 zero hex digits, a colon, a space, the
digit 5, a colon and the newline — the %u conversion skips the space
and converts 5. -/
def c8wLine : List Nat := List.replicate 32 48 ++ [58, 32, 53, 58, 10]

/-- Witness for C8: the line with white space before the trust digits
updates the dir's ownertrust to 5. -/
theorem claim8_witness :
    import_step (fun s _ _ => s) c8wStore c8wLine =
      ImportStep.cont (writeRec c8wStore 1
        (Rec.dir { lid := 1, keylist := 2, uidlist := 0, ownertrust := 5,
                   dirflags := 0 })) :=
  (claim8_import_line_validation (fun s _ _ => s) c8wStore
      c8wLine).2.2.2.2.2.2 48
    (List.replicate 31 48 ++ [58, 32, 53, 58, 10]) 1
    { lid := 1, keylist := 2, uidlist := 0, ownertrust := 3, dirflags := 0 }
    (by decide) (by decide) (by decide) (by decide) (Or.inl (by decide))
    (by decide) (by decide) (by decide)

/-! ## Claim C6: ownertrust export / import round trip

Parsing lemmas: the exported text of a well-formed entry parses back to
the same fingerprint bytes and trust value. -/

theorem isxdigitB_hexDigitUpper {d : Nat} (h : d < 16) :
    isxdigitB (hexDigitUpper d) = true := by
  by_cases h10 : d < 10
  · have he : hexDigitUpper d = 48 + d := by simp [hexDigitUpper, h10]
    rw [he]
    simp only [isxdigitB]
    simp
    omega
  · have he : hexDigitUpper d = 55 + d := by simp [hexDigitUpper, h10]
    rw [he]
    simp only [isxdigitB]
    simp
    omega

theorem HEXTOBIN_hexDigitUpper {d : Nat} (h : d < 16) :
    HEXTOBIN (hexDigitUpper d) = d := by
  by_cases h10 : d < 10
  · have he : hexDigitUpper d = 48 + d := by simp [hexDigitUpper, h10]
    rw [he]
    simp only [HEXTOBIN]
    rw [if_pos (by omega)]
    omega
  · have he : hexDigitUpper d = 55 + d := by simp [hexDigitUpper, h10]
    rw [he]
    simp only [HEXTOBIN]
    rw [if_neg (by omega), if_pos (by omega)]
    omega

theorem fprToHex_all_xdigit {fpr : List Nat} (h : ∀ b ∈ fpr, b < 256) :
    ∀ c ∈ fprToHex fpr, isxdigitB c = true := by
  induction fpr with
  | nil => intro c hc; simp [fprToHex] at hc
  | cons b t ih =>
    intro c hc
    simp only [fprToHex, List.map_cons, List.flatten_cons, List.mem_append]
      at hc
    rcases hc with hc | hc
    · have hb : b < 256 := h b (by simp)
      simp only [byteToHex, List.mem_cons, List.mem_singleton] at hc
      rcases hc with hc | hc | hc
      · subst hc; exact isxdigitB_hexDigitUpper (by omega)
      · subst hc; exact isxdigitB_hexDigitUpper (by omega)
      · simp at hc
    · exact ih (fun x hx => h x (by simp [hx])) c hc

theorem fprToHex_length (fpr : List Nat) :
    (fprToHex fpr).length = 2 * fpr.length := by
  induction fpr with
  | nil => rfl
  | cons b t ih =>
    simp [fprToHex, byteToHex] at *
    omega

theorem hexPairsToBytes_fprToHex {fpr : List Nat} (h : ∀ b ∈ fpr, b < 256) :
    hexPairsToBytes (fprToHex fpr) = fpr := by
  induction fpr with
  | nil => rfl
  | cons b t ih =>
    have hb : b < 256 := h b (by simp)
    simp only [fprToHex, List.map_cons, List.flatten_cons, byteToHex,
      List.cons_append, List.nil_append]
    simp only [hexPairsToBytes]
    rw [HEXTOBIN_hexDigitUpper (by omega), HEXTOBIN_hexDigitUpper (by omega)]
    have : b / 16 * 16 + b % 16 = b := by omega
    rw [this]
    have ht := ih (fun x hx => h x (by simp [hx]))
    simp only [fprToHex] at ht
    rw [ht]

theorem takeWhile_append_all {p : Nat → Bool} :
    ∀ (xs : List Nat) (y : Nat) (ys : List Nat),
      (∀ x ∈ xs, p x = true) → p y = false →
      (xs ++ y :: ys).takeWhile p = xs := by
  intro xs
  induction xs with
  | nil =>
    intro y ys _ hy
    simp [List.takeWhile, hy]
  | cons x t ih =>
    intro y ys hall hy
    have hx : p x = true := hall x (by simp)
    simp [List.cons_append, List.takeWhile_cons, hx,
      ih y ys (fun z hz => hall z (by simp [hz])) hy]

theorem get?_append_len :
    ∀ (xs : List Nat) (y : Nat) (ys : List Nat),
      (xs ++ y :: ys).get? xs.length = some y := by
  intro xs
  induction xs with
  | nil => intro y ys; rfl
  | cons x t ih => intro y ys; simpa using ih y ys

theorem drop_append_len :
    ∀ (xs : List Nat) (y : Nat) (ys : List Nat),
      (xs ++ y :: ys).drop (xs.length + 1) = ys := by
  intro xs
  induction xs with
  | nil => intro y ys; rfl
  | cons x t ih => intro y ys; simpa using ih y ys

theorem natToDecGo_ne_nil :
    ∀ (fuel n : Nat) (acc : List Nat), n ≤ fuel →
      natToDecGo fuel n acc = [] → acc = [] ∧ n = 0 := by
  intro fuel
  induction fuel with
  | zero =>
    intro n acc hle h
    cases n with
    | zero => exact ⟨h, rfl⟩
    | succ m => omega
  | succ fuel ih =>
    intro n acc hle h
    cases n with
    | zero => exact ⟨h, rfl⟩
    | succ m =>
      simp only [natToDecGo] at h
      have := (ih ((m + 1) / 10) _ (by omega) h).1
      cases this

theorem natToDecGo_eq_append :
    ∀ (fuel n : Nat) (acc : List Nat), n ≤ fuel →
      natToDecGo fuel n acc = natToDecGo fuel n [] ++ acc := by
  intro fuel
  induction fuel with
  | zero =>
    intro n acc hle
    cases n with
    | zero => rfl
    | succ m => omega
  | succ fuel ih =>
    intro n acc hle
    cases n with
    | zero => rfl
    | succ m =>
      simp only [natToDecGo]
      rw [ih ((m + 1) / 10) ((48 + (m + 1) % 10) :: acc) (by omega),
        ih ((m + 1) / 10) [48 + (m + 1) % 10] (by omega)]
      simp

theorem natToDecGo_all_digit :
    ∀ (fuel n : Nat) (acc : List Nat), (∀ c ∈ acc, isdigitB c = true) →
      ∀ c ∈ natToDecGo fuel n acc, isdigitB c = true := by
  intro fuel
  induction fuel with
  | zero =>
    intro n acc hacc c hc
    cases n with
    | zero => exact hacc c hc
    | succ m => exact hacc c hc
  | succ fuel ih =>
    intro n acc hacc c hc
    cases n with
    | zero => exact hacc c hc
    | succ m =>
      simp only [natToDecGo] at hc
      refine ih ((m + 1) / 10) _ ?_ c hc
      intro x hx
      rcases List.mem_cons.mp hx with hx | hx
      · subst hx
        simp only [isdigitB]
        simp
        omega
      · exact hacc x hx

theorem decValue_append_single (xs : List Nat) (d : Nat) :
    decValue (xs ++ [d]) = decValue xs * 10 + (d - 48) := by
  simp [decValue, List.foldl_append]

theorem decValue_natToDecGo :
    ∀ (fuel n : Nat), n ≤ fuel → decValue (natToDecGo fuel n []) = n := by
  intro fuel
  induction fuel with
  | zero =>
    intro n hle
    cases n with
    | zero => rfl
    | succ m => omega
  | succ fuel ih =>
    intro n hle
    cases n with
    | zero => rfl
    | succ m =>
      simp only [natToDecGo]
      rw [natToDecGo_eq_append fuel ((m + 1) / 10) [48 + (m + 1) % 10]
        (by omega)]
      rw [decValue_append_single]
      rw [ih ((m + 1) / 10) (by omega)]
      omega

theorem decValue_natToDec (n : Nat) : decValue (natToDec n) = n := by
  cases n with
  | zero => rfl
  | succ m =>
    simp only [natToDec]
    rw [if_neg (by omega)]
    exact decValue_natToDecGo (m + 1) (m + 1) (le_refl _)

theorem natToDec_ne_nil {n : Nat} (h : n ≠ 0) : natToDec n ≠ [] := by
  simp only [natToDec, if_neg h]
  intro hc
  exact h (natToDecGo_ne_nil n n [] (le_refl _) hc).2

theorem natToDec_all_digit (n : Nat) : ∀ c ∈ natToDec n, isdigitB c = true := by
  simp only [natToDec]
  by_cases h : n = 0
  · rw [if_pos h]
    intro c hc
    simp only [List.mem_singleton] at hc
    subst hc
    rfl
  · rw [if_neg h]
    exact natToDecGo_all_digit n n [] (by intro c hc; simp at hc)

/-! ### The export/import round trip (claim C6)

The isolated copy of the database with the same keys is the original
store with every dir record's ownertrust cleared; sameButOtrust is the
simulation relation the import run maintains against the original. -/

/-- Clear the ownertrust byte of a dir record; identity on the rest. -/
def wipeRec : Rec → Rec
  | Rec.dir d => Rec.dir { d with ownertrust := 0 }
  | r => r

/-- The isolated copy: same records under the same recnums, same keys,
no ownertrust assigned yet. -/
def wipeOwnertrust (st : Store) : Store :=
  { recs := st.recs.map (fun p => (p.1, wipeRec p.2)), nextRec := st.nextRec,
    dirty := st.dirty }

/-- Two stores agree on everything except possibly the ownertrust bytes
of dir records. -/
def sameButOtrust (st0 st1 : Store) : Prop :=
  st1.nextRec = st0.nextRec ∧
  ∀ n, (lookupRec st1 n).map wipeRec = (lookupRec st0 n).map wipeRec

theorem lookup_map_wipe (l : List (Nat × Rec)) (n : Nat) :
    (l.map (fun p => (p.1, wipeRec p.2))).lookup n = (l.lookup n).map wipeRec := by
  induction l with
  | nil => rfl
  | cons p t ih =>
    obtain ⟨k, v⟩ := p
    by_cases h : k = n
    · subst h
      simp [List.lookup]
    · have hb : (n == k) = false := by simp; omega
      simp [List.lookup, hb, ih]

theorem lookupRec_wipe (st : Store) (n : Nat) :
    lookupRec (wipeOwnertrust st) n = (lookupRec st n).map wipeRec := by
  simp only [lookupRec, wipeOwnertrust]
  rw [lookup_map_wipe]
  cases st.recs.lookup n <;> rfl

theorem wipeRec_wipeRec (r : Rec) : wipeRec (wipeRec r) = wipeRec r := by
  cases r <;> rfl

theorem sameButOtrust_wipe (st : Store) : sameButOtrust st (wipeOwnertrust st) := by
  refine ⟨rfl, fun n => ?_⟩
  rw [lookupRec_wipe]
  cases lookupRec st n with
  | none => rfl
  | some r => simp [wipeRec_wipeRec]

theorem readKey_lookup {st : Store} {i : Nat} {k : KeyRec}
    (h : readKey st i = some k) : lookupRec st i = some (Rec.key k) := by
  simp only [readKey] at h
  cases hl : lookupRec st i with
  | none => rw [hl] at h; cases h
  | some r =>
    rw [hl] at h
    cases r <;> simp_all

theorem sameButOtrust_key {st0 st1 : Store} (h : sameButOtrust st0 st1)
    (n : Nat) : readKey st1 n = readKey st0 n := by
  have hh := h.2 n
  cases h0 : lookupRec st0 n with
  | none =>
    cases h1 : lookupRec st1 n with
    | none => simp [readKey, h0, h1]
    | some r1 => rw [h0, h1] at hh; simp at hh
  | some r0 =>
    cases h1 : lookupRec st1 n with
    | none => rw [h0, h1] at hh; simp at hh
    | some r1 =>
      rw [h0, h1] at hh
      simp only [Option.map_some', Option.some.injEq] at hh
      cases r0 <;> cases r1 <;> simp_all [wipeRec, readKey, h0, h1]

theorem sameButOtrust_dirOpt {st0 st1 : Store} (h : sameButOtrust st0 st1)
    (n : Nat) :
    (readDir st1 n).map (fun d => { d with ownertrust := 0 }) =
      (readDir st0 n).map (fun d => { d with ownertrust := 0 }) := by
  have hh := h.2 n
  cases h0 : lookupRec st0 n with
  | none =>
    cases h1 : lookupRec st1 n with
    | none => simp [readDir, h0, h1]
    | some r1 => rw [h0, h1] at hh; simp at hh
  | some r0 =>
    cases h1 : lookupRec st1 n with
    | none => rw [h0, h1] at hh; simp at hh
    | some r1 =>
      rw [h0, h1] at hh
      simp only [Option.map_some', Option.some.injEq] at hh
      cases r0 <;> cases r1 <;> simp_all [wipeRec, readDir, h0, h1]

theorem searchDirByFprFrom_succ_eq (st : Store) (fpr : List Nat) (i c : Nat) :
    searchDirByFprFrom st fpr i (c + 1) =
      match readKey st i with
      | some k =>
        if k.fingerprint = fpr then
          match readDir st k.lid with
          | some d => some (k.lid, d)
          | none => searchDirByFprFrom st fpr (i + 1) c
        else searchDirByFprFrom st fpr (i + 1) c
      | none => searchDirByFprFrom st fpr (i + 1) c := by
  simp only [searchDirByFprFrom, readKey]
  cases lookupRec st i with
  | none => rfl
  | some r => cases r <;> rfl

theorem searchDirByFprFrom_congr {st0 st1 : Store} (h : sameButOtrust st0 st1)
    (fpr : List Nat) :
    ∀ (c i : Nat),
      (searchDirByFprFrom st1 fpr i c).map
          (fun p => (p.1, { p.2 with ownertrust := 0 })) =
        (searchDirByFprFrom st0 fpr i c).map
          (fun p => (p.1, { p.2 with ownertrust := 0 })) := by
  intro c
  induction c with
  | zero => intro i; rfl
  | succ c ih =>
    intro i
    rw [searchDirByFprFrom_succ_eq, searchDirByFprFrom_succ_eq,
      sameButOtrust_key h i]
    cases hk : readKey st0 i with
    | none => exact ih (i + 1)
    | some k =>
      simp only []
      by_cases hf : k.fingerprint = fpr
      · rw [if_pos hf, if_pos hf]
        have hd := sameButOtrust_dirOpt h k.lid
        cases hd0 : readDir st0 k.lid with
        | none =>
          cases hd1 : readDir st1 k.lid with
          | none => exact ih (i + 1)
          | some d1 => rw [hd0, hd1] at hd; simp at hd
        | some d0 =>
          cases hd1 : readDir st1 k.lid with
          | none => rw [hd0, hd1] at hd; simp at hd
          | some d1 =>
            rw [hd0, hd1] at hd
            simp only [Option.map_some', Option.some.injEq] at hd
            simp [hd]
      · rw [if_neg hf, if_neg hf]
        exact ih (i + 1)

theorem searchDirByFprFrom_finds (st : Store) (fpr : List Nat) (n : Nat)
    (dir0 : DirRec) (hdir : readDir st n = some dir0)
    (huniq : ∀ m k, lookupRec st m = some (Rec.key k) →
      k.fingerprint = fpr → k.lid = n) :
    ∀ (c i : Nat),
      (∃ m, i ≤ m ∧ m < i + c ∧ ∃ k, readKey st m = some k ∧
        k.fingerprint = fpr) →
      searchDirByFprFrom st fpr i c = some (n, dir0) := by
  intro c
  induction c with
  | zero =>
    intro i hex
    obtain ⟨m, h1, h2, _⟩ := hex
    omega
  | succ c ih =>
    intro i hex
    obtain ⟨m, h1, h2, k, hk, hf⟩ := hex
    rw [searchDirByFprFrom_succ_eq]
    cases hki : readKey st i with
    | none =>
      have hmi : m ≠ i := by
        intro he
        subst he
        rw [hki] at hk
        cases hk
      exact ih (i + 1) ⟨m, by omega, by omega, k, hk, hf⟩
    | some k0 =>
      simp only []
      by_cases hf0 : k0.fingerprint = fpr
      · rw [if_pos hf0]
        have hlid : k0.lid = n := huniq i k0 (readKey_lookup hki) hf0
        rw [hlid, hdir]
      · rw [if_neg hf0]
        have hmi : m ≠ i := by
          intro he
          subst he
          rw [hki] at hk
          cases hk
          exact hf0 hf
        exact ih (i + 1) ⟨m, by omega, by omega, k, hk, hf⟩

theorem getLast?_append_single (l : List Nat) (a : Nat) :
    (l ++ [a]).getLast? = some a := by
  induction l with
  | nil => rfl
  | cons x t ih =>
    cases t with
    | nil => rfl
    | cons y u => simpa using ih

/-- import_step on a line of the exported shape: hex field, colon,
decimal digits, colon, newline.  The line parses, and the store is
updated through the fingerprint search. -/
theorem import_step_parsed (rb : Store → List Nat → Nat → Store)
    (st : Store) (xs ds : List Nat)
    (hxs : ∀ c ∈ xs, isxdigitB c = true)
    (hne : xs ≠ [])
    (hlen : xs.length = 32 ∨ xs.length = 40)
    (hds : ∀ c ∈ ds, isdigitB c = true)
    (hdne : ds ≠ [])
    (hval : decValue ds ≠ 0) :
    import_step rb st (xs ++ 58 :: (ds ++ [58, 10])) =
      (match tdbio_search_dir_byfpr st (hexPairsToBytes xs) with
       | some (rn, rec) =>
         ImportStep.cont
           (writeRec st rn (Rec.dir { rec with ownertrust := decValue ds }))
       | none => ImportStep.cont (rb st (hexPairsToBytes xs) (decValue ds))) := by
  rcases xs with _ | ⟨x, xs'⟩
  · exact absurd rfl hne
  rcases ds with _ | ⟨d0, ds'⟩
  · exact absurd rfl hdne
  have hx : isxdigitB x = true := hxs x (by simp)
  have hx35 : ¬ x = 35 := by
    intro he
    rw [he] at hx
    exact absurd hx (by decide)
  have hd0 : isdigitB d0 = true := hds d0 (by simp)
  have hd0b : 48 ≤ d0 ∧ d0 ≤ 57 := by
    simpa [isdigitB] using hd0
  have hpre : (x :: (xs' ++ 58 :: (d0 :: (ds' ++ [58, 10])))).takeWhile
      (fun b => isxdigitB b) = x :: xs' := by
    have := takeWhile_append_all (p := fun b => isxdigitB b) (x :: xs') 58
      ((d0 :: ds') ++ [58, 10]) hxs (by decide)
    simpa [List.cons_append] using this
  have hlast : (x :: (xs' ++ 58 :: (d0 :: (ds' ++ [58, 10])))).getLast? =
      some 10 := by
    have he : x :: (xs' ++ 58 :: (d0 :: (ds' ++ [58, 10]))) =
        (x :: xs' ++ 58 :: ((d0 :: ds') ++ [58])) ++ [10] := by simp
    rw [he, getLast?_append_single]
  have hget : (x :: (xs' ++ 58 :: (d0 :: (ds' ++ [58, 10])))).get?
      (x :: xs').length = some 58 := by
    have := get?_append_len (x :: xs') 58 ((d0 :: ds') ++ [58, 10])
    simpa [List.cons_append] using this
  have hdrop : (x :: (xs' ++ 58 :: (d0 :: (ds' ++ [58, 10])))).drop
      ((x :: xs').length + 1) = d0 :: (ds' ++ [58, 10]) := by
    have := drop_append_len (x :: xs') 58 ((d0 :: ds') ++ [58, 10])
    simpa [List.cons_append] using this
  have hds2 : (d0 :: (ds' ++ [58, 10])).takeWhile (fun b => isdigitB b) =
      d0 :: ds' := by
    have := takeWhile_append_all (p := fun b => isdigitB b) (d0 :: ds') 58
      [10] hds (by decide)
    simpa [List.cons_append] using this
  have hsp : isspaceB d0 = false := by
    simp only [isspaceB]
    simp only [decide_eq_false_iff_not]
    omega
  have hfield : (d0 :: (ds' ++ [58, 10])).dropWhile
      (fun b => isspaceB b) = d0 :: (ds' ++ [58, 10]) := by
    rw [List.dropWhile_cons]
    simp [hsp]
  have h43 : d0 ≠ 43 := by omega
  have h45 : d0 ≠ 45 := by omega
  have htf : trustField (x :: (xs' ++ 58 :: (d0 :: (ds' ++ [58, 10])))) =
      d0 :: ds' := by
    simp only [trustField]
    rw [hpre, hdrop, hfield]
    rw [if_neg (by simp [h43, h45])]
    exact hds2
  have htv : trustValue (x :: (xs' ++ 58 :: (d0 :: (ds' ++ [58, 10])))) =
      decValue (d0 :: ds') := by
    simp only [trustValue]
    rw [hpre, hdrop, hfield]
    rw [if_neg (by simp [h45])]
    rw [htf]
  have hlen' : (x :: xs').length = 32 ∨ (x :: xs').length = 40 := hlen
  simp only [List.cons_append, import_step]
  rw [if_neg hx35, hlast]
  rw [if_neg (by simp)]
  rw [hpre, hget]
  rw [if_neg (by simp)]
  rw [if_neg (by omega)]
  rw [htf]
  rw [if_neg (by simp)]
  rw [htv]
  rw [if_neg hval]

/-- The import run over the export scan of recnums [i, i+c): the
simulation is maintained, recnums outside the window are untouched,
every scanned dir with assigned trust gets its original ownertrust
back, and every scanned recnum without an exportable dir is untouched. -/
theorem import_export_scan (rb : Store → List Nat → Nat → Store) (st : Store)
    (Hgood : ∀ n d, lookupRec st n = some (Rec.dir d) → d.ownertrust ≠ 0 →
      d.keylist ≠ 0 ∧ d.keylist < st.nextRec ∧
      ∃ k, readKey st d.keylist = some k ∧ k.lid = n ∧
        (k.fingerprint.length = 16 ∨ k.fingerprint.length = 20) ∧
        (∀ b ∈ k.fingerprint, b < 256) ∧
        (∀ m k', lookupRec st m = some (Rec.key k') →
          k'.fingerprint = k.fingerprint → k'.lid = n)) :
    ∀ (c i : Nat) (st1 : Store), sameButOtrust st st1 →
      sameButOtrust st (import_lines rb st1 (exportFrom st i c)) ∧
      (∀ n, n < i ∨ i + c ≤ n →
        lookupRec (import_lines rb st1 (exportFrom st i c)) n =
          lookupRec st1 n) ∧
      (∀ n d, i ≤ n → n < i + c → lookupRec st n = some (Rec.dir d) →
        d.ownertrust ≠ 0 →
        ∃ d2, lookupRec (import_lines rb st1 (exportFrom st i c)) n =
            some (Rec.dir d2) ∧ d2.ownertrust = d.ownertrust) ∧
      (∀ n, i ≤ n → n < i + c →
        (∀ d, lookupRec st n = some (Rec.dir d) → d.ownertrust = 0) →
        lookupRec (import_lines rb st1 (exportFrom st i c)) n =
          lookupRec st1 n) := by
  intro c
  induction c with
  | zero =>
    intro i st1 hsb
    exact ⟨hsb, fun n _ => rfl,
      fun n d h1 h2 _ _ => absurd h2 (by omega),
      fun n h1 h2 _ => absurd h2 (by omega)⟩
  | succ c ih =>
    intro i st1 hsb
    have hskip : exportFrom st i (c + 1) = exportFrom st (i + 1) c →
        (∀ d, lookupRec st i = some (Rec.dir d) → d.ownertrust = 0) →
        sameButOtrust st (import_lines rb st1 (exportFrom st i (c + 1))) ∧
        (∀ n, n < i ∨ i + (c + 1) ≤ n →
          lookupRec (import_lines rb st1 (exportFrom st i (c + 1))) n =
            lookupRec st1 n) ∧
        (∀ n d, i ≤ n → n < i + (c + 1) →
          lookupRec st n = some (Rec.dir d) → d.ownertrust ≠ 0 →
          ∃ d2, lookupRec (import_lines rb st1 (exportFrom st i (c + 1))) n =
              some (Rec.dir d2) ∧ d2.ownertrust = d.ownertrust) ∧
        (∀ n, i ≤ n → n < i + (c + 1) →
          (∀ d, lookupRec st n = some (Rec.dir d) → d.ownertrust = 0) →
          lookupRec (import_lines rb st1 (exportFrom st i (c + 1))) n =
            lookupRec st1 n) := by
      intro hE hz0
      obtain ⟨g1, g2, g3, g4⟩ := ih (i + 1) st1 hsb
      rw [hE]
      refine ⟨g1, fun n hn => g2 n (by omega), ?_, ?_⟩
      · intro n d ha hb hl hot
        by_cases he : n = i
        · subst he
          exact absurd (hz0 d hl) hot
        · exact g3 n d (by omega) (by omega) hl hot
      · intro n ha hb hz
        by_cases he : n = i
        · exact g2 n (by omega)
        · exact g4 n (by omega) (by omega) hz
    cases h0 : lookupRec st i with
    | none =>
      exact hskip (by simp only [exportFrom, h0])
        (fun d hl => by rw [h0] at hl; cases hl)
    | some r =>
      cases r with
      | key k =>
        exact hskip (by simp only [exportFrom, h0])
          (fun d hl => by rw [h0] at hl; cases hl)
      | uid u =>
        exact hskip (by simp only [exportFrom, h0])
          (fun d hl => by rw [h0] at hl; cases hl)
      | pref p =>
        exact hskip (by simp only [exportFrom, h0])
          (fun d hl => by rw [h0] at hl; cases hl)
      | sig s =>
        exact hskip (by simp only [exportFrom, h0])
          (fun d hl => by rw [h0] at hl; cases hl)
      | sdir s =>
        exact hskip (by simp only [exportFrom, h0])
          (fun d hl => by rw [h0] at hl; cases hl)
      | hlst hl =>
        exact hskip (by simp only [exportFrom, h0])
          (fun d hl => by rw [h0] at hl; cases hl)
      | dir d0 =>
        by_cases hk0 : d0.keylist = 0
        · refine hskip (by simp only [exportFrom, h0]; rw [if_pos hk0]) ?_
          intro d hl
          rw [h0] at hl
          injection hl with hl'
          injection hl' with hl2
          subst hl2
          by_contra hne0
          exact absurd (Hgood i d0 h0 hne0).1 (by simpa using hk0)
        · by_cases ho0 : d0.ownertrust = 0
          · refine hskip
              (by simp only [exportFrom, h0]; rw [if_neg hk0, if_pos ho0]) ?_
            intro d hl
            rw [h0] at hl
            injection hl with hl'
            injection hl' with hl2
            subst hl2
            exact ho0
          · obtain ⟨hkne, hkbound, k, hrk, hklid, hklen, hkbytes, huniq⟩ :=
              Hgood i d0 h0 ho0
            have hE : exportFrom st i (c + 1) =
                export_line k.fingerprint d0.ownertrust ::
                  exportFrom st (i + 1) c := by
              simp only [exportFrom, h0, hrk]
              rw [if_neg hk0, if_neg ho0]
            have hxs : ∀ c' ∈ fprToHex k.fingerprint, isxdigitB c' = true :=
              fprToHex_all_xdigit hkbytes
            have hlen2 : (fprToHex k.fingerprint).length = 32 ∨
                (fprToHex k.fingerprint).length = 40 := by
              have := fprToHex_length k.fingerprint
              rcases hklen with h | h <;> rw [this, h] <;> simp
            have hne : fprToHex k.fingerprint ≠ [] := by
              intro hnil
              have := fprToHex_length k.fingerprint
              rw [hnil] at this
              rcases hklen with h | h <;> rw [h] at this <;> simp at this
            have hds : ∀ c' ∈ natToDec d0.ownertrust, isdigitB c' = true :=
              natToDec_all_digit d0.ownertrust
            have hdne : natToDec d0.ownertrust ≠ [] := natToDec_ne_nil ho0
            have hval : decValue (natToDec d0.ownertrust) ≠ 0 := by
              rw [decValue_natToDec]
              exact ho0
            have hs0 : searchDirByFprFrom st k.fingerprint 0 st.nextRec =
                some (i, d0) := by
              refine searchDirByFprFrom_finds st k.fingerprint i d0
                (by simp [readDir, h0]) huniq st.nextRec 0
                ⟨d0.keylist, by omega, by omega, k, hrk, rfl⟩
            have hcong := searchDirByFprFrom_congr hsb k.fingerprint
              st.nextRec 0
            rw [hs0] at hcong
            simp only [Option.map_some'] at hcong
            cases hs1 : searchDirByFprFrom st1 k.fingerprint 0 st.nextRec with
            | none => rw [hs1] at hcong; simp at hcong
            | some p =>
              obtain ⟨rn1, d1⟩ := p
              rw [hs1] at hcong
              simp only [Option.map_some', Option.some.injEq,
                Prod.mk.injEq] at hcong
              obtain ⟨hrn, hd1⟩ := hcong
              rw [hrn] at hs1
              have hsearch1 : tdbio_search_dir_byfpr st1 k.fingerprint =
                  some (i, d1) := by
                simp only [tdbio_search_dir_byfpr]
                rw [hsb.1]
                exact hs1
              have hfpr' : hexPairsToBytes (fprToHex k.fingerprint) =
                  k.fingerprint := hexPairsToBytes_fprToHex hkbytes
              have hstep : import_step rb st1
                  (export_line k.fingerprint d0.ownertrust) =
                  ImportStep.cont (writeRec st1 i
                    (Rec.dir { d1 with ownertrust := d0.ownertrust })) := by
                have hline : export_line k.fingerprint d0.ownertrust =
                    fprToHex k.fingerprint ++
                      58 :: (natToDec d0.ownertrust ++ [58, 10]) := by
                  simp [export_line]
                rw [hline, import_step_parsed rb st1 _ _ hxs hne hlen2 hds
                  hdne hval, hfpr', hsearch1]
                simp only [decValue_natToDec]
              have hwipe : ∀ v, wipeRec (Rec.dir { d1 with ownertrust := v }) =
                  Rec.dir { d0 with ownertrust := 0 } := by
                intro v
                simp only [wipeRec]
                exact congrArg Rec.dir hd1
              have hsb' : sameButOtrust st (writeRec st1 i
                  (Rec.dir { d1 with ownertrust := d0.ownertrust })) := by
                refine ⟨hsb.1, fun n => ?_⟩
                by_cases he : n = i
                · subst he
                  rw [lookupRec_writeRec_self, h0]
                  simp only [Option.map_some']
                  rw [hwipe]
                  rfl
                · rw [lookupRec_writeRec_other st1 i n _ he]
                  exact hsb.2 n
              obtain ⟨g1, g2, g3, g4⟩ := ih (i + 1)
                (writeRec st1 i (Rec.dir { d1 with ownertrust :=
                  d0.ownertrust })) hsb'
              have hIL : import_lines rb st1 (exportFrom st i (c + 1)) =
                  import_lines rb (writeRec st1 i
                    (Rec.dir { d1 with ownertrust := d0.ownertrust }))
                    (exportFrom st (i + 1) c) := by
                rw [hE]
                simp only [import_lines, hstep]
              rw [hIL]
              refine ⟨g1, ?_, ?_, ?_⟩
              · intro n hn
                rw [g2 n (by omega)]
                exact lookupRec_writeRec_other st1 i n _ (by omega)
              · intro n d ha hb hl hot
                by_cases he : n = i
                · subst he
                  rw [h0] at hl
                  injection hl with hl'
                  injection hl' with hl2
                  subst hl2
                  refine ⟨{ d1 with ownertrust := d0.ownertrust }, ?_, rfl⟩
                  rw [g2 n (by omega)]
                  exact lookupRec_writeRec_self st1 n _
                · exact g3 n d (by omega) (by omega) hl hot
              · intro n ha hb hz
                by_cases he : n = i
                · subst he
                  exact absurd (hz d0 h0) ho0
                · rw [g4 n (by omega) (by omega) hz]
                  exact lookupRec_writeRec_other st1 i n _ he

theorem import_step_hash (rb : Store → List Nat → Nat → Store) (s : Store)
    (l : List Nat) : import_step rb s (35 :: l) = ImportStep.cont s := by
  simp [import_step]

/-- C6: exporting the ownertrust assignments and importing them into the
isolated copy (same records, ownertrust cleared) restores every dir
record's ownertrust byte.  Well-formedness hypotheses: all recnums in
use are below the allocation point, and every dir with assigned trust
has a readable primary key record pointing back at it whose fingerprint
has the length of an MD5 or RIPEMD/SHA1 digest, holds bytes, and is not
shared with a key of any other dir. -/
theorem claim6_export_import_roundtrip (rb : Store → List Nat → Nat → Store)
    (st : Store) (ts : List Nat)
    (Hbound : ∀ m r, lookupRec st m = some r → m < st.nextRec)
    (Hgood : ∀ n d, lookupRec st n = some (Rec.dir d) → d.ownertrust ≠ 0 →
      d.keylist ≠ 0 ∧ d.keylist < st.nextRec ∧
      ∃ k, readKey st d.keylist = some k ∧ k.lid = n ∧
        (k.fingerprint.length = 16 ∨ k.fingerprint.length = 20) ∧
        (∀ b ∈ k.fingerprint, b < 256) ∧
        (∀ m k', lookupRec st m = some (Rec.key k') →
          k'.fingerprint = k.fingerprint → k'.lid = n)) :
    ∀ n d, lookupRec st n = some (Rec.dir d) →
      ∃ d2, lookupRec (import_ownertrust rb (wipeOwnertrust st)
          (export_ownertrust st ts)) n = some (Rec.dir d2) ∧
        d2.ownertrust = d.ownertrust := by
  intro n d hl
  have hheads : import_ownertrust rb (wipeOwnertrust st)
      (export_ownertrust st ts) =
      import_lines rb (wipeOwnertrust st) (exportFrom st 0 st.nextRec) := by
    simp only [import_ownertrust, export_ownertrust, export_header,
      List.cons_append, List.nil_append]
    simp only [import_lines, import_step_hash]
  rw [hheads]
  obtain ⟨g1, g2, g3, g4⟩ := import_export_scan rb st Hgood st.nextRec 0
    (wipeOwnertrust st) (sameButOtrust_wipe st)
  have hn : n < st.nextRec := Hbound n _ hl
  by_cases ho : d.ownertrust = 0
  · have hz : ∀ d', lookupRec st n = some (Rec.dir d') → d'.ownertrust = 0 := by
      intro d' hl'
      rw [hl] at hl'
      injection hl' with h2
      injection h2 with h3
      rw [← h3]
      exact ho
    have hu := g4 n (by omega) (by omega) hz
    rw [hu, lookupRec_wipe, hl]
    exact ⟨{ d with ownertrust := 0 }, rfl, by rw [ho]⟩
  · exact g3 n d (by omega) (by omega) hl ho

/-- The dir record of the C6 witness store. -/
def c6DirW : DirRec :=
  { lid := 1, keylist := 2, uidlist := 0, ownertrust := 5, dirflags := 0 }

/-- The key record of the C6 witness store. -/
def c6KeyW : KeyRec :=
  { lid := 1, next := 0, pubkey_algo := 17,
    fingerprint := List.replicate 16 171 }

/-- The store of the C6 witness: one dir with ownertrust 5 and its key
record carrying a 16-byte fingerprint. -/
def c6StoreW : Store :=
  { recs := [(1, Rec.dir c6DirW), (2, Rec.key c6KeyW)],
    nextRec := 3, dirty := false }

/-- Witness for C6: the round trip on the concrete two-record store
restores ownertrust 5 at recnum 1. -/
theorem claim6_witness :
    ∃ d2, lookupRec (import_ownertrust (fun s _ _ => s)
        (wipeOwnertrust c6StoreW) (export_ownertrust c6StoreW [])) 1 =
          some (Rec.dir d2) ∧ d2.ownertrust = 5 := by
  refine claim6_export_import_roundtrip (fun s _ _ => s) c6StoreW [] ?_ ?_
    1 c6DirW rfl
  · intro m r h
    by_cases h1 : m = 1
    · subst h1; decide
    by_cases h2 : m = 2
    · subst h2; decide
    exfalso
    have b1 : (m == 1) = false := by simp [h1]
    have b2 : (m == 2) = false := by simp [h2]
    simp [lookupRec, c6StoreW, List.lookup, b1, b2] at h
  · intro n d hl hot
    by_cases h1 : n = 1
    · subst h1
      have hE : lookupRec c6StoreW 1 = some (Rec.dir c6DirW) := rfl
      rw [hE] at hl
      injection hl with h2
      injection h2 with h3
      subst h3
      refine ⟨by decide, by decide, c6KeyW, rfl, rfl, by decide,
        by decide, ?_⟩
      intro m k' hk hf
      by_cases hm2 : m = 2
      · subst hm2
        have hE2 : lookupRec c6StoreW 2 = some (Rec.key c6KeyW) := rfl
        rw [hE2] at hk
        injection hk with h2
        injection h2 with h3
        rw [← h3]
        rfl
      by_cases hm1 : m = 1
      · subst hm1
        rw [hE] at hk
        injection hk with h2
        cases h2
      · exfalso
        have b1 : (m == 1) = false := by simp [hm1]
        have b2 : (m == 2) = false := by simp [hm2]
        simp [lookupRec, c6StoreW, List.lookup, b1, b2] at hk
    · exfalso
      by_cases h2 : n = 2
      · subst h2
        have hE2 : lookupRec c6StoreW 2 = some (Rec.key c6KeyW) := rfl
        rw [hE2] at hl
        injection hl with h3
        cases h3
      · have b1 : (n == 1) = false := by simp [h1]
        have b2 : (n == 2) = false := by simp [h2]
        simp [lookupRec, c6StoreW, List.lookup, b1, b2] at hl

/-! ## Claim C1: check_trust

The claim as stated is false on the code: the revoked overlay is OR'd in
inside do_check, which runs only on the non-expired path, so an expired
key whose dir record has DIRF_REVOKED set comes back as plain
TRUST_EXPIRED without TRUST_FLAG_REVOKED. -/

/-- Counterexample to C1 as stated: a dir record with DIRF_REVOKED set
and a key expired at time 50, checked at time 100; the returned level is
exactly TRUST_EXPIRED, which does not contain TRUST_FLAG_REVOKED. -/
theorem claim1_counterexample :
    check_trust
        { recs := [(1, Rec.dir { lid := 1, keylist := 2, uidlist := 3,
                                 ownertrust := 0, dirflags := DIRF_REVOKED })],
          nextRec := 4, dirty := false } [] 1 3
        (fun _ _ => Except.error 1)
        { local_id := 1, timestamp := 10, expiredate := 50,
          fingerprint := [], pubkey_algo := 1, keyid := (0, 0) } 100 =
      some (Except.ok TRUST_EXPIRED,
        { recs := [(1, Rec.dir { lid := 1, keylist := 2, uidlist := 3,
                                 ownertrust := 0, dirflags := DIRF_REVOKED })],
          nextRec := 4, dirty := false }) ∧
    DIRF_REVOKED &&& DIRF_REVOKED ≠ 0 ∧
    TRUST_EXPIRED &&& TRUST_FLAG_REVOKED = 0 := by
  refine ⟨by rfl, by decide, by decide⟩

/-- C1 amended: with the dir record resolved (pk carries its lid), a
timestamp in the future yields the time-conflict error; an expiry date
in (0, now] yields exactly the level expired (without the revoked
overlay, even when DIRF_REVOKED is set); otherwise the level is the
evaluator at depth 1, max_depth 5, with TRUST_FLAG_REVOKED OR'd in
exactly when the dir record has DIRF_REVOKED. -/
theorem claim1_check_trust_amended (st : Store) (ulti : List Nat)
    (completes marginals : Nat)
    (insertTR : Store → PubKey → Except Nat (Nat × Store))
    (pk : PubKey) (now : Nat) (d : DirRec)
    (hlid : pk.local_id ≠ 0)
    (hdir : lookupRec st pk.local_id = some (Rec.dir d)) :
    (now < pk.timestamp →
      check_trust st ulti completes marginals insertTR pk now =
        some (Except.error G10ERR_TIME_CONFLICT, st)) ∧
    (pk.timestamp ≤ now → pk.expiredate ≠ 0 → pk.expiredate ≤ now →
      check_trust st ulti completes marginals insertTR pk now =
        some (Except.ok TRUST_EXPIRED, st)) ∧
    (∀ lvl, pk.timestamp ≤ now → (pk.expiredate = 0 ∨ now < pk.expiredate) →
      d.keylist ≠ 0 → d.uidlist ≠ 0 →
      verify_key st ulti completes marginals 1 5 d = some lvl →
      check_trust st ulti completes marginals insertTR pk now =
        some (Except.ok (if d.dirflags &&& DIRF_REVOKED ≠ 0
                         then lvl ||| TRUST_FLAG_REVOKED else lvl), st)) := by
  have hrd : readDir st pk.local_id = some d := by
    simp [readDir, hdir]
  refine ⟨?_, ?_, ?_⟩
  · intro h
    simp [check_trust, hlid, hrd, check_trust_core, h]
  · intro h1 h2 h3
    have hnot : ¬ now < pk.timestamp := by omega
    simp [check_trust, hlid, hrd, check_trust_core, hnot, h2, h3]
  · intro lvl h1 h2 hk hu hv
    have hnot : ¬ now < pk.timestamp := by omega
    have hexp : ¬ (pk.expiredate ≠ 0 ∧ pk.expiredate ≤ now) := by omega
    by_cases hrev : d.dirflags &&& DIRF_REVOKED ≠ 0
    · simp [check_trust, hlid, hrd, check_trust_core, hnot, hexp, do_check,
        hk, hu, hv, hrev]
    · simp [check_trust, hlid, hrd, check_trust_core, hnot, hexp, do_check,
        hk, hu, hv, hrev]

/-- Witness for C1 amended at a concrete store, exercising the evaluator
branch with DIRF_REVOKED set: the undefined level comes back with the
revoked overlay OR'd in. -/
theorem claim1_witness :
    (10 : Nat) ≤ 100 ∧
    check_trust
        { recs := [(1, Rec.dir { lid := 1, keylist := 5, uidlist := 6,
                                 ownertrust := 0, dirflags := DIRF_REVOKED }),
                   (6, Rec.uid { lid := 1, next := 0, prefrec := 0,
                                 siglist := 0, uidflags := 0, namehash := [] })],
          nextRec := 7, dirty := false } [] 1 3
        (fun _ _ => Except.error 1)
        { local_id := 1, timestamp := 10, expiredate := 0,
          fingerprint := [], pubkey_algo := 1, keyid := (0, 0) } 100 =
      some (Except.ok (if DIRF_REVOKED &&& DIRF_REVOKED ≠ 0
                       then TRUST_UNDEFINED ||| TRUST_FLAG_REVOKED
                       else TRUST_UNDEFINED),
        { recs := [(1, Rec.dir { lid := 1, keylist := 5, uidlist := 6,
                                 ownertrust := 0, dirflags := DIRF_REVOKED }),
                   (6, Rec.uid { lid := 1, next := 0, prefrec := 0,
                                 siglist := 0, uidflags := 0, namehash := [] })],
          nextRec := 7, dirty := false }) :=
  ⟨by decide,
   (claim1_check_trust_amended
      { recs := [(1, Rec.dir { lid := 1, keylist := 5, uidlist := 6,
                               ownertrust := 0, dirflags := DIRF_REVOKED }),
                 (6, Rec.uid { lid := 1, next := 0, prefrec := 0, siglist := 0,
                               uidflags := 0, namehash := [] })],
        nextRec := 7, dirty := false } [] 1 3 (fun _ _ => Except.error 1)
      { local_id := 1, timestamp := 10, expiredate := 0, fingerprint := [],
        pubkey_algo := 1, keyid := (0, 0) } 100
      { lid := 1, keylist := 5, uidlist := 6, ownertrust := 0,
        dirflags := DIRF_REVOKED }
      (by decide) (by decide)).2.2 TRUST_UNDEFINED (by decide)
     (Or.inl (by decide)) (by decide) (by decide) (by decide)⟩

/-! ## Claim C9: the modified output of update_trust_record

trustdb.c line 2522 stores 0 through the modified output parameter when
the pass left the database dirty; the intended value, counted as
"updated" by check_trustdb and update_trustdb, is non-zero.  As written
the modified output is 0 on every successful run, whether or not
records changed. -/

/-- The external collaborators for the C9 run (never consulted: the
keyblock has no uid or signature node). -/
def c9ExtW : Ext :=
  { rmd160 := fun _ => [], checkKeySig := fun _ _ => 0,
    getPubkey := fun _ => none }

/-- The dir record of the C9 store. -/
def c9DirW : DirRec :=
  { lid := 1, keylist := 2, uidlist := 0, ownertrust := 0, dirflags := 0 }

/-- The stale key record of the C9 store: its fingerprint is not in the
keyblock, so the pass deletes it. -/
def c9KeyOldW : KeyRec :=
  { lid := 1, next := 0, pubkey_algo := 17, fingerprint := [1] }

/-- The C9 store: a dir whose key chain holds one stale key record. -/
def c9StoreW : Store :=
  { recs := [(1, Rec.dir c9DirW), (2, Rec.key c9KeyOldW)],
    nextRec := 3, dirty := false }

/-- The primary key packet of the C9 keyblock; its fingerprint is new to
the trust database, so the pass inserts a key record for it. -/
def c9PkW : PubKeyPkt :=
  { fingerprint := [2], pubkey_algo := 17, keyid := (0, 0), local_id := 1 }

def c9KBW : KeyBlock := [KBNode.publicKey c9PkW]

/-- The dir record after the C9 run: the key chain now heads at the
inserted record 3. -/
def c9FinalDirW : DirRec :=
  { lid := 1, keylist := 3, uidlist := 0, ownertrust := 0, dirflags := 0 }

/-- The key record the C9 run inserts for the keyblock's fingerprint. -/
def c9KeyNewW : KeyRec :=
  { lid := 1, next := 0, pubkey_algo := 17, fingerprint := [2] }

/-- The store after the C9 run: the stale key record is gone, the new
one is inserted, and the dirty flag records that the pass wrote. -/
def c9FinalW : Store :=
  { recs := [(1, Rec.dir c9FinalDirW), (3, Rec.key c9KeyNewW)],
    nextRec := 4, dirty := true }

/-- C9 is a code bug: every successful update_trust_record run reports
modified = 0 (the dirty test at line 2521 stores 0, not 1), and on the
concrete C9 input the pass succeeds, rewrites the key chain, leaves the
store dirty — and still reports modified = 0, so the batch drivers
would never count the key as updated. -/
theorem claim9_update_trust_record_modified_stuck :
    (∀ (ext : Ext) (st : Store) (kb : KeyBlock) (rc : Int) (m : Nat)
      (st' : Store), update_trust_record ext st kb = some (rc, m, st') →
        m = 0) ∧
    (∃ st' : Store,
      update_trust_record c9ExtW c9StoreW c9KBW = some (0, 0, st') ∧
      st'.dirty = true ∧ lookupRec st' 3 ≠ lookupRec c9StoreW 3) := by
  constructor
  · intro ext st kb rc m st' h
    simp only [update_trust_record, ite_self] at h
    cases hf : find_kbnode_pk kb with
    | none => simp only [hf] at h; exact Option.noConfusion h
    | some primary =>
      simp only [hf] at h
      cases hg : get_dir_record_pkt st primary with
      | none => simp only [hg] at h; exact Option.noConfusion h
      | some og =>
        cases og with
        | none =>
          simp only [hg, Option.some.injEq, Prod.mk.injEq] at h
          exact h.2.1.symm
        | some p =>
          obtain ⟨rn, drec⟩ := p
          simp only [hg] at h
          cases hu : utrNodes ext kb primary.keyid (withIdx kb 0)
              { st := { st with dirty := false }, drec := drec, drecRn := rn,
                drecDirty := false, recnoList := [], uidrecno := 0,
                uidhash := [] } with
          | none => simp only [hu] at h; exact Option.noConfusion h
          | some s1 =>
            simp only [hu] at h
            cases hd1 : delKeyPass s1.recnoList (s1.st.nextRec + 1) s1.st
                s1.drec s1.drecDirty 0 s1.drec.keylist with
            | none => simp only [hd1] at h; exact Option.noConfusion h
            | some t2 =>
              obtain ⟨st2, drec2, dd2⟩ := t2
              simp only [hd1] at h
              cases hd2 : delUidPass s1.recnoList (st2.nextRec + 1) st2
                  drec2 dd2 0 drec2.uidlist with
              | none => simp only [hd2] at h; exact Option.noConfusion h
              | some t3 =>
                obtain ⟨st3, drec3, dd3⟩ := t3
                simp only [hd2, Option.some.injEq, Prod.mk.injEq] at h
                exact h.2.1.symm
  · refine ⟨c9FinalW, by rfl, rfl, by decide⟩

/-- Witness for C9: the general conjunct applied at the concrete C9 run. -/
theorem claim9_witness :
    update_trust_record c9ExtW c9StoreW c9KBW = some (0, 0, c9FinalW) ∧
    (0 : Nat) = 0 :=
  ⟨by rfl, claim9_update_trust_record_modified_stuck.1 c9ExtW c9StoreW c9KBW
    0 0 c9FinalW (by rfl)⟩

/-! ## Claim C5: chain collectors

The on-disk chains as lists: a collector returns some exactly when the
walk reaches the terminating 0 within the fuel; a cyclic chain never
terminates and yields none at every fuel. -/

def keyChainL (st : Store) : Nat → Nat → Option (List (Nat × KeyRec))
  | _, 0 => some []
  | 0, _ + 1 => none
  | fuel + 1, rn + 1 =>
    match readKey st (rn + 1) with
    | none => none
    | some k => (keyChainL st fuel k.next).map ((rn + 1, k) :: ·)

def uidChainL (st : Store) : Nat → Nat → Option (List (Nat × UidRec))
  | _, 0 => some []
  | 0, _ + 1 => none
  | fuel + 1, rn + 1 =>
    match readUid st (rn + 1) with
    | none => none
    | some u => (uidChainL st fuel u.next).map ((rn + 1, u) :: ·)

def prefChainRns (st : Store) : Nat → Nat → Option (List Nat)
  | _, 0 => some []
  | 0, _ + 1 => none
  | fuel + 1, rn + 1 =>
    match readPref st (rn + 1) with
    | none => none
    | some p => (prefChainRns st fuel p.next).map ((rn + 1) :: ·)

def sigChainRns (st : Store) : Nat → Nat → Option (List Nat)
  | _, 0 => some []
  | 0, _ + 1 => none
  | fuel + 1, rn + 1 =>
    match readSig st (rn + 1) with
    | none => none
    | some sg => (sigChainRns st fuel sg.next).map ((rn + 1) :: ·)

theorem keyChainL_mono {st : Store} :
    ∀ {f h : Nat} {l : List (Nat × KeyRec)},
      keyChainL st f h = some l → keyChainL st (f + 1) h = some l := by
  intro f
  induction f with
  | zero =>
    intro h l hc
    cases h with
    | zero => cases hc; rfl
    | succ rn => cases hc
  | succ f ih =>
    intro h l hc
    cases h with
    | zero => cases hc; rfl
    | succ rn =>
      simp only [keyChainL] at hc ⊢
      cases hk : readKey st (rn + 1) with
      | none => rw [hk] at hc; cases hc
      | some k =>
        simp only [hk, Option.map_eq_some'] at hc
        obtain ⟨t, ht, rfl⟩ := hc
        simp only [hk, ih ht, Option.map_some']

theorem uidChainL_mono {st : Store} :
    ∀ {f h : Nat} {l : List (Nat × UidRec)},
      uidChainL st f h = some l → uidChainL st (f + 1) h = some l := by
  intro f
  induction f with
  | zero =>
    intro h l hc
    cases h with
    | zero => cases hc; rfl
    | succ rn => cases hc
  | succ f ih =>
    intro h l hc
    cases h with
    | zero => cases hc; rfl
    | succ rn =>
      simp only [uidChainL] at hc ⊢
      cases hk : readUid st (rn + 1) with
      | none => rw [hk] at hc; cases hc
      | some u =>
        simp only [hk, Option.map_eq_some'] at hc
        obtain ⟨t, ht, rfl⟩ := hc
        simp only [hk, ih ht, Option.map_some']

theorem prefChainRns_mono {st : Store} :
    ∀ {f h : Nat} {l : List Nat},
      prefChainRns st f h = some l → prefChainRns st (f + 1) h = some l := by
  intro f
  induction f with
  | zero =>
    intro h l hc
    cases h with
    | zero => cases hc; rfl
    | succ rn => cases hc
  | succ f ih =>
    intro h l hc
    cases h with
    | zero => cases hc; rfl
    | succ rn =>
      simp only [prefChainRns] at hc ⊢
      cases hk : readPref st (rn + 1) with
      | none => rw [hk] at hc; cases hc
      | some p =>
        simp only [hk, Option.map_eq_some'] at hc
        obtain ⟨t, ht, rfl⟩ := hc
        simp only [hk, ih ht, Option.map_some']

theorem sigChainRns_mono {st : Store} :
    ∀ {f h : Nat} {l : List Nat},
      sigChainRns st f h = some l → sigChainRns st (f + 1) h = some l := by
  intro f
  induction f with
  | zero =>
    intro h l hc
    cases h with
    | zero => cases hc; rfl
    | succ rn => cases hc
  | succ f ih =>
    intro h l hc
    cases h with
    | zero => cases hc; rfl
    | succ rn =>
      simp only [sigChainRns] at hc ⊢
      cases hk : readSig st (rn + 1) with
      | none => rw [hk] at hc; cases hc
      | some sg =>
        simp only [hk, Option.map_eq_some'] at hc
        obtain ⟨t, ht, rfl⟩ := hc
        simp only [hk, ih ht, Option.map_some']

theorem keyChainL_le {st : Store} {f f' h : Nat} {l : List (Nat × KeyRec)}
    (hle : f ≤ f') (hc : keyChainL st f h = some l) :
    keyChainL st f' h = some l := by
  induction f' with
  | zero =>
    have he : f = 0 := by omega
    subst he
    exact hc
  | succ f' ih =>
    by_cases he : f = f' + 1
    · subst he
      exact hc
    · exact keyChainL_mono (ih (by omega))

theorem uidChainL_le {st : Store} {f f' h : Nat} {l : List (Nat × UidRec)}
    (hle : f ≤ f') (hc : uidChainL st f h = some l) :
    uidChainL st f' h = some l := by
  induction f' with
  | zero =>
    have he : f = 0 := by omega
    subst he
    exact hc
  | succ f' ih =>
    by_cases he : f = f' + 1
    · subst he
      exact hc
    · exact uidChainL_mono (ih (by omega))

theorem prefChainRns_le {st : Store} {f f' h : Nat} {l : List Nat}
    (hle : f ≤ f') (hc : prefChainRns st f h = some l) :
    prefChainRns st f' h = some l := by
  induction f' with
  | zero =>
    have he : f = 0 := by omega
    subst he
    exact hc
  | succ f' ih =>
    by_cases he : f = f' + 1
    · subst he
      exact hc
    · exact prefChainRns_mono (ih (by omega))

theorem sigChainRns_le {st : Store} {f f' h : Nat} {l : List Nat}
    (hle : f ≤ f') (hc : sigChainRns st f h = some l) :
    sigChainRns st f' h = some l := by
  induction f' with
  | zero =>
    have he : f = 0 := by omega
    subst he
    exact hc
  | succ f' ih =>
    by_cases he : f = f' + 1
    · subst he
      exact hc
    · exact sigChainRns_mono (ih (by omega))

theorem keyChainL_mem {st : Store} :
    ∀ {f h : Nat} {l : List (Nat × KeyRec)}, keyChainL st f h = some l →
      ∀ p ∈ l, readKey st p.1 = some p.2 := by
  intro f
  induction f with
  | zero =>
    intro h l hc p hp
    cases h with
    | zero => cases hc; cases hp
    | succ rn => cases hc
  | succ f ih =>
    intro h l hc p hp
    cases h with
    | zero => cases hc; cases hp
    | succ rn =>
      simp only [keyChainL] at hc
      cases hk : readKey st (rn + 1) with
      | none => rw [hk] at hc; cases hc
      | some k =>
        simp only [hk, Option.map_eq_some'] at hc
        obtain ⟨t, ht, rfl⟩ := hc
        rcases List.mem_cons.mp hp with hp | hp
        · subst hp
          exact hk
        · exact ih ht p hp

theorem uidChainL_mem {st : Store} :
    ∀ {f h : Nat} {l : List (Nat × UidRec)}, uidChainL st f h = some l →
      ∀ p ∈ l, readUid st p.1 = some p.2 := by
  intro f
  induction f with
  | zero =>
    intro h l hc p hp
    cases h with
    | zero => cases hc; cases hp
    | succ rn => cases hc
  | succ f ih =>
    intro h l hc p hp
    cases h with
    | zero => cases hc; cases hp
    | succ rn =>
      simp only [uidChainL] at hc
      cases hk : readUid st (rn + 1) with
      | none => rw [hk] at hc; cases hc
      | some u =>
        simp only [hk, Option.map_eq_some'] at hc
        obtain ⟨t, ht, rfl⟩ := hc
        rcases List.mem_cons.mp hp with hp | hp
        · subst hp
          exact hk
        · exact ih ht p hp

theorem prefChainRns_mem {st : Store} :
    ∀ {f h : Nat} {l : List Nat}, prefChainRns st f h = some l →
      ∀ q ∈ l, ∃ p, readPref st q = some p := by
  intro f
  induction f with
  | zero =>
    intro h l hc q hq
    cases h with
    | zero => cases hc; cases hq
    | succ rn => cases hc
  | succ f ih =>
    intro h l hc q hq
    cases h with
    | zero => cases hc; cases hq
    | succ rn =>
      simp only [prefChainRns] at hc
      cases hk : readPref st (rn + 1) with
      | none => rw [hk] at hc; cases hc
      | some p =>
        simp only [hk, Option.map_eq_some'] at hc
        obtain ⟨t, ht, rfl⟩ := hc
        rcases List.mem_cons.mp hq with hq | hq
        · subst hq
          exact ⟨p, hk⟩
        · exact ih ht q hq

theorem sigChainRns_mem {st : Store} :
    ∀ {f h : Nat} {l : List Nat}, sigChainRns st f h = some l →
      ∀ q ∈ l, ∃ sg, readSig st q = some sg := by
  intro f
  induction f with
  | zero =>
    intro h l hc q hq
    cases h with
    | zero => cases hc; cases hq
    | succ rn => cases hc
  | succ f ih =>
    intro h l hc q hq
    cases h with
    | zero => cases hc; cases hq
    | succ rn =>
      simp only [sigChainRns] at hc
      cases hk : readSig st (rn + 1) with
      | none => rw [hk] at hc; cases hc
      | some sg =>
        simp only [hk, Option.map_eq_some'] at hc
        obtain ⟨t, ht, rfl⟩ := hc
        rcases List.mem_cons.mp hq with hq | hq
        · subst hq
          exact ⟨sg, hk⟩
        · exact ih ht q hq

theorem keyChainL_congr {st st' : Store} :
    ∀ {f h : Nat} {l : List (Nat × KeyRec)}, keyChainL st f h = some l →
      (∀ p ∈ l, lookupRec st' p.1 = lookupRec st p.1) →
      keyChainL st' f h = some l := by
  intro f
  induction f with
  | zero =>
    intro h l hc _
    cases h with
    | zero => exact hc
    | succ rn => cases hc
  | succ f ih =>
    intro h l hc hpres
    cases h with
    | zero => exact hc
    | succ rn =>
      simp only [keyChainL] at hc ⊢
      cases hk : readKey st (rn + 1) with
      | none => rw [hk] at hc; cases hc
      | some k =>
        simp only [hk, Option.map_eq_some'] at hc
        obtain ⟨t, ht, rfl⟩ := hc
        have hl : lookupRec st' (rn + 1) = lookupRec st (rn + 1) :=
          hpres (rn + 1, k) (by simp)
        have hk' : readKey st' (rn + 1) = some k := by
          simp only [readKey, hl]
          exact hk
        simp only [hk',
          ih ht (fun p hp => hpres p (List.mem_cons_of_mem _ hp)),
          Option.map_some']

theorem uidChainL_congr {st st' : Store} :
    ∀ {f h : Nat} {l : List (Nat × UidRec)}, uidChainL st f h = some l →
      (∀ p ∈ l, lookupRec st' p.1 = lookupRec st p.1) →
      uidChainL st' f h = some l := by
  intro f
  induction f with
  | zero =>
    intro h l hc _
    cases h with
    | zero => exact hc
    | succ rn => cases hc
  | succ f ih =>
    intro h l hc hpres
    cases h with
    | zero => exact hc
    | succ rn =>
      simp only [uidChainL] at hc ⊢
      cases hk : readUid st (rn + 1) with
      | none => rw [hk] at hc; cases hc
      | some u =>
        simp only [hk, Option.map_eq_some'] at hc
        obtain ⟨t, ht, rfl⟩ := hc
        have hl : lookupRec st' (rn + 1) = lookupRec st (rn + 1) :=
          hpres (rn + 1, u) (by simp)
        have hk' : readUid st' (rn + 1) = some u := by
          simp only [readUid, hl]
          exact hk
        simp only [hk',
          ih ht (fun p hp => hpres p (List.mem_cons_of_mem _ hp)),
          Option.map_some']

theorem prefChainRns_congr {st st' : Store} :
    ∀ {f h : Nat} {l : List Nat}, prefChainRns st f h = some l →
      (∀ q ∈ l, lookupRec st' q = lookupRec st q) →
      prefChainRns st' f h = some l := by
  intro f
  induction f with
  | zero =>
    intro h l hc _
    cases h with
    | zero => exact hc
    | succ rn => cases hc
  | succ f ih =>
    intro h l hc hpres
    cases h with
    | zero => exact hc
    | succ rn =>
      simp only [prefChainRns] at hc ⊢
      cases hk : readPref st (rn + 1) with
      | none => rw [hk] at hc; cases hc
      | some p =>
        simp only [hk, Option.map_eq_some'] at hc
        obtain ⟨t, ht, rfl⟩ := hc
        have hl : lookupRec st' (rn + 1) = lookupRec st (rn + 1) :=
          hpres (rn + 1) (by simp)
        have hk' : readPref st' (rn + 1) = some p := by
          simp only [readPref, hl]
          exact hk
        simp only [hk',
          ih ht (fun q hq => hpres q (List.mem_cons_of_mem _ hq)),
          Option.map_some']

theorem sigChainRns_congr {st st' : Store} :
    ∀ {f h : Nat} {l : List Nat}, sigChainRns st f h = some l →
      (∀ q ∈ l, lookupRec st' q = lookupRec st q) →
      sigChainRns st' f h = some l := by
  intro f
  induction f with
  | zero =>
    intro h l hc _
    cases h with
    | zero => exact hc
    | succ rn => cases hc
  | succ f ih =>
    intro h l hc hpres
    cases h with
    | zero => exact hc
    | succ rn =>
      simp only [sigChainRns] at hc ⊢
      cases hk : readSig st (rn + 1) with
      | none => rw [hk] at hc; cases hc
      | some sg =>
        simp only [hk, Option.map_eq_some'] at hc
        obtain ⟨t, ht, rfl⟩ := hc
        have hl : lookupRec st' (rn + 1) = lookupRec st (rn + 1) :=
          hpres (rn + 1) (by simp)
        have hk' : readSig st' (rn + 1) = some sg := by
          simp only [readSig, hl]
          exact hk
        simp only [hk',
          ih ht (fun q hq => hpres q (List.mem_cons_of_mem _ hq)),
          Option.map_some']

/-- Every allocated recnum lies below the allocation point (the
tdbio_new_recnum discipline). -/
def GB (st : Store) : Prop := ∀ q r, lookupRec st q = some r → q < st.nextRec

theorem GB_write {st : Store} (h : GB st) {q : Nat} (hq : q < st.nextRec)
    (r : Rec) : GB (writeRec st q r) := by
  intro m r' hm
  by_cases he : m = q
  · subst he
    exact hq
  · rw [lookupRec_writeRec_other st q m r he] at hm
    exact h m r' hm

theorem GB_delete {st : Store} (h : GB st) (q : Nat) : GB (deleteRec st q) := by
  intro m r' hm
  by_cases he : m = q
  · subst he
    rw [lookupRec_deleteRec_self] at hm
    cases hm
  · rw [lookupRec_deleteRec_other st q m he] at hm
    exact h m r' hm

theorem GB_bump {st : Store} (h : GB st) {v : Nat} (hv : st.nextRec ≤ v) :
    GB { st with nextRec := v } := by
  intro m r' hm
  rw [lookupRec_nextRec_irrel] at hm
  have := h m r' hm
  simpa using by omega

/-- The fingerprint scan returns the first chain entry carrying the
fingerprint (or reports absence). -/
theorem findKeyByFpr_spec {st : Store} (fpr : List Nat) :
    ∀ {f h : Nat} {l : List (Nat × KeyRec)}, keyChainL st f h = some l →
      findKeyByFpr st fpr f h =
        some ((l.find? (fun p => p.2.fingerprint == fpr)).map Prod.fst) := by
  intro f
  induction f with
  | zero =>
    intro h l hc
    cases h with
    | zero => cases hc; rfl
    | succ rn => cases hc
  | succ f ih =>
    intro h l hc
    cases h with
    | zero => cases hc; rfl
    | succ rn =>
      simp only [keyChainL] at hc
      cases hk : readKey st (rn + 1) with
      | none => rw [hk] at hc; cases hc
      | some k =>
        simp only [hk, Option.map_eq_some'] at hc
        obtain ⟨t, ht, rfl⟩ := hc
        simp only [findKeyByFpr, hk]
        by_cases hf : k.fingerprint = fpr
        · rw [if_pos hf]
          rw [List.find?_cons_of_pos _ (by simpa using hf)]
          rfl
        · rw [if_neg hf]
          rw [List.find?_cons_of_neg _ (by simpa using hf)]
          exact ih ht

/-- The namehash scan returns the first chain entry carrying the hash. -/
theorem findUidByHash_spec {st : Store} (hash : List Nat) :
    ∀ {f h : Nat} {l : List (Nat × UidRec)}, uidChainL st f h = some l →
      findUidByHash st hash f h =
        some ((l.find? (fun p => p.2.namehash == hash)).map Prod.fst) := by
  intro f
  induction f with
  | zero =>
    intro h l hc
    cases h with
    | zero => cases hc; rfl
    | succ rn => cases hc
  | succ f ih =>
    intro h l hc
    cases h with
    | zero => cases hc; rfl
    | succ rn =>
      simp only [uidChainL] at hc
      cases hk : readUid st (rn + 1) with
      | none => rw [hk] at hc; cases hc
      | some u =>
        simp only [hk, Option.map_eq_some'] at hc
        obtain ⟨t, ht, rfl⟩ := hc
        simp only [findUidByHash, hk]
        by_cases hf : u.namehash = hash
        · rw [if_pos hf]
          rw [List.find?_cons_of_pos _ (by simpa using hf)]
          rfl
        · rw [if_neg hf]
          rw [List.find?_cons_of_neg _ (by simpa using hf)]
          exact ih ht

/-- A chain's last record carries next = 0. -/
theorem keyChainL_last_next {st : Store} :
    ∀ {f h : Nat} {l : List (Nat × KeyRec)}, keyChainL st f h = some l →
      ∀ hne : l ≠ [], (l.getLast hne).2.next = 0 := by
  intro f
  induction f with
  | zero =>
    intro h l hc hne
    cases h with
    | zero => cases hc; exact absurd rfl hne
    | succ rn => cases hc
  | succ f ih =>
    intro h l hc hne
    cases h with
    | zero => cases hc; exact absurd rfl hne
    | succ rn =>
      simp only [keyChainL] at hc
      cases hk : readKey st (rn + 1) with
      | none => rw [hk] at hc; cases hc
      | some k =>
        simp only [hk, Option.map_eq_some'] at hc
        obtain ⟨t, ht, rfl⟩ := hc
        revert hne
        cases t with
        | nil =>
          intro hne
          cases hnx : k.next with
          | zero => simp [List.getLast, hnx]
          | succ m =>
            rw [hnx] at ht
            cases f with
            | zero => cases ht
            | succ f' =>
              simp only [keyChainL] at ht
              cases hk2 : readKey st (m + 1) with
              | none => rw [hk2] at ht; cases ht
              | some k2 =>
                simp only [hk2, Option.map_eq_some'] at ht
                obtain ⟨t2, _, ht2⟩ := ht
                cases ht2
        | cons a t' =>
          intro hne
          rw [List.getLast_cons (by simp)]
          exact ih ht (by simp)

theorem uidChainL_last_next {st : Store} :
    ∀ {f h : Nat} {l : List (Nat × UidRec)}, uidChainL st f h = some l →
      ∀ hne : l ≠ [], (l.getLast hne).2.next = 0 := by
  intro f
  induction f with
  | zero =>
    intro h l hc hne
    cases h with
    | zero => cases hc; exact absurd rfl hne
    | succ rn => cases hc
  | succ f ih =>
    intro h l hc hne
    cases h with
    | zero => cases hc; exact absurd rfl hne
    | succ rn =>
      simp only [uidChainL] at hc
      cases hk : readUid st (rn + 1) with
      | none => rw [hk] at hc; cases hc
      | some u =>
        simp only [hk, Option.map_eq_some'] at hc
        obtain ⟨t, ht, rfl⟩ := hc
        revert hne
        cases t with
        | nil =>
          intro hne
          cases hnx : u.next with
          | zero => simp [List.getLast, hnx]
          | succ m =>
            rw [hnx] at ht
            cases f with
            | zero => cases ht
            | succ f' =>
              simp only [uidChainL] at ht
              cases hk2 : readUid st (m + 1) with
              | none => rw [hk2] at ht; cases ht
              | some u2 =>
                simp only [hk2, Option.map_eq_some'] at ht
                obtain ⟨t2, _, ht2⟩ := ht
                cases ht2
        | cons a t' =>
          intro hne
          rw [List.getLast_cons (by simp)]
          exact ih ht (by simp)

theorem keyChainL_zero (st : Store) (f : Nat) : keyChainL st f 0 = some [] := by
  cases f <;> rfl

theorem uidChainL_zero (st : Store) (f : Nat) : uidChainL st f 0 = some [] := by
  cases f <;> rfl

theorem keyChainL_pos {st : Store} {f rn : Nat} {l : List (Nat × KeyRec)}
    (hc : keyChainL st f (rn + 1) = some l) : l ≠ [] := by
  cases f with
  | zero => cases hc
  | succ f =>
    simp only [keyChainL] at hc
    cases hk : readKey st (rn + 1) with
    | none => rw [hk] at hc; cases hc
    | some k =>
      simp only [hk, Option.map_eq_some'] at hc
      obtain ⟨t, _, rfl⟩ := hc
      simp

theorem uidChainL_pos {st : Store} {f rn : Nat} {l : List (Nat × UidRec)}
    (hc : uidChainL st f (rn + 1) = some l) : l ≠ [] := by
  cases f with
  | zero => cases hc
  | succ f =>
    simp only [uidChainL] at hc
    cases hk : readUid st (rn + 1) with
    | none => rw [hk] at hc; cases hc
    | some u =>
      simp only [hk, Option.map_eq_some'] at hc
      obtain ⟨t, _, rfl⟩ := hc
      simp

/-- The last-record walk reaches the chain's last entry. -/
theorem lastKeyRec_spec {st : Store} :
    ∀ {f h : Nat} {l : List (Nat × KeyRec)}, keyChainL st f h = some l →
      ∀ hne : l ≠ [], lastKeyRec st f h = some (l.getLast hne) := by
  intro f
  induction f with
  | zero =>
    intro h l hc hne
    cases h with
    | zero => cases hc; exact absurd rfl hne
    | succ rn => cases hc
  | succ f ih =>
    intro h l hc hne
    cases h with
    | zero => cases hc; exact absurd rfl hne
    | succ rn =>
      simp only [keyChainL] at hc
      cases hk : readKey st (rn + 1) with
      | none => rw [hk] at hc; cases hc
      | some k =>
        simp only [hk, Option.map_eq_some'] at hc
        obtain ⟨t, ht, rfl⟩ := hc
        simp only [lastKeyRec, hk]
        cases hnx : k.next with
        | zero =>
          rw [hnx, keyChainL_zero] at ht
          cases ht
          rw [if_pos rfl]
          simp [List.getLast]
        | succ m =>
          rw [if_neg (by omega)]
          rw [hnx] at ht
          have htne : t ≠ [] := keyChainL_pos ht
          revert hne
          cases t with
          | nil => intro hne; exact absurd rfl htne
          | cons a t' =>
            intro hne
            rw [List.getLast_cons (by simp)]
            exact ih ht (by simp)

theorem lastUidRec_spec {st : Store} :
    ∀ {f h : Nat} {l : List (Nat × UidRec)}, uidChainL st f h = some l →
      ∀ hne : l ≠ [], lastUidRec st f h = some (l.getLast hne) := by
  intro f
  induction f with
  | zero =>
    intro h l hc hne
    cases h with
    | zero => cases hc; exact absurd rfl hne
    | succ rn => cases hc
  | succ f ih =>
    intro h l hc hne
    cases h with
    | zero => cases hc; exact absurd rfl hne
    | succ rn =>
      simp only [uidChainL] at hc
      cases hk : readUid st (rn + 1) with
      | none => rw [hk] at hc; cases hc
      | some u =>
        simp only [hk, Option.map_eq_some'] at hc
        obtain ⟨t, ht, rfl⟩ := hc
        simp only [lastUidRec, hk]
        cases hnx : u.next with
        | zero =>
          rw [hnx, uidChainL_zero] at ht
          cases ht
          rw [if_pos rfl]
          simp [List.getLast]
        | succ m =>
          rw [if_neg (by omega)]
          rw [hnx] at ht
          have htne : t ≠ [] := uidChainL_pos ht
          revert hne
          cases t with
          | nil => intro hne; exact absurd rfl htne
          | cons a t' =>
            intro hne
            rw [List.getLast_cons (by simp)]
            exact ih ht (by simp)

/-- Appending a fresh key record: write the new record at the fresh
recnum and point the old last record's next at it.  The chain becomes
the old chain with the last record relinked, followed by the new
entry. -/
theorem keyChainL_append {st : Store} {nrn : Nat} {krec : KeyRec}
    (hknext : krec.next = 0) (hnz : nrn ≠ 0) :
    ∀ {f h : Nat} {l : List (Nat × KeyRec)},
      keyChainL st f h = some l →
      (l.map Prod.fst).Nodup →
      (∀ p ∈ l, p.1 ≠ nrn) →
      ∀ hne : l ≠ [],
      keyChainL
          (writeRec (writeRec st nrn (Rec.key krec)) (l.getLast hne).1
            (Rec.key { (l.getLast hne).2 with next := nrn })) (f + 1) h =
        some (l.dropLast ++
          [((l.getLast hne).1, { (l.getLast hne).2 with next := nrn }),
           (nrn, krec)]) := by
  intro f
  induction f with
  | zero =>
    intro h l hc _ _ hne
    cases h with
    | zero => cases hc; exact absurd rfl hne
    | succ rn => cases hc
  | succ f ih =>
    intro h l hc hnd hfr hne
    cases h with
    | zero => cases hc; exact absurd rfl hne
    | succ rn =>
      simp only [keyChainL] at hc
      cases hk : readKey st (rn + 1) with
      | none => rw [hk] at hc; cases hc
      | some k =>
        simp only [hk, Option.map_eq_some'] at hc
        obtain ⟨t, ht, rfl⟩ := hc
        have hrnr : rn + 1 ≠ nrn := hfr (rn + 1, k) (by simp)
        revert hne
        cases t with
        | nil =>
          intro hne
          cases hnn : nrn with
          | zero => exact absurd hnn hnz
          | succ m2 =>
            subst hnn
            have hr1 : readKey
                (writeRec (writeRec st (m2 + 1) (Rec.key krec)) (rn + 1)
                  (Rec.key { k with next := m2 + 1 })) (rn + 1) =
                some { k with next := m2 + 1 } := by
              simp [readKey, lookupRec_writeRec_self]
            have hr2 : readKey
                (writeRec (writeRec st (m2 + 1) (Rec.key krec)) (rn + 1)
                  (Rec.key { k with next := m2 + 1 })) (m2 + 1) =
                some krec := by
              rw [readKey, lookupRec_writeRec_other _ _ _ _ (Ne.symm hrnr),
                lookupRec_writeRec_self]
            show keyChainL
                (writeRec (writeRec st (m2 + 1) (Rec.key krec)) (rn + 1)
                  (Rec.key { k with next := m2 + 1 })) (f + 1 + 1) (rn + 1) =
              some [(rn + 1, { k with next := m2 + 1 }), (m2 + 1, krec)]
            simp only [keyChainL, hr1, hr2, hknext, keyChainL_zero,
              Option.map_some']
        | cons a t' =>
          intro hne
          have htne : (a :: t') ≠ [] := by simp
          have hglast : ((rn + 1, k) :: a :: t').getLast hne =
              (a :: t').getLast htne := List.getLast_cons htne
          have hdrop : ((rn + 1, k) :: a :: t').dropLast =
              (rn + 1, k) :: (a :: t').dropLast := by
            simp
          have hnd' : ((a :: t').map Prod.fst).Nodup := by
            simp only [List.map_cons, List.nodup_cons] at hnd ⊢
            exact ⟨hnd.2.1, hnd.2.2⟩
          have hmem : rn + 1 ∉ ((a :: t').map Prod.fst) := by
            simp only [List.map_cons, List.nodup_cons] at hnd
            exact hnd.1
          have hih := ih ht hnd'
            (fun p hp => hfr p (List.mem_cons_of_mem _ hp)) htne
          rw [hglast, hdrop]
          have hlmem : ((a :: t').getLast htne).1 ∈
              ((a :: t').map Prod.fst) :=
            List.mem_map_of_mem Prod.fst (List.getLast_mem htne)
          have hr1 : readKey
              (writeRec (writeRec st nrn (Rec.key krec))
                ((a :: t').getLast htne).1
                (Rec.key { ((a :: t').getLast htne).2 with next := nrn }))
              (rn + 1) = some k := by
            rw [readKey, lookupRec_writeRec_other _ _ _ _
              (fun he => hmem (by rw [he]; exact hlmem)),
              lookupRec_writeRec_other _ _ _ _ hrnr]
            exact hk
          simp only [keyChainL, hr1, hih, Option.map_some']
          simp

/-- Appending a fresh uid record: write the new record at the fresh
recnum and point the old last record's next at it.  The chain becomes
the old chain with the last record relinked, followed by the new
entry. -/
theorem uidChainL_append {st : Store} {nrn : Nat} {urecn : UidRec}
    (hknext : urecn.next = 0) (hnz : nrn ≠ 0) :
    ∀ {f h : Nat} {l : List (Nat × UidRec)},
      uidChainL st f h = some l →
      (l.map Prod.fst).Nodup →
      (∀ p ∈ l, p.1 ≠ nrn) →
      ∀ hne : l ≠ [],
      uidChainL
          (writeRec (writeRec st nrn (Rec.uid urecn)) (l.getLast hne).1
            (Rec.uid { (l.getLast hne).2 with next := nrn })) (f + 1) h =
        some (l.dropLast ++
          [((l.getLast hne).1, { (l.getLast hne).2 with next := nrn }),
           (nrn, urecn)]) := by
  intro f
  induction f with
  | zero =>
    intro h l hc _ _ hne
    cases h with
    | zero => cases hc; exact absurd rfl hne
    | succ rn => cases hc
  | succ f ih =>
    intro h l hc hnd hfr hne
    cases h with
    | zero => cases hc; exact absurd rfl hne
    | succ rn =>
      simp only [uidChainL] at hc
      cases hk : readUid st (rn + 1) with
      | none => rw [hk] at hc; cases hc
      | some uu =>
        simp only [hk, Option.map_eq_some'] at hc
        obtain ⟨t, ht, rfl⟩ := hc
        have hrnr : rn + 1 ≠ nrn := hfr (rn + 1, uu) (by simp)
        revert hne
        cases t with
        | nil =>
          intro hne
          cases hnn : nrn with
          | zero => exact absurd hnn hnz
          | succ m2 =>
            subst hnn
            have hr1 : readUid
                (writeRec (writeRec st (m2 + 1) (Rec.uid urecn)) (rn + 1)
                  (Rec.uid { uu with next := m2 + 1 })) (rn + 1) =
                some { uu with next := m2 + 1 } := by
              simp [readUid, lookupRec_writeRec_self]
            have hr2 : readUid
                (writeRec (writeRec st (m2 + 1) (Rec.uid urecn)) (rn + 1)
                  (Rec.uid { uu with next := m2 + 1 })) (m2 + 1) =
                some urecn := by
              rw [readUid, lookupRec_writeRec_other _ _ _ _ (Ne.symm hrnr),
                lookupRec_writeRec_self]
            show uidChainL
                (writeRec (writeRec st (m2 + 1) (Rec.uid urecn)) (rn + 1)
                  (Rec.uid { uu with next := m2 + 1 })) (f + 1 + 1) (rn + 1) =
              some [(rn + 1, { uu with next := m2 + 1 }), (m2 + 1, urecn)]
            simp only [uidChainL, hr1, hr2, hknext, uidChainL_zero,
              Option.map_some']
        | cons a t' =>
          intro hne
          have htne : (a :: t') ≠ [] := by simp
          have hglast : ((rn + 1, uu) :: a :: t').getLast hne =
              (a :: t').getLast htne := List.getLast_cons htne
          have hdrop : ((rn + 1, uu) :: a :: t').dropLast =
              (rn + 1, uu) :: (a :: t').dropLast := by
            simp
          have hnd' : ((a :: t').map Prod.fst).Nodup := by
            simp only [List.map_cons, List.nodup_cons] at hnd ⊢
            exact ⟨hnd.2.1, hnd.2.2⟩
          have hmem : rn + 1 ∉ ((a :: t').map Prod.fst) := by
            simp only [List.map_cons, List.nodup_cons] at hnd
            exact hnd.1
          have hih := ih ht hnd'
            (fun p hp => hfr p (List.mem_cons_of_mem _ hp)) htne
          rw [hglast, hdrop]
          have hlmem : ((a :: t').getLast htne).1 ∈
              ((a :: t').map Prod.fst) :=
            List.mem_map_of_mem Prod.fst (List.getLast_mem htne)
          have hr1 : readUid
              (writeRec (writeRec st nrn (Rec.uid urecn))
                ((a :: t').getLast htne).1
                (Rec.uid { ((a :: t').getLast htne).2 with next := nrn }))
              (rn + 1) = some uu := by
            rw [readUid, lookupRec_writeRec_other _ _ _ _
              (fun he => hmem (by rw [he]; exact hlmem)),
              lookupRec_writeRec_other _ _ _ _ hrnr]
            exact hk
          simp only [uidChainL, hr1, hih, Option.map_some']
          simp

/-- Deleting a preference chain removes exactly its records. -/
theorem deletePrefChain_spec :
    ∀ (f : Nat) (st : Store) (h : Nat) (pl : List Nat),
      prefChainRns st f h = some pl → pl.Nodup →
      ∃ st', deletePrefChain st f h = some st' ∧
        st'.nextRec = st.nextRec ∧
        (∀ q ∈ pl, lookupRec st' q = none) ∧
        (∀ q, q ∉ pl → lookupRec st' q = lookupRec st q) := by
  intro f
  induction f with
  | zero =>
    intro st h pl hc hnd
    cases h with
    | zero =>
      cases hc
      exact ⟨st, rfl, rfl, (by intro q hq; cases hq), fun q _ => rfl⟩
    | succ rn => cases hc
  | succ f ih =>
    intro st h pl hc hnd
    cases h with
    | zero =>
      cases hc
      exact ⟨st, rfl, rfl, (by intro q hq; cases hq), fun q _ => rfl⟩
    | succ rn =>
      simp only [prefChainRns] at hc
      cases hk : readPref st (rn + 1) with
      | none => rw [hk] at hc; cases hc
      | some p =>
        simp only [hk, Option.map_eq_some'] at hc
        obtain ⟨t, ht, rfl⟩ := hc
        have hnotin : (rn + 1) ∉ t := (List.nodup_cons.mp hnd).1
        have hnd' : t.Nodup := (List.nodup_cons.mp hnd).2
        have ht' : prefChainRns (deleteRec st (rn + 1)) f p.next = some t :=
          prefChainRns_congr ht
            (fun q hq => lookupRec_deleteRec_other st (rn + 1) q
              (fun he => hnotin (he ▸ hq)))
        obtain ⟨st', hdel, hnr, hgone, hkeep⟩ :=
          ih (deleteRec st (rn + 1)) p.next t ht' hnd'
        refine ⟨st', ?_, ?_, ?_, ?_⟩
        · simp only [deletePrefChain, hk]
          exact hdel
        · rw [hnr]
          rfl
        · intro q hq
          rcases List.mem_cons.mp hq with hq | hq
          · subst hq
            rw [hkeep _ hnotin, lookupRec_deleteRec_self]
          · exact hgone q hq
        · intro q hq
          have hq1 : q ≠ rn + 1 := fun he => hq (he ▸ List.mem_cons_self _ _)
          have hq2 : q ∉ t := fun hin => hq (List.mem_cons_of_mem _ hin)
          rw [hkeep q hq2, lookupRec_deleteRec_other st (rn + 1) q hq1]

/-- Deleting a signature chain removes exactly its records. -/
theorem deleteSigChain_spec :
    ∀ (f : Nat) (st : Store) (h : Nat) (pl : List Nat),
      sigChainRns st f h = some pl → pl.Nodup →
      ∃ st', deleteSigChain st f h = some st' ∧
        st'.nextRec = st.nextRec ∧
        (∀ q ∈ pl, lookupRec st' q = none) ∧
        (∀ q, q ∉ pl → lookupRec st' q = lookupRec st q) := by
  intro f
  induction f with
  | zero =>
    intro st h pl hc hnd
    cases h with
    | zero =>
      cases hc
      exact ⟨st, rfl, rfl, (by intro q hq; cases hq), fun q _ => rfl⟩
    | succ rn => cases hc
  | succ f ih =>
    intro st h pl hc hnd
    cases h with
    | zero =>
      cases hc
      exact ⟨st, rfl, rfl, (by intro q hq; cases hq), fun q _ => rfl⟩
    | succ rn =>
      simp only [sigChainRns] at hc
      cases hk : readSig st (rn + 1) with
      | none => rw [hk] at hc; cases hc
      | some sg =>
        simp only [hk, Option.map_eq_some'] at hc
        obtain ⟨t, ht, rfl⟩ := hc
        have hnotin : (rn + 1) ∉ t := (List.nodup_cons.mp hnd).1
        have hnd' : t.Nodup := (List.nodup_cons.mp hnd).2
        have ht' : sigChainRns (deleteRec st (rn + 1)) f sg.next = some t :=
          sigChainRns_congr ht
            (fun q hq => lookupRec_deleteRec_other st (rn + 1) q
              (fun he => hnotin (he ▸ hq)))
        obtain ⟨st', hdel, hnr, hgone, hkeep⟩ :=
          ih (deleteRec st (rn + 1)) sg.next t ht' hnd'
        refine ⟨st', ?_, ?_, ?_, ?_⟩
        · simp only [deleteSigChain, hk]
          exact hdel
        · rw [hnr]
          rfl
        · intro q hq
          rcases List.mem_cons.mp hq with hq | hq
          · subst hq
            rw [hkeep _ hnotin, lookupRec_deleteRec_self]
          · exact hgone q hq
        · intro q hq
          have hq1 : q ≠ rn + 1 := fun he => hq (he ▸ List.mem_cons_self _ _)
          have hq2 : q ∉ t := fun hin => hq (List.mem_cons_of_mem _ hin)
          rw [hkeep q hq2, lookupRec_deleteRec_other st (rn + 1) q hq1]

/-- upd_key_record when a chain record already carries the packet's
fingerprint: its recnum is retained and nothing else changes. -/
theorem upd_key_record_found {pk : PubKeyPkt} {s : UTState}
    {kcl : List (Nat × KeyRec)} {e : Nat × KeyRec}
    (hkc : keyChainL s.st (s.st.nextRec + 1) s.drec.keylist = some kcl)
    (hfind : kcl.find? (fun p => p.2.fingerprint == pk.fingerprint) =
      some e) :
    upd_key_record pk s =
      some { s with recnoList := (e.1, RECTYPE_KEY) :: s.recnoList } := by
  simp only [upd_key_record, findKeyByFpr_spec pk.fingerprint hkc, hfind,
    Option.map_some']

/-- upd_key_record when the fingerprint is new: a fresh key record is
written and linked at the end of the chain (or made the chain head), and
its recnum is retained. -/
theorem upd_key_record_new {pk : PubKeyPkt} {s : UTState}
    {kcl : List (Nat × KeyRec)}
    (hGB : GB s.st) (h1 : 1 ≤ s.st.nextRec)
    (hkc : keyChainL s.st (s.st.nextRec + 1) s.drec.keylist = some kcl)
    (hnd : (kcl.map Prod.fst).Nodup)
    (hfind : kcl.find? (fun p => p.2.fingerprint == pk.fingerprint) =
      none) :
    ∃ (s' : UTState) (kcl' : List (Nat × KeyRec)),
      upd_key_record pk s = some s' ∧
      s'.drecRn = s.drecRn ∧ s'.uidrecno = s.uidrecno ∧
      s'.uidhash = s.uidhash ∧
      s'.drec.uidlist = s.drec.uidlist ∧
      s'.recnoList = (s.st.nextRec, RECTYPE_KEY) :: s.recnoList ∧
      s'.st.nextRec = s.st.nextRec + 1 ∧ GB s'.st ∧
      keyChainL s'.st (s'.st.nextRec + 1) s'.drec.keylist = some kcl' ∧
      (kcl'.map Prod.fst).Nodup ∧
      kcl'.map (fun p => (p.1, p.2.fingerprint)) =
        kcl.map (fun p => (p.1, p.2.fingerprint)) ++
          [(s.st.nextRec, pk.fingerprint)] ∧
      (∀ q, (∀ p ∈ kcl, q ≠ p.1) → q ≠ s.st.nextRec →
        lookupRec s'.st q = lookupRec s.st q) ∧
      ((s'.drec = s.drec ∧ s'.drecDirty = s.drecDirty) ∨
        s'.drecDirty = true) := by
  have hmemb : ∀ p ∈ kcl, p.1 < s.st.nextRec := by
    intro p hp
    have hr := keyChainL_mem hkc p hp
    simp only [readKey] at hr
    cases hl : lookupRec s.st p.1 with
    | none => rw [hl] at hr; cases hr
    | some r => exact hGB p.1 r hl
  have hfresh : ∀ p ∈ kcl, p.1 ≠ s.st.nextRec := by
    intro p hp he
    have := hmemb p hp
    omega
  have hkc2 : keyChainL (writeRec { s.st with nextRec := s.st.nextRec + 1 }
      s.st.nextRec (Rec.key { lid := s.drecRn, next := 0, pubkey_algo := pk.pubkey_algo, fingerprint := pk.fingerprint }))
      (s.st.nextRec + 1) s.drec.keylist = some kcl := by
    refine keyChainL_congr hkc ?_
    intro p hp
    rw [lookupRec_writeRec_other _ _ _ _ (hfresh p hp)]
    exact lookupRec_nextRec_irrel _ _ _
  cases hkl : s.drec.keylist with
  | zero =>
    rw [hkl, keyChainL_zero] at hkc
    injection hkc with hkc
    subst hkc
    refine ⟨{ s with
        st := writeRec { s.st with nextRec := s.st.nextRec + 1 }
          s.st.nextRec (Rec.key { lid := s.drecRn, next := 0, pubkey_algo := pk.pubkey_algo, fingerprint := pk.fingerprint }),
        recnoList := (s.st.nextRec, RECTYPE_KEY) :: s.recnoList,
        drec := { s.drec with keylist := s.st.nextRec },
        drecDirty := true },
      [(s.st.nextRec, { lid := s.drecRn, next := 0, pubkey_algo := pk.pubkey_algo, fingerprint := pk.fingerprint })],
      ?_, rfl, rfl, rfl, rfl, rfl, rfl, ?_, ?_, ?_, ?_, ?_, Or.inr rfl⟩
    · simp only [upd_key_record]
      rw [hkl, findKeyByFpr_spec pk.fingerprint
        (keyChainL_zero s.st (s.st.nextRec + 1))]
      simp [newRecnum]
    · exact GB_write (GB_bump hGB (by omega)) (by simp) _
    · show keyChainL _ (s.st.nextRec + 1 + 1) s.st.nextRec = _
      cases hnn : s.st.nextRec with
      | zero => omega
      | succ m =>
        have hr : readKey (writeRec { s.st with nextRec := m + 1 + 1 }
            (m + 1) (Rec.key { lid := s.drecRn, next := 0, pubkey_algo := pk.pubkey_algo, fingerprint := pk.fingerprint })) (m + 1) =
            some { lid := s.drecRn, next := 0, pubkey_algo := pk.pubkey_algo, fingerprint := pk.fingerprint } := by
          simp [readKey, lookupRec_writeRec_self]
        simp only [keyChainL, hr, keyChainL_zero, Option.map_some']
    · simp
    · simp
    · intro q _ hq2
      rw [lookupRec_writeRec_other _ _ _ _ hq2]
      exact lookupRec_nextRec_irrel _ _ _
  | succ rn0 =>
    rw [hkl] at hkc
    have hne : kcl ≠ [] := keyChainL_pos hkc
    rw [← hkl] at hkc
    have hkc2f : keyChainL (writeRec { s.st with nextRec := s.st.nextRec + 1 }
        s.st.nextRec (Rec.key { lid := s.drecRn, next := 0, pubkey_algo := pk.pubkey_algo, fingerprint := pk.fingerprint }))
        (s.st.nextRec + 1 + 1) s.drec.keylist = some kcl :=
      keyChainL_mono hkc2
    have hlast := lastKeyRec_spec hkc2f hne
    have hkcBump : keyChainL { s.st with nextRec := s.st.nextRec + 1 }
        (s.st.nextRec + 1) s.drec.keylist = some kcl :=
      keyChainL_congr hkc (fun p _ => lookupRec_nextRec_irrel _ _ _)
    have happ := @keyChainL_append
      { s.st with nextRec := s.st.nextRec + 1 }
      s.st.nextRec
      { lid := s.drecRn, next := 0, pubkey_algo := pk.pubkey_algo, fingerprint := pk.fingerprint }
      rfl (by omega) _ _ _ hkcBump hnd hfresh hne
    refine ⟨{ s with
        st := writeRec (writeRec { s.st with nextRec := s.st.nextRec + 1 }
          s.st.nextRec (Rec.key { lid := s.drecRn, next := 0, pubkey_algo := pk.pubkey_algo, fingerprint := pk.fingerprint }))
          (kcl.getLast hne).1
          (Rec.key { (kcl.getLast hne).2 with next := s.st.nextRec }),
        recnoList := (s.st.nextRec, RECTYPE_KEY) :: s.recnoList },
      kcl.dropLast ++
        [((kcl.getLast hne).1, { (kcl.getLast hne).2 with
            next := s.st.nextRec }),
         (s.st.nextRec, { lid := s.drecRn, next := 0, pubkey_algo := pk.pubkey_algo, fingerprint := pk.fingerprint })],
      ?_, rfl, rfl, rfl, rfl, rfl, rfl, ?_, ?_, ?_, ?_, ?_,
      Or.inl ⟨rfl, rfl⟩⟩
    · have hlast2 : lastKeyRec (writeRec
          { s.st with nextRec := s.st.nextRec + 1 } s.st.nextRec
          (Rec.key { lid := s.drecRn, next := 0, pubkey_algo := pk.pubkey_algo, fingerprint := pk.fingerprint }))
          ((writeRec { s.st with nextRec := s.st.nextRec + 1 } s.st.nextRec
            (Rec.key { lid := s.drecRn, next := 0, pubkey_algo := pk.pubkey_algo, fingerprint := pk.fingerprint })).nextRec + 1)
          s.drec.keylist = some (kcl.getLast hne) := hlast
      simp only [upd_key_record, findKeyByFpr_spec pk.fingerprint hkc,
        hfind, Option.map_none', newRecnum]
      rw [hkl]
      rw [if_neg (by omega)]
      rw [← hkl, hlast2]
    · refine GB_write (GB_write (GB_bump hGB (by omega)) (by simp) _) ?_ _
      have := hmemb _ (List.getLast_mem hne)
      show (kcl.getLast hne).1 < s.st.nextRec + 1
      omega
    · exact happ
    · have hdecomp : kcl.dropLast ++ [kcl.getLast hne] = kcl :=
        List.dropLast_append_getLast hne
      have hm : ((kcl.dropLast ++
          [((kcl.getLast hne).1, { (kcl.getLast hne).2 with
              next := s.st.nextRec }),
           (s.st.nextRec, { lid := s.drecRn, next := 0, pubkey_algo := pk.pubkey_algo, fingerprint := pk.fingerprint })]).map Prod.fst) =
          ((kcl.dropLast ++ [kcl.getLast hne]).map Prod.fst) ++
            [s.st.nextRec] := by
        simp
      rw [hm, hdecomp]
      refine List.Nodup.append hnd (List.nodup_singleton _) ?_
      intro a ha hax
      simp only [List.mem_singleton] at hax
      subst hax
      obtain ⟨p, hp, hpa⟩ := List.mem_map.mp ha
      exact hfresh p hp hpa
    · conv_rhs => rw [← List.dropLast_append_getLast hne]
      simp
    · intro q hq1 hq2
      rw [lookupRec_writeRec_other _ _ _ _ (hq1 _ (List.getLast_mem hne)),
        lookupRec_writeRec_other _ _ _ _ hq2]
      exact lookupRec_nextRec_irrel _ _ _

/-- upd_uid_record when a chain record already carries the name hash:
its recnum is retained and becomes the uid cursor; nothing else
changes. -/
theorem upd_uid_record_found {ext : Ext} {uid : UserIdPkt} {s : UTState}
    {ucl : List (Nat × UidRec)} {e : Nat × UidRec}
    (huc : uidChainL s.st (s.st.nextRec + 1) s.drec.uidlist = some ucl)
    (hfind : ucl.find? (fun p => p.2.namehash == ext.rmd160 uid.name) =
      some e) :
    upd_uid_record ext uid s =
      some { s with recnoList := (e.1, RECTYPE_UID) :: s.recnoList,
                    uidrecno := e.1, uidhash := ext.rmd160 uid.name } := by
  simp only [upd_uid_record, findUidByHash_spec (ext.rmd160 uid.name) huc,
    hfind, Option.map_some']

/-- upd_uid_record when the name hash is new: a fresh uid record with
empty preference and signature chains is written and linked at the end
of the uid chain (or made the chain head), retained, and made the uid
cursor. -/
theorem upd_uid_record_new {ext : Ext} {uid : UserIdPkt} {s : UTState}
    {ucl : List (Nat × UidRec)}
    (hGB : GB s.st) (h1 : 1 ≤ s.st.nextRec)
    (huc : uidChainL s.st (s.st.nextRec + 1) s.drec.uidlist = some ucl)
    (hnd : (ucl.map Prod.fst).Nodup)
    (hfind : ucl.find? (fun p => p.2.namehash == ext.rmd160 uid.name) =
      none) :
    ∃ (s' : UTState) (ucl' : List (Nat × UidRec)),
      upd_uid_record ext uid s = some s' ∧
      s'.drecRn = s.drecRn ∧ s'.uidrecno = s.st.nextRec ∧
      s'.drec.keylist = s.drec.keylist ∧
      s'.recnoList = (s.st.nextRec, RECTYPE_UID) :: s.recnoList ∧
      s'.st.nextRec = s.st.nextRec + 1 ∧ GB s'.st ∧
      uidChainL s'.st (s'.st.nextRec + 1) s'.drec.uidlist = some ucl' ∧
      (ucl'.map Prod.fst).Nodup ∧
      ucl'.map (fun p => (p.1, p.2.prefrec, p.2.siglist, p.2.namehash)) =
        ucl.map (fun p => (p.1, p.2.prefrec, p.2.siglist, p.2.namehash)) ++
          [(s.st.nextRec, 0, 0, ext.rmd160 uid.name)] ∧
      (∀ q, (∀ p ∈ ucl, q ≠ p.1) → q ≠ s.st.nextRec →
        lookupRec s'.st q = lookupRec s.st q) ∧
      ((s'.drec = s.drec ∧ s'.drecDirty = s.drecDirty) ∨
        s'.drecDirty = true) := by
  have hmemb : ∀ p ∈ ucl, p.1 < s.st.nextRec := by
    intro p hp
    have hr := uidChainL_mem huc p hp
    simp only [readUid] at hr
    cases hl : lookupRec s.st p.1 with
    | none => rw [hl] at hr; cases hr
    | some r => exact hGB p.1 r hl
  have hfresh : ∀ p ∈ ucl, p.1 ≠ s.st.nextRec := by
    intro p hp he
    have := hmemb p hp
    omega
  have huc2 : uidChainL (writeRec { s.st with nextRec := s.st.nextRec + 1 }
      s.st.nextRec (Rec.uid { lid := s.drecRn, next := 0, prefrec := 0, siglist := 0, uidflags := 0, namehash := ext.rmd160 uid.name }))
      (s.st.nextRec + 1) s.drec.uidlist = some ucl := by
    refine uidChainL_congr huc ?_
    intro p hp
    rw [lookupRec_writeRec_other _ _ _ _ (hfresh p hp)]
    exact lookupRec_nextRec_irrel _ _ _
  cases hkl : s.drec.uidlist with
  | zero =>
    rw [hkl, uidChainL_zero] at huc
    injection huc with huc
    subst huc
    refine ⟨{ s with
        st := writeRec { s.st with nextRec := s.st.nextRec + 1 }
          s.st.nextRec (Rec.uid { lid := s.drecRn, next := 0, prefrec := 0, siglist := 0, uidflags := 0, namehash := ext.rmd160 uid.name }),
        recnoList := (s.st.nextRec, RECTYPE_UID) :: s.recnoList,
        uidrecno := s.st.nextRec, uidhash := ext.rmd160 uid.name,
        drec := { s.drec with uidlist := s.st.nextRec },
        drecDirty := true },
      [(s.st.nextRec, { lid := s.drecRn, next := 0, prefrec := 0, siglist := 0, uidflags := 0, namehash := ext.rmd160 uid.name })],
      ?_, rfl, rfl, rfl, rfl, rfl, ?_, ?_, ?_, ?_, ?_, Or.inr rfl⟩
    · simp only [upd_uid_record]
      rw [hkl, findUidByHash_spec (ext.rmd160 uid.name)
        (uidChainL_zero s.st (s.st.nextRec + 1))]
      simp [newRecnum]
    · exact GB_write (GB_bump hGB (by omega)) (by simp) _
    · show uidChainL _ (s.st.nextRec + 1 + 1) s.st.nextRec = _
      cases hnn : s.st.nextRec with
      | zero => omega
      | succ m =>
        have hr : readUid (writeRec { s.st with nextRec := m + 1 + 1 }
            (m + 1) (Rec.uid { lid := s.drecRn, next := 0, prefrec := 0, siglist := 0, uidflags := 0, namehash := ext.rmd160 uid.name })) (m + 1) =
            some { lid := s.drecRn, next := 0, prefrec := 0, siglist := 0, uidflags := 0, namehash := ext.rmd160 uid.name } := by
          simp [readUid, lookupRec_writeRec_self]
        simp only [uidChainL, hr, uidChainL_zero, Option.map_some']
    · exact List.nodup_singleton _
    · rfl
    · intro q _ hq2
      rw [lookupRec_writeRec_other _ _ _ _ hq2]
      exact lookupRec_nextRec_irrel _ _ _
  | succ rn0 =>
    rw [hkl] at huc
    have hne : ucl ≠ [] := uidChainL_pos huc
    rw [← hkl] at huc
    have huc2f : uidChainL (writeRec { s.st with nextRec := s.st.nextRec + 1 }
        s.st.nextRec (Rec.uid { lid := s.drecRn, next := 0, prefrec := 0, siglist := 0, uidflags := 0, namehash := ext.rmd160 uid.name }))
        (s.st.nextRec + 1 + 1) s.drec.uidlist = some ucl :=
      uidChainL_mono huc2
    have hlast := lastUidRec_spec huc2f hne
    have hucBump : uidChainL { s.st with nextRec := s.st.nextRec + 1 }
        (s.st.nextRec + 1) s.drec.uidlist = some ucl :=
      uidChainL_congr huc (fun p _ => lookupRec_nextRec_irrel _ _ _)
    have happ := @uidChainL_append
      { s.st with nextRec := s.st.nextRec + 1 }
      s.st.nextRec
      { lid := s.drecRn, next := 0, prefrec := 0, siglist := 0, uidflags := 0, namehash := ext.rmd160 uid.name }
      rfl (by omega) _ _ _ hucBump hnd hfresh hne
    refine ⟨{ s with
        st := writeRec (writeRec { s.st with nextRec := s.st.nextRec + 1 }
          s.st.nextRec (Rec.uid { lid := s.drecRn, next := 0, prefrec := 0, siglist := 0, uidflags := 0, namehash := ext.rmd160 uid.name }))
          (ucl.getLast hne).1
          (Rec.uid { (ucl.getLast hne).2 with next := s.st.nextRec }),
        recnoList := (s.st.nextRec, RECTYPE_UID) :: s.recnoList,
        uidrecno := s.st.nextRec, uidhash := ext.rmd160 uid.name },
      ucl.dropLast ++
        [((ucl.getLast hne).1, { (ucl.getLast hne).2 with
            next := s.st.nextRec }),
         (s.st.nextRec, { lid := s.drecRn, next := 0, prefrec := 0, siglist := 0, uidflags := 0, namehash := ext.rmd160 uid.name })],
      ?_, rfl, rfl, rfl, rfl, rfl, ?_, ?_, ?_, ?_, ?_,
      Or.inl ⟨rfl, rfl⟩⟩
    · have hlast2 : lastUidRec (writeRec
          { s.st with nextRec := s.st.nextRec + 1 } s.st.nextRec
          (Rec.uid { lid := s.drecRn, next := 0, prefrec := 0, siglist := 0, uidflags := 0, namehash := ext.rmd160 uid.name }))
          ((writeRec { s.st with nextRec := s.st.nextRec + 1 } s.st.nextRec
            (Rec.uid { lid := s.drecRn, next := 0, prefrec := 0, siglist := 0, uidflags := 0, namehash := ext.rmd160 uid.name })).nextRec + 1)
          s.drec.uidlist = some (ucl.getLast hne) := hlast
      simp only [upd_uid_record, findUidByHash_spec (ext.rmd160 uid.name) huc,
        hfind, Option.map_none', newRecnum]
      rw [hkl]
      rw [if_neg (by omega)]
      rw [← hkl, hlast2]
    · refine GB_write (GB_write (GB_bump hGB (by omega)) (by simp) _) ?_ _
      have := hmemb _ (List.getLast_mem hne)
      show (ucl.getLast hne).1 < s.st.nextRec + 1
      omega
    · exact happ
    · have hdecomp : ucl.dropLast ++ [ucl.getLast hne] = ucl :=
        List.dropLast_append_getLast hne
      have hm : ((ucl.dropLast ++
          [((ucl.getLast hne).1, { (ucl.getLast hne).2 with
              next := s.st.nextRec }),
           (s.st.nextRec, { lid := s.drecRn, next := 0, prefrec := 0, siglist := 0, uidflags := 0, namehash := ext.rmd160 uid.name })]).map Prod.fst) =
          ((ucl.dropLast ++ [ucl.getLast hne]).map Prod.fst) ++
            [s.st.nextRec] := by
        simp
      rw [hm, hdecomp]
      refine List.Nodup.append hnd (List.nodup_singleton _) ?_
      intro a ha hax
      simp only [List.mem_singleton] at hax
      subst hax
      obtain ⟨p, hp, hpa⟩ := List.mem_map.mp ha
      exact hfresh p hp hpa
    · conv_rhs => rw [← List.dropLast_append_getLast hne]
      simp
    · intro q hq1 hq2
      rw [lookupRec_writeRec_other _ _ _ _ (hq1 _ (List.getLast_mem hne)),
        lookupRec_writeRec_other _ _ _ _ hq2]
      exact lookupRec_nextRec_irrel _ _ _

/-- writePrefChunks only allocates: records below the allocation point
are untouched. -/
theorem writePrefChunks_frame (lid : Nat) :
    ∀ (cs : List (List Nat)) (st : Store),
      st.nextRec ≤ (writePrefChunks lid st cs).nextRec ∧
      (GB st → GB (writePrefChunks lid st cs)) ∧
      (∀ q, q < st.nextRec →
        lookupRec (writePrefChunks lid st cs) q = lookupRec st q) := by
  intro cs
  induction cs with
  | nil => exact fun st => ⟨le_refl _, fun h => h, fun q _ => rfl⟩
  | cons c rest ih =>
    intro st
    simp only [writePrefChunks, newRecnum]
    obtain ⟨ihn, ihg, ihf⟩ := ih (writeRec { st with nextRec := st.nextRec + 1 }
      st.nextRec
      (Rec.pref { lid := lid, next := if rest = [] then 0 else st.nextRec + 1, data := c }))
    refine ⟨?_, ?_, ?_⟩
    · calc st.nextRec ≤ st.nextRec + 1 := by omega
        _ ≤ _ := ihn
    · intro hGB
      exact ihg (GB_write (GB_bump hGB (by omega)) (by simp) _)
    · intro q hq
      rw [ihf q (by show q < st.nextRec + 1; omega)]
      rw [lookupRec_writeRec_other _ _ _ _ (by omega)]
      exact lookupRec_nextRec_irrel _ _ _

theorem prefChainRns_zero (st : Store) (f : Nat) :
    prefChainRns st f 0 = some [] := by
  cases f <;> rfl

theorem sigChainRns_zero (st : Store) (f : Nat) :
    sigChainRns st f 0 = some [] := by
  cases f <;> rfl

theorem writePrefChunks_nextRec (lid : Nat) :
    ∀ (cs : List (List Nat)) (st : Store),
      (writePrefChunks lid st cs).nextRec = st.nextRec + cs.length := by
  intro cs
  induction cs with
  | nil => intro st; simp [writePrefChunks]
  | cons c rest ih =>
    intro st
    simp only [writePrefChunks, newRecnum]
    rw [ih]
    show st.nextRec + 1 + rest.length = st.nextRec + (rest.length + 1)
    omega

/-- The freshly written preference chunks form a valid chain of fresh
recnums. -/
theorem writePrefChunks_chain (lid : Nat) :
    ∀ (cs : List (List Nat)) (st : Store), 1 ≤ st.nextRec →
      ∃ pl',
        (∀ F, cs.length ≤ F →
          prefChainRns (writePrefChunks lid st cs) F
            (if cs = [] then 0 else st.nextRec) = some pl') ∧
        pl'.Nodup ∧
        (∀ q ∈ pl', st.nextRec ≤ q ∧
          q < (writePrefChunks lid st cs).nextRec) := by
  intro cs
  induction cs with
  | nil =>
    intro st _
    exact ⟨[], fun F _ => by simp [prefChainRns_zero],
      List.nodup_nil, fun q hq => absurd hq (List.not_mem_nil q)⟩
  | cons c rest ih =>
    intro st h1
    cases rest with
    | nil =>
      refine ⟨[st.nextRec], ?_, List.nodup_singleton _, ?_⟩
      · intro F hF
        obtain ⟨m, hm⟩ : ∃ m, st.nextRec = m + 1 := ⟨st.nextRec - 1, by omega⟩
        simp only [List.length_cons] at hF
        cases F with
        | zero => omega
        | succ F2 =>
          rw [if_neg (show ¬([c] = ([] : List (List Nat))) by simp)]
          have hred : writePrefChunks lid st [c] =
              writeRec { st with nextRec := st.nextRec + 1 } st.nextRec
                (Rec.pref { lid := lid, next := 0, data := c }) := by
            simp [writePrefChunks, newRecnum]
          rw [hred]
          have hrd : readPref (writeRec { st with nextRec := st.nextRec + 1 }
              st.nextRec (Rec.pref { lid := lid, next := 0, data := c }))
              st.nextRec = some { lid := lid, next := 0, data := c } := by
            rw [readPref, lookupRec_writeRec_self]
          rw [hm] at hrd ⊢
          simp only [prefChainRns, hrd, prefChainRns_zero, Option.map_some']
      · intro q hq
        simp only [List.mem_singleton] at hq
        subst hq
        refine ⟨le_refl _, ?_⟩
        rw [writePrefChunks_nextRec]
        simp
    | cons c2 r2 =>
      have hW : writePrefChunks lid st (c :: c2 :: r2) =
          writePrefChunks lid
            (writeRec { st with nextRec := st.nextRec + 1 } st.nextRec
              (Rec.pref { lid := lid, next := st.nextRec + 1, data := c }))
            (c2 :: r2) := by
        simp [writePrefChunks, newRecnum]
      obtain ⟨pl'', ihc, ihnd, ihb⟩ := ih (writeRec
        { st with nextRec := st.nextRec + 1 } st.nextRec
        (Rec.pref { lid := lid, next := st.nextRec + 1, data := c }))
        (by show 1 ≤ st.nextRec + 1; omega)
      obtain ⟨fn, fg, ff⟩ := writePrefChunks_frame lid (c2 :: r2) (writeRec
        { st with nextRec := st.nextRec + 1 } st.nextRec
        (Rec.pref { lid := lid, next := st.nextRec + 1, data := c }))
      have h2 : (writeRec { st with nextRec := st.nextRec + 1 } st.nextRec
          (Rec.pref { lid := lid, next := st.nextRec + 1, data := c })).nextRec = st.nextRec + 1 := rfl
      refine ⟨st.nextRec :: pl'', ?_, ?_, ?_⟩
      · intro F hF
        obtain ⟨m, hm⟩ : ∃ m, st.nextRec = m + 1 := ⟨st.nextRec - 1, by omega⟩
        simp only [List.length_cons] at hF
        cases F with
        | zero => omega
        | succ F2 =>
          rw [if_neg (show ¬(c :: c2 :: r2 = ([] : List (List Nat))) by simp)]
          rw [hW]
          have hrd : readPref (writePrefChunks lid (writeRec
              { st with nextRec := st.nextRec + 1 } st.nextRec
              (Rec.pref { lid := lid, next := st.nextRec + 1, data := c }))
              (c2 :: r2)) st.nextRec =
              some { lid := lid, next := st.nextRec + 1, data := c } := by
            have hl := ff st.nextRec (show st.nextRec < st.nextRec + 1 by omega)
            rw [readPref, hl, lookupRec_writeRec_self]
          have hih := ihc F2 (by
            simp only [List.length_cons] at hF ⊢
            omega)
          rw [if_neg (show ¬(c2 :: r2 = ([] : List (List Nat))) by simp),
            h2] at hih
          rw [hm] at hrd hih ⊢
          simp only [prefChainRns, hrd, hih, Option.map_some']
      · refine List.nodup_cons.mpr ⟨?_, ihnd⟩
        intro hmem
        have := (ihb _ hmem).1
        rw [h2] at this
        omega
      · intro q hq
        rcases List.mem_cons.mp hq with hq | hq
        · subst hq
          refine ⟨le_refl _, ?_⟩
          rw [writePrefChunks_nextRec]
          simp only [List.length_cons]
          omega
        · have := ihb q hq
          rw [h2] at this
          refine ⟨by omega, ?_⟩
          rw [hW]
          exact this.2

/-- upd_pref_record replaces the uid's preference chain with freshly
allocated records and touches nothing else. -/
theorem upd_pref_record_spec {sig : SigPkt} {lid : Nat} {st : Store}
    {urec : UidRec} {plC : List Nat}
    (hGB : GB st) (h1 : 1 ≤ st.nextRec)
    (hpl : prefChainRns st (st.nextRec + 1) urec.prefrec = some plC)
    (hnd : plC.Nodup) :
    ∃ st2 urec' plC',
      upd_pref_record sig lid st urec = some (st2, urec') ∧
      urec'.namehash = urec.namehash ∧ urec'.next = urec.next ∧
      urec'.lid = urec.lid ∧ urec'.siglist = urec.siglist ∧
      urec'.uidflags = urec.uidflags ∧
      st.nextRec ≤ st2.nextRec ∧ GB st2 ∧
      (∀ q, q ∉ plC → q < st.nextRec → lookupRec st2 q = lookupRec st q) ∧
      prefChainRns st2 (st2.nextRec + 1) urec'.prefrec = some plC' ∧
      plC'.Nodup ∧
      (∀ q ∈ plC', st.nextRec ≤ q ∧ q < st2.nextRec) := by
  obtain ⟨st1, hdel, hnr1, hgone, hkeep⟩ :=
    deletePrefChain_spec (st.nextRec + 1) st urec.prefrec plC hpl hnd
  have hGB1 : GB st1 := by
    intro q r hq
    by_cases hin : q ∈ plC
    · rw [hgone q hin] at hq
      cases hq
    · rw [hkeep q hin] at hq
      rw [hnr1]
      exact hGB q r hq
  have h11 : 1 ≤ st1.nextRec := by rw [hnr1]; exact h1
  obtain ⟨pl', cchain, cnd, cb⟩ :=
    writePrefChunks_chain lid ((chunkPref (prefData sig)).take 10) st1 h11
  obtain ⟨fn, fg, ff⟩ :=
    writePrefChunks_frame lid ((chunkPref (prefData sig)).take 10) st1
  have hlen : ((chunkPref (prefData sig)).take 10).length ≤
      (writePrefChunks lid st1 ((chunkPref (prefData sig)).take 10)).nextRec
        + 1 := by
    rw [writePrefChunks_nextRec]
    omega
  refine ⟨writePrefChunks lid st1 ((chunkPref (prefData sig)).take 10),
    { urec with prefrec := if (chunkPref (prefData sig)).take 10 = []
        then 0 else st1.nextRec }, pl', ?_, rfl, rfl, rfl, rfl, rfl,
    ?_, fg hGB1, ?_, ?_, cnd, ?_⟩
  · simp only [upd_pref_record, hdel]
  · rw [← hnr1]
    exact fn
  · intro q hq1 hq2
    rw [ff q (by rw [hnr1]; omega), hkeep q hq1]
  · exact cchain _ hlen
  · intro q hq
    have := cb q hq
    rw [hnr1] at this
    exact this

/-- A chain walk only looks at the next pointers: a store that keeps
every chain record a sig record with the same next yields the same
chain. -/
theorem sigChainRns_congr_next {st st' : Store} :
    ∀ {f h : Nat} {l : List Nat}, sigChainRns st f h = some l →
      (∀ q ∈ l, ∃ sg sg', lookupRec st q = some (Rec.sig sg) ∧
        lookupRec st' q = some (Rec.sig sg') ∧ sg'.next = sg.next) →
      sigChainRns st' f h = some l := by
  intro f
  induction f with
  | zero =>
    intro h l hc _
    cases h with
    | zero => exact hc
    | succ rn => cases hc
  | succ f ih =>
    intro h l hc hpres
    cases h with
    | zero => exact hc
    | succ rn =>
      simp only [sigChainRns] at hc ⊢
      cases hk : readSig st (rn + 1) with
      | none => rw [hk] at hc; cases hc
      | some sg =>
        simp only [hk, Option.map_eq_some'] at hc
        obtain ⟨t, ht, rfl⟩ := hc
        obtain ⟨sg0, sg', hl0, hl', hnx⟩ := hpres (rn + 1) (by simp)
        have hrd0 : readSig st (rn + 1) = some sg0 := by
          simp only [readSig, hl0]
        have hsg0 : sg0 = sg := by
          rw [hrd0] at hk
          injection hk with hk2
        subst hsg0
        have hk' : readSig st' (rn + 1) = some sg' := by
          simp only [readSig, hl']
        have ht' : sigChainRns st' f sg'.next = some t := by
          rw [hnx]
          exact ih ht (fun q hq => hpres q (List.mem_cons_of_mem _ hq))
        simp only [hk', ht', Option.map_some']

/-- The record-chain loop of upd_nonself_key_sigs rewrites only the
slots of the walked sig records; nexts, all other records and the
allocation point are untouched; a free-slot snapshot points into the
walked chain. -/
theorem nonselfChain_frame {ext : Ext} {kb : KeyBlock} {signode : Nat}
    {sig : SigPkt} {pk_lid : Nat} :
    ∀ {fuel : Nat} {st : Store} {rn : Nat} {fs : Bool}
      {dr : Option (Nat × SigRec × Nat)} {st' : Store} {fs' : Bool}
      {dr' : Option (Nat × SigRec × Nat)} {sl : List Nat},
      sigChainRns st fuel rn = some sl → sl.Nodup →
      nonselfChain ext kb signode sig pk_lid fuel st rn fs dr =
        some (st', fs', dr') →
      st'.nextRec = st.nextRec ∧ (GB st → GB st') ∧
      (∀ q, q ∉ sl → lookupRec st' q = lookupRec st q) ∧
      (∀ q ∈ sl, ∃ sg sg', lookupRec st q = some (Rec.sig sg) ∧
        lookupRec st' q = some (Rec.sig sg') ∧ sg'.next = sg.next) ∧
      (∀ p, dr' = some p → dr = some p ∨
        (p.1 ∈ sl ∧ ∃ sg, lookupRec st p.1 = some (Rec.sig sg) ∧
          p.2.1.next = sg.next)) := by
  intro fuel
  induction fuel with
  | zero =>
    intro st rn fs dr st' fs' dr' sl hc hnd h
    cases rn with
    | zero =>
      cases hc
      cases h
      exact ⟨rfl, fun g => g, fun q _ => rfl,
        (by intro q hq; cases hq), fun p hp => Or.inl hp⟩
    | succ rn2 => cases hc
  | succ fuel ih =>
    intro st rn fs dr st' fs' dr' sl hc hnd h
    cases rn with
    | zero =>
      cases hc
      cases h
      exact ⟨rfl, fun g => g, fun q _ => rfl,
        (by intro q hq; cases hq), fun p hp => Or.inl hp⟩
    | succ rn2 =>
      simp only [sigChainRns] at hc
      cases hk : readSig st (rn2 + 1) with
      | none => rw [hk] at hc; cases hc
      | some rec =>
        simp only [hk, Option.map_eq_some'] at hc
        obtain ⟨t, ht, rfl⟩ := hc
        have hnotin : (rn2 + 1) ∉ t := (List.nodup_cons.mp hnd).1
        have hnd' : t.Nodup := (List.nodup_cons.mp hnd).2
        have hlk : lookupRec st (rn2 + 1) = some (Rec.sig rec) := by
          simp only [readSig] at hk
          cases hl : lookupRec st (rn2 + 1) with
          | none => rw [hl] at hk; cases hk
          | some r =>
            rw [hl] at hk
            cases r with
            | sig sg =>
              injection hk with hk2
              rw [hk2]
            | dir a => cases hk
            | key a => cases hk
            | uid a => cases hk
            | pref a => cases hk
            | sdir a => cases hk
            | hlst a => cases hk
        simp only [nonselfChain, hk] at h
        cases hns : nonselfSlots ext kb signode sig st pk_lid rec.sigs 0
            fs none false with
        | none => rw [hns] at h; cases h
        | some q4 =>
          obtain ⟨newSlots, fs2, ff2, dirty2⟩ := q4
          rw [hns] at h
          simp only [] at h
          cases hdy : dirty2 with
          | true =>
            rw [hdy] at h
            rw [if_pos rfl] at h
            have ht2 : sigChainRns (writeRec st (rn2 + 1)
                (Rec.sig { rec with sigs := newSlots })) fuel rec.next =
                some t :=
              sigChainRns_congr ht (fun q hq =>
                lookupRec_writeRec_other _ _ _ _
                  (fun he => hnotin (he ▸ hq)))
            obtain ⟨g1, g2, g3, g4, g5⟩ := ih ht2 hnd' h
            refine ⟨g1.trans rfl, ?_, ?_, ?_, ?_⟩
            · intro hGB
              exact g2 (GB_write hGB (hGB _ _ hlk) _)
            · intro q hq
              have hq1 : q ≠ rn2 + 1 :=
                fun he => hq (he ▸ List.mem_cons_self _ _)
              have hq2 : q ∉ t := fun hin => hq (List.mem_cons_of_mem _ hin)
              rw [g3 q hq2, lookupRec_writeRec_other _ _ _ _ hq1]
            · intro q hq
              rcases List.mem_cons.mp hq with hq | hq
              · subst hq
                have hb : lookupRec st' (rn2 + 1) =
                    some (Rec.sig { rec with sigs := newSlots }) := by
                  rw [g3 _ hnotin]
                  exact lookupRec_writeRec_self _ _ _
                exact ⟨rec, { rec with sigs := newSlots }, hlk, hb, rfl⟩
              · obtain ⟨sg, sg', ha, hb, hcn⟩ := g4 q hq
                have hq1 : q ≠ rn2 + 1 := fun he => hnotin (he ▸ hq)
                rw [lookupRec_writeRec_other _ _ _ _ hq1] at ha
                exact ⟨sg, sg', ha, hb, hcn⟩
            · intro p hp
              rcases g5 p hp with hp2 | hp2
              · cases hdrc : dr with
                | some p0 =>
                  rw [hdrc] at hp2
                  have hp3 : some p0 = some p := hp2
                  exact Or.inl hp3
                | none =>
                  rw [hdrc] at hp2
                  cases hff : ff2 with
                  | none =>
                    rw [hff] at hp2
                    have hp3 : (none : Option (Nat × SigRec × Nat)) =
                        some p := hp2
                    cases hp3
                  | some i =>
                    rw [hff] at hp2
                    have hp3 : some (rn2 + 1,
                        { rec with sigs := newSlots }, i) = some p := hp2
                    injection hp3 with hp4
                    refine Or.inr ?_
                    rw [← hp4]
                    exact ⟨by simp, rec, hlk, rfl⟩
              · obtain ⟨hmem, sg, hlg, hnx⟩ := hp2
                have hq1 : p.1 ≠ rn2 + 1 := fun he => hnotin (he ▸ hmem)
                rw [lookupRec_writeRec_other _ _ _ _ hq1] at hlg
                exact Or.inr ⟨List.mem_cons_of_mem _ hmem, sg, hlg, hnx⟩
          | false =>
            rw [hdy] at h
            rw [if_neg (by simp)] at h
            obtain ⟨g1, g2, g3, g4, g5⟩ := ih ht hnd' h
            refine ⟨g1, g2, ?_, ?_, ?_⟩
            · intro q hq
              exact g3 q (fun hin => hq (List.mem_cons_of_mem _ hin))
            · intro q hq
              rcases List.mem_cons.mp hq with hq | hq
              · subst hq
                have hb : lookupRec st' (rn2 + 1) = some (Rec.sig rec) := by
                  rw [g3 _ hnotin]
                  exact hlk
                exact ⟨rec, rec, hlk, hb, rfl⟩
              · exact g4 q hq
            · intro p hp
              rcases g5 p hp with hp2 | hp2
              · cases hdrc : dr with
                | some p0 =>
                  rw [hdrc] at hp2
                  have hp3 : some p0 = some p := hp2
                  exact Or.inl hp3
                | none =>
                  rw [hdrc] at hp2
                  cases hff : ff2 with
                  | none =>
                    rw [hff] at hp2
                    have hp3 : (none : Option (Nat × SigRec × Nat)) =
                        some p := hp2
                    cases hp3
                  | some i =>
                    rw [hff] at hp2
                    have hp3 : some (rn2 + 1,
                        { rec with sigs := newSlots }, i) = some p := hp2
                    injection hp3 with hp4
                    refine Or.inr ?_
                    rw [← hp4]
                    exact ⟨by simp, rec, hlk, rfl⟩
              · obtain ⟨hmem, sg, hlg, hnx⟩ := hp2
                exact Or.inr ⟨List.mem_cons_of_mem _ hmem, sg, hlg, hnx⟩

theorem writeRec_nextRec (st : Store) (n : Nat) (r : Rec) :
    (writeRec st n r).nextRec = st.nextRec := rfl

/-- create_shadow_dir writes only sdir records, hlst records and fresh
recnums. -/
theorem create_shadow_dir_frame {st : Store} {sig : SigPkt}
    {lid rn2 : Nat} {st2 : Store} (hGB : GB st)
    (h : create_shadow_dir st sig lid = some (rn2, st2)) :
    st.nextRec ≤ st2.nextRec ∧ GB st2 ∧
    (∀ q r, lookupRec st q = some r → (∀ sd, r ≠ Rec.sdir sd) →
      (∀ hl, r ≠ Rec.hlst hl) → lookupRec st2 q = some r) := by
  simp only [create_shadow_dir, newRecnum] at h
  cases hsr : tdbio_search_sdir st sig.keyid sig.pubkey_algo with
  | some p =>
    obtain ⟨rnS, sdS⟩ := p
    rw [hsr] at h
    simp only [] at h
    have hty : lookupRec st rnS = some (Rec.sdir sdS) := by
      have hsp := searchSdirFrom_some_spec st sig.keyid sig.pubkey_algo
        st.nextRec 0 rnS sdS hsr
      have h2 := hsp.2.2.1
      simp only [sdirAt] at h2
      cases hl : lookupRec st rnS with
      | none => rw [hl] at h2; cases h2
      | some r =>
        rw [hl] at h2
        cases r <;> simp_all
    have hbound : rnS < st.nextRec := hGB _ _ hty
    cases hscan : hintChainScan st lid (st.nextRec + 1) sdS.hintlist none with
    | none => rw [hscan] at h; cases h
    | some res =>
      rw [hscan] at h
      cases res with
      | foundLid =>
        simp only [] at h
        injection h with h2
        injection h2 with h2a h2b
        subst h2b
        exact ⟨le_refl _, hGB, fun q r hq _ _ => hq⟩
      | absent tmp =>
        cases tmp with
        | some p3 =>
          obtain ⟨rnH, hh, idx⟩ := p3
          simp only [] at h
          injection h with h2
          injection h2 with h2a h2b
          subst h2b
          have habs := hintChainScan_none_absent st lid (st.nextRec + 1)
            sdS.hintlist _ hscan
          rcases habs with habs | ⟨r0, g0, i0, he, hl0, _⟩
          · cases habs
          · injection he with he2
            injection he2 with hea heb
            injection heb with heb1 heb2
            subst hea
            subst heb1
            have hbH : rnH < st.nextRec := hGB _ _ hl0
            refine ⟨le_refl _, GB_write hGB hbH _, ?_⟩
            intro q r hq hnsd hnhl
            have hqne : q ≠ rnH := by
              intro he3
              subst he3
              have hcomb : some r = some (Rec.hlst hh) := hq.symm.trans hl0
              injection hcomb with hl2
              exact hnhl hh hl2
            rw [lookupRec_writeRec_other _ _ _ _ hqne]
            exact hq
        | none =>
          simp only [] at h
          injection h with h2
          injection h2 with h2a h2b
          subst h2b
          refine ⟨?_, ?_, ?_⟩
          · show st.nextRec ≤ (writeRec _ _ _).nextRec
            rw [writeRec_nextRec, writeRec_nextRec]
            show st.nextRec ≤ st.nextRec + 1
            omega
          · refine GB_write (GB_write (GB_bump hGB (by omega)) (by simp) _)
              ?_ _
            rw [writeRec_nextRec]
            show rnS < st.nextRec + 1
            omega
          · intro q r hq hnsd hnhl
            have hq1 : q < st.nextRec := hGB _ _ hq
            have hqS : q ≠ rnS := by
              intro he3
              subst he3
              have hcomb : some r = some (Rec.sdir sdS) := hq.symm.trans hty
              injection hcomb with hl2
              exact hnsd sdS hl2
            rw [lookupRec_writeRec_other _ _ _ _ hqS,
              lookupRec_writeRec_other _ _ _ _ (by omega),
              lookupRec_nextRec_irrel]
            exact hq
  | none =>
    rw [hsr] at h
    simp only [] at h
    have hred : hintChainScan
        (writeRec { st with nextRec := st.nextRec + 1 } st.nextRec
          (Rec.sdir { lid := st.nextRec, keyid := sig.keyid, pubkey_algo := sig.pubkey_algo, hintlist := 0 }))
        lid
        ((writeRec { st with nextRec := st.nextRec + 1 } st.nextRec
          (Rec.sdir { lid := st.nextRec, keyid := sig.keyid, pubkey_algo := sig.pubkey_algo, hintlist := 0 })).nextRec + 1)
        (0 : Nat) none = some (HintScan.absent none) := rfl
    rw [hred] at h
    simp only [] at h
    injection h with h2
    injection h2 with h2a h2b
    subst h2b
    simp only [writeRec_nextRec] at *
    refine ⟨?_, ?_, ?_⟩
    · show st.nextRec ≤ st.nextRec + 1 + 1
      omega
    · refine GB_write (GB_write ?_ ?_ _) ?_ _
      · refine GB_bump (GB_write (GB_bump hGB (by omega)) (by simp) _) ?_
        rw [writeRec_nextRec]
        show st.nextRec + 1 ≤ st.nextRec + 1 + 1
        omega
      · simp
      · rw [writeRec_nextRec]
        show st.nextRec < st.nextRec + 1 + 1
        omega
    · intro q r hq hnsd hnhl
      have hq1 : q < st.nextRec := hGB _ _ hq
      rw [lookupRec_writeRec_other _ _ _ _ (show q ≠ st.nextRec by omega),
        lookupRec_writeRec_other _ _ _ _ (show q ≠ st.nextRec + 1 by omega),
        lookupRec_nextRec_irrel,
        lookupRec_writeRec_other _ _ _ _ (show q ≠ st.nextRec by omega),
        lookupRec_nextRec_irrel]
      exact hq

theorem readUid_lookup {st : Store} {i : Nat} {u : UidRec}
    (h : readUid st i = some u) : lookupRec st i = some (Rec.uid u) := by
  simp only [readUid] at h
  cases hl : lookupRec st i with
  | none => rw [hl] at h; cases h
  | some r =>
    rw [hl] at h
    cases r <;> simp_all

theorem readPref_lookup {st : Store} {i : Nat} {p : PrefRec}
    (h : readPref st i = some p) : lookupRec st i = some (Rec.pref p) := by
  simp only [readPref] at h
  cases hl : lookupRec st i with
  | none => rw [hl] at h; cases h
  | some r =>
    rw [hl] at h
    cases r <;> simp_all

theorem readSig_lookup {st : Store} {i : Nat} {g : SigRec}
    (h : readSig st i = some g) : lookupRec st i = some (Rec.sig g) := by
  simp only [readSig] at h
  cases hl : lookupRec st i with
  | none => rw [hl] at h; cases h
  | some r =>
    rw [hl] at h
    cases r <;> simp_all

theorem readDir_lookup {st : Store} {i : Nat} {d : DirRec}
    (h : readDir st i = some d) : lookupRec st i = some (Rec.dir d) := by
  simp only [readDir] at h
  cases hl : lookupRec st i with
  | none => rw [hl] at h; cases h
  | some r =>
    rw [hl] at h
    cases r <;> simp_all

/-- Cons step of a sig chain walk, for building chains of fresh
records. -/
theorem sigChainRns_cons {st : Store} {f rn : Nat} {sg : SigRec}
    {t : List Nat} (hrn : rn ≠ 0) (hrd : readSig st rn = some sg)
    (ht : sigChainRns st f sg.next = some t) :
    sigChainRns st (f + 1) rn = some (rn :: t) := by
  cases rn with
  | zero => exact absurd rfl hrn
  | succ k =>
    simp only [sigChainRns, hrd, ht, Option.map_some']

/-- upd_self_key_sigs rewrites at most the uid's preference chain and
fresh records; the uid record keeps its identity fields and its
signature list. -/
theorem upd_self_key_sigs_spec {ext : Ext} {kb : KeyBlock} {signode : Nat}
    {sig : SigPkt} {lid : Nat} {st : Store} {urec : UidRec} {udirty : Bool}
    {plC : List Nat}
    (hGB : GB st) (h1 : 1 ≤ st.nextRec)
    (hpl : prefChainRns st (st.nextRec + 1) urec.prefrec = some plC)
    (hnd : plC.Nodup) :
    ∃ st' urec' ud',
      upd_self_key_sigs ext kb signode sig lid st urec udirty =
        some (st', urec', ud') ∧
      urec'.namehash = urec.namehash ∧ urec'.next = urec.next ∧
      urec'.lid = urec.lid ∧ urec'.siglist = urec.siglist ∧
      st.nextRec ≤ st'.nextRec ∧ GB st' ∧
      (∀ q, q ∉ plC → q < st.nextRec → lookupRec st' q = lookupRec st q) ∧
      ((st' = st ∧ urec' = urec ∧ ud' = udirty) ∨ ud' = true) ∧
      ∃ plC', prefChainRns st' (st'.nextRec + 1) urec'.prefrec = some plC' ∧
        plC'.Nodup ∧ (∀ q ∈ plC', q ∈ plC ∨ st.nextRec ≤ q) := by
  by_cases hch : urec.uidflags &&& UIDF_CHECKED = 0
  · by_cases hrc : ext.checkKeySig kb signode = 0
    · obtain ⟨st2, urec2, plC', hupd, hn1, hn2, hn3, hn4, hn5, hle, hgb,
        hfr, hpc, hpnd, hpb⟩ :=
        @upd_pref_record_spec sig lid _ _ _ hGB h1 hpl hnd
      refine ⟨st2, { urec2 with uidflags := UIDF_CHECKED ||| UIDF_VALID },
        true, ?_, hn1, hn2, hn3, hn4, hle, hgb, hfr, Or.inr rfl, plC', hpc,
        hpnd, ?_⟩
      · simp only [upd_self_key_sigs, if_pos hch, if_pos hrc, hupd]
      · intro q hq
        exact Or.inr (hpb q hq).1
    · refine ⟨st, { urec with uidflags := UIDF_CHECKED }, true, ?_, rfl,
        rfl, rfl, rfl, le_refl _, hGB, fun q _ _ => rfl, Or.inr rfl, plC,
        hpl, hnd, fun q hq => Or.inl hq⟩
      simp only [upd_self_key_sigs, if_pos hch, if_neg hrc]
  · refine ⟨st, urec, udirty, ?_, rfl, rfl, rfl, rfl, le_refl _, hGB,
      fun q _ _ => rfl, Or.inl ⟨rfl, rfl, rfl⟩, plC, hpl, hnd,
      fun q hq => Or.inl hq⟩
    simp only [upd_self_key_sigs, if_neg hch]

/-- Overwriting the delrec slot snapshot (the found-free-slot arm of
upd_nonself_key_sigs): the walked chain survives and everything outside
it, the sdir/hlst layer and fresh records is untouched. -/
theorem nonself_set_spec {st st1 st2 : Store} {urec : UidRec}
    {slC : List Nat} {rn : Nat} {rec sg0 : SigRec} {newSlots : List SigSlot}
    (hGB : GB st)
    (hsl : sigChainRns st (st.nextRec + 1) urec.siglist = some slC)
    (hnr1 : st1.nextRec = st.nextRec)
    (hfr1 : ∀ q, q ∉ slC → lookupRec st1 q = lookupRec st q)
    (hsig1 : ∀ q ∈ slC, ∃ sg sg', lookupRec st q = some (Rec.sig sg) ∧
      lookupRec st1 q = some (Rec.sig sg') ∧ sg'.next = sg.next)
    (hrn : rn ∈ slC) (hsg0 : lookupRec st rn = some (Rec.sig sg0))
    (hnx : rec.next = sg0.next)
    (hle2 : st1.nextRec ≤ st2.nextRec) (hgb2 : GB st2)
    (hfr2 : ∀ q r, lookupRec st1 q = some r → (∀ sd, r ≠ Rec.sdir sd) →
      (∀ hl, r ≠ Rec.hlst hl) → lookupRec st2 q = some r) :
    st.nextRec ≤
      (writeRec st2 rn (Rec.sig { rec with sigs := newSlots })).nextRec ∧
    GB (writeRec st2 rn (Rec.sig { rec with sigs := newSlots })) ∧
    (∀ q r, lookupRec st q = some r → q ∉ slC →
      (∀ sd, r ≠ Rec.sdir sd) → (∀ hl, r ≠ Rec.hlst hl) →
      lookupRec (writeRec st2 rn (Rec.sig { rec with sigs := newSlots })) q =
        some r) ∧
    sigChainRns (writeRec st2 rn (Rec.sig { rec with sigs := newSlots }))
      ((writeRec st2 rn (Rec.sig { rec with sigs := newSlots })).nextRec + 1)
      urec.siglist = some slC := by
  have hle : st.nextRec ≤ st2.nextRec := by rw [← hnr1]; exact hle2
  have hrnlt : rn < st.nextRec := hGB _ _ hsg0
  have hGBf : GB (writeRec st2 rn (Rec.sig { rec with sigs := newSlots })) :=
    GB_write hgb2 (by omega) _
  have hpres : ∀ q ∈ slC, ∃ sg sg', lookupRec st q = some (Rec.sig sg) ∧
      lookupRec (writeRec st2 rn (Rec.sig { rec with sigs := newSlots })) q =
        some (Rec.sig sg') ∧ sg'.next = sg.next := by
    intro q hq
    obtain ⟨sg, sg', ha, hb, hcn⟩ := hsig1 q hq
    by_cases hqr : q = rn
    · subst hqr
      have hsg : sg = sg0 := by
        rw [ha] at hsg0
        simp only [Option.some.injEq, Rec.sig.injEq] at hsg0
        exact hsg0
      refine ⟨sg, { rec with sigs := newSlots }, ha, ?_, ?_⟩
      · exact lookupRec_writeRec_self _ _ _
      · show rec.next = sg.next
        rw [hnx, hsg]
    · refine ⟨sg, sg', ha, ?_, hcn⟩
      rw [lookupRec_writeRec_other _ _ _ _ hqr]
      exact hfr2 q (Rec.sig sg') hb (by intro sd h; cases h)
        (by intro hl h; cases h)
  refine ⟨?_, hGBf, ?_, ?_⟩
  · show st.nextRec ≤ st2.nextRec
    exact hle
  · intro q r hq hqn hnsd hnhl
    have hqr : q ≠ rn := fun he => hqn (he ▸ hrn)
    rw [lookupRec_writeRec_other _ _ _ _ hqr]
    refine hfr2 q r ?_ hnsd hnhl
    rw [hfr1 q hqn]
    exact hq
  · have hch := sigChainRns_congr_next hsl hpres
    refine sigChainRns_le ?_ hch
    show st.nextRec + 1 ≤ st2.nextRec + 1
    omega

/-- Prepending a fresh sig record (the no-free-slot arm of
upd_nonself_key_sigs). -/
theorem nonself_new_spec {st st1 st2 : Store} {urec : UidRec}
    {slC : List Nat} (ld : Nat) (sl0 : List SigSlot)
    (hGB : GB st) (h1 : 1 ≤ st.nextRec)
    (hsl : sigChainRns st (st.nextRec + 1) urec.siglist = some slC)
    (hnd : slC.Nodup)
    (hnr1 : st1.nextRec = st.nextRec)
    (hfr1 : ∀ q, q ∉ slC → lookupRec st1 q = lookupRec st q)
    (hsig1 : ∀ q ∈ slC, ∃ sg sg', lookupRec st q = some (Rec.sig sg) ∧
      lookupRec st1 q = some (Rec.sig sg') ∧ sg'.next = sg.next)
    (hle2 : st1.nextRec ≤ st2.nextRec) (hgb2 : GB st2)
    (hfr2 : ∀ q r, lookupRec st1 q = some r → (∀ sd, r ≠ Rec.sdir sd) →
      (∀ hl, r ≠ Rec.hlst hl) → lookupRec st2 q = some r) :
    st.nextRec ≤ (writeRec { st2 with nextRec := st2.nextRec + 1 }
      st2.nextRec (Rec.sig { lid := ld, next := urec.siglist, sigs := sl0 })).nextRec ∧
    GB (writeRec { st2 with nextRec := st2.nextRec + 1 } st2.nextRec
      (Rec.sig { lid := ld, next := urec.siglist, sigs := sl0 })) ∧
    (∀ q r, lookupRec st q = some r → q ∉ slC →
      (∀ sd, r ≠ Rec.sdir sd) → (∀ hl, r ≠ Rec.hlst hl) →
      lookupRec (writeRec { st2 with nextRec := st2.nextRec + 1 }
        st2.nextRec (Rec.sig { lid := ld, next := urec.siglist, sigs := sl0 })) q = some r) ∧
    sigChainRns (writeRec { st2 with nextRec := st2.nextRec + 1 }
        st2.nextRec (Rec.sig { lid := ld, next := urec.siglist, sigs := sl0 }))
      ((writeRec { st2 with nextRec := st2.nextRec + 1 } st2.nextRec
        (Rec.sig { lid := ld, next := urec.siglist, sigs := sl0 })).nextRec + 1) st2.nextRec =
      some (st2.nextRec :: slC) ∧
    (st2.nextRec :: slC).Nodup ∧
    (∀ q ∈ st2.nextRec :: slC, q ∈ slC ∨ st.nextRec ≤ q) := by
  have hle : st.nextRec ≤ st2.nextRec := by rw [← hnr1]; exact hle2
  have hslmem : ∀ q ∈ slC, q < st.nextRec := by
    intro q hq
    obtain ⟨sg, hrd⟩ := sigChainRns_mem hsl q hq
    exact hGB _ _ (readSig_lookup hrd)
  have hGBf : GB (writeRec { st2 with nextRec := st2.nextRec + 1 }
      st2.nextRec (Rec.sig { lid := ld, next := urec.siglist, sigs := sl0 })) := by
    refine GB_write (GB_bump hgb2 (by omega)) ?_ _
    show st2.nextRec < st2.nextRec + 1
    omega
  have hpres : ∀ q ∈ slC, ∃ sg sg', lookupRec st q = some (Rec.sig sg) ∧
      lookupRec (writeRec { st2 with nextRec := st2.nextRec + 1 }
        st2.nextRec (Rec.sig { lid := ld, next := urec.siglist, sigs := sl0 })) q = some (Rec.sig sg') ∧
      sg'.next = sg.next := by
    intro q hq
    obtain ⟨sg, sg', ha, hb, hcn⟩ := hsig1 q hq
    have hqn : q ≠ st2.nextRec := by
      have := hslmem q hq
      omega
    refine ⟨sg, sg', ha, ?_, hcn⟩
    rw [lookupRec_writeRec_other _ _ _ _ hqn, lookupRec_nextRec_irrel]
    exact hfr2 q (Rec.sig sg') hb (by intro sd h; cases h)
      (by intro hl h; cases h)
  have hchain : sigChainRns (writeRec { st2 with nextRec := st2.nextRec + 1 }
      st2.nextRec (Rec.sig { lid := ld, next := urec.siglist, sigs := sl0 })) (st.nextRec + 1) urec.siglist = some slC :=
    sigChainRns_congr_next hsl hpres
  refine ⟨?_, hGBf, ?_, ?_, ?_, ?_⟩
  · show st.nextRec ≤ st2.nextRec + 1
    omega
  · intro q r hq hqn hnsd hnhl
    have hqlt : q < st.nextRec := hGB _ _ hq
    rw [lookupRec_writeRec_other _ _ _ _ (by omega : q ≠ st2.nextRec),
      lookupRec_nextRec_irrel]
    refine hfr2 q r ?_ hnsd hnhl
    rw [hfr1 q hqn]
    exact hq
  · have hrd : readSig (writeRec { st2 with nextRec := st2.nextRec + 1 }
        st2.nextRec (Rec.sig { lid := ld, next := urec.siglist, sigs := sl0 })) st2.nextRec =
        some { lid := ld, next := urec.siglist, sigs := sl0 } := by
      simp only [readSig, lookupRec_writeRec_self]
    have hne : st2.nextRec ≠ 0 := by omega
    have ht : sigChainRns (writeRec { st2 with nextRec := st2.nextRec + 1 }
        st2.nextRec (Rec.sig { lid := ld, next := urec.siglist, sigs := sl0 }))
        (st2.nextRec + 1) urec.siglist = some slC :=
      sigChainRns_le (by omega) hchain
    have := sigChainRns_cons hne hrd ht
    refine sigChainRns_le ?_ this
    show st2.nextRec + 1 + 1 ≤ st2.nextRec + 1 + 1
    omega
  · refine List.nodup_cons.mpr ⟨?_, hnd⟩
    intro hin
    have := hslmem _ hin
    omega
  · intro q hq
    rcases List.mem_cons.mp hq with hq | hq
    · subst hq
      exact Or.inr hle
    · exact Or.inl hq

/-- upd_nonself_key_sigs rewrites at most the uid's signature chain,
the shadow-dir layer and fresh records; the uid record keeps its
identity fields and its preference list, and the resulting signature
chain reuses the old chain's recnums plus at most one fresh record. -/
theorem upd_nonself_key_sigs_spec {ext : Ext} {kb : KeyBlock}
    {signode : Nat} {sig : SigPkt} {lid : Nat} {st : Store} {urec : UidRec}
    {udirty : Bool} {slC : List Nat} {st' : Store} {urec' : UidRec}
    {ud' : Bool}
    (hGB : GB st) (h1 : 1 ≤ st.nextRec)
    (hsl : sigChainRns st (st.nextRec + 1) urec.siglist = some slC)
    (hnd : slC.Nodup)
    (h : upd_nonself_key_sigs ext kb signode sig lid st urec udirty =
      some (st', urec', ud')) :
    urec'.namehash = urec.namehash ∧ urec'.next = urec.next ∧
    urec'.lid = urec.lid ∧ urec'.prefrec = urec.prefrec ∧
    urec'.uidflags = urec.uidflags ∧
    st.nextRec ≤ st'.nextRec ∧ GB st' ∧
    (∀ q r, lookupRec st q = some r → q ∉ slC →
      (∀ sd, r ≠ Rec.sdir sd) → (∀ hl, r ≠ Rec.hlst hl) →
      lookupRec st' q = some r) ∧
    (urec' = urec ∨ ud' = true) ∧
    ∃ slC', sigChainRns st' (st'.nextRec + 1) urec'.siglist = some slC' ∧
      slC'.Nodup ∧ (∀ q ∈ slC', q ∈ slC ∨ st.nextRec ≤ q) := by
  simp only [upd_nonself_key_sigs, newRecnum] at h
  cases hch : nonselfChain ext kb signode sig (nonselfPkLid ext st sig)
      (st.nextRec + 1) st urec.siglist false none with
  | none => rw [hch] at h; cases h
  | some p1 =>
    obtain ⟨st1, foundSig, delrec⟩ := p1
    rw [hch] at h
    simp only [] at h
    obtain ⟨hnr1, hgb1f, hfr1, hsig1, hprov⟩ :=
      nonselfChain_frame hsl hnd hch
    have hgb1 : GB st1 := hgb1f hGB
    cases foundSig with
    | true =>
      simp only [if_true] at h
      injection h with h2
      injection h2 with ha hb
      injection hb with hb1 hb2
      subst ha
      subst hb1
      subst hb2
      refine ⟨rfl, rfl, rfl, rfl, rfl, ?_, hgb1, ?_, Or.inl rfl, slC, ?_,
        hnd, fun q hq => Or.inl hq⟩
      · rw [hnr1]
      · intro q r hq hqn _ _
        rw [hfr1 q hqn]
        exact hq
      · rw [hnr1]
        exact sigChainRns_congr_next hsl hsig1
    | false =>
      simp only [Bool.false_eq_true, if_false] at h
      cases delrec with
      | some pd =>
        obtain ⟨rn, prec, idx⟩ := pd
        rcases hprov (rn, prec, idx) rfl with hbad | ⟨hmem, sg0, hsg0, hnx⟩
        · cases hbad
        · by_cases hA : (if nonselfPkLid ext st sig = 0 then
              G10ERR_NO_PUBKEY else ext.checkKeySig kb signode) = 0
          · rw [if_pos hA] at h
            simp only [] at h
            injection h with h2
            injection h2 with ha hb
            injection hb with hb1 hb2
            subst hb1
            subst hb2
            obtain ⟨g1, g2, g3, g4⟩ := nonself_set_spec hGB hsl hnr1 hfr1
              hsig1 hmem hsg0 hnx (le_refl _) hgb1 (fun q r hq _ _ => hq)
            rw [← ha]
            exact ⟨rfl, rfl, rfl, rfl, rfl, g1, g2, g3, Or.inl rfl, slC,
              g4, hnd, fun q hq => Or.inl hq⟩
          · rw [if_neg hA] at h
            by_cases hB : (if nonselfPkLid ext st sig = 0 then
                G10ERR_NO_PUBKEY else ext.checkKeySig kb signode) =
                G10ERR_NO_PUBKEY
            · rw [if_pos hB] at h
              cases hcs : create_shadow_dir st1 sig lid with
              | none =>
                rw [hcs] at h
                simp only [Option.map_none'] at h
                cases h
              | some p2 =>
                obtain ⟨nl, st2⟩ := p2
                rw [hcs] at h
                simp only [Option.map_some'] at h
                obtain ⟨hle2, hgb2, hfr2⟩ := create_shadow_dir_frame hgb1 hcs
                injection h with h2
                injection h2 with ha hb
                injection hb with hb1 hb2
                subst hb1
                subst hb2
                obtain ⟨g1, g2, g3, g4⟩ := nonself_set_spec hGB hsl hnr1
                  hfr1 hsig1 hmem hsg0 hnx (hnr1 ▸ hle2) hgb2 hfr2
                rw [← ha]
                exact ⟨rfl, rfl, rfl, rfl, rfl, g1, g2, g3, Or.inl rfl,
                  slC, g4, hnd, fun q hq => Or.inl hq⟩
            · rw [if_neg hB] at h
              cases hcs : create_shadow_dir st1 sig lid with
              | none =>
                rw [hcs] at h
                simp only [Option.map_none'] at h
                cases h
              | some p2 =>
                obtain ⟨nl, st2⟩ := p2
                rw [hcs] at h
                simp only [Option.map_some'] at h
                obtain ⟨hle2, hgb2, hfr2⟩ := create_shadow_dir_frame hgb1 hcs
                injection h with h2
                injection h2 with ha hb
                injection hb with hb1 hb2
                subst hb1
                subst hb2
                obtain ⟨g1, g2, g3, g4⟩ := nonself_set_spec hGB hsl hnr1
                  hfr1 hsig1 hmem hsg0 hnx (hnr1 ▸ hle2) hgb2 hfr2
                rw [← ha]
                exact ⟨rfl, rfl, rfl, rfl, rfl, g1, g2, g3, Or.inl rfl,
                  slC, g4, hnd, fun q hq => Or.inl hq⟩
      | none =>
        by_cases hA : (if nonselfPkLid ext st sig = 0 then
            G10ERR_NO_PUBKEY else ext.checkKeySig kb signode) = 0
        · rw [if_pos hA] at h
          simp only [] at h
          injection h with h2
          injection h2 with ha hb
          injection hb with hb1 hb2
          subst hb1
          subst hb2
          obtain ⟨g1, g2, g3, g4, g5, g6⟩ := nonself_new_spec lid
            ({ lid := nonselfPkLid ext st sig,
               flag := SIGF_CHECKED ||| SIGF_VALID } ::
              List.replicate (SIGS_PER_RECORD - 1) { lid := 0, flag := 0 })
            hGB h1 hsl hnd hnr1 hfr1 hsig1 (le_refl _) hgb1
            (fun q r hq _ _ => hq)
          rw [← ha]
          exact ⟨rfl, rfl, rfl, rfl, rfl, g1, g2, g3, Or.inr rfl,
            st1.nextRec :: slC, g4, g5, g6⟩
        · rw [if_neg hA] at h
          by_cases hB : (if nonselfPkLid ext st sig = 0 then
              G10ERR_NO_PUBKEY else ext.checkKeySig kb signode) =
              G10ERR_NO_PUBKEY
          · rw [if_pos hB] at h
            cases hcs : create_shadow_dir st1 sig lid with
            | none =>
              rw [hcs] at h
              simp only [Option.map_none'] at h
              cases h
            | some p2 =>
              obtain ⟨nl, st2⟩ := p2
              rw [hcs] at h
              simp only [Option.map_some'] at h
              obtain ⟨hle2, hgb2, hfr2⟩ := create_shadow_dir_frame hgb1 hcs
              injection h with h2
              injection h2 with ha hb
              injection hb with hb1 hb2
              subst hb1
              subst hb2
              obtain ⟨g1, g2, g3, g4, g5, g6⟩ := nonself_new_spec lid
                ({ lid := nl, flag := SIGF_NOPUBKEY } ::
                  List.replicate (SIGS_PER_RECORD - 1) { lid := 0, flag := 0 })
                hGB h1 hsl hnd hnr1 hfr1 hsig1 (hnr1 ▸ hle2) hgb2 hfr2
              rw [← ha]
              exact ⟨rfl, rfl, rfl, rfl, rfl, g1, g2, g3, Or.inr rfl,
                st2.nextRec :: slC, g4, g5, g6⟩
          · rw [if_neg hB] at h
            cases hcs : create_shadow_dir st1 sig lid with
            | none =>
              rw [hcs] at h
              simp only [Option.map_none'] at h
              cases h
            | some p2 =>
              obtain ⟨nl, st2⟩ := p2
              rw [hcs] at h
              simp only [Option.map_some'] at h
              obtain ⟨hle2, hgb2, hfr2⟩ := create_shadow_dir_frame hgb1 hcs
              injection h with h2
              injection h2 with ha hb
              injection hb with hb1 hb2
              subst hb1
              subst hb2
              obtain ⟨g1, g2, g3, g4, g5, g6⟩ := nonself_new_spec lid
                ({ lid := nl, flag := SIGF_CHECKED } ::
                  List.replicate (SIGS_PER_RECORD - 1) { lid := 0, flag := 0 })
                hGB h1 hsl hnd hnr1 hfr1 hsig1 (hnr1 ▸ hle2) hgb2 hfr2
              rw [← ha]
              exact ⟨rfl, rfl, rfl, rfl, rfl, g1, g2, g3, Or.inr rfl,
                st2.nextRec :: slC, g4, g5, g6⟩

/-- With no current uid record, upd_sig_record changes nothing: the
0x18/0x20/0x28 classes run the C stubs on an all-zero uid and the other
classes are skipped. -/
theorem upd_sig_record_nouid {ext : Ext} {kb : KeyBlock} {signode : Nat}
    {sig : SigPkt} {keyid : Nat × Nat} {s : UTState}
    (h0 : s.uidrecno = 0) :
    upd_sig_record ext kb signode sig keyid s = some s := by
  obtain ⟨st0, d0, rn0, dd0, rl0, ur0, uh0⟩ := s
  have h0b : ur0 = 0 := h0
  subst h0b
  simp only [upd_sig_record, h0]
  simp only [if_true]
  by_cases hc : sig.sig_class = 32 ∨ sig.sig_class = 40 ∨ sig.sig_class = 24
  · have h16 : ¬ sig.sig_class &&& 252 = 16 := by
      rcases hc with h | h | h <;> rw [h] <;> decide
    rw [if_pos hc]
    show (match
        (if keyid = sig.keyid then
          if sig.sig_class &&& 252 = 16 then
            upd_self_key_sigs ext kb signode sig rn0 st0 zeroUid false
          else some (st0, zeroUid, false)
        else
          if sig.sig_class &&& 252 = 16 then
            upd_nonself_key_sigs ext kb signode sig rn0 st0 zeroUid false
          else some (st0, zeroUid, false)) with
      | none => none
      | some (st', urec', udirty) =>
        if udirty = true then
          some ({ st := writeRec st' 0 (Rec.uid urec'), drec := d0,
                  drecRn := rn0, drecDirty := dd0, recnoList := rl0,
                  uidrecno := 0, uidhash := uh0 } : UTState)
        else
          some ({ st := st', drec := d0, drecRn := rn0, drecDirty := dd0,
                  recnoList := rl0, uidrecno := 0,
                  uidhash := uh0 } : UTState)) =
      some ({ st := st0, drec := d0, drecRn := rn0, drecDirty := dd0,
              recnoList := rl0, uidrecno := 0, uidhash := uh0 } : UTState)
    by_cases hk : keyid = sig.keyid
    · rw [if_pos hk, if_neg h16]
      rfl
    · rw [if_neg hk, if_neg h16]
      rfl
  · rw [if_neg hc]

/-- upd_sig_record with a current uid record: only the uid record, its
preference and signature chains, the shadow-dir layer and fresh records
can change; the uid keeps its name hash, its link and its owner, and the
new chains reuse at most the old chains' recnums plus fresh ones. -/
theorem upd_sig_record_spec {ext : Ext} {kb : KeyBlock} {signode : Nat}
    {sig : SigPkt} {keyid : Nat × Nat} {s s' : UTState} {u : UidRec}
    {plC slC : List Nat}
    (hGB : GB s.st) (h1 : 1 ≤ s.st.nextRec)
    (hne : s.uidrecno ≠ 0)
    (hu : lookupRec s.st s.uidrecno = some (Rec.uid u))
    (hpl : prefChainRns s.st (s.st.nextRec + 1) u.prefrec = some plC)
    (hplnd : plC.Nodup)
    (hsl : sigChainRns s.st (s.st.nextRec + 1) u.siglist = some slC)
    (hslnd : slC.Nodup)
    (h : upd_sig_record ext kb signode sig keyid s = some s') :
    s'.drec = s.drec ∧ s'.drecRn = s.drecRn ∧ s'.drecDirty = s.drecDirty ∧
    s'.recnoList = s.recnoList ∧ s'.uidrecno = s.uidrecno ∧
    s'.uidhash = s.uidhash ∧
    s.st.nextRec ≤ s'.st.nextRec ∧ GB s'.st ∧
    ∃ u' plC' slC',
      lookupRec s'.st s.uidrecno = some (Rec.uid u') ∧
      u'.namehash = u.namehash ∧ u'.next = u.next ∧ u'.lid = u.lid ∧
      prefChainRns s'.st (s'.st.nextRec + 1) u'.prefrec = some plC' ∧
      plC'.Nodup ∧ (∀ q ∈ plC', q ∈ plC ∨ s.st.nextRec ≤ q) ∧
      sigChainRns s'.st (s'.st.nextRec + 1) u'.siglist = some slC' ∧
      slC'.Nodup ∧ (∀ q ∈ slC', q ∈ slC ∨ s.st.nextRec ≤ q) ∧
      (∀ q r, lookupRec s.st q = some r → q ≠ s.uidrecno → q ∉ plC →
        q ∉ slC → (∀ sd, r ≠ Rec.sdir sd) → (∀ hl, r ≠ Rec.hlst hl) →
        lookupRec s'.st q = some r) := by
  have hult : s.uidrecno < s.st.nextRec := hGB _ _ hu
  have hupl : s.uidrecno ∉ plC := by
    intro hin
    obtain ⟨p, hp⟩ := prefChainRns_mem hpl _ hin
    rw [readPref_lookup hp] at hu
    simp at hu
  have husl : s.uidrecno ∉ slC := by
    intro hin
    obtain ⟨g, hg⟩ := sigChainRns_mem hsl _ hin
    rw [readSig_lookup hg] at hu
    simp at hu
  have hrdu : readUid s.st s.uidrecno = some u := by
    simp only [readUid, hu]
  have hfin : ∀ (stM : Store) (urecM : UidRec) (ud : Bool),
      urecM.namehash = u.namehash → urecM.next = u.next →
      urecM.lid = u.lid →
      s.st.nextRec ≤ stM.nextRec → GB stM →
      (∀ q r, lookupRec s.st q = some r → q ≠ s.uidrecno → q ∉ plC →
        q ∉ slC → (∀ sd, r ≠ Rec.sdir sd) → (∀ hl, r ≠ Rec.hlst hl) →
        lookupRec stM q = some r) →
      (∀ plC2, prefChainRns stM (stM.nextRec + 1) urecM.prefrec =
          some plC2 → (∀ q ∈ plC2, q ∈ plC ∨ s.st.nextRec ≤ q) →
          plC2.Nodup →
        ∀ slC2, sigChainRns stM (stM.nextRec + 1) urecM.siglist =
          some slC2 → (∀ q ∈ slC2, q ∈ slC ∨ s.st.nextRec ≤ q) →
          slC2.Nodup →
        (ud = false → lookupRec stM s.uidrecno = some (Rec.uid urecM)) →
        (if ud then
            some { s with st := writeRec stM s.uidrecno (Rec.uid urecM) }
          else some { s with st := stM }) = some s' →
        s'.drec = s.drec ∧ s'.drecRn = s.drecRn ∧
        s'.drecDirty = s.drecDirty ∧ s'.recnoList = s.recnoList ∧
        s'.uidrecno = s.uidrecno ∧ s'.uidhash = s.uidhash ∧
        s.st.nextRec ≤ s'.st.nextRec ∧ GB s'.st ∧
        ∃ u' plC' slC',
          lookupRec s'.st s.uidrecno = some (Rec.uid u') ∧
          u'.namehash = u.namehash ∧ u'.next = u.next ∧ u'.lid = u.lid ∧
          prefChainRns s'.st (s'.st.nextRec + 1) u'.prefrec = some plC' ∧
          plC'.Nodup ∧ (∀ q ∈ plC', q ∈ plC ∨ s.st.nextRec ≤ q) ∧
          sigChainRns s'.st (s'.st.nextRec + 1) u'.siglist = some slC' ∧
          slC'.Nodup ∧ (∀ q ∈ slC', q ∈ slC ∨ s.st.nextRec ≤ q) ∧
          (∀ q r, lookupRec s.st q = some r → q ≠ s.uidrecno → q ∉ plC →
            q ∉ slC → (∀ sd, r ≠ Rec.sdir sd) → (∀ hl, r ≠ Rec.hlst hl) →
            lookupRec s'.st q = some r)) := by
    intro stM urecM ud hn1 hn2 hn3 hleM hgbM hfrM plC2 hpc2 hpb2 hpnd2
      slC2 hsc2 hsb2 hsnd2 hud heq
    cases ud with
    | false =>
      simp only [Bool.false_eq_true, if_false] at heq
      injection heq with heq2
      subst heq2
      refine ⟨rfl, rfl, rfl, rfl, rfl, rfl, hleM, hgbM,
        urecM, plC2, slC2, hud rfl, hn1, hn2, hn3, hpc2, hpnd2, hpb2,
        hsc2, hsnd2, hsb2, hfrM⟩
    | true =>
      simp only [if_true] at heq
      injection heq with heq2
      subst heq2
      have hwne : ∀ q, q ∈ plC2 ∨ q ∈ slC2 → q ≠ s.uidrecno := by
        intro q hq he
        rcases hq with hq | hq
        · rcases hpb2 q hq with h2 | h2
          · exact hupl (he ▸ h2)
          · omega
        · rcases hsb2 q hq with h2 | h2
          · exact husl (he ▸ h2)
          · omega
      refine ⟨rfl, rfl, rfl, rfl, rfl, rfl, ?_, ?_, urecM, plC2, slC2,
        ?_, hn1, hn2, hn3, ?_, hpnd2, hpb2, ?_, hsnd2, hsb2, ?_⟩
      · show s.st.nextRec ≤ stM.nextRec
        exact hleM
      · exact GB_write hgbM (by omega) _
      · exact lookupRec_writeRec_self _ _ _
      · refine prefChainRns_congr hpc2 ?_
        intro q hq
        exact lookupRec_writeRec_other _ _ _ _ (hwne q (Or.inl hq))
      · refine sigChainRns_congr hsc2 ?_
        intro q hq
        exact lookupRec_writeRec_other _ _ _ _ (hwne q (Or.inr hq))
      · intro q r hq hq1 hq2 hq3 hq4 hq5
        rw [lookupRec_writeRec_other _ _ _ _ hq1]
        exact hfrM q r hq hq1 hq2 hq3 hq4 hq5
  simp only [upd_sig_record] at h
  rw [if_neg hne, hrdu] at h
  simp only [] at h
  by_cases hk : keyid = sig.keyid
  · rw [if_pos hk] at h
    by_cases h16 : sig.sig_class &&& 252 = 16
    · rw [if_pos h16] at h
      obtain ⟨st2, urec2, ud2, hupd, hn1, hn2, hn3, hn4, hle, hgb, hfr,
        hnoc, plC', hpc, hpnd, hpb⟩ :=
        @upd_self_key_sigs_spec ext kb signode sig s.drecRn _ _ false _
          hGB h1 hpl hplnd
      rw [hupd] at h
      simp only [] at h
      have hslpres : ∀ q ∈ slC, lookupRec st2 q = lookupRec s.st q := by
        intro q hq
        obtain ⟨g, hg⟩ := sigChainRns_mem hsl q hq
        have hql : q < s.st.nextRec := hGB _ _ (readSig_lookup hg)
        refine hfr q ?_ hql
        intro hin
        obtain ⟨p, hp⟩ := prefChainRns_mem hpl _ hin
        have h2 := readPref_lookup hp
        rw [readSig_lookup hg] at h2
        simp at h2
      refine hfin st2 urec2 ud2 hn1 hn2 hn3 hle hgb ?_ plC' hpc hpb hpnd
        slC ?_ (fun q hq => Or.inl hq) hslnd ?_ h
      · intro q r hq hq1 hq2 hq3 _ _
        rw [hfr q hq2 (hGB _ _ hq)]
        exact hq
      · rw [hn4]
        refine sigChainRns_le ?_ (sigChainRns_congr hsl hslpres)
        omega
      · intro hud
        rcases hnoc with ⟨he1, he2, he3⟩ | he
        · rw [he1, he2]
          exact hu
        · rw [hud] at he
          cases he
    · rw [if_neg h16] at h
      simp only [] at h
      exact hfin s.st u false rfl rfl rfl (le_refl _) hGB
        (fun q r hq _ _ _ _ _ => hq) plC hpl (fun q hq => Or.inl hq) hplnd
        slC hsl (fun q hq => Or.inl hq) hslnd (fun _ => hu) h
  · rw [if_neg hk] at h
    by_cases h16 : sig.sig_class &&& 252 = 16
    · rw [if_pos h16] at h
      cases hrun : upd_nonself_key_sigs ext kb signode sig s.drecRn s.st u
          false with
      | none => rw [hrun] at h; cases h
      | some p3 =>
        obtain ⟨st2, urec2, ud2⟩ := p3
        rw [hrun] at h
        simp only [] at h
        obtain ⟨hn1, hn2, hn3, hn4, hn5, hle, hgb, hfr, hnoc, slC',
          hsc, hsnd, hsb⟩ :=
          upd_nonself_key_sigs_spec hGB h1 hsl hslnd hrun
        have hplpres : ∀ q ∈ plC, lookupRec st2 q = lookupRec s.st q := by
          intro q hq
          obtain ⟨p, hp⟩ := prefChainRns_mem hpl q hq
          have hlp := readPref_lookup hp
          rw [hlp]
          refine hfr q (Rec.pref p) hlp ?_ (by intro sd h2; cases h2)
            (by intro hl h2; cases h2)
          intro hin
          obtain ⟨g, hg⟩ := sigChainRns_mem hsl _ hin
          rw [readSig_lookup hg] at hlp
          simp at hlp
        have hpc2 : prefChainRns st2 (st2.nextRec + 1) urec2.prefrec =
            some plC := by
          rw [hn4]
          refine prefChainRns_le ?_ (prefChainRns_congr hpl hplpres)
          omega
        refine hfin st2 urec2 ud2 hn1 hn2 hn3 hle hgb ?_ plC hpc2
          (fun q hq => Or.inl hq) hplnd slC' hsc hsb hsnd ?_ h
        · intro q r hq hq1 hq2 hq3 hq4 hq5
          exact hfr q r hq hq3 hq4 hq5
        · intro hud
          rcases hnoc with he | he
          · rw [he]
            refine hfr _ _ hu husl (by intro sd h2; cases h2)
              (by intro hl h2; cases h2)
          · rw [hud] at he
            cases he
    · rw [if_neg h16] at h
      simp only [] at h
      exact hfin s.st u false rfl rfl rfl (le_refl _) hGB
        (fun q r hq _ _ _ _ _ => hq) plC hpl (fun q hq => Or.inl hq) hplnd
        slC hsl (fun q hq => Or.inl hq) hslnd (fun _ => hu) h

/-- The fingerprints of the key and subkey packets of a keyblock, in
order. -/
def kbKeyFprs : KeyBlock → List (List Nat)
  | [] => []
  | KBNode.publicKey pk :: r => pk.fingerprint :: kbKeyFprs r
  | KBNode.publicSubkey pk :: r => pk.fingerprint :: kbKeyFprs r
  | _ :: r => kbKeyFprs r

/-- The name hashes of the user-id packets of a keyblock, in order. -/
def kbUidHashes (ext : Ext) : KeyBlock → List (List Nat)
  | [] => []
  | KBNode.userId u :: r => ext.rmd160 u.name :: kbUidHashes ext r
  | _ :: r => kbUidHashes ext r

theorem qryRecnoList_iff {rl : List (Nat × Nat)} {r ty : Nat}
    (hty : ty ≠ 0) :
    qryRecnoList rl r ty = true ↔ (r, ty) ∈ rl := by
  simp only [qryRecnoList, List.any_eq_true, decide_eq_true_eq]
  constructor
  · rintro ⟨p, hp, h1, h2⟩
    rcases h2 with h2 | h2
    · exact absurd h2 hty
    · have he : (r, ty) = p := by
        rw [← h1, ← h2]
      rw [he]
      exact hp
  · intro h
    exact ⟨(r, ty), h, rfl, Or.inr rfl⟩

/-- A key chain needs only as much fuel as its length. -/
theorem keyChainL_tight {st : Store} :
    ∀ {f h : Nat} {l : List (Nat × KeyRec)}, keyChainL st f h = some l →
      ∀ f', l.length ≤ f' → keyChainL st f' h = some l := by
  intro f
  induction f with
  | zero =>
    intro h l hc f' hlen
    cases h with
    | zero =>
      cases hc
      exact keyChainL_zero st f'
    | succ rn => cases hc
  | succ f ih =>
    intro h l hc f' hlen
    cases h with
    | zero =>
      cases hc
      exact keyChainL_zero st f'
    | succ rn =>
      simp only [keyChainL] at hc
      cases hk : readKey st (rn + 1) with
      | none => rw [hk] at hc; cases hc
      | some k =>
        simp only [hk, Option.map_eq_some'] at hc
        obtain ⟨t, ht, rfl⟩ := hc
        simp only [List.length_cons] at hlen
        cases f' with
        | zero => omega
        | succ f2 =>
          have := ih ht f2 (by omega)
          simp only [keyChainL, hk, this, Option.map_some']

/-- A uid chain needs only as much fuel as its length. -/
theorem uidChainL_tight {st : Store} :
    ∀ {f h : Nat} {l : List (Nat × UidRec)}, uidChainL st f h = some l →
      ∀ f', l.length ≤ f' → uidChainL st f' h = some l := by
  intro f
  induction f with
  | zero =>
    intro h l hc f' hlen
    cases h with
    | zero =>
      cases hc
      exact uidChainL_zero st f'
    | succ rn => cases hc
  | succ f ih =>
    intro h l hc f' hlen
    cases h with
    | zero =>
      cases hc
      exact uidChainL_zero st f'
    | succ rn =>
      simp only [uidChainL] at hc
      cases hk : readUid st (rn + 1) with
      | none => rw [hk] at hc; cases hc
      | some u =>
        simp only [hk, Option.map_eq_some'] at hc
        obtain ⟨t, ht, rfl⟩ := hc
        simp only [List.length_cons] at hlen
        cases f' with
        | zero => omega
        | succ f2 =>
          have := ih ht f2 (by omega)
          simp only [uidChainL, hk, this, Option.map_some']

/-- Replacing one uid record of a chain by a record with the same next
pointer keeps the chain, with that one element substituted. -/
theorem uidChainL_update_one {st st' : Store} {r : Nat} {u u' : UidRec}
    (hnx : u'.next = u.next)
    (hst : lookupRec st' r = some (Rec.uid u')) :
    ∀ {f h : Nat} {l : List (Nat × UidRec)}, uidChainL st f h = some l →
      (r, u) ∈ l → (l.map Prod.fst).Nodup →
      (∀ p ∈ l, p.1 ≠ r → lookupRec st' p.1 = lookupRec st p.1) →
      uidChainL st' f h =
        some (l.map (fun p => if p.1 = r then (r, u') else p)) := by
  intro f
  induction f with
  | zero =>
    intro h l hc hm hnd hpres
    cases h with
    | zero =>
      cases hc
      cases hm
    | succ rn => cases hc
  | succ f ih =>
    intro h l hc hm hnd hpres
    cases h with
    | zero =>
      cases hc
      cases hm
    | succ rn =>
      simp only [uidChainL] at hc
      cases hk : readUid st (rn + 1) with
      | none => rw [hk] at hc; cases hc
      | some u0 =>
        simp only [hk, Option.map_eq_some'] at hc
        obtain ⟨t, ht, rfl⟩ := hc
        have hndh : (rn + 1) ∉ t.map Prod.fst := (List.nodup_cons.mp hnd).1
        have hndt : (t.map Prod.fst).Nodup := (List.nodup_cons.mp hnd).2
        by_cases hr : rn + 1 = r
        · subst hr
          have hu0 : u0 = u := by
            rcases List.mem_cons.mp hm with hm | hm
            · exact congrArg Prod.snd hm.symm
            · exact absurd (List.mem_map_of_mem Prod.fst hm) hndh
          subst hu0
          have hrd' : readUid st' (rn + 1) = some u' := by
            simp only [readUid, hst]
          have ht2 : uidChainL st' f u'.next = some t := by
            rw [hnx]
            refine uidChainL_congr ht ?_
            intro p hp
            refine hpres p (List.mem_cons_of_mem _ hp) ?_
            intro he
            exact hndh (he ▸ List.mem_map_of_mem Prod.fst hp)
          have hmap : t.map (fun p => if p.1 = rn + 1 then (rn + 1, u') else p)
              = t := by
            have h2 : ∀ p ∈ t,
                (if p.1 = rn + 1 then (rn + 1, u') else p) = id p := by
              intro p hp
              have hp1 : ¬ p.1 = rn + 1 := by
                intro he
                exact hndh (he ▸ List.mem_map_of_mem Prod.fst hp)
              rw [if_neg hp1]
              rfl
            rw [List.map_congr_left h2, List.map_id]
          simp only [uidChainL, hrd', ht2, Option.map_some', List.map_cons,
            eq_self_iff_true, if_true, hmap]
        · have hl2 : lookupRec st' (rn + 1) = lookupRec st (rn + 1) :=
            hpres (rn + 1, u0) (List.mem_cons_self _ _) hr
          have hrd' : readUid st' (rn + 1) = some u0 := by
            simp only [readUid, hl2, readUid_lookup hk]
          have hm2 : (r, u) ∈ t := by
            rcases List.mem_cons.mp hm with hm | hm
            · injection hm.symm with h1 _
              exact absurd h1 hr
            · exact hm
          have ht2 := ih ht hm2 hndt
            (fun p hp hpr => hpres p (List.mem_cons_of_mem _ hp) hpr)
          simp only [uidChainL, hrd', ht2, Option.map_some', List.map_cons,
            if_neg hr]

/-- The uid side of the walk invariant: the dir's uid chain together
with every uid's preference and signature chains, all duplicate-free
and pairwise disjoint. -/
def USide (st : Store) (F : Nat) (ul : Nat)
    (ucl : List (Nat × UidRec)) : Prop :=
  uidChainL st F ul = some ucl ∧
  (∀ p ∈ ucl, ∃ plC slC,
    prefChainRns st F p.2.prefrec = some plC ∧ plC.Nodup ∧
    sigChainRns st F p.2.siglist = some slC ∧ slC.Nodup) ∧
  (∀ p q, p ∈ ucl → q ∈ ucl → p.1 ≠ q.1 →
    ∀ plp slp plq slq,
      prefChainRns st F p.2.prefrec = some plp →
      sigChainRns st F p.2.siglist = some slp →
      prefChainRns st F q.2.prefrec = some plq →
      sigChainRns st F q.2.siglist = some slq →
      ∀ x, (x ∈ plp ∨ x ∈ slp) → x ∉ plq ∧ x ∉ slq)

/-- A store step that preserves every uid, pref and sig record
preserves the whole uid side. -/
theorem keyChainL_mem_pos {st : Store} :
    ∀ {f h : Nat} {l : List (Nat × KeyRec)}, keyChainL st f h = some l →
      ∀ p ∈ l, p.1 ≠ 0 := by
  intro f
  induction f with
  | zero =>
    intro h l hc p hp
    cases h with
    | zero => cases hc; cases hp
    | succ rn => cases hc
  | succ f ih =>
    intro h l hc p hp
    cases h with
    | zero => cases hc; cases hp
    | succ rn =>
      simp only [keyChainL] at hc
      cases hk : readKey st (rn + 1) with
      | none => rw [hk] at hc; cases hc
      | some k =>
        simp only [hk, Option.map_eq_some'] at hc
        obtain ⟨t, ht, rfl⟩ := hc
        rcases List.mem_cons.mp hp with hp | hp
        · subst hp
          simp
        · exact ih ht p hp

theorem uidChainL_mem_pos {st : Store} :
    ∀ {f h : Nat} {l : List (Nat × UidRec)}, uidChainL st f h = some l →
      ∀ p ∈ l, p.1 ≠ 0 := by
  intro f
  induction f with
  | zero =>
    intro h l hc p hp
    cases h with
    | zero => cases hc; cases hp
    | succ rn => cases hc
  | succ f ih =>
    intro h l hc p hp
    cases h with
    | zero => cases hc; cases hp
    | succ rn =>
      simp only [uidChainL] at hc
      cases hk : readUid st (rn + 1) with
      | none => rw [hk] at hc; cases hc
      | some u =>
        simp only [hk, Option.map_eq_some'] at hc
        obtain ⟨t, ht, rfl⟩ := hc
        rcases List.mem_cons.mp hp with hp | hp
        · subst hp
          simp
        · exact ih ht p hp

theorem prefChainRns_mem_pos {st : Store} :
    ∀ {f h : Nat} {l : List Nat}, prefChainRns st f h = some l →
      ∀ q ∈ l, q ≠ 0 := by
  intro f
  induction f with
  | zero =>
    intro h l hc q hq
    cases h with
    | zero => cases hc; cases hq
    | succ rn => cases hc
  | succ f ih =>
    intro h l hc q hq
    cases h with
    | zero => cases hc; cases hq
    | succ rn =>
      simp only [prefChainRns] at hc
      cases hk : readPref st (rn + 1) with
      | none => rw [hk] at hc; cases hc
      | some p =>
        simp only [hk, Option.map_eq_some'] at hc
        obtain ⟨t, ht, rfl⟩ := hc
        rcases List.mem_cons.mp hq with hq | hq
        · subst hq
          simp
        · exact ih ht q hq

theorem sigChainRns_mem_pos {st : Store} :
    ∀ {f h : Nat} {l : List Nat}, sigChainRns st f h = some l →
      ∀ q ∈ l, q ≠ 0 := by
  intro f
  induction f with
  | zero =>
    intro h l hc q hq
    cases h with
    | zero => cases hc; cases hq
    | succ rn => cases hc
  | succ f ih =>
    intro h l hc q hq
    cases h with
    | zero => cases hc; cases hq
    | succ rn =>
      simp only [sigChainRns] at hc
      cases hk : readSig st (rn + 1) with
      | none => rw [hk] at hc; cases hc
      | some g =>
        simp only [hk, Option.map_eq_some'] at hc
        obtain ⟨t, ht, rfl⟩ := hc
        rcases List.mem_cons.mp hq with hq | hq
        · subst hq
          simp
        · exact ih ht q hq

theorem USide_transfer {st st' : Store} {F F' ul : Nat}
    {ucl : List (Nat × UidRec)}
    (h : USide st F ul ucl) (hF : F ≤ F')
    (hpres : ∀ q r, lookupRec st q = some r → q ≠ 0 →
      ((∃ u, r = Rec.uid u) ∨ (∃ p, r = Rec.pref p) ∨
        (∃ g, r = Rec.sig g)) →
      lookupRec st' q = some r) :
    USide st' F' ul ucl := by
  obtain ⟨huc, hch, hdisj⟩ := h
  have hueq : ∀ p ∈ ucl, lookupRec st' p.1 = lookupRec st p.1 := by
    intro p hp
    have h1 := readUid_lookup (uidChainL_mem huc p hp)
    rw [h1, hpres _ _ h1 (uidChainL_mem_pos huc p hp)
      (Or.inl ⟨p.2, rfl⟩)]
  have huc' : uidChainL st' F' ul = some ucl :=
    uidChainL_le hF (uidChainL_congr huc hueq)
  have hch' : ∀ p ∈ ucl, ∀ plC slC,
      prefChainRns st F p.2.prefrec = some plC →
      sigChainRns st F p.2.siglist = some slC →
      prefChainRns st' F' p.2.prefrec = some plC ∧
      sigChainRns st' F' p.2.siglist = some slC := by
    intro p hp plC slC hplc hslc
    constructor
    · refine prefChainRns_le hF (prefChainRns_congr hplc ?_)
      intro q hq
      obtain ⟨pr, hpr⟩ := prefChainRns_mem hplc q hq
      have h1 := readPref_lookup hpr
      rw [h1, hpres _ _ h1 (prefChainRns_mem_pos hplc q hq)
        (Or.inr (Or.inl ⟨pr, rfl⟩))]
    · refine sigChainRns_le hF (sigChainRns_congr hslc ?_)
      intro q hq
      obtain ⟨sg, hsg⟩ := sigChainRns_mem hslc q hq
      have h1 := readSig_lookup hsg
      rw [h1, hpres _ _ h1 (sigChainRns_mem_pos hslc q hq)
        (Or.inr (Or.inr ⟨sg, rfl⟩))]
  refine ⟨huc', ?_, ?_⟩
  · intro p hp
    obtain ⟨plC, slC, h1, h2, h3, h4⟩ := hch p hp
    obtain ⟨h5, h6⟩ := hch' p hp plC slC h1 h3
    exact ⟨plC, slC, h5, h2, h6, h4⟩
  · intro p q hp hq hne plp slp plq slq hplp hslp hplq hslq x hx
    obtain ⟨plC, slC, h1, h2, h3, h4⟩ := hch p hp
    obtain ⟨plCq, slCq, g1, g2, g3, g4⟩ := hch q hq
    obtain ⟨h5, h6⟩ := hch' p hp plC slC h1 h3
    obtain ⟨g5, g6⟩ := hch' q hq plCq slCq g1 g3
    have e1 : plp = plC := by
      rw [h5] at hplp
      exact (Option.some.inj hplp).symm
    have e2 : slp = slC := by
      rw [h6] at hslp
      exact (Option.some.inj hslp).symm
    have e3 : plq = plCq := by
      rw [g5] at hplq
      exact (Option.some.inj hplq).symm
    have e4 : slq = slCq := by
      rw [g6] at hslq
      exact (Option.some.inj hslq).symm
    rw [e3, e4]
    refine hdisj p q hp hq hne plC slC plCq slCq h1 h3 g1 g3 x ?_
    rw [← e1, ← e2]
    exact hx

/-- A store step that preserves every key record preserves the key
chain. -/
theorem kchain_transfer {st st' : Store} {F F' kl : Nat}
    {kcl : List (Nat × KeyRec)}
    (hkc : keyChainL st F kl = some kcl) (hF : F ≤ F')
    (hpres : ∀ q r, lookupRec st q = some r → q ≠ 0 →
      (∃ k, r = Rec.key k) → lookupRec st' q = some r) :
    keyChainL st' F' kl = some kcl := by
  refine keyChainL_le hF (keyChainL_congr hkc ?_)
  intro p hp
  have h1 := readKey_lookup (keyChainL_mem hkc p hp)
  rw [h1, hpres _ _ h1 (keyChainL_mem_pos hkc p hp) ⟨p.2, rfl⟩]

/-- A store step that preserves every pref record preserves a pref
chain. -/
theorem prefChainRns_transfer {st st' : Store} {F F' h : Nat}
    {plC : List Nat}
    (hc : prefChainRns st F h = some plC) (hF : F ≤ F')
    (hpres : ∀ q r, lookupRec st q = some r → q ≠ 0 →
      (∃ p2, r = Rec.pref p2) → lookupRec st' q = some r) :
    prefChainRns st' F' h = some plC := by
  refine prefChainRns_le hF (prefChainRns_congr hc ?_)
  intro q hq
  obtain ⟨pr, hpr⟩ := prefChainRns_mem hc q hq
  have h1 := readPref_lookup hpr
  rw [h1, hpres _ _ h1 (prefChainRns_mem_pos hc q hq) ⟨pr, rfl⟩]

/-- A store step that preserves every sig record preserves a sig
chain. -/
theorem sigChainRns_transfer {st st' : Store} {F F' h : Nat}
    {slC : List Nat}
    (hc : sigChainRns st F h = some slC) (hF : F ≤ F')
    (hpres : ∀ q r, lookupRec st q = some r → q ≠ 0 →
      (∃ g, r = Rec.sig g) → lookupRec st' q = some r) :
    sigChainRns st' F' h = some slC := by
  refine sigChainRns_le hF (sigChainRns_congr hc ?_)
  intro q hq
  obtain ⟨sg, hsg⟩ := sigChainRns_mem hc q hq
  have h1 := readSig_lookup hsg
  rw [h1, hpres _ _ h1 (sigChainRns_mem_pos hc q hq) ⟨sg, rfl⟩]

/-- The loop invariant of the update_trust_record node walk.  st0 is
the store at entry (transaction started), rn0 the primary dir recnum,
kcl0 and ucl0 the dir's key and uid chains at entry, kf and uh the
fingerprints and name hashes of the key and uid packets walked so
far. -/
structure C5Inv (st0 : Store) (rn0 : Nat) (kcl0 : List (Nat × KeyRec))
    (ucl0 : List (Nat × UidRec)) (kf uh : List (List Nat))
    (s : UTState) : Prop where
  rn_eq : s.drecRn = rn0
  one_le : 1 ≤ st0.nextRec
  nr_le : st0.nextRec ≤ s.st.nextRec
  gb : GB s.st
  dir_ok : ∃ dcur, lookupRec s.st rn0 = some (Rec.dir dcur) ∧
    (s.drecDirty = false → dcur = s.drec)
  kchain : ∃ kcl,
    keyChainL s.st (s.st.nextRec + 1) s.drec.keylist = some kcl ∧
    (kcl.map Prod.fst).Nodup ∧
    (kcl.map (fun p => p.2.fingerprint)).Nodup ∧
    (∃ kext, kcl.map (fun p => (p.1, p.2.fingerprint)) =
      kcl0.map (fun p => (p.1, p.2.fingerprint)) ++ kext ∧
      ∀ e ∈ kext, st0.nextRec ≤ e.1 ∧ e.2 ∈ kf) ∧
    (∀ p ∈ kcl, ((p.1, RECTYPE_KEY) ∈ s.recnoList ↔ p.2.fingerprint ∈ kf)) ∧
    (∀ x ∈ kf, x ∈ kcl.map (fun p => p.2.fingerprint))
  uchain : ∃ ucl,
    USide s.st (s.st.nextRec + 1) s.drec.uidlist ucl ∧
    (ucl.map Prod.fst).Nodup ∧
    (ucl.map (fun p => p.2.namehash)).Nodup ∧
    (∃ uext, ucl.map (fun p => (p.1, p.2.namehash)) =
      ucl0.map (fun p => (p.1, p.2.namehash)) ++ uext ∧
      ∀ e ∈ uext, st0.nextRec ≤ e.1 ∧ e.2 ∈ uh) ∧
    (∀ p ∈ ucl, ((p.1, RECTYPE_UID) ∈ s.recnoList ↔ p.2.namehash ∈ uh)) ∧
    (∀ x ∈ uh, x ∈ ucl.map (fun p => p.2.namehash)) ∧
    (∀ p0 ∈ ucl0, p0.2.namehash ∉ uh → ∃ p1, p1 ∈ ucl ∧ p1.1 = p0.1 ∧
      p1.2.namehash = p0.2.namehash ∧
      ∀ plC slC,
        prefChainRns st0 (st0.nextRec + 1) p0.2.prefrec = some plC →
        sigChainRns st0 (st0.nextRec + 1) p0.2.siglist = some slC →
        prefChainRns s.st (s.st.nextRec + 1) p1.2.prefrec = some plC ∧
        sigChainRns s.st (s.st.nextRec + 1) p1.2.siglist = some slC) ∧
    (s.uidrecno = 0 ∨ ∃ u, (s.uidrecno, u) ∈ ucl ∧ u.namehash ∈ uh)

/-- A key or subkey packet node preserves the walk invariant, recording
the packet's fingerprint. -/
theorem C5Inv_key {st0 : Store} {rn0 : Nat} {kcl0 : List (Nat × KeyRec)}
    {ucl0 : List (Nat × UidRec)} {kf uh : List (List Nat)}
    {pk : PubKeyPkt} {s s' : UTState}
    (hinv : C5Inv st0 rn0 kcl0 ucl0 kf uh s)
    (h : upd_key_record pk { s with uidrecno := 0 } = some s') :
    C5Inv st0 rn0 kcl0 ucl0 (kf ++ [pk.fingerprint]) uh s' := by
  obtain ⟨kcl, hkc, hknd, hkfnd, ⟨kext, hkmap, hkext⟩, hkret, hkcomp⟩ :=
    hinv.kchain
  obtain ⟨ucl, huside, hund, huhnd, ⟨uext, humap, huext⟩, huret, hucomp,
    hunt, hcur⟩ := hinv.uchain
  have hkmemb : ∀ p ∈ kcl, p.1 < s.st.nextRec := by
    intro p hp
    exact hinv.gb _ _ (readKey_lookup (keyChainL_mem hkc p hp))
  cases hfind : kcl.find? (fun p => p.2.fingerprint == pk.fingerprint) with
  | some e =>
    have h2 : some { s with uidrecno := 0, recnoList := (e.1, RECTYPE_KEY) :: s.recnoList } = some s' := by
      rw [← h]
      exact (upd_key_record_found (s := { s with uidrecno := 0 }) hkc hfind).symm
    injection h2 with h3
    subst h3
    have hemem : e ∈ kcl := List.mem_of_find?_eq_some hfind
    have hefp : e.2.fingerprint = pk.fingerprint := by
      have h4 := List.find?_some hfind
      simpa using h4
    have hkinj := List.inj_on_of_nodup_map hknd
    have hfinj := List.inj_on_of_nodup_map hkfnd
    refine ⟨hinv.rn_eq, hinv.one_le, hinv.nr_le, hinv.gb, hinv.dir_ok,
      ⟨kcl, hkc, hknd, hkfnd, ⟨kext, hkmap, ?_⟩, ?_, ?_⟩,
      ⟨ucl, huside, hund, huhnd, ⟨uext, humap, huext⟩, ?_, hucomp, hunt,
        Or.inl rfl⟩⟩
    · intro x hx
      exact ⟨(hkext x hx).1, List.mem_append_left _ (hkext x hx).2⟩
    · intro p hp
      constructor
      · intro hin
        rcases List.mem_cons.mp hin with hin | hin
        · have hp1 := congrArg Prod.fst hin
          have hpe : p = e := hkinj hp hemem hp1
          rw [hpe, hefp]
          exact List.mem_append_right _ (List.mem_singleton_self _)
        · exact List.mem_append_left _ ((hkret p hp).mp hin)
      · intro hf
        rcases List.mem_append.mp hf with hf | hf
        · exact List.mem_cons_of_mem _ ((hkret p hp).mpr hf)
        · have hpf : p.2.fingerprint = pk.fingerprint :=
            List.mem_singleton.mp hf
          have hfe : p.2.fingerprint = e.2.fingerprint := by
            rw [hpf, hefp]
          have hpe : p = e := hfinj hp hemem hfe
          rw [hpe]
          exact List.mem_cons_self _ _
    · intro x hx
      rcases List.mem_append.mp hx with hx | hx
      · exact hkcomp x hx
      · rw [List.mem_singleton.mp hx, ← hefp]
        exact List.mem_map_of_mem _ hemem
    · intro p hp
      constructor
      · intro hin
        rcases List.mem_cons.mp hin with hin | hin
        · have h4 : RECTYPE_UID = RECTYPE_KEY := congrArg Prod.snd hin
          simp [RECTYPE_UID, RECTYPE_KEY] at h4
        · exact (huret p hp).mp hin
      · intro hf
        exact List.mem_cons_of_mem _ ((huret p hp).mpr hf)
  | none =>
    have h1s : 1 ≤ s.st.nextRec := le_trans hinv.one_le hinv.nr_le
    obtain ⟨s2, kcl', hupd, hdr, hur, huh2, hul, hrl, hnr, hgb, hkc', hnd',
      hmap', hfr, hdd⟩ := upd_key_record_new
        (s := { s with uidrecno := 0 }) hinv.gb h1s hkc hknd hfind
    rw [hupd] at h
    injection h with h3
    subst h3
    have hnpk : ∀ p ∈ kcl, p.2.fingerprint ≠ pk.fingerprint := by
      intro p hp
      have h4 := List.find?_eq_none.mp hfind p hp
      simpa using h4
    have hfprmap : kcl'.map (fun p => p.2.fingerprint) =
        kcl.map (fun p => p.2.fingerprint) ++ [pk.fingerprint] := by
      have h4 := congrArg (List.map Prod.snd) hmap'
      simpa [List.map_map, Function.comp] using h4
    have hfnd' : (kcl'.map (fun p => p.2.fingerprint)).Nodup := by
      rw [hfprmap, List.nodup_append]
      refine ⟨hkfnd, List.nodup_singleton _, ?_⟩
      intro a ha hb
      have h5 : a = pk.fingerprint := List.mem_singleton.mp hb
      obtain ⟨p, hp, hpa⟩ := List.mem_map.mp ha
      refine hnpk p hp ?_
      rw [hpa, h5]
    have hpair : ∀ p ∈ kcl', (∃ p0 ∈ kcl, p0.1 = p.1 ∧
        p0.2.fingerprint = p.2.fingerprint) ∨
        (p.1 = s.st.nextRec ∧ p.2.fingerprint = pk.fingerprint) := by
      intro p hp
      have h4 : (p.1, p.2.fingerprint) ∈
          kcl'.map (fun p => (p.1, p.2.fingerprint)) :=
        List.mem_map_of_mem _ hp
      rw [hmap'] at h4
      rcases List.mem_append.mp h4 with h4 | h4
      · obtain ⟨p0, hp0, he⟩ := List.mem_map.mp h4
        have e1 := congrArg Prod.fst he
        have e2 := congrArg Prod.snd he
        exact Or.inl ⟨p0, hp0, e1, e2⟩
      · have he := List.mem_singleton.mp h4
        have e1 := congrArg Prod.fst he
        have e2 := congrArg Prod.snd he
        exact Or.inr ⟨e1, e2⟩
    have hpres : ∀ q r, lookupRec s.st q = some r → q ≠ 0 →
        ((∃ u, r = Rec.uid u) ∨ (∃ p2, r = Rec.pref p2) ∨
          (∃ g, r = Rec.sig g)) →
        lookupRec s2.st q = some r := by
      intro q r hq _ hty
      have hq2 : q ≠ s.st.nextRec := by
        have h4 := hinv.gb q r hq
        omega
      have hq1 : ∀ p ∈ kcl, q ≠ p.1 := by
        intro p hp he
        have h4 := readKey_lookup (keyChainL_mem hkc p hp)
        rcases hty with ⟨u, he2⟩ | ⟨pp, he2⟩ | ⟨g, he2⟩ <;>
          (subst he2; rw [he, h4] at hq; simp at hq)
      rw [hfr q hq1 hq2]
      exact hq
    refine ⟨hdr.trans hinv.rn_eq, hinv.one_le, ?_, hgb, ?_,
      ⟨kcl', hkc', hnd', hfnd',
        ⟨kext ++ [(s.st.nextRec, pk.fingerprint)], ?_, ?_⟩, ?_, ?_⟩,
      ⟨ucl, ?_, hund, huhnd, ⟨uext, humap, huext⟩, ?_, hucomp, ?_,
        Or.inl hur⟩⟩
    · exact le_trans hinv.nr_le (by rw [hnr]; exact Nat.le_succ _)
    · obtain ⟨dcur, hdl, hdimp⟩ := hinv.dir_ok
      have hrn0lt : rn0 < s.st.nextRec := hinv.gb _ _ hdl
      have hrn0k : ∀ p ∈ kcl, rn0 ≠ p.1 := by
        intro p hp he
        have h4 := readKey_lookup (keyChainL_mem hkc p hp)
        rw [← he, hdl] at h4
        simp at h4
      have hdl2 : lookupRec s2.st rn0 = some (Rec.dir dcur) := by
        rw [hfr rn0 hrn0k (show rn0 ≠ s.st.nextRec by omega)]
        exact hdl
      refine ⟨dcur, hdl2, ?_⟩
      rcases hdd with ⟨hd1, hd2⟩ | hd2
      · intro hf
        rw [hd1]
        exact hdimp (hd2.symm.trans hf)
      · intro hf
        rw [hd2] at hf
        cases hf
    · rw [hmap', hkmap, List.append_assoc]
    · intro x hx
      rcases List.mem_append.mp hx with hx | hx
      · exact ⟨(hkext x hx).1, List.mem_append_left _ (hkext x hx).2⟩
      · have he := List.mem_singleton.mp hx
        rw [he]
        exact ⟨hinv.nr_le,
          List.mem_append_right _ (List.mem_singleton_self _)⟩
    · intro p hp
      rw [hrl]
      rcases hpair p hp with ⟨p0, hp0, he1, he2⟩ | ⟨he1, he2⟩
      · rw [← he1, ← he2]
        constructor
        · intro hin
          rcases List.mem_cons.mp hin with hin | hin
          · have h5 : p0.1 = s.st.nextRec := congrArg Prod.fst hin
            have h6 := hkmemb p0 hp0
            omega
          · exact List.mem_append_left _ ((hkret p0 hp0).mp hin)
        · intro hf
          rcases List.mem_append.mp hf with hf | hf
          · exact List.mem_cons_of_mem _ ((hkret p0 hp0).mpr hf)
          · exact absurd (List.mem_singleton.mp hf) (hnpk p0 hp0)
      · rw [he1, he2]
        constructor
        · intro _
          exact List.mem_append_right _ (List.mem_singleton_self _)
        · intro _
          exact List.mem_cons_self _ _
    · intro x hx
      rw [hfprmap]
      rcases List.mem_append.mp hx with hx | hx
      · exact List.mem_append_left _ (hkcomp x hx)
      · exact List.mem_append_right _ hx
    · rw [hul]
      refine USide_transfer huside ?_ hpres
      rw [hnr]
      exact Nat.le_succ _
    · intro p hp
      rw [hrl]
      constructor
      · intro hin
        rcases List.mem_cons.mp hin with hin | hin
        · have h4 : RECTYPE_UID = RECTYPE_KEY := congrArg Prod.snd hin
          simp [RECTYPE_UID, RECTYPE_KEY] at h4
        · exact (huret p hp).mp hin
      · intro hf
        exact List.mem_cons_of_mem _ ((huret p hp).mpr hf)
    · intro p0 hp0 hnin
      obtain ⟨p1, hp1, he1, he2, hch⟩ := hunt p0 hp0 hnin
      refine ⟨p1, hp1, he1, he2, ?_⟩
      intro plC slC hplC hslC
      obtain ⟨hp5, hs5⟩ := hch plC slC hplC hslC
      have hF2 : s.st.nextRec + 1 ≤ s2.st.nextRec + 1 := by
        have h9 : s2.st.nextRec = s.st.nextRec + 1 := hnr
        omega
      exact ⟨prefChainRns_transfer hp5 hF2
          (fun q r hq hq0 hty => hpres q r hq hq0 (Or.inr (Or.inl hty))),
        sigChainRns_transfer hs5 hF2
          (fun q r hq hq0 hty => hpres q r hq hq0 (Or.inr (Or.inr hty)))⟩

/-- Rebuilding the uid side after a step that keeps every pref and sig
record and maps each new chain element to an old one with the same
preference and signature heads (or a fresh element with empty
chains). -/
theorem USide_extend {st st' : Store} {F F' ul ul' : Nat}
    {ucl ucl' : List (Nat × UidRec)}
    (h : USide st F ul ucl) (hF : F ≤ F')
    (hpres : ∀ q r, lookupRec st q = some r → q ≠ 0 →
      ((∃ p2, r = Rec.pref p2) ∨ (∃ g, r = Rec.sig g)) →
      lookupRec st' q = some r)
    (huc' : uidChainL st' F' ul' = some ucl')
    (hpair : ∀ p ∈ ucl', (∃ p0 ∈ ucl, p0.2.prefrec = p.2.prefrec ∧
      p0.2.siglist = p.2.siglist ∧ p0.1 = p.1) ∨
      (p.2.prefrec = 0 ∧ p.2.siglist = 0)) :
    USide st' F' ul' ucl' := by
  obtain ⟨huc, hch, hdisj⟩ := h
  have htr : ∀ p0 ∈ ucl, ∀ plC slC,
      prefChainRns st F p0.2.prefrec = some plC →
      sigChainRns st F p0.2.siglist = some slC →
      prefChainRns st' F' p0.2.prefrec = some plC ∧
      sigChainRns st' F' p0.2.siglist = some slC := by
    intro p0 hp0 plC slC hplc hslc
    constructor
    · refine prefChainRns_le hF (prefChainRns_congr hplc ?_)
      intro q hq
      obtain ⟨pr, hpr⟩ := prefChainRns_mem hplc q hq
      have h1 := readPref_lookup hpr
      rw [h1, hpres _ _ h1 (prefChainRns_mem_pos hplc q hq)
        (Or.inl ⟨pr, rfl⟩)]
    · refine sigChainRns_le hF (sigChainRns_congr hslc ?_)
      intro q hq
      obtain ⟨sg, hsg⟩ := sigChainRns_mem hslc q hq
      have h1 := readSig_lookup hsg
      rw [h1, hpres _ _ h1 (sigChainRns_mem_pos hslc q hq)
        (Or.inr ⟨sg, rfl⟩)]
  have hch2 : ∀ p ∈ ucl', ∃ plC slC,
      prefChainRns st' F' p.2.prefrec = some plC ∧ plC.Nodup ∧
      sigChainRns st' F' p.2.siglist = some slC ∧ slC.Nodup ∧
      ((∃ p0 ∈ ucl, p0.1 = p.1 ∧
        prefChainRns st F p0.2.prefrec = some plC ∧
        sigChainRns st F p0.2.siglist = some slC) ∨
       (plC = [] ∧ slC = [])) := by
    intro p hp
    rcases hpair p hp with ⟨p0, hp0, he1, he2, he3⟩ | ⟨he1, he2⟩
    · obtain ⟨plC, slC, h1, h2, h3, h4⟩ := hch p0 hp0
      obtain ⟨h5, h6⟩ := htr p0 hp0 plC slC h1 h3
      rw [he1] at h5
      rw [he2] at h6
      exact ⟨plC, slC, h5, h2, h6, h4, Or.inl ⟨p0, hp0, he3, h1, h3⟩⟩
    · rw [he1, he2]
      exact ⟨[], [], prefChainRns_zero _ _, List.nodup_nil,
        sigChainRns_zero _ _, List.nodup_nil, Or.inr ⟨rfl, rfl⟩⟩
  refine ⟨huc', ?_, ?_⟩
  · intro p hp
    obtain ⟨plC, slC, h1, h2, h3, h4, _⟩ := hch2 p hp
    exact ⟨plC, slC, h1, h2, h3, h4⟩
  · intro p q hp hq hne plp slp plq slq hplp hslp hplq hslq x hx
    obtain ⟨plC, slC, h1, h2, h3, h4, hsrc⟩ := hch2 p hp
    obtain ⟨plCq, slCq, g1, g2, g3, g4, gsrc⟩ := hch2 q hq
    have e1 : plp = plC := by
      rw [h1] at hplp
      exact (Option.some.inj hplp).symm
    have e2 : slp = slC := by
      rw [h3] at hslp
      exact (Option.some.inj hslp).symm
    have e3 : plq = plCq := by
      rw [g1] at hplq
      exact (Option.some.inj hplq).symm
    have e4 : slq = slCq := by
      rw [g3] at hslq
      exact (Option.some.inj hslq).symm
    subst e1
    subst e2
    subst e3
    subst e4
    rcases gsrc with ⟨q0, hq0, ge, gp, gs⟩ | ⟨ge1, ge2⟩
    · rcases hsrc with ⟨p0, hp0, pe, pp, ps⟩ | ⟨pe1, pe2⟩
      · have hne0 : p0.1 ≠ q0.1 := by
          rw [pe, ge]
          exact hne
        exact hdisj p0 q0 hp0 hq0 hne0 plp slp plq slq pp ps gp gs x hx
      · rw [pe1, pe2] at hx
        rcases hx with hx | hx <;> cases hx
    · rw [ge1, ge2]
      exact ⟨fun hc => (List.not_mem_nil x) hc, fun hc => (List.not_mem_nil x) hc⟩

/-- Flushing the in-memory dir record preserves the walk invariant. -/
theorem C5Inv_flush {st0 : Store} {rn0 : Nat} {kcl0 : List (Nat × KeyRec)}
    {ucl0 : List (Nat × UidRec)} {kf uh : List (List Nat)} {s : UTState}
    (hinv : C5Inv st0 rn0 kcl0 ucl0 kf uh s) :
    C5Inv st0 rn0 kcl0 ucl0 kf uh (flushDrec s) := by
  by_cases hd : s.drecDirty = true
  · obtain ⟨dcur, hdl, _⟩ := hinv.dir_ok
    have hrlt : s.drecRn < s.st.nextRec := by
      rw [hinv.rn_eq]
      exact hinv.gb _ _ hdl
    have hfl : flushDrec s = { s with
        st := writeRec s.st s.drecRn (Rec.dir s.drec), drecDirty := false } := by
      simp only [flushDrec, hd, if_true]
    rw [hfl]
    have hpres : ∀ q r, lookupRec s.st q = some r →
        (∀ d, r ≠ Rec.dir d) →
        lookupRec (writeRec s.st s.drecRn (Rec.dir s.drec)) q = some r := by
      intro q r hq hnd
      have hqr : q ≠ s.drecRn := by
        intro he
        rw [he, hinv.rn_eq, hdl] at hq
        exact hnd dcur (Option.some.inj hq).symm
      rw [lookupRec_writeRec_other _ _ _ _ hqr]
      exact hq
    obtain ⟨kcl, hkc, hknd, hkfnd, hkext, hkret, hkcomp⟩ := hinv.kchain
    obtain ⟨ucl, huside, hund, huhnd, huext, huret, hucomp, hunt, hcur⟩ :=
      hinv.uchain
    refine ⟨hinv.rn_eq, hinv.one_le, hinv.nr_le,
      GB_write hinv.gb (by omega) _,
      ⟨s.drec, ?_, fun _ => rfl⟩,
      ⟨kcl, ?_, hknd, hkfnd, hkext, hkret, hkcomp⟩,
      ⟨ucl, ?_, hund, huhnd, huext, huret, hucomp, ?_, hcur⟩⟩
    · rw [← hinv.rn_eq]
      exact lookupRec_writeRec_self _ _ _
    · refine kchain_transfer hkc (le_refl _) ?_
      intro q r hq _ hty
      obtain ⟨k, he⟩ := hty
      subst he
      exact hpres q _ hq (by intro d h2; cases h2)
    · refine USide_transfer huside (le_refl _) ?_
      intro q r hq _ hty
      rcases hty with ⟨x, he⟩ | ⟨x, he⟩ | ⟨x, he⟩ <;>
        (subst he; exact hpres q _ hq (by intro d h2; cases h2))
    · intro p0 hp0 hnin
      obtain ⟨p1, hp1, he1, he2, hch⟩ := hunt p0 hp0 hnin
      refine ⟨p1, hp1, he1, he2, ?_⟩
      intro plC slC hplC hslC
      obtain ⟨hp5, hs5⟩ := hch plC slC hplC hslC
      refine ⟨prefChainRns_transfer hp5 (le_refl _) ?_,
        sigChainRns_transfer hs5 (le_refl _) ?_⟩
      · intro q r hq _ hty
        obtain ⟨p2, he⟩ := hty
        subst he
        exact hpres q _ hq (by intro d h2; cases h2)
      · intro q r hq _ hty
        obtain ⟨g, he⟩ := hty
        subst he
        exact hpres q _ hq (by intro d h2; cases h2)
  · have hfl : flushDrec s = s := by
      simp only [flushDrec, hd, Bool.false_eq_true, if_false]
    rw [hfl]
    exact hinv

/-- A user-id packet node preserves the walk invariant, recording the
packet's name hash and pointing the uid cursor at its record. -/
theorem C5Inv_uid {st0 : Store} {rn0 : Nat} {kcl0 : List (Nat × KeyRec)}
    {ucl0 : List (Nat × UidRec)} {kf uh : List (List Nat)}
    {ext : Ext} {uid : UserIdPkt} {s s' : UTState}
    (hinv : C5Inv st0 rn0 kcl0 ucl0 kf uh s)
    (h : upd_uid_record ext uid s = some s') :
    C5Inv st0 rn0 kcl0 ucl0 kf (uh ++ [ext.rmd160 uid.name]) s' := by
  obtain ⟨kcl, hkc, hknd, hkfnd, ⟨kext, hkmap, hkext⟩, hkret, hkcomp⟩ :=
    hinv.kchain
  obtain ⟨ucl, huside, hund, huhnd, ⟨uext, humap, huext⟩, huret, hucomp,
    hunt, hcur⟩ := hinv.uchain
  have huc : uidChainL s.st (s.st.nextRec + 1) s.drec.uidlist = some ucl :=
    huside.1
  have humemb : ∀ p ∈ ucl, p.1 < s.st.nextRec := by
    intro p hp
    exact hinv.gb _ _ (readUid_lookup (uidChainL_mem huc p hp))
  cases hfind : ucl.find?
      (fun p => p.2.namehash == ext.rmd160 uid.name) with
  | some e =>
    have h2 : some { s with recnoList := (e.1, RECTYPE_UID) :: s.recnoList, uidrecno := e.1, uidhash := ext.rmd160 uid.name } = some s' := by
      rw [← h]
      exact (upd_uid_record_found huc hfind).symm
    injection h2 with h3
    subst h3
    have hemem : e ∈ ucl := List.mem_of_find?_eq_some hfind
    have hefp : e.2.namehash = ext.rmd160 uid.name := by
      have h4 := List.find?_some hfind
      simpa using h4
    have huinj := List.inj_on_of_nodup_map hund
    have hhinj := List.inj_on_of_nodup_map huhnd
    refine ⟨hinv.rn_eq, hinv.one_le, hinv.nr_le, hinv.gb, hinv.dir_ok,
      ⟨kcl, hkc, hknd, hkfnd, ⟨kext, hkmap, hkext⟩, ?_, hkcomp⟩,
      ⟨ucl, huside, hund, huhnd, ⟨uext, humap, ?_⟩, ?_, ?_, ?_,
        Or.inr ⟨e.2, hemem, by
          rw [hefp]
          exact List.mem_append_right _ (List.mem_singleton_self _)⟩⟩⟩
    · intro p hp
      constructor
      · intro hin
        rcases List.mem_cons.mp hin with hin | hin
        · have h4 := congrArg Prod.snd hin
          simp [RECTYPE_UID, RECTYPE_KEY] at h4
        · exact (hkret p hp).mp hin
      · intro hf
        exact List.mem_cons_of_mem _ ((hkret p hp).mpr hf)
    · intro x hx
      exact ⟨(huext x hx).1, List.mem_append_left _ (huext x hx).2⟩
    · intro p hp
      constructor
      · intro hin
        rcases List.mem_cons.mp hin with hin | hin
        · have hp1 := congrArg Prod.fst hin
          have hpe : p = e := huinj hp hemem hp1
          rw [hpe, hefp]
          exact List.mem_append_right _ (List.mem_singleton_self _)
        · exact List.mem_append_left _ ((huret p hp).mp hin)
      · intro hf
        rcases List.mem_append.mp hf with hf | hf
        · exact List.mem_cons_of_mem _ ((huret p hp).mpr hf)
        · have hpf : p.2.namehash = ext.rmd160 uid.name :=
            List.mem_singleton.mp hf
          have hfe : p.2.namehash = e.2.namehash := by
            rw [hpf, hefp]
          have hpe : p = e := hhinj hp hemem hfe
          rw [hpe]
          exact List.mem_cons_self _ _
    · intro x hx
      rcases List.mem_append.mp hx with hx | hx
      · exact hucomp x hx
      · rw [List.mem_singleton.mp hx, ← hefp]
        exact List.mem_map_of_mem _ hemem
    · intro p0 hp0 hnin
      exact hunt p0 hp0 (fun hc => hnin (List.mem_append_left _ hc))
  | none =>
    have h1s : 1 ≤ s.st.nextRec := le_trans hinv.one_le hinv.nr_le
    obtain ⟨s2, ucl', hupd, hdr, hu2, hkl, hrl, hnr, hgb, huc', hnd',
      hmap', hfr, hdd⟩ := upd_uid_record_new (s := s)
        hinv.gb h1s huc hund hfind
    rw [hupd] at h
    injection h with h3
    subst h3
    have hnph : ∀ p ∈ ucl, p.2.namehash ≠ ext.rmd160 uid.name := by
      intro p hp
      have h4 := List.find?_eq_none.mp hfind p hp
      simpa using h4
    have hnhmap : ucl'.map (fun p => (p.1, p.2.namehash)) =
        ucl.map (fun p => (p.1, p.2.namehash)) ++
          [(s.st.nextRec, ext.rmd160 uid.name)] := by
      have h4 := congrArg (List.map (fun t : Nat × Nat × Nat × List Nat =>
        (t.1, t.2.2.2))) hmap'
      simpa [List.map_map, Function.comp] using h4
    have hhash : ucl'.map (fun p => p.2.namehash) =
        ucl.map (fun p => p.2.namehash) ++ [ext.rmd160 uid.name] := by
      have h4 := congrArg (List.map (fun t : Nat × List Nat => t.2)) hnhmap
      simpa [List.map_map, Function.comp] using h4
    have hhnd' : (ucl'.map (fun p => p.2.namehash)).Nodup := by
      rw [hhash, List.nodup_append]
      refine ⟨huhnd, List.nodup_singleton _, ?_⟩
      intro a ha hb
      have h5 : a = ext.rmd160 uid.name := List.mem_singleton.mp hb
      obtain ⟨p, hp, hpa⟩ := List.mem_map.mp ha
      refine hnph p hp ?_
      rw [hpa, h5]
    have hpair : ∀ p ∈ ucl', (∃ p0 ∈ ucl, p0.1 = p.1 ∧
        p0.2.prefrec = p.2.prefrec ∧ p0.2.siglist = p.2.siglist ∧
        p0.2.namehash = p.2.namehash) ∨
        (p.1 = s.st.nextRec ∧ p.2.prefrec = 0 ∧ p.2.siglist = 0 ∧
          p.2.namehash = ext.rmd160 uid.name) := by
      intro p hp
      have h4 : (p.1, p.2.prefrec, p.2.siglist, p.2.namehash) ∈
          ucl'.map (fun p => (p.1, p.2.prefrec, p.2.siglist, p.2.namehash)) :=
        List.mem_map_of_mem _ hp
      rw [hmap'] at h4
      rcases List.mem_append.mp h4 with h4 | h4
      · obtain ⟨p0, hp0, he⟩ := List.mem_map.mp h4
        have e1 := congrArg Prod.fst he
        have e2 := congrArg (fun t : Nat × Nat × Nat × List Nat => t.2.1) he
        have e3 := congrArg (fun t : Nat × Nat × Nat × List Nat => t.2.2.1) he
        have e4 := congrArg (fun t : Nat × Nat × Nat × List Nat => t.2.2.2) he
        exact Or.inl ⟨p0, hp0, e1, e2, e3, e4⟩
      · have he := List.mem_singleton.mp h4
        have e1 := congrArg Prod.fst he
        have e2 := congrArg (fun t : Nat × Nat × Nat × List Nat => t.2.1) he
        have e3 := congrArg (fun t : Nat × Nat × Nat × List Nat => t.2.2.1) he
        have e4 := congrArg (fun t : Nat × Nat × Nat × List Nat => t.2.2.2) he
        exact Or.inr ⟨e1, e2, e3, e4⟩
    have hpres : ∀ q r, lookupRec s.st q = some r →
        ((∃ k, r = Rec.key k) ∨ (∃ p2, r = Rec.pref p2) ∨
          (∃ g, r = Rec.sig g) ∨ (∃ d, r = Rec.dir d)) →
        lookupRec s2.st q = some r := by
      intro q r hq hty
      have hq2 : q ≠ s.st.nextRec := by
        have h4 := hinv.gb q r hq
        omega
      have hq1 : ∀ p ∈ ucl, q ≠ p.1 := by
        intro p hp he
        have h4 := readUid_lookup (uidChainL_mem huc p hp)
        rcases hty with ⟨x, he2⟩ | ⟨x, he2⟩ | ⟨x, he2⟩ | ⟨x, he2⟩ <;>
          (subst he2; rw [he, h4] at hq; simp at hq)
      rw [hfr q hq1 hq2]
      exact hq
    have hcurnew : ∃ uu, (s.st.nextRec, uu) ∈ ucl' ∧
        uu.namehash ∈ uh ++ [ext.rmd160 uid.name] := by
      have h4 : (s.st.nextRec, (0 : Nat), (0 : Nat), ext.rmd160 uid.name) ∈
          ucl'.map (fun p => (p.1, p.2.prefrec, p.2.siglist, p.2.namehash)) := by
        rw [hmap']
        exact List.mem_append_right _ (List.mem_singleton_self _)
      obtain ⟨p, hp, he⟩ := List.mem_map.mp h4
      have e1 := congrArg Prod.fst he
      refine ⟨p.2, ?_, ?_⟩
      · have he2 : (s.st.nextRec, p.2) = p := by
          have e1b : p.1 = s.st.nextRec := e1
          rw [← e1b]
        rw [he2]
        exact hp
      · have e4 := congrArg (fun t : Nat × Nat × Nat × List Nat => t.2.2.2) he
        have e4b : p.2.namehash = ext.rmd160 uid.name := e4
        rw [e4b]
        exact List.mem_append_right _ (List.mem_singleton_self _)
    refine ⟨hdr.trans hinv.rn_eq, hinv.one_le, ?_, hgb, ?_,
      ⟨kcl, ?_, hknd, hkfnd, ⟨kext, hkmap, hkext⟩, ?_, hkcomp⟩,
      ⟨ucl', ?_, hnd', hhnd',
        ⟨uext ++ [(s.st.nextRec, ext.rmd160 uid.name)], ?_, ?_⟩, ?_, ?_, ?_,
        Or.inr (hu2 ▸ hcurnew)⟩⟩
    · exact le_trans hinv.nr_le (by rw [hnr]; exact Nat.le_succ _)
    · obtain ⟨dcur, hdl, hdimp⟩ := hinv.dir_ok
      have hdl2 : lookupRec s2.st rn0 = some (Rec.dir dcur) :=
        hpres rn0 _ hdl (Or.inr (Or.inr (Or.inr ⟨dcur, rfl⟩)))
      refine ⟨dcur, hdl2, ?_⟩
      rcases hdd with ⟨hd1, hd2⟩ | hd2
      · intro hf
        rw [hd1]
        exact hdimp (hd2.symm.trans hf)
      · intro hf
        rw [hd2] at hf
        cases hf
    · rw [hkl]
      refine kchain_transfer hkc ?_ ?_
      · rw [hnr]
        exact Nat.le_succ _
      · intro q r hq _ hty
        exact hpres q r hq (Or.inl hty)
    · intro p hp
      rw [hrl]
      constructor
      · intro hin
        rcases List.mem_cons.mp hin with hin | hin
        · have h4 := congrArg Prod.snd hin
          simp [RECTYPE_UID, RECTYPE_KEY] at h4
        · exact (hkret p hp).mp hin
      · intro hf
        exact List.mem_cons_of_mem _ ((hkret p hp).mpr hf)
    · refine USide_extend huside ?_ ?_ huc' ?_
      · rw [hnr]
        exact Nat.le_succ _
      · intro q r hq _ hty
        rcases hty with ⟨x, he⟩ | ⟨x, he⟩
        · exact hpres q r hq (Or.inr (Or.inl ⟨x, he⟩))
        · exact hpres q r hq (Or.inr (Or.inr (Or.inl ⟨x, he⟩)))
      · intro p hp
        rcases hpair p hp with ⟨p0, hp0, e1, e2, e3, e4⟩ | ⟨e1, e2, e3, e4⟩
        · exact Or.inl ⟨p0, hp0, e2, e3, e1⟩
        · exact Or.inr ⟨e2, e3⟩
    · rw [hnhmap, humap, List.append_assoc]
    · intro x hx
      rcases List.mem_append.mp hx with hx | hx
      · exact ⟨(huext x hx).1, List.mem_append_left _ (huext x hx).2⟩
      · have he := List.mem_singleton.mp hx
        rw [he]
        exact ⟨hinv.nr_le,
          List.mem_append_right _ (List.mem_singleton_self _)⟩
    · intro p hp
      rw [hrl]
      rcases hpair p hp with ⟨p0, hp0, e1, e2, e3, e4⟩ | ⟨e1, e2, e3, e4⟩
      · rw [← e1, ← e4]
        constructor
        · intro hin
          rcases List.mem_cons.mp hin with hin | hin
          · have h5 := congrArg Prod.fst hin
            have h6 := humemb p0 hp0
            have h7 : p0.1 = s.st.nextRec := h5
            omega
          · exact List.mem_append_left _ ((huret p0 hp0).mp hin)
        · intro hf
          rcases List.mem_append.mp hf with hf | hf
          · exact List.mem_cons_of_mem _ ((huret p0 hp0).mpr hf)
          · exact absurd (List.mem_singleton.mp hf) (hnph p0 hp0)
      · rw [e1, e4]
        constructor
        · intro _
          exact List.mem_append_right _ (List.mem_singleton_self _)
        · intro _
          exact List.mem_cons_self _ _
    · intro x hx
      rw [hhash]
      rcases List.mem_append.mp hx with hx | hx
      · exact List.mem_append_left _ (hucomp x hx)
      · exact List.mem_append_right _ hx
    · intro p0 hp0 hnin
      have hnin0 : p0.2.namehash ∉ uh :=
        fun hc => hnin (List.mem_append_left _ hc)
      obtain ⟨p1, hp1, he1, he2, hch⟩ := hunt p0 hp0 hnin0
      have h4 : (p1.1, p1.2.prefrec, p1.2.siglist, p1.2.namehash) ∈
          ucl'.map (fun p => (p.1, p.2.prefrec, p.2.siglist, p.2.namehash)) := by
        rw [hmap']
        exact List.mem_append_left _ (List.mem_map_of_mem _ hp1)
      obtain ⟨p1b, hp1b, he⟩ := List.mem_map.mp h4
      have f1 := congrArg Prod.fst he
      have f2 := congrArg (fun t : Nat × Nat × Nat × List Nat => t.2.1) he
      have f4 := congrArg (fun t : Nat × Nat × Nat × List Nat => t.2.2.2) he
      have f3 := congrArg (fun t : Nat × Nat × Nat × List Nat => t.2.2.1) he
      have f1b : p1b.1 = p1.1 := f1
      have f2b : p1b.2.prefrec = p1.2.prefrec := f2
      have f3b : p1b.2.siglist = p1.2.siglist := f3
      have f4b : p1b.2.namehash = p1.2.namehash := f4
      refine ⟨p1b, hp1b, f1b.trans he1, f4b.trans he2, ?_⟩
      intro plC slC hplC hslC
      obtain ⟨hp5, hs5⟩ := hch plC slC hplC hslC
      have hF2 : s.st.nextRec + 1 ≤ s2.st.nextRec + 1 := by
        have h9 : s2.st.nextRec = s.st.nextRec + 1 := hnr
        omega
      constructor
      · rw [f2b]
        refine prefChainRns_transfer hp5 hF2 ?_
        intro q r hq _ hty
        exact hpres q r hq (Or.inr (Or.inl hty))
      · rw [f3b]
        refine sigChainRns_transfer hs5 hF2 ?_
        intro q r hq _ hty
        exact hpres q r hq (Or.inr (Or.inr (Or.inl hty)))

/-- A signature packet node preserves the walk invariant. -/
theorem C5Inv_sig {st0 : Store} {rn0 : Nat} {kcl0 : List (Nat × KeyRec)}
    {ucl0 : List (Nat × UidRec)} {kf uh : List (List Nat)}
    {ext : Ext} {kb : KeyBlock} {signode : Nat} {sg : SigPkt}
    {keyid : Nat × Nat} {s s' : UTState}
    (hinv : C5Inv st0 rn0 kcl0 ucl0 kf uh s)
    (h : upd_sig_record ext kb signode sg keyid s = some s') :
    C5Inv st0 rn0 kcl0 ucl0 kf uh s' := by
  by_cases hz : s.uidrecno = 0
  · rw [upd_sig_record_nouid hz] at h
    injection h with h2
    subst h2
    exact hinv
  · obtain ⟨kcl, hkc, hknd, hkfnd, ⟨kext, hkmap, hkext⟩, hkret, hkcomp⟩ :=
      hinv.kchain
    obtain ⟨ucl, huside, hund, huhnd, ⟨uext, humap, huext⟩, huret, hucomp,
      hunt, hcur⟩ := hinv.uchain
    rcases hcur with hcur | ⟨u, hmem, hunh⟩
    · exact absurd hcur hz
    have huc := huside.1
    have hdisj := huside.2.2
    have hu : lookupRec s.st s.uidrecno = some (Rec.uid u) :=
      readUid_lookup (uidChainL_mem huc (s.uidrecno, u) hmem)
    obtain ⟨plC, slC, hpl, hplnd, hsl, hslnd⟩ :=
      huside.2.1 (s.uidrecno, u) hmem
    have h1s : 1 ≤ s.st.nextRec := le_trans hinv.one_le hinv.nr_le
    obtain ⟨hdc, hdr, hdd, hrl, hur, huh2, hle, hgb, u', plC', slC', hu',
      hn1, hn2, hn3, hpc', hpnd', hpb', hsc', hsnd', hsb', hfr⟩ :=
      upd_sig_record_spec hinv.gb h1s hz hu hpl hplnd hsl hslnd h
    have huinj := List.inj_on_of_nodup_map hund
    have hFle : s.st.nextRec + 1 ≤ s'.st.nextRec + 1 := by omega
    have hclashp : ∀ q r, lookupRec s.st q = some r →
        (∀ p2, r ≠ Rec.pref p2) → q ∉ plC := by
      intro q r hq hnp hqin
      obtain ⟨pr, hpr⟩ := prefChainRns_mem hpl q hqin
      rw [readPref_lookup hpr] at hq
      exact hnp pr (Option.some.inj hq).symm
    have hclashs : ∀ q r, lookupRec s.st q = some r →
        (∀ g, r ≠ Rec.sig g) → q ∉ slC := by
      intro q r hq hng hqin
      obtain ⟨sgr, hsgr⟩ := sigChainRns_mem hsl q hqin
      rw [readSig_lookup hsgr] at hq
      exact hng sgr (Option.some.inj hq).symm
    have hclashu : ∀ q r, lookupRec s.st q = some r →
        (∀ uu, r ≠ Rec.uid uu) → q ≠ s.uidrecno := by
      intro q r hq hnu he
      rw [he, hu] at hq
      exact hnu u (Option.some.inj hq).symm
    have hkeysafe : ∀ q k, lookupRec s.st q = some (Rec.key k) →
        lookupRec s'.st q = some (Rec.key k) := by
      intro q k hq
      exact hfr q _ hq (hclashu q _ hq (by intro uu h2; cases h2))
        (hclashp q _ hq (by intro p2 h2; cases h2))
        (hclashs q _ hq (by intro g h2; cases h2))
        (by intro sd h2; cases h2) (by intro hl h2; cases h2)
    have hdirsafe : ∀ q d, lookupRec s.st q = some (Rec.dir d) →
        lookupRec s'.st q = some (Rec.dir d) := by
      intro q d hq
      exact hfr q _ hq (hclashu q _ hq (by intro uu h2; cases h2))
        (hclashp q _ hq (by intro p2 h2; cases h2))
        (hclashs q _ hq (by intro g h2; cases h2))
        (by intro sd h2; cases h2) (by intro hl h2; cases h2)
    have huidsafe : ∀ q uu, lookupRec s.st q = some (Rec.uid uu) →
        q ≠ s.uidrecno → lookupRec s'.st q = some (Rec.uid uu) := by
      intro q uu hq hne
      exact hfr q _ hq hne
        (hclashp q _ hq (by intro p2 h2; cases h2))
        (hclashs q _ hq (by intro g h2; cases h2))
        (by intro sd h2; cases h2) (by intro hl h2; cases h2)
    have hpssafe : ∀ q r, lookupRec s.st q = some r →
        ((∃ p2, r = Rec.pref p2) ∨ (∃ g, r = Rec.sig g)) →
        q ∉ plC → q ∉ slC → lookupRec s'.st q = some r := by
      intro q r hq hty hnp hns
      refine hfr q _ hq ?_ hnp hns ?_ ?_
      · refine hclashu q _ hq ?_
        rcases hty with ⟨p2, he⟩ | ⟨g, he⟩ <;>
          (subst he; intro uu h2; cases h2)
      · rcases hty with ⟨p2, he⟩ | ⟨g, he⟩ <;>
          (subst he; intro sd h2; cases h2)
      · rcases hty with ⟨p2, he⟩ | ⟨g, he⟩ <;>
          (subst he; intro hl h2; cases h2)
    have hpe : ∀ p ∈ ucl, p.1 = s.uidrecno → p = (s.uidrecno, u) := by
      intro p hp he
      exact huinj hp hmem he
    have hoB : ∀ p, p ∈ ucl → ∀ plp slp,
        prefChainRns s.st (s.st.nextRec + 1) p.2.prefrec = some plp →
        sigChainRns s.st (s.st.nextRec + 1) p.2.siglist = some slp →
        ∀ x, (x ∈ plp ∨ x ∈ slp) → x < s.st.nextRec := by
      intro p hp plp slp hplp hslp x hx
      rcases hx with hx | hx
      · obtain ⟨pr, hpr⟩ := prefChainRns_mem hplp x hx
        exact hinv.gb _ _ (readPref_lookup hpr)
      · obtain ⟨sgr, hsgr⟩ := sigChainRns_mem hslp x hx
        exact hinv.gb _ _ (readSig_lookup hsgr)
    have htrold : ∀ p, p ∈ ucl → p.1 ≠ s.uidrecno → ∀ plp slp,
        prefChainRns s.st (s.st.nextRec + 1) p.2.prefrec = some plp →
        sigChainRns s.st (s.st.nextRec + 1) p.2.siglist = some slp →
        prefChainRns s'.st (s'.st.nextRec + 1) p.2.prefrec = some plp ∧
        sigChainRns s'.st (s'.st.nextRec + 1) p.2.siglist = some slp := by
      intro p hp hne plp slp hplp hslp
      have hdpq : ∀ x, (x ∈ plp ∨ x ∈ slp) → x ∉ plC ∧ x ∉ slC :=
        hdisj p (s.uidrecno, u) hp hmem hne plp slp plC slC hplp hslp
          hpl hsl
      constructor
      · refine prefChainRns_le hFle (prefChainRns_congr hplp ?_)
        intro q hq
        obtain ⟨pr, hpr⟩ := prefChainRns_mem hplp q hq
        have h2 := readPref_lookup hpr
        rw [h2, hpssafe q _ h2 (Or.inl ⟨pr, rfl⟩) (hdpq q (Or.inl hq)).1
          (hdpq q (Or.inl hq)).2]
      · refine sigChainRns_le hFle (sigChainRns_congr hslp ?_)
        intro q hq
        obtain ⟨sgr, hsgr⟩ := sigChainRns_mem hslp q hq
        have h2 := readSig_lookup hsgr
        rw [h2, hpssafe q _ h2 (Or.inr ⟨sgr, rfl⟩) (hdpq q (Or.inr hq)).1
          (hdpq q (Or.inr hq)).2]
    -- the new uid chain
    have hucl' := uidChainL_update_one hn2 hu' huc hmem hund
      (fun p hp hne => by
        have h2 := readUid_lookup (uidChainL_mem huc p hp)
        rw [h2, huidsafe p.1 p.2 h2 hne])
    have hucl'2 : uidChainL s'.st (s'.st.nextRec + 1) s'.drec.uidlist =
        some (ucl.map (fun p => if p.1 = s.uidrecno then (s.uidrecno, u')
          else p)) := by
      rw [hdc]
      exact uidChainL_le hFle hucl'
    have hfval : ∀ p, p ∈ ucl → p.1 ≠ s.uidrecno →
        (if p.1 = s.uidrecno then (s.uidrecno, u') else p) = p := by
      intro p _ hne
      rw [if_neg hne]
    have hmemchar : ∀ p, p ∈ ucl.map (fun p =>
        if p.1 = s.uidrecno then (s.uidrecno, u') else p) →
        (p ∈ ucl ∧ p.1 ≠ s.uidrecno) ∨ p = (s.uidrecno, u') := by
      intro p hp
      obtain ⟨q, hq, he⟩ := List.mem_map.mp hp
      by_cases hqe : q.1 = s.uidrecno
      · rw [if_pos hqe] at he
        exact Or.inr he.symm
      · rw [if_neg hqe] at he
        subst he
        exact Or.inl ⟨hq, hqe⟩
    have hfst : (ucl.map (fun p => if p.1 = s.uidrecno then
        (s.uidrecno, u') else p)).map Prod.fst = ucl.map Prod.fst := by
      rw [List.map_map]
      refine List.map_congr_left ?_
      intro p hp
      by_cases hqe : p.1 = s.uidrecno
      · show (if p.1 = s.uidrecno then (s.uidrecno, u') else p).1 = p.1
        rw [if_pos hqe, hqe]
      · show (if p.1 = s.uidrecno then (s.uidrecno, u') else p).1 = p.1
        rw [if_neg hqe]
    have hnh : (ucl.map (fun p => if p.1 = s.uidrecno then
        (s.uidrecno, u') else p)).map (fun p => (p.1, p.2.namehash)) =
        ucl.map (fun p => (p.1, p.2.namehash)) := by
      rw [List.map_map]
      refine List.map_congr_left ?_
      intro p hp
      by_cases hqe : p.1 = s.uidrecno
      · have hp2 : p = (s.uidrecno, u) := hpe p hp hqe
        show ((if p.1 = s.uidrecno then (s.uidrecno, u') else p).1,
          (if p.1 = s.uidrecno then (s.uidrecno, u') else p).2.namehash) =
          (p.1, p.2.namehash)
        rw [if_pos hqe, hqe, hp2, hn1]
      · show ((if p.1 = s.uidrecno then (s.uidrecno, u') else p).1,
          (if p.1 = s.uidrecno then (s.uidrecno, u') else p).2.namehash) =
          (p.1, p.2.namehash)
        rw [if_neg hqe]
    have hcurmem : (s.uidrecno, u') ∈ ucl.map (fun p =>
        if p.1 = s.uidrecno then (s.uidrecno, u') else p) := by
      have h5 := List.mem_map_of_mem (fun p =>
        if p.1 = s.uidrecno then (s.uidrecno, u') else p) hmem
      simpa using h5
    refine ⟨hdr.trans hinv.rn_eq, hinv.one_le, le_trans hinv.nr_le hle,
      hgb, ?_, ⟨kcl, ?_, hknd, hkfnd, ⟨kext, hkmap, hkext⟩, ?_, hkcomp⟩,
      ⟨ucl.map (fun p => if p.1 = s.uidrecno then (s.uidrecno, u') else p),
        ⟨hucl'2, ?_, ?_⟩, ?_, ?_, ⟨uext, ?_, huext⟩, ?_, ?_, ?_, ?_⟩⟩
    · obtain ⟨dcur, hdl, hdimp⟩ := hinv.dir_ok
      refine ⟨dcur, hdirsafe rn0 dcur hdl, ?_⟩
      intro hf
      rw [hdc]
      exact hdimp (hdd.symm.trans hf)
    · rw [hdc]
      refine kchain_transfer hkc hFle ?_
      intro q r hq _ hty
      obtain ⟨k, he⟩ := hty
      subst he
      exact hkeysafe q k hq
    · intro p hp
      rw [hrl]
      exact hkret p hp
    · -- per-uid chains in the new store
      intro p hp
      rcases hmemchar p hp with ⟨hpu, hne⟩ | hpc
      · obtain ⟨plp, slp, h1, h2, h3, h4⟩ := huside.2.1 p hpu
        obtain ⟨h5, h6⟩ := htrold p hpu hne plp slp h1 h3
        exact ⟨plp, slp, h5, h2, h6, h4⟩
      · subst hpc
        exact ⟨plC', slC', hpc', hpnd', hsc', hsnd'⟩
    · -- pairwise disjointness in the new store
      intro p q hp hq hne' plp slp plq slq hplp hslp hplq hslq x hx
      rcases hmemchar p hp with ⟨hpu, hpne⟩ | hpc
      · obtain ⟨plp0, slp0, h1, h2, h3, h4⟩ := huside.2.1 p hpu
        obtain ⟨h5, h6⟩ := htrold p hpu hpne plp0 slp0 h1 h3
        have e1 : plp = plp0 := by
          rw [h5] at hplp
          exact (Option.some.inj hplp).symm
        have e2 : slp = slp0 := by
          rw [h6] at hslp
          exact (Option.some.inj hslp).symm
        rcases hmemchar q hq with ⟨hqu, hqne⟩ | hqc
        · obtain ⟨plq0, slq0, g1, g2, g3, g4⟩ := huside.2.1 q hqu
          obtain ⟨g5, g6⟩ := htrold q hqu hqne plq0 slq0 g1 g3
          have e3 : plq = plq0 := by
            rw [g5] at hplq
            exact (Option.some.inj hplq).symm
          have e4 : slq = slq0 := by
            rw [g6] at hslq
            exact (Option.some.inj hslq).symm
          rw [e3, e4]
          refine hdisj p q hpu hqu hne' plp0 slp0 plq0 slq0 h1 h3 g1 g3
            x ?_
          rw [← e1, ← e2]
          exact hx
        · subst hqc
          have e3 : plq = plC' := by
            rw [hpc'] at hplq
            exact (Option.some.inj hplq).symm
          have e4 : slq = slC' := by
            rw [hsc'] at hslq
            exact (Option.some.inj hslq).symm
          rw [e3, e4]
          rw [e1, e2] at hx
          have hxb : x < s.st.nextRec := hoB p hpu plp0 slp0 h1 h3 x hx
          have hdpq : ∀ y, (y ∈ plp0 ∨ y ∈ slp0) → y ∉ plC ∧ y ∉ slC :=
            hdisj p (s.uidrecno, u) hpu hmem hpne plp0 slp0 plC slC h1 h3
              hpl hsl
          constructor
          · intro hc
            rcases hpb' x hc with hc2 | hc2
            · exact (hdpq x hx).1 hc2
            · omega
          · intro hc
            rcases hsb' x hc with hc2 | hc2
            · exact (hdpq x hx).2 hc2
            · omega
      · subst hpc
        have e1 : plp = plC' := by
          rw [hpc'] at hplp
          exact (Option.some.inj hplp).symm
        have e2 : slp = slC' := by
          rw [hsc'] at hslp
          exact (Option.some.inj hslp).symm
        rcases hmemchar q hq with ⟨hqu, hqne⟩ | hqc
        · obtain ⟨plq0, slq0, g1, g2, g3, g4⟩ := huside.2.1 q hqu
          obtain ⟨g5, g6⟩ := htrold q hqu hqne plq0 slq0 g1 g3
          have e3 : plq = plq0 := by
            rw [g5] at hplq
            exact (Option.some.inj hplq).symm
          have e4 : slq = slq0 := by
            rw [g6] at hslq
            exact (Option.some.inj hslq).symm
          rw [e3, e4]
          have hqB : ∀ y, (y ∈ plq0 ∨ y ∈ slq0) → y < s.st.nextRec :=
            hoB q hqu plq0 slq0 g1 g3
          rw [e1] at hplp
          rw [e2] at hslp
          have hxold : x ∈ plC ∨ x ∈ slC ∨ s.st.nextRec ≤ x := by
            rcases hx with hx | hx
            · rw [e1] at hx
              rcases hpb' x hx with h7 | h7
              · exact Or.inl h7
              · exact Or.inr (Or.inr h7)
            · rw [e2] at hx
              rcases hsb' x hx with h7 | h7
              · exact Or.inr (Or.inl h7)
              · exact Or.inr (Or.inr h7)
          have hqne2 : (s.uidrecno, u).1 ≠ q.1 := fun he => hqne he.symm
          rcases hxold with hx2 | hx2 | hx2
          · exact hdisj (s.uidrecno, u) q hmem hqu hqne2 plC slC plq0
              slq0 hpl hsl g1 g3 x (Or.inl hx2)
          · exact hdisj (s.uidrecno, u) q hmem hqu hqne2 plC slC plq0
              slq0 hpl hsl g1 g3 x (Or.inr hx2)
          · constructor
            · intro hc
              have := hqB x (Or.inl hc)
              omega
            · intro hc
              have := hqB x (Or.inr hc)
              omega
        · subst hqc
          exact absurd rfl hne'
    · rw [hfst]
      exact hund
    · rw [List.map_map]
      have h5 : (ucl.map (fun p => if p.1 = s.uidrecno then
          (s.uidrecno, u') else p)).map (fun p => p.2.namehash) =
          ucl.map (fun p => p.2.namehash) := by
        have h6 := congrArg (List.map (fun t : Nat × List Nat => t.2)) hnh
        simpa [List.map_map, Function.comp] using h6
      rw [List.map_map] at h5
      rw [h5]
      exact huhnd
    · rw [hnh]
      exact humap
    · intro p hp
      rw [hrl]
      rcases hmemchar p hp with ⟨hpu, _⟩ | hpc
      · exact huret p hpu
      · subst hpc
        have h5 := huret (s.uidrecno, u) hmem
        show (s.uidrecno, RECTYPE_UID) ∈ s.recnoList ↔ u'.namehash ∈ uh
        rw [hn1]
        exact h5
    · intro x hx
      have h5 : (ucl.map (fun p => if p.1 = s.uidrecno then
          (s.uidrecno, u') else p)).map (fun p => p.2.namehash) =
          ucl.map (fun p => p.2.namehash) := by
        have h6 := congrArg (List.map (fun t : Nat × List Nat => t.2)) hnh
        simpa [List.map_map, Function.comp] using h6
      rw [h5]
      exact hucomp x hx
    · intro p0 hp0 hnin
      obtain ⟨p1, hp1, he1, he2, hch⟩ := hunt p0 hp0 hnin
      have hne : p1.1 ≠ s.uidrecno := by
        intro he
        have hp2 := hpe p1 hp1 he
        refine hnin ?_
        rw [← he2, hp2]
        exact hunh
      refine ⟨p1, ?_, he1, he2, ?_⟩
      · have h5 := List.mem_map_of_mem (fun p =>
          if p.1 = s.uidrecno then (s.uidrecno, u') else p) hp1
        simp only [if_neg hne] at h5
        exact h5
      · intro plC0 slC0 h01 h02
        obtain ⟨hp5, hs5⟩ := hch plC0 slC0 h01 h02
        exact htrold p1 hp1 hne plC0 slC0 hp5 hs5
    · refine Or.inr ⟨u', ?_, ?_⟩
      · rw [hur]
        exact hcurmem
      · rw [hn1]
        exact hunh

/-- The node walk of update_trust_record preserves the invariant,
accumulating the keyblock's fingerprints and name hashes. -/
theorem utrNodes_inv {st0 : Store} {rn0 : Nat} {kcl0 : List (Nat × KeyRec)}
    {ucl0 : List (Nat × UidRec)} {ext : Ext} {kb : KeyBlock}
    {keyid : Nat × Nat} :
    ∀ (nodes : List (KBNode × Nat)) (kf uh : List (List Nat))
      (s s' : UTState),
      C5Inv st0 rn0 kcl0 ucl0 kf uh s →
      utrNodes ext kb keyid nodes s = some s' →
      C5Inv st0 rn0 kcl0 ucl0
        (kf ++ kbKeyFprs (nodes.map Prod.fst))
        (uh ++ kbUidHashes ext (nodes.map Prod.fst)) s' := by
  intro nodes
  induction nodes with
  | nil =>
    intro kf uh s s' hinv h
    injection h with h2
    subst h2
    simp only [List.map_nil, kbKeyFprs, kbUidHashes, List.append_nil]
    exact hinv
  | cons nd rest ih =>
    obtain ⟨node, idx⟩ := nd
    intro kf uh s s' hinv h
    simp only [utrNodes] at h
    cases node with
    | publicKey pk =>
      simp only [] at h
      cases hstep : upd_key_record pk { s with uidrecno := 0 } with
      | none => rw [hstep] at h; cases h
      | some s1 =>
        rw [hstep] at h
        simp only [] at h
        have h2 := ih (kf ++ [pk.fingerprint]) uh s1 s'
          (C5Inv_key hinv hstep) h
        rw [List.append_assoc] at h2
        simp only [List.map_cons, kbKeyFprs, kbUidHashes]
        exact h2
    | publicSubkey pk =>
      simp only [] at h
      cases hstep : upd_key_record pk { s with uidrecno := 0 } with
      | none => rw [hstep] at h; cases h
      | some s1 =>
        rw [hstep] at h
        simp only [] at h
        have h2 := ih (kf ++ [pk.fingerprint]) uh s1 s'
          (C5Inv_key hinv hstep) h
        rw [List.append_assoc] at h2
        simp only [List.map_cons, kbKeyFprs, kbUidHashes]
        exact h2
    | userId uidp =>
      simp only [] at h
      cases hstep : upd_uid_record ext uidp (flushDrec s) with
      | none => rw [hstep] at h; cases h
      | some s1 =>
        rw [hstep] at h
        simp only [] at h
        have h2 := ih kf (uh ++ [ext.rmd160 uidp.name]) s1 s'
          (C5Inv_uid (C5Inv_flush hinv) hstep) h
        rw [List.append_assoc] at h2
        simp only [List.map_cons, kbKeyFprs, kbUidHashes]
        exact h2
    | signature sgp =>
      simp only [] at h
      cases hstep : upd_sig_record ext kb idx sgp keyid (flushDrec s) with
      | none => rw [hstep] at h; cases h
      | some s1 =>
        rw [hstep] at h
        simp only [] at h
        have h2 := ih kf uh s1 s'
          (C5Inv_sig (C5Inv_flush hinv) hstep) h
        simp only [List.map_cons, kbKeyFprs, kbUidHashes]
        exact h2
    | other =>
      simp only [] at h
      have h2 := ih kf uh s s' hinv h
      simp only [List.map_cons, kbKeyFprs, kbUidHashes]
      exact h2

theorem keyChainL_cons {st : Store} {f rn : Nat} {k : KeyRec}
    {t : List (Nat × KeyRec)} (hrn : rn ≠ 0)
    (hrd : readKey st rn = some k)
    (ht : keyChainL st f k.next = some t) :
    keyChainL st (f + 1) rn = some ((rn, k) :: t) := by
  cases rn with
  | zero => exact absurd rfl hrn
  | succ m =>
    simp only [keyChainL, hrd, ht, Option.map_some']

theorem uidChainL_cons {st : Store} {f rn : Nat} {u : UidRec}
    {t : List (Nat × UidRec)} (hrn : rn ≠ 0)
    (hrd : readUid st rn = some u)
    (ht : uidChainL st f u.next = some t) :
    uidChainL st (f + 1) rn = some ((rn, u) :: t) := by
  cases rn with
  | zero => exact absurd rfl hrn
  | succ m =>
    simp only [uidChainL, hrd, ht, Option.map_some']

theorem delKeyPass_zero (rl : List (Nat × Nat)) (fuel : Nat) (st : Store)
    (d : DirRec) (dd : Bool) (lastrecno : Nat) :
    delKeyPass rl fuel st d dd lastrecno 0 = some (st, d, dd) := by
  cases fuel <;> rfl

theorem delUidPass_zero (rl : List (Nat × Nat)) (fuel : Nat) (st : Store)
    (d : DirRec) (dd : Bool) (lastrecno : Nat) :
    delUidPass rl fuel st d dd lastrecno 0 = some (st, d, dd) := by
  cases fuel <;> rfl

/-- The key-chain deletion pass removes exactly the chain records whose
recnum was not retained, relinking the survivors in order. -/
theorem delKeyPass_run {rl : List (Nat × Nat)} :
    ∀ {fuel : Nat} {st : Store} {d : DirRec} {dd : Bool}
      {lastrecno rn : Nat} {tail : List (Nat × KeyRec)}
      {st2 : Store} {d2 : DirRec} {dd2 : Bool},
      keyChainL st fuel rn = some tail →
      (tail.map Prod.fst).Nodup →
      GB st →
      (lastrecno = 0 → d.keylist = rn) →
      (lastrecno ≠ 0 → ∃ hk : KeyRec, readKey st lastrecno = some hk ∧
        hk.next = rn ∧ (∀ p ∈ tail, p.1 ≠ lastrecno)) →
      delKeyPass rl fuel st d dd lastrecno rn = some (st2, d2, dd2) →
      st2.nextRec = st.nextRec ∧ GB st2 ∧ d2.uidlist = d.uidlist ∧
      ((d2 = d ∧ dd2 = dd) ∨ dd2 = true) ∧
      (∀ p ∈ tail, qryRecnoList rl p.1 RECTYPE_KEY = false →
        lookupRec st2 p.1 = none) ∧
      (∀ q, (∀ p ∈ tail, q ≠ p.1) → q ≠ lastrecno →
        lookupRec st2 q = lookupRec st q) ∧
      (lastrecno = 0 → ∃ f tl',
        keyChainL st2 f d2.keylist = some tl' ∧
        tl'.map (fun p => (p.1, p.2.fingerprint)) =
          (tail.filter (fun p => qryRecnoList rl p.1 RECTYPE_KEY)).map
            (fun p => (p.1, p.2.fingerprint))) ∧
      (lastrecno ≠ 0 → d2 = d ∧ ∃ hk', readKey st2 lastrecno = some hk' ∧
        (∀ hk, readKey st lastrecno = some hk →
          hk'.fingerprint = hk.fingerprint ∧ hk'.lid = hk.lid) ∧
        ∃ f tl', keyChainL st2 f hk'.next = some tl' ∧
          tl'.map (fun p => (p.1, p.2.fingerprint)) =
            (tail.filter (fun p => qryRecnoList rl p.1 RECTYPE_KEY)).map
              (fun p => (p.1, p.2.fingerprint))) := by
  intro fuel
  induction fuel with
  | zero =>
    intro st d dd lastrecno rn tail st2 d2 dd2 hch hnd hGB hl0 hln h
    cases rn with
    | succ rn2 => cases hch
    | zero =>
      cases hch
      rw [delKeyPass_zero] at h
      injection h with h2
      injection h2 with ha hb
      injection hb with hb1 hb2
      subst ha
      subst hb1
      subst hb2
      refine ⟨rfl, hGB, rfl, Or.inl ⟨rfl, rfl⟩,
        (by intro p hp; cases hp), fun q _ _ => rfl, ?_, ?_⟩
      · intro hl
        exact ⟨1, [], by rw [hl0 hl]; exact keyChainL_zero _ _, by simp⟩
      · intro hl
        obtain ⟨hk, hrd, hnx, _⟩ := hln hl
        exact ⟨rfl, hk, hrd, (fun hk2 hrd2 => by
          rw [hrd] at hrd2
          cases hrd2
          exact ⟨rfl, rfl⟩),
          1, [], by rw [hnx]; exact keyChainL_zero _ _, by simp⟩
  | succ fuel ih =>
    intro st d dd lastrecno rn tail st2 d2 dd2 hch hnd hGB hl0 hln h
    cases rn with
    | zero =>
      cases hch
      rw [delKeyPass_zero] at h
      injection h with h2
      injection h2 with ha hb
      injection hb with hb1 hb2
      subst ha
      subst hb1
      subst hb2
      refine ⟨rfl, hGB, rfl, Or.inl ⟨rfl, rfl⟩,
        (by intro p hp; cases hp), fun q _ _ => rfl, ?_, ?_⟩
      · intro hl
        exact ⟨1, [], by rw [hl0 hl]; exact keyChainL_zero _ _, by simp⟩
      · intro hl
        obtain ⟨hk, hrd, hnx, _⟩ := hln hl
        exact ⟨rfl, hk, hrd, (fun hk2 hrd2 => by
          rw [hrd] at hrd2
          cases hrd2
          exact ⟨rfl, rfl⟩),
          1, [], by rw [hnx]; exact keyChainL_zero _ _, by simp⟩
    | succ rn2 =>
      simp only [keyChainL] at hch
      cases hrd : readKey st (rn2 + 1) with
      | none => rw [hrd] at hch; cases hch
      | some k0 =>
        rw [hrd] at hch
        simp only [Option.map_eq_some'] at hch
        obtain ⟨t, ht, rfl⟩ := hch
        have hndh : (rn2 + 1) ∉ t.map Prod.fst := (List.nodup_cons.mp hnd).1
        have hndt : (t.map Prod.fst).Nodup := (List.nodup_cons.mp hnd).2
        have hk0lt : rn2 + 1 < st.nextRec := hGB _ _ (readKey_lookup hrd)
        simp only [delKeyPass, hrd] at h
        cases hqry : qryRecnoList rl (rn2 + 1) RECTYPE_KEY with
        | true =>
          rw [hqry] at h
          rw [if_pos rfl] at h
          have hpre : ∀ p ∈ t, p.1 ≠ rn2 + 1 := by
            intro p hp he
            exact hndh (he ▸ List.mem_map_of_mem Prod.fst hp)
          obtain ⟨g1, g2, g3, g4, g5, g6, _, g8⟩ :=
            ih ht hndt hGB (by intro h2; cases h2)
              (fun _ => ⟨k0, hrd, rfl, hpre⟩) h
          obtain ⟨gd, hk', hrd', hfl, f2, tl', hch', hmap'⟩ := g8 (by omega)
          have hfilter : ((rn2 + 1, k0) :: t).filter
              (fun p => qryRecnoList rl p.1 RECTYPE_KEY) =
              (rn2 + 1, k0) :: t.filter
                (fun p => qryRecnoList rl p.1 RECTYPE_KEY) := by
            simp [List.filter_cons, hqry]
          obtain ⟨hfp, hld⟩ := hfl k0 hrd
          refine ⟨g1, g2, by rw [gd], g4, ?_, ?_, ?_, ?_⟩
          · intro p hp hq
            rcases List.mem_cons.mp hp with hp | hp
            · subst hp
              rw [hqry] at hq
              cases hq
            · exact g5 p hp hq
          · intro q hq hql
            refine g6 q (fun p hp => hq p (List.mem_cons_of_mem _ hp)) ?_
            exact hq (rn2 + 1, k0) (List.mem_cons_self _ _)
          · intro hl
            have hkl : d.keylist = rn2 + 1 := hl0 hl
            refine ⟨f2 + 1, (rn2 + 1, hk') :: tl', ?_, ?_⟩
            · rw [gd, hkl]
              exact keyChainL_cons (by omega) hrd' hch'
            · rw [hfilter]
              simp only [List.map_cons, hmap', hfp]
          · intro hl
            obtain ⟨hkL, hrdL, hnxL, hallL⟩ := hln hl
            have hlne : rn2 + 1 ≠ lastrecno :=
              hallL (rn2 + 1, k0) (List.mem_cons_self _ _)
            have hrdL2 : readKey st2 lastrecno = some hkL := by
              have h5 := g6 lastrecno
                (fun p hp he => hallL p (List.mem_cons_of_mem _ hp) he.symm)
                (fun he => hlne he.symm)
              simp only [readKey] at hrdL ⊢
              rw [h5]
              exact hrdL
            refine ⟨gd, hkL, hrdL2, (fun hk2 hrd2 => by
              rw [hrdL] at hrd2
              cases hrd2
              exact ⟨rfl, rfl⟩), f2 + 1, (rn2 + 1, hk') :: tl', ?_, ?_⟩
            · rw [hnxL]
              exact keyChainL_cons (by omega) hrd' hch'
            · rw [hfilter]
              simp only [List.map_cons, hmap', hfp]
        | false =>
          rw [hqry] at h
          rw [if_neg (by simp)] at h
          have hfilter : ((rn2 + 1, k0) :: t).filter
              (fun p => qryRecnoList rl p.1 RECTYPE_KEY) =
              t.filter (fun p => qryRecnoList rl p.1 RECTYPE_KEY) := by
            simp [List.filter_cons, hqry]
          have hpre : ∀ p ∈ t, p.1 ≠ rn2 + 1 := by
            intro p hp he
            exact hndh (he ▸ List.mem_map_of_mem Prod.fst hp)
          by_cases hlz : lastrecno = 0
          · subst hlz
            rw [if_pos rfl] at h
            have ht' : keyChainL (deleteRec st (rn2 + 1)) fuel k0.next =
                some t :=
              keyChainL_congr ht (fun p hp =>
                lookupRec_deleteRec_other st (rn2 + 1) p.1 (hpre p hp))
            obtain ⟨g1, g2, g3, g4, g5, g6, g7, _⟩ :=
              ih ht' hndt (GB_delete hGB _) (fun _ => rfl)
                (by intro h2; cases h2 rfl) h
            refine ⟨g1.trans rfl, g2, g3, Or.inr ?_, ?_, ?_, ?_, ?_⟩
            · rcases g4 with ⟨_, gb⟩ | gb
              · exact gb
              · exact gb
            · intro p hp hq
              rcases List.mem_cons.mp hp with hp | hp
              · subst hp
                rw [g6 (rn2 + 1) (fun p hp he => hpre p hp he.symm)
                  (by omega)]
                exact lookupRec_deleteRec_self _ _
              · exact g5 p hp hq
            · intro q hq hql
              rw [g6 q (fun p hp => hq p (List.mem_cons_of_mem _ hp)) hql,
                lookupRec_deleteRec_other st (rn2 + 1) q
                  (hq (rn2 + 1, k0) (List.mem_cons_self _ _))]
            · intro _
              obtain ⟨f2, tl', hch', hmap'⟩ := g7 rfl
              rw [hfilter]
              exact ⟨f2, tl', hch', hmap'⟩
            · intro hl
              exact absurd rfl hl
          · rw [if_neg hlz] at h
            obtain ⟨hkL, hrdL, hnxL, hallL⟩ := hln hlz
            rw [hrdL] at h
            have hlne : rn2 + 1 ≠ lastrecno :=
              hallL (rn2 + 1, k0) (List.mem_cons_self _ _)
            have hLlt : lastrecno < st.nextRec :=
              hGB _ _ (readKey_lookup hrdL)
            have ht' : keyChainL
                (deleteRec (writeRec st lastrecno
                  (Rec.key { hkL with next := k0.next })) (rn2 + 1))
                fuel k0.next = some t := by
              refine keyChainL_congr ht ?_
              intro p hp
              rw [lookupRec_deleteRec_other _ (rn2 + 1) p.1 (hpre p hp),
                lookupRec_writeRec_other _ _ _ _
                  (fun he => hallL p (List.mem_cons_of_mem _ hp) he)]
            have hrd'' : readKey (deleteRec (writeRec st lastrecno
                (Rec.key { hkL with next := k0.next })) (rn2 + 1))
                lastrecno = some { hkL with next := k0.next } := by
              simp only [readKey,
                lookupRec_deleteRec_other _ (rn2 + 1) lastrecno
                  (fun he => hlne he.symm),
                lookupRec_writeRec_self]
            obtain ⟨g1, g2, g3, g4, g5, g6, _, g8⟩ :=
              ih ht' hndt
                (GB_delete (GB_write hGB hLlt _) _)
                (by intro h2; exact absurd h2 hlz)
                (fun _ => ⟨{ hkL with next := k0.next }, hrd'', rfl,
                  fun p hp => hallL p (List.mem_cons_of_mem _ hp)⟩)
                h
            obtain ⟨gd, hk', hrd', hfl, f2, tl', hch', hmap'⟩ := g8 hlz
            obtain ⟨hfp, hld⟩ := hfl { hkL with next := k0.next } hrd''
            refine ⟨g1.trans rfl, g2, by rw [gd], g4, ?_, ?_, ?_, ?_⟩
            · intro p hp hq
              rcases List.mem_cons.mp hp with hp | hp
              · subst hp
                rw [g6 (rn2 + 1) (fun p hp he => hpre p hp he.symm) hlne]
                exact lookupRec_deleteRec_self _ _
              · exact g5 p hp hq
            · intro q hq hql
              rw [g6 q (fun p hp => hq p (List.mem_cons_of_mem _ hp)) hql,
                lookupRec_deleteRec_other _ (rn2 + 1) q
                  (hq (rn2 + 1, k0) (List.mem_cons_self _ _)),
                lookupRec_writeRec_other _ _ _ _ hql]
            · intro hl
              exact absurd hl hlz
            · intro _
              refine ⟨gd, hk', hrd', (fun hk2 hrd2 => by
                rw [hrdL] at hrd2
                cases hrd2
                exact ⟨hfp, hld⟩), f2, tl', hch', ?_⟩
              rw [hfilter]
              exact hmap'

/-- The uid-chain deletion pass removes exactly the chain records whose
recnum was not retained, cascading into their preference and signature
chains, and relinks the survivors in order. -/
theorem delUidPass_run {rl : List (Nat × Nat)} :
    ∀ {fuel : Nat} {st : Store} {d : DirRec} {dd : Bool}
      {lastrecno rn : Nat} {tail : List (Nat × UidRec)}
      {st2f : Store} {d2 : DirRec} {dd2 : Bool},
      uidChainL st fuel rn = some tail →
      (tail.map Prod.fst).Nodup →
      GB st →
      (∀ p ∈ tail, ∃ plC slC,
        prefChainRns st (st.nextRec + 1) p.2.prefrec = some plC ∧
        plC.Nodup ∧
        sigChainRns st (st.nextRec + 1) p.2.siglist = some slC ∧
        slC.Nodup) →
      (∀ p q, p ∈ tail → q ∈ tail → p.1 ≠ q.1 →
        ∀ plp slp plq slq,
          prefChainRns st (st.nextRec + 1) p.2.prefrec = some plp →
          sigChainRns st (st.nextRec + 1) p.2.siglist = some slp →
          prefChainRns st (st.nextRec + 1) q.2.prefrec = some plq →
          sigChainRns st (st.nextRec + 1) q.2.siglist = some slq →
          ∀ x, (x ∈ plp ∨ x ∈ slp) → x ∉ plq ∧ x ∉ slq) →
      (lastrecno = 0 → d.uidlist = rn) →
      (lastrecno ≠ 0 → ∃ hu : UidRec, readUid st lastrecno = some hu ∧
        hu.next = rn ∧ (∀ p ∈ tail, p.1 ≠ lastrecno)) →
      delUidPass rl fuel st d dd lastrecno rn = some (st2f, d2, dd2) →
      st2f.nextRec = st.nextRec ∧ GB st2f ∧ d2.keylist = d.keylist ∧
      ((d2 = d ∧ dd2 = dd) ∨ dd2 = true) ∧
      (∀ p ∈ tail, qryRecnoList rl p.1 RECTYPE_UID = false →
        lookupRec st2f p.1 = none ∧
        (∀ plC slC,
          prefChainRns st (st.nextRec + 1) p.2.prefrec = some plC →
          sigChainRns st (st.nextRec + 1) p.2.siglist = some slC →
          (∀ x ∈ plC, lookupRec st2f x = none) ∧
          (∀ x ∈ slC, lookupRec st2f x = none))) ∧
      (∀ q, (∀ p ∈ tail, q ≠ p.1) →
        (∀ p ∈ tail, ∀ plC slC,
          prefChainRns st (st.nextRec + 1) p.2.prefrec = some plC →
          sigChainRns st (st.nextRec + 1) p.2.siglist = some slC →
          q ∉ plC ∧ q ∉ slC) →
        q ≠ lastrecno →
        lookupRec st2f q = lookupRec st q) ∧
      (lastrecno = 0 → ∃ f tl',
        uidChainL st2f f d2.uidlist = some tl' ∧
        tl'.map (fun p => (p.1, p.2.namehash)) =
          (tail.filter (fun p => qryRecnoList rl p.1 RECTYPE_UID)).map
            (fun p => (p.1, p.2.namehash))) ∧
      (lastrecno ≠ 0 → d2 = d ∧ ∃ hu', readUid st2f lastrecno = some hu' ∧
        (∀ hu, readUid st lastrecno = some hu →
          hu'.namehash = hu.namehash) ∧
        ∃ f tl', uidChainL st2f f hu'.next = some tl' ∧
          tl'.map (fun p => (p.1, p.2.namehash)) =
            (tail.filter (fun p => qryRecnoList rl p.1 RECTYPE_UID)).map
              (fun p => (p.1, p.2.namehash))) := by
  intro fuel
  induction fuel with
  | zero =>
    intro st d dd lastrecno rn tail st2f d2 dd2 hch hnd hGB hchains hdisjp
      hl0 hln h
    cases rn with
    | succ rn2 => cases hch
    | zero =>
      cases hch
      rw [delUidPass_zero] at h
      injection h with h2
      injection h2 with ha hb
      injection hb with hb1 hb2
      subst ha
      subst hb1
      subst hb2
      refine ⟨rfl, hGB, rfl, Or.inl ⟨rfl, rfl⟩,
        (by intro p hp; cases hp), fun q _ _ _ => rfl, ?_, ?_⟩
      · intro hl
        exact ⟨1, [], by rw [hl0 hl]; exact uidChainL_zero _ _, by simp⟩
      · intro hl
        obtain ⟨hu, hrd, hnx, _⟩ := hln hl
        exact ⟨rfl, hu, hrd, (fun hu2 hrd2 => by
          rw [hrd] at hrd2
          cases hrd2
          rfl),
          1, [], by rw [hnx]; exact uidChainL_zero _ _, by simp⟩
  | succ fuel ih =>
    intro st d dd lastrecno rn tail st2f d2 dd2 hch hnd hGB hchains hdisjp
      hl0 hln h
    cases rn with
    | zero =>
      cases hch
      rw [delUidPass_zero] at h
      injection h with h2
      injection h2 with ha hb
      injection hb with hb1 hb2
      subst ha
      subst hb1
      subst hb2
      refine ⟨rfl, hGB, rfl, Or.inl ⟨rfl, rfl⟩,
        (by intro p hp; cases hp), fun q _ _ _ => rfl, ?_, ?_⟩
      · intro hl
        exact ⟨1, [], by rw [hl0 hl]; exact uidChainL_zero _ _, by simp⟩
      · intro hl
        obtain ⟨hu, hrd, hnx, _⟩ := hln hl
        exact ⟨rfl, hu, hrd, (fun hu2 hrd2 => by
          rw [hrd] at hrd2
          cases hrd2
          rfl),
          1, [], by rw [hnx]; exact uidChainL_zero _ _, by simp⟩
    | succ rn2 =>
      simp only [uidChainL] at hch
      cases hrd : readUid st (rn2 + 1) with
      | none => rw [hrd] at hch; cases hch
      | some u0 =>
        rw [hrd] at hch
        simp only [Option.map_eq_some'] at hch
        obtain ⟨t, ht, rfl⟩ := hch
        have hndh : (rn2 + 1) ∉ t.map Prod.fst := (List.nodup_cons.mp hnd).1
        have hndt : (t.map Prod.fst).Nodup := (List.nodup_cons.mp hnd).2
        have hpre : ∀ p ∈ t, p.1 ≠ rn2 + 1 := by
          intro p hp he
          exact hndh (he ▸ List.mem_map_of_mem Prod.fst hp)
        have hu0lk : lookupRec st (rn2 + 1) = some (Rec.uid u0) :=
          readUid_lookup hrd
        have hu0lt : rn2 + 1 < st.nextRec := hGB _ _ hu0lk
        have hne_of : ∀ (x y : Nat) (r1 r2 : Rec), r1 ≠ r2 →
            lookupRec st x = some r1 → lookupRec st y = some r2 →
            x ≠ y := by
          intro x y r1 r2 hne h1 h2 he
          subst he
          rw [h1] at h2
          exact hne (Option.some.inj h2)
        simp only [delUidPass, hrd] at h
        cases hqry : qryRecnoList rl (rn2 + 1) RECTYPE_UID with
        | true =>
          rw [hqry] at h
          rw [if_pos rfl] at h
          obtain ⟨g1, g2, g3, g4, g5, g6, _, g8⟩ :=
            ih ht hndt hGB
              (fun p hp => hchains p (List.mem_cons_of_mem _ hp))
              (fun p q hp hq => hdisjp p q (List.mem_cons_of_mem _ hp)
                (List.mem_cons_of_mem _ hq))
              (by intro h2; cases h2)
              (fun _ => ⟨u0, hrd, rfl, hpre⟩) h
          obtain ⟨gd, hu', hrd', hnh, f2, tl', hch', hmap'⟩ :=
            g8 (by omega)
          have hfilter : ((rn2 + 1, u0) :: t).filter
              (fun p => qryRecnoList rl p.1 RECTYPE_UID) =
              (rn2 + 1, u0) :: t.filter
                (fun p => qryRecnoList rl p.1 RECTYPE_UID) := by
            simp [List.filter_cons, hqry]
          have hnh0 := hnh u0 hrd
          refine ⟨g1, g2, by rw [gd], g4, ?_, ?_, ?_, ?_⟩
          · intro p hp hq
            rcases List.mem_cons.mp hp with hp | hp
            · subst hp
              rw [hqry] at hq
              cases hq
            · exact g5 p hp hq
          · intro q hq hqc hql
            refine g6 q (fun p hp => hq p (List.mem_cons_of_mem _ hp))
              (fun p hp => hqc p (List.mem_cons_of_mem _ hp)) ?_
            exact hq (rn2 + 1, u0) (List.mem_cons_self _ _)
          · intro hl
            have hkl : d.uidlist = rn2 + 1 := hl0 hl
            refine ⟨f2 + 1, (rn2 + 1, hu') :: tl', ?_, ?_⟩
            · rw [gd, hkl]
              exact uidChainL_cons (by omega) hrd' hch'
            · rw [hfilter]
              simp only [List.map_cons, hmap', hnh0]
          · intro hl
            obtain ⟨huL, hrdL, hnxL, hallL⟩ := hln hl
            have hlne : rn2 + 1 ≠ lastrecno :=
              hallL (rn2 + 1, u0) (List.mem_cons_self _ _)
            have hLuid : lookupRec st lastrecno = some (Rec.uid huL) :=
              readUid_lookup hrdL
            have hrdL2 : readUid st2f lastrecno = some huL := by
              have h5 := g6 lastrecno
                (fun p hp he => hallL p (List.mem_cons_of_mem _ hp) he.symm)
                ?_ (fun he => hlne he.symm)
              · simp only [readUid] at hrdL ⊢
                rw [h5]
                exact hrdL
              · intro p hp plC slC hplC hslC
                constructor
                · intro hin
                  obtain ⟨pr, hpr⟩ := prefChainRns_mem hplC _ hin
                  exact hne_of lastrecno lastrecno _ _
                    (by intro h6; cases h6) (readPref_lookup hpr) hLuid rfl
                · intro hin
                  obtain ⟨sgr, hsgr⟩ := sigChainRns_mem hslC _ hin
                  exact hne_of lastrecno lastrecno _ _
                    (by intro h6; cases h6) (readSig_lookup hsgr) hLuid rfl
            refine ⟨gd, huL, hrdL2, (fun hu2 hrd2 => by
              rw [hrdL] at hrd2
              cases hrd2
              rfl), f2 + 1, (rn2 + 1, hu') :: tl', ?_, ?_⟩
            · rw [hnxL]
              exact uidChainL_cons (by omega) hrd' hch'
            · rw [hfilter]
              simp only [List.map_cons, hmap', hnh0]
        | false =>
          rw [hqry] at h
          rw [if_neg (by simp)] at h
          obtain ⟨plC0, slC0, hplc0, hpnd0, hslc0, hsnd0⟩ :=
            hchains (rn2 + 1, u0) (List.mem_cons_self _ _)
          have hplty : ∀ x ∈ plC0, ∃ pr, lookupRec st x = some (Rec.pref pr) := by
            intro x hx
            obtain ⟨pr, hpr⟩ := prefChainRns_mem hplc0 x hx
            exact ⟨pr, readPref_lookup hpr⟩
          have hslty : ∀ x ∈ slC0, ∃ sgr, lookupRec st x = some (Rec.sig sgr) := by
            intro x hx
            obtain ⟨sgr, hsgr⟩ := sigChainRns_mem hslc0 x hx
            exact ⟨sgr, readSig_lookup hsgr⟩
          have hplnu : ∀ x ∈ plC0, ∀ y uu,
              lookupRec st y = some (Rec.uid uu) → x ≠ y := by
            intro x hx y uu hy
            obtain ⟨pr, hpr⟩ := hplty x hx
            exact hne_of x y _ _ (by intro h6; cases h6) hpr hy
          have hslnu : ∀ x ∈ slC0, ∀ y uu,
              lookupRec st y = some (Rec.uid uu) → x ≠ y := by
            intro x hx y uu hy
            obtain ⟨sgr, hsgr⟩ := hslty x hx
            exact hne_of x y _ _ (by intro h6; cases h6) hsgr hy
          have hps_disj : ∀ x ∈ slC0, x ∉ plC0 := by
            intro x hx hx2
            obtain ⟨sgr, hsgr⟩ := hslty x hx
            obtain ⟨pr, hpr⟩ := hplty x hx2
            rw [hsgr] at hpr
            exact absurd (Option.some.inj hpr) (by intro h6; cases h6)
          have hfilter : ((rn2 + 1, u0) :: t).filter
              (fun p => qryRecnoList rl p.1 RECTYPE_UID) =
              t.filter (fun p => qryRecnoList rl p.1 RECTYPE_UID) := by
            simp [List.filter_cons, hqry]
          by_cases hlz : lastrecno = 0
          · subst hlz
            rw [if_pos rfl] at h
            simp only [] at h
            obtain ⟨st2p, hdelp, hnr2, hgonep, hkeepp⟩ :=
              deletePrefChain_spec (st.nextRec + 1) st u0.prefrec plC0
                hplc0 hpnd0
            rw [hdelp] at h
            simp only [] at h
            have hslc2 : sigChainRns st2p (st2p.nextRec + 1) u0.siglist =
                some slC0 := by
              rw [hnr2]
              refine sigChainRns_congr hslc0 ?_
              intro q hq
              exact hkeepp q (hps_disj q hq)
            obtain ⟨st3, hdels, hnr3, hgones, hkeeps⟩ :=
              deleteSigChain_spec (st2p.nextRec + 1) st2p u0.siglist slC0
                hslc2 hsnd0
            rw [hdels] at h
            simp only [] at h
            have hnr4 : (deleteRec st3 (rn2 + 1)).nextRec = st.nextRec := by
              show st3.nextRec = st.nextRec
              rw [hnr3, hnr2]
            have hGB2 : GB st2p := by
              intro q r hq
              by_cases hqp : q ∈ plC0
              · rw [hgonep q hqp] at hq
                cases hq
              · rw [hkeepp q hqp] at hq
                rw [hnr2]
                exact hGB q r hq
            have hGB3 : GB st3 := by
              intro q r hq
              by_cases hqs : q ∈ slC0
              · rw [hgones q hqs] at hq
                cases hq
              · rw [hkeeps q hqs] at hq
                rw [hnr3]
                exact hGB2 q r hq
            have hkeep4 : ∀ q, q ∉ plC0 → q ∉ slC0 → q ≠ rn2 + 1 →
                lookupRec (deleteRec st3 (rn2 + 1)) q = lookupRec st q := by
              intro q h1 h2 h3
              rw [lookupRec_deleteRec_other _ _ _ h3, hkeeps q h2,
                hkeepp q h1]
            have hgone4p : ∀ x ∈ plC0,
                lookupRec (deleteRec st3 (rn2 + 1)) x = none := by
              intro x hx
              rw [lookupRec_deleteRec_other _ _ _
                  (hplnu x hx (rn2 + 1) u0 hu0lk),
                hkeeps x (fun hx2 => hps_disj x hx2 hx)]
              exact hgonep x hx
            have hgone4s : ∀ x ∈ slC0,
                lookupRec (deleteRec st3 (rn2 + 1)) x = none := by
              intro x hx
              rw [lookupRec_deleteRec_other _ _ _
                  (hslnu x hx (rn2 + 1) u0 hu0lk)]
              exact hgones x hx
            have hgone4u : lookupRec (deleteRec st3 (rn2 + 1)) (rn2 + 1) =
                none := lookupRec_deleteRec_self _ _
            have ht4 : uidChainL (deleteRec st3 (rn2 + 1)) fuel u0.next =
                some t := by
              refine uidChainL_congr ht ?_
              intro p hp
              have hplk := readUid_lookup (uidChainL_mem ht p hp)
              exact hkeep4 p.1 (fun hin => hplnu p.1 hin p.1 p.2 hplk rfl)
                (fun hin => hslnu p.1 hin p.1 p.2 hplk rfl) (hpre p hp)
            have htch : ∀ p ∈ t, ∀ plp slp,
                prefChainRns st (st.nextRec + 1) p.2.prefrec = some plp →
                sigChainRns st (st.nextRec + 1) p.2.siglist = some slp →
                prefChainRns (deleteRec st3 (rn2 + 1))
                  ((deleteRec st3 (rn2 + 1)).nextRec + 1) p.2.prefrec =
                  some plp ∧
                sigChainRns (deleteRec st3 (rn2 + 1))
                  ((deleteRec st3 (rn2 + 1)).nextRec + 1) p.2.siglist =
                  some slp := by
              intro p hp plp slp hplp hslp
              have hdj := hdisjp p (rn2 + 1, u0)
                (List.mem_cons_of_mem _ hp) (List.mem_cons_self _ _)
                (hpre p hp) plp slp plC0 slC0 hplp hslp hplc0 hslc0
              rw [hnr4]
              constructor
              · refine prefChainRns_congr hplp ?_
                intro x hx
                obtain ⟨pr, hpr⟩ := prefChainRns_mem hplp x hx
                have hxl := readPref_lookup hpr
                exact hkeep4 x (hdj x (Or.inl hx)).1
                  (hdj x (Or.inl hx)).2
                  (hne_of x (rn2 + 1) _ _ (by intro h6; cases h6) hxl
                    hu0lk)
              · refine sigChainRns_congr hslp ?_
                intro x hx
                obtain ⟨sgr, hsgr⟩ := sigChainRns_mem hslp x hx
                have hxl := readSig_lookup hsgr
                exact hkeep4 x (hdj x (Or.inr hx)).1
                  (hdj x (Or.inr hx)).2
                  (hne_of x (rn2 + 1) _ _ (by intro h6; cases h6) hxl
                    hu0lk)
            have hchains4 : ∀ p ∈ t, ∃ plC slC,
                prefChainRns (deleteRec st3 (rn2 + 1))
                  ((deleteRec st3 (rn2 + 1)).nextRec + 1) p.2.prefrec =
                  some plC ∧ plC.Nodup ∧
                sigChainRns (deleteRec st3 (rn2 + 1))
                  ((deleteRec st3 (rn2 + 1)).nextRec + 1) p.2.siglist =
                  some slC ∧ slC.Nodup := by
              intro p hp
              obtain ⟨plp, slp, hplp, hpndp, hslp, hsndp⟩ :=
                hchains p (List.mem_cons_of_mem _ hp)
              obtain ⟨h5, h6⟩ := htch p hp plp slp hplp hslp
              exact ⟨plp, slp, h5, hpndp, h6, hsndp⟩
            have hdet : ∀ p ∈ t, ∀ plC slC,
                prefChainRns (deleteRec st3 (rn2 + 1))
                  ((deleteRec st3 (rn2 + 1)).nextRec + 1) p.2.prefrec =
                  some plC →
                sigChainRns (deleteRec st3 (rn2 + 1))
                  ((deleteRec st3 (rn2 + 1)).nextRec + 1) p.2.siglist =
                  some slC →
                prefChainRns st (st.nextRec + 1) p.2.prefrec = some plC ∧
                sigChainRns st (st.nextRec + 1) p.2.siglist = some slC := by
              intro p hp plC slC h5 h6
              obtain ⟨plp, slp, hplp, hpndp, hslp, hsndp⟩ :=
                hchains p (List.mem_cons_of_mem _ hp)
              obtain ⟨h7, h8⟩ := htch p hp plp slp hplp hslp
              rw [h7] at h5
              rw [h8] at h6
              rw [← Option.some.inj h5, ← Option.some.inj h6]
              exact ⟨hplp, hslp⟩
            have hdisjp4 : ∀ p q, p ∈ t → q ∈ t → p.1 ≠ q.1 →
                ∀ plp slp plq slq,
                prefChainRns (deleteRec st3 (rn2 + 1))
                  ((deleteRec st3 (rn2 + 1)).nextRec + 1) p.2.prefrec =
                  some plp →
                sigChainRns (deleteRec st3 (rn2 + 1))
                  ((deleteRec st3 (rn2 + 1)).nextRec + 1) p.2.siglist =
                  some slp →
                prefChainRns (deleteRec st3 (rn2 + 1))
                  ((deleteRec st3 (rn2 + 1)).nextRec + 1) q.2.prefrec =
                  some plq →
                sigChainRns (deleteRec st3 (rn2 + 1))
                  ((deleteRec st3 (rn2 + 1)).nextRec + 1) q.2.siglist =
                  some slq →
                ∀ x, (x ∈ plp ∨ x ∈ slp) → x ∉ plq ∧ x ∉ slq := by
              intro p q hp hq hne plp slp plq slq h5 h6 h7 h8
              obtain ⟨h9, h10⟩ := hdet p hp plp slp h5 h6
              obtain ⟨h11, h12⟩ := hdet q hq plq slq h7 h8
              exact hdisjp p q (List.mem_cons_of_mem _ hp)
                (List.mem_cons_of_mem _ hq) hne plp slp plq slq h9 h10
                h11 h12
            have hGB4 : GB (deleteRec st3 (rn2 + 1)) := GB_delete hGB3 _
            obtain ⟨g1, g2, g3, g4, g5, g6, g7, _⟩ :=
              ih ht4 hndt hGB4 hchains4 hdisjp4 (fun _ => rfl)
                (by intro h2; cases h2 rfl) h
            have hframe4 : ∀ q, (∀ p ∈ t, q ≠ p.1) →
                (∀ p ∈ t, ∀ plC slC,
                  prefChainRns st (st.nextRec + 1) p.2.prefrec = some plC →
                  sigChainRns st (st.nextRec + 1) p.2.siglist = some slC →
                  q ∉ plC ∧ q ∉ slC) →
                q ≠ 0 →
                lookupRec st2f q = lookupRec (deleteRec st3 (rn2 + 1)) q := by
              intro q hq hqc hq0
              refine g6 q hq ?_ hq0
              intro p hp plC slC h5 h6
              obtain ⟨h9, h10⟩ := hdet p hp plC slC h5 h6
              exact hqc p hp plC slC h9 h10
            have havoid_uid : ∀ (y : Nat) (uu : UidRec),
                lookupRec st y = some (Rec.uid uu) →
                ∀ p ∈ t, ∀ plC slC,
                  prefChainRns st (st.nextRec + 1) p.2.prefrec = some plC →
                  sigChainRns st (st.nextRec + 1) p.2.siglist = some slC →
                  y ∉ plC ∧ y ∉ slC := by
              intro y uu hy p hp plC slC hplC hslC
              constructor
              · intro hin
                obtain ⟨pr, hpr⟩ := prefChainRns_mem hplC _ hin
                have h9 := readPref_lookup hpr
                rw [hy] at h9
                cases h9
              · intro hin
                obtain ⟨sgr, hsgr⟩ := sigChainRns_mem hslC _ hin
                have h9 := readSig_lookup hsgr
                rw [hy] at h9
                cases h9
            refine ⟨g1.trans hnr4, g2, g3, Or.inr ?_, ?_, ?_, ?_, ?_⟩
            · rcases g4 with ⟨_, gb⟩ | gb
              · exact gb
              · exact gb
            · intro p hp hq
              rcases List.mem_cons.mp hp with hp | hp
              · subst hp
                constructor
                · rw [hframe4 (rn2 + 1)
                    (fun p hp he => hpre p hp he.symm)
                    (havoid_uid (rn2 + 1) u0 hu0lk)
                    (by omega)]
                  exact hgone4u
                · intro plC slC hplC hslC
                  have e1 : plC = plC0 := by
                    rw [hplc0] at hplC
                    exact (Option.some.inj hplC).symm
                  have e2 : slC = slC0 := by
                    rw [hslc0] at hslC
                    exact (Option.some.inj hslC).symm
                  rw [e1, e2]
                  constructor
                  · intro x hx
                    rw [hframe4 x
                      (fun p hp => hplnu x hx p.1 p.2
                        (readUid_lookup (uidChainL_mem ht p hp)))
                      (fun p hp plCp slCp hplCp hslCp =>
                        hdisjp (rn2 + 1, u0) p (List.mem_cons_self _ _)
                          (List.mem_cons_of_mem _ hp)
                          (fun he => hpre p hp he.symm) plC0 slC0 plCp
                          slCp hplc0 hslc0 hplCp hslCp x (Or.inl hx))
                      (prefChainRns_mem_pos hplc0 x hx)]
                    exact hgone4p x hx
                  · intro x hx
                    rw [hframe4 x
                      (fun p hp => hslnu x hx p.1 p.2
                        (readUid_lookup (uidChainL_mem ht p hp)))
                      (fun p hp plCp slCp hplCp hslCp =>
                        hdisjp (rn2 + 1, u0) p (List.mem_cons_self _ _)
                          (List.mem_cons_of_mem _ hp)
                          (fun he => hpre p hp he.symm) plC0 slC0 plCp
                          slCp hplc0 hslc0 hplCp hslCp x (Or.inr hx))
                      (sigChainRns_mem_pos hslc0 x hx)]
                    exact hgone4s x hx
              · refine ⟨(g5 p hp hq).1, ?_⟩
                intro plC slC hplC hslC
                obtain ⟨h5, h6⟩ := htch p hp plC slC hplC hslC
                exact (g5 p hp hq).2 plC slC h5 h6
            · intro q hq hqc hql
              have hq0 : q ∉ plC0 ∧ q ∉ slC0 :=
                hqc (rn2 + 1, u0) (List.mem_cons_self _ _) plC0 slC0
                  hplc0 hslc0
              rw [hframe4 q (fun p hp => hq p (List.mem_cons_of_mem _ hp))
                (fun p hp => hqc p (List.mem_cons_of_mem _ hp)) hql]
              exact hkeep4 q hq0.1 hq0.2
                (hq (rn2 + 1, u0) (List.mem_cons_self _ _))
            · intro _
              obtain ⟨f2, tl', hch', hmap'⟩ := g7 rfl
              rw [hfilter]
              exact ⟨f2, tl', hch', hmap'⟩
            · intro hl
              exact absurd rfl hl
          · rw [if_neg hlz] at h
            obtain ⟨huL, hrdL, hnxL, hallL⟩ := hln hlz
            rw [hrdL] at h
            simp only [] at h
            rw [writeRec_nextRec] at h
            have hLuid : lookupRec st lastrecno = some (Rec.uid huL) :=
              readUid_lookup hrdL
            have hlne : rn2 + 1 ≠ lastrecno :=
              hallL (rn2 + 1, u0) (List.mem_cons_self _ _)
            have hLlt : lastrecno < st.nextRec := hGB _ _ hLuid
            have hkeep1 : ∀ q, q ≠ lastrecno →
                lookupRec (writeRec st lastrecno
                  (Rec.uid { huL with next := u0.next })) q =
                lookupRec st q := by
              intro q hq
              exact lookupRec_writeRec_other _ _ _ _ hq
            have hplc1 : prefChainRns (writeRec st lastrecno
                (Rec.uid { huL with next := u0.next })) (st.nextRec + 1)
                u0.prefrec = some plC0 := by
              refine prefChainRns_congr hplc0 ?_
              intro x hx
              exact hkeep1 x (hplnu x hx lastrecno huL hLuid)
            have hslc1 : sigChainRns (writeRec st lastrecno
                (Rec.uid { huL with next := u0.next })) (st.nextRec + 1)
                u0.siglist = some slC0 := by
              refine sigChainRns_congr hslc0 ?_
              intro x hx
              exact hkeep1 x (hslnu x hx lastrecno huL hLuid)
            obtain ⟨st2p, hdelp, hnr2, hgonep, hkeepp⟩ :=
              deletePrefChain_spec (st.nextRec + 1)
                (writeRec st lastrecno
                  (Rec.uid { huL with next := u0.next }))
                u0.prefrec plC0 hplc1 hpnd0
            rw [hdelp] at h
            simp only [] at h
            have hslc2 : sigChainRns st2p (st2p.nextRec + 1) u0.siglist =
                some slC0 := by
              rw [hnr2, writeRec_nextRec]
              refine sigChainRns_congr hslc1 ?_
              intro q hq
              exact hkeepp q (hps_disj q hq)
            obtain ⟨st3, hdels, hnr3, hgones, hkeeps⟩ :=
              deleteSigChain_spec (st2p.nextRec + 1) st2p u0.siglist slC0
                hslc2 hsnd0
            rw [hdels] at h
            simp only [] at h
            have hnr4 : (deleteRec st3 (rn2 + 1)).nextRec = st.nextRec := by
              show st3.nextRec = st.nextRec
              rw [hnr3, hnr2, writeRec_nextRec]
            have hGB2 : GB st2p := by
              intro q r hq
              by_cases hqp : q ∈ plC0
              · rw [hgonep q hqp] at hq
                cases hq
              · rw [hkeepp q hqp] at hq
                rw [hnr2, writeRec_nextRec]
                by_cases hqL : q = lastrecno
                · subst hqL
                  rw [lookupRec_writeRec_self] at hq
                  cases hq
                  exact hLlt
                · rw [hkeep1 q hqL] at hq
                  exact hGB q r hq
            have hGB3 : GB st3 := by
              intro q r hq
              by_cases hqs : q ∈ slC0
              · rw [hgones q hqs] at hq
                cases hq
              · rw [hkeeps q hqs] at hq
                rw [hnr3]
                exact hGB2 q r hq
            have hkeep4 : ∀ q, q ∉ plC0 → q ∉ slC0 → q ≠ rn2 + 1 →
                q ≠ lastrecno →
                lookupRec (deleteRec st3 (rn2 + 1)) q = lookupRec st q := by
              intro q h1 h2 h3 h4
              rw [lookupRec_deleteRec_other _ _ _ h3, hkeeps q h2,
                hkeepp q h1, hkeep1 q h4]
            have hrd4L : readUid (deleteRec st3 (rn2 + 1)) lastrecno =
                some { huL with next := u0.next } := by
              simp only [readUid]
              rw [lookupRec_deleteRec_other _ _ _ (fun he => hlne he.symm),
                hkeeps lastrecno
                  (fun hin => hslnu lastrecno hin lastrecno huL hLuid rfl),
                hkeepp lastrecno
                  (fun hin => hplnu lastrecno hin lastrecno huL hLuid rfl),
                lookupRec_writeRec_self]
            have hgone4p : ∀ x ∈ plC0,
                lookupRec (deleteRec st3 (rn2 + 1)) x = none := by
              intro x hx
              rw [lookupRec_deleteRec_other _ _ _
                  (hplnu x hx (rn2 + 1) u0 hu0lk),
                hkeeps x (fun hx2 => hps_disj x hx2 hx)]
              exact hgonep x hx
            have hgone4s : ∀ x ∈ slC0,
                lookupRec (deleteRec st3 (rn2 + 1)) x = none := by
              intro x hx
              rw [lookupRec_deleteRec_other _ _ _
                  (hslnu x hx (rn2 + 1) u0 hu0lk)]
              exact hgones x hx
            have hgone4u : lookupRec (deleteRec st3 (rn2 + 1)) (rn2 + 1) =
                none := lookupRec_deleteRec_self _ _
            have ht4 : uidChainL (deleteRec st3 (rn2 + 1)) fuel u0.next =
                some t := by
              refine uidChainL_congr ht ?_
              intro p hp
              have hplk := readUid_lookup (uidChainL_mem ht p hp)
              exact hkeep4 p.1 (fun hin => hplnu p.1 hin p.1 p.2 hplk rfl)
                (fun hin => hslnu p.1 hin p.1 p.2 hplk rfl) (hpre p hp)
                (hallL p (List.mem_cons_of_mem _ hp))
            have htch : ∀ p ∈ t, ∀ plp slp,
                prefChainRns st (st.nextRec + 1) p.2.prefrec = some plp →
                sigChainRns st (st.nextRec + 1) p.2.siglist = some slp →
                prefChainRns (deleteRec st3 (rn2 + 1))
                  ((deleteRec st3 (rn2 + 1)).nextRec + 1) p.2.prefrec =
                  some plp ∧
                sigChainRns (deleteRec st3 (rn2 + 1))
                  ((deleteRec st3 (rn2 + 1)).nextRec + 1) p.2.siglist =
                  some slp := by
              intro p hp plp slp hplp hslp
              have hdj := hdisjp p (rn2 + 1, u0)
                (List.mem_cons_of_mem _ hp) (List.mem_cons_self _ _)
                (hpre p hp) plp slp plC0 slC0 hplp hslp hplc0 hslc0
              rw [hnr4]
              constructor
              · refine prefChainRns_congr hplp ?_
                intro x hx
                obtain ⟨pr, hpr⟩ := prefChainRns_mem hplp x hx
                have hxl := readPref_lookup hpr
                exact hkeep4 x (hdj x (Or.inl hx)).1
                  (hdj x (Or.inl hx)).2
                  (hne_of x (rn2 + 1) _ _ (by intro h6; cases h6) hxl
                    hu0lk)
                  (hne_of x lastrecno _ _ (by intro h6; cases h6) hxl
                    hLuid)
              · refine sigChainRns_congr hslp ?_
                intro x hx
                obtain ⟨sgr, hsgr⟩ := sigChainRns_mem hslp x hx
                have hxl := readSig_lookup hsgr
                exact hkeep4 x (hdj x (Or.inr hx)).1
                  (hdj x (Or.inr hx)).2
                  (hne_of x (rn2 + 1) _ _ (by intro h6; cases h6) hxl
                    hu0lk)
                  (hne_of x lastrecno _ _ (by intro h6; cases h6) hxl
                    hLuid)
            have hchains4 : ∀ p ∈ t, ∃ plC slC,
                prefChainRns (deleteRec st3 (rn2 + 1))
                  ((deleteRec st3 (rn2 + 1)).nextRec + 1) p.2.prefrec =
                  some plC ∧ plC.Nodup ∧
                sigChainRns (deleteRec st3 (rn2 + 1))
                  ((deleteRec st3 (rn2 + 1)).nextRec + 1) p.2.siglist =
                  some slC ∧ slC.Nodup := by
              intro p hp
              obtain ⟨plp, slp, hplp, hpndp, hslp, hsndp⟩ :=
                hchains p (List.mem_cons_of_mem _ hp)
              obtain ⟨h5, h6⟩ := htch p hp plp slp hplp hslp
              exact ⟨plp, slp, h5, hpndp, h6, hsndp⟩
            have hdet : ∀ p ∈ t, ∀ plC slC,
                prefChainRns (deleteRec st3 (rn2 + 1))
                  ((deleteRec st3 (rn2 + 1)).nextRec + 1) p.2.prefrec =
                  some plC →
                sigChainRns (deleteRec st3 (rn2 + 1))
                  ((deleteRec st3 (rn2 + 1)).nextRec + 1) p.2.siglist =
                  some slC →
                prefChainRns st (st.nextRec + 1) p.2.prefrec = some plC ∧
                sigChainRns st (st.nextRec + 1) p.2.siglist = some slC := by
              intro p hp plC slC h5 h6
              obtain ⟨plp, slp, hplp, hpndp, hslp, hsndp⟩ :=
                hchains p (List.mem_cons_of_mem _ hp)
              obtain ⟨h7, h8⟩ := htch p hp plp slp hplp hslp
              rw [h7] at h5
              rw [h8] at h6
              rw [← Option.some.inj h5, ← Option.some.inj h6]
              exact ⟨hplp, hslp⟩
            have hdisjp4 : ∀ p q, p ∈ t → q ∈ t → p.1 ≠ q.1 →
                ∀ plp slp plq slq,
                prefChainRns (deleteRec st3 (rn2 + 1))
                  ((deleteRec st3 (rn2 + 1)).nextRec + 1) p.2.prefrec =
                  some plp →
                sigChainRns (deleteRec st3 (rn2 + 1))
                  ((deleteRec st3 (rn2 + 1)).nextRec + 1) p.2.siglist =
                  some slp →
                prefChainRns (deleteRec st3 (rn2 + 1))
                  ((deleteRec st3 (rn2 + 1)).nextRec + 1) q.2.prefrec =
                  some plq →
                sigChainRns (deleteRec st3 (rn2 + 1))
                  ((deleteRec st3 (rn2 + 1)).nextRec + 1) q.2.siglist =
                  some slq →
                ∀ x, (x ∈ plp ∨ x ∈ slp) → x ∉ plq ∧ x ∉ slq := by
              intro p q hp hq hne plp slp plq slq h5 h6 h7 h8
              obtain ⟨h9, h10⟩ := hdet p hp plp slp h5 h6
              obtain ⟨h11, h12⟩ := hdet q hq plq slq h7 h8
              exact hdisjp p q (List.mem_cons_of_mem _ hp)
                (List.mem_cons_of_mem _ hq) hne plp slp plq slq h9 h10
                h11 h12
            have hGB4 : GB (deleteRec st3 (rn2 + 1)) := GB_delete hGB3 _
            obtain ⟨g1, g2, g3, g4, g5, g6, _, g8⟩ :=
              ih ht4 hndt hGB4 hchains4 hdisjp4
                (by intro h2; exact absurd h2 hlz)
                (fun _ => ⟨{ huL with next := u0.next }, hrd4L, rfl,
                  fun p hp => hallL p (List.mem_cons_of_mem _ hp)⟩) h
            have hframe4 : ∀ q, (∀ p ∈ t, q ≠ p.1) →
                (∀ p ∈ t, ∀ plC slC,
                  prefChainRns st (st.nextRec + 1) p.2.prefrec = some plC →
                  sigChainRns st (st.nextRec + 1) p.2.siglist = some slC →
                  q ∉ plC ∧ q ∉ slC) →
                q ≠ lastrecno →
                lookupRec st2f q = lookupRec (deleteRec st3 (rn2 + 1)) q := by
              intro q hq hqc hqL
              refine g6 q hq ?_ hqL
              intro p hp plC slC h5 h6
              obtain ⟨h9, h10⟩ := hdet p hp plC slC h5 h6
              exact hqc p hp plC slC h9 h10
            obtain ⟨gd, hu', hrd', hnh, f2, tl', hch', hmap'⟩ := g8 hlz
            have hnh0 : hu'.namehash = huL.namehash := by
              have h9 := hnh { huL with next := u0.next } hrd4L
              exact h9
            have havoid_uid : ∀ (y : Nat) (uu : UidRec),
                lookupRec st y = some (Rec.uid uu) →
                ∀ p ∈ t, ∀ plC slC,
                  prefChainRns st (st.nextRec + 1) p.2.prefrec = some plC →
                  sigChainRns st (st.nextRec + 1) p.2.siglist = some slC →
                  y ∉ plC ∧ y ∉ slC := by
              intro y uu hy p hp plC slC hplC hslC
              constructor
              · intro hin
                obtain ⟨pr, hpr⟩ := prefChainRns_mem hplC _ hin
                have h9 := readPref_lookup hpr
                rw [hy] at h9
                cases h9
              · intro hin
                obtain ⟨sgr, hsgr⟩ := sigChainRns_mem hslC _ hin
                have h9 := readSig_lookup hsgr
                rw [hy] at h9
                cases h9
            refine ⟨g1.trans hnr4, g2, by rw [gd], g4, ?_, ?_, ?_, ?_⟩
            · intro p hp hq
              rcases List.mem_cons.mp hp with hp | hp
              · subst hp
                constructor
                · rw [hframe4 (rn2 + 1)
                    (fun p hp he => hpre p hp he.symm)
                    (havoid_uid (rn2 + 1) u0 hu0lk) hlne]
                  exact hgone4u
                · intro plC slC hplC hslC
                  have e1 : plC = plC0 := by
                    rw [hplc0] at hplC
                    exact (Option.some.inj hplC).symm
                  have e2 : slC = slC0 := by
                    rw [hslc0] at hslC
                    exact (Option.some.inj hslC).symm
                  rw [e1, e2]
                  constructor
                  · intro x hx
                    rw [hframe4 x
                      (fun p hp => hplnu x hx p.1 p.2
                        (readUid_lookup (uidChainL_mem ht p hp)))
                      (fun p hp plCp slCp hplCp hslCp =>
                        hdisjp (rn2 + 1, u0) p (List.mem_cons_self _ _)
                          (List.mem_cons_of_mem _ hp)
                          (fun he => hpre p hp he.symm) plC0 slC0 plCp
                          slCp hplc0 hslc0 hplCp hslCp x (Or.inl hx))
                      (hplnu x hx lastrecno huL hLuid)]
                    exact hgone4p x hx
                  · intro x hx
                    rw [hframe4 x
                      (fun p hp => hslnu x hx p.1 p.2
                        (readUid_lookup (uidChainL_mem ht p hp)))
                      (fun p hp plCp slCp hplCp hslCp =>
                        hdisjp (rn2 + 1, u0) p (List.mem_cons_self _ _)
                          (List.mem_cons_of_mem _ hp)
                          (fun he => hpre p hp he.symm) plC0 slC0 plCp
                          slCp hplc0 hslc0 hplCp hslCp x (Or.inr hx))
                      (hslnu x hx lastrecno huL hLuid)]
                    exact hgone4s x hx
              · refine ⟨(g5 p hp hq).1, ?_⟩
                intro plC slC hplC hslC
                obtain ⟨h5, h6⟩ := htch p hp plC slC hplC hslC
                exact (g5 p hp hq).2 plC slC h5 h6
            · intro q hq hqc hql
              have hq0 : q ∉ plC0 ∧ q ∉ slC0 :=
                hqc (rn2 + 1, u0) (List.mem_cons_self _ _) plC0 slC0
                  hplc0 hslc0
              rw [hframe4 q (fun p hp => hq p (List.mem_cons_of_mem _ hp))
                (fun p hp => hqc p (List.mem_cons_of_mem _ hp)) hql]
              exact hkeep4 q hq0.1 hq0.2
                (hq (rn2 + 1, u0) (List.mem_cons_self _ _)) hql
            · intro hl
              exact absurd hl hlz
            · intro _
              refine ⟨gd, hu', hrd', (fun hu2 hrd2 => by
                rw [hrdL] at hrd2
                cases hrd2
                exact hnh0), f2, tl', hch', ?_⟩
              rw [hfilter]
              exact hmap'

/-- Attaching indices leaves the node list itself unchanged. -/
theorem withIdx_map_fst : ∀ (l : List KBNode) (i : Nat),
    (withIdx l i).map Prod.fst = l
  | [], _ => rfl
  | n :: rest, i => by
    simp only [withIdx, List.map_cons]
    rw [withIdx_map_fst rest (i + 1)]

/-- The walk invariant holds on entry to the node walk: the transaction
store differs from the entry store only in the dirty flag, the recno
list is empty and no packet has been walked. -/
theorem C5Inv_init {st : Store} {rn0 : Nat} {drec0 : DirRec}
    {kcl0 : List (Nat × KeyRec)} {ucl0 : List (Nat × UidRec)}
    (h1 : 1 ≤ st.nextRec) (hGB : GB st)
    (hdl : lookupRec st rn0 = some (Rec.dir drec0))
    (hkc0 : keyChainL st (st.nextRec + 1) drec0.keylist = some kcl0)
    (hknd0 : (kcl0.map Prod.fst).Nodup)
    (hkfnd0 : (kcl0.map (fun p => p.2.fingerprint)).Nodup)
    (huc0 : uidChainL st (st.nextRec + 1) drec0.uidlist = some ucl0)
    (hund0 : (ucl0.map Prod.fst).Nodup)
    (huhnd0 : (ucl0.map (fun p => p.2.namehash)).Nodup)
    (hchains0 : ∀ p ∈ ucl0, ∃ plC slC,
      prefChainRns st (st.nextRec + 1) p.2.prefrec = some plC ∧
      plC.Nodup ∧
      sigChainRns st (st.nextRec + 1) p.2.siglist = some slC ∧
      slC.Nodup)
    (hdisj0 : ∀ p q, p ∈ ucl0 → q ∈ ucl0 → p.1 ≠ q.1 →
      ∀ plp slp plq slq,
        prefChainRns st (st.nextRec + 1) p.2.prefrec = some plp →
        sigChainRns st (st.nextRec + 1) p.2.siglist = some slp →
        prefChainRns st (st.nextRec + 1) q.2.prefrec = some plq →
        sigChainRns st (st.nextRec + 1) q.2.siglist = some slq →
        ∀ x, (x ∈ plp ∨ x ∈ slp) → x ∉ plq ∧ x ∉ slq) :
    C5Inv st rn0 kcl0 ucl0 [] []
      { st := { st with dirty := false }, drec := drec0, drecRn := rn0,
        drecDirty := false, recnoList := [], uidrecno := 0,
        uidhash := [] } := by
  have hpres : ∀ q r, lookupRec st q = some r →
      lookupRec { st with dirty := false } q = some r := by
    intro q r hq
    exact hq
  refine ⟨rfl, h1, Nat.le_refl _, ?_, ⟨drec0, hdl, fun _ => rfl⟩,
    ⟨kcl0, ?_, hknd0, hkfnd0,
      ⟨[], (List.append_nil _).symm, by intro e he; cases he⟩, ?_,
      by intro x hx; cases hx⟩,
    ⟨ucl0, ?_, hund0, huhnd0,
      ⟨[], (List.append_nil _).symm, by intro e he; cases he⟩, ?_,
      (by intro x hx; cases hx), ?_, Or.inl rfl⟩⟩
  · intro q r hq
    exact hGB q r hq
  · exact kchain_transfer hkc0 (Nat.le_refl _)
      (fun q r hq _ _ => hpres q r hq)
  · intro p hp
    constructor
    · intro h2
      cases h2
    · intro h2
      cases h2
  · exact USide_transfer ⟨huc0, hchains0, hdisj0⟩ (Nat.le_refl _)
      (fun q r hq _ _ => hpres q r hq)
  · intro p hp
    constructor
    · intro h2
      cases h2
    · intro h2
      cases h2
  · intro p0 hp0 _
    refine ⟨p0, hp0, rfl, rfl, ?_⟩
    intro plC slC hplC hslC
    exact ⟨prefChainRns_transfer hplC (Nat.le_refl _)
        (fun q r hq _ _ => hpres q r hq),
      sigChainRns_transfer hslC (Nat.le_refl _)
        (fun q r hq _ _ => hpres q r hq)⟩

/-- C5: after a successful update_trust_record pass over a keyblock,
the dir's key chain carries exactly the fingerprints of the keyblock's
key and subkey packets (one record each, no duplicates), its uid chain
exactly the name hashes of the user-id packets, every entry key or uid
record not retained by the pass is deleted, and each deleted uid's
whole preference chain and signature chain are deleted with it.
Hypotheses: the keyblock has a primary key packet whose dir record was
found at a non-zero recnum, and the entry store is well formed — the
recnums in use lie below the allocation point, key and uid chains are
duplicate-free (recnums, fingerprints, name hashes), each uid's pref
and sig chains terminate without duplicates, and the chains of
different uids are disjoint. -/
theorem claim5_update_trust_record_reconciles
    {ext : Ext} {st : Store} {kb : KeyBlock} {m : Nat} {stF : Store}
    {primary : PubKeyPkt} {rn0 : Nat} {drec0 : DirRec}
    {kcl0 : List (Nat × KeyRec)} {ucl0 : List (Nat × UidRec)}
    (hpk : find_kbnode_pk kb = some primary)
    (hget : get_dir_record_pkt st primary = some (some (rn0, drec0)))
    (hrn0 : rn0 ≠ 0)
    (hdl : lookupRec st rn0 = some (Rec.dir drec0))
    (h1 : 1 ≤ st.nextRec)
    (hGB : GB st)
    (hkc0 : keyChainL st (st.nextRec + 1) drec0.keylist = some kcl0)
    (hknd0 : (kcl0.map Prod.fst).Nodup)
    (hkfnd0 : (kcl0.map (fun p => p.2.fingerprint)).Nodup)
    (huc0 : uidChainL st (st.nextRec + 1) drec0.uidlist = some ucl0)
    (hund0 : (ucl0.map Prod.fst).Nodup)
    (huhnd0 : (ucl0.map (fun p => p.2.namehash)).Nodup)
    (hchains0 : ∀ p ∈ ucl0, ∃ plC slC,
      prefChainRns st (st.nextRec + 1) p.2.prefrec = some plC ∧
      plC.Nodup ∧
      sigChainRns st (st.nextRec + 1) p.2.siglist = some slC ∧
      slC.Nodup)
    (hdisj0 : ∀ p q, p ∈ ucl0 → q ∈ ucl0 → p.1 ≠ q.1 →
      ∀ plp slp plq slq,
        prefChainRns st (st.nextRec + 1) p.2.prefrec = some plp →
        sigChainRns st (st.nextRec + 1) p.2.siglist = some slp →
        prefChainRns st (st.nextRec + 1) q.2.prefrec = some plq →
        sigChainRns st (st.nextRec + 1) q.2.siglist = some slq →
        ∀ x, (x ∈ plp ∨ x ∈ slp) → x ∉ plq ∧ x ∉ slq)
    (h : update_trust_record ext st kb = some (0, m, stF)) :
    ∃ drecF kclF uclF fK fU,
      lookupRec stF rn0 = some (Rec.dir drecF) ∧
      keyChainL stF fK drecF.keylist = some kclF ∧
      (kclF.map (fun p => p.2.fingerprint)).Nodup ∧
      (∀ x, x ∈ kclF.map (fun p => p.2.fingerprint) ↔ x ∈ kbKeyFprs kb) ∧
      uidChainL stF fU drecF.uidlist = some uclF ∧
      (uclF.map (fun p => p.2.namehash)).Nodup ∧
      (∀ x, x ∈ uclF.map (fun p => p.2.namehash) ↔
        x ∈ kbUidHashes ext kb) ∧
      (∀ p ∈ kcl0, p.2.fingerprint ∉ kbKeyFprs kb →
        lookupRec stF p.1 = none) ∧
      (∀ p ∈ ucl0, p.2.namehash ∉ kbUidHashes ext kb →
        lookupRec stF p.1 = none ∧
        ∀ plC slC,
          prefChainRns st (st.nextRec + 1) p.2.prefrec = some plC →
          sigChainRns st (st.nextRec + 1) p.2.siglist = some slC →
          (∀ x ∈ plC, lookupRec stF x = none) ∧
          (∀ x ∈ slC, lookupRec stF x = none)) := by
  simp only [update_trust_record, ite_self] at h
  simp only [hpk] at h
  simp only [hget] at h
  obtain ⟨s1, hw⟩ : ∃ s1, utrNodes ext kb primary.keyid (withIdx kb 0)
      { st := { st with dirty := false }, drec := drec0, drecRn := rn0,
        drecDirty := false, recnoList := [], uidrecno := 0,
        uidhash := [] } = some s1 := by
    cases hw2 : utrNodes ext kb primary.keyid (withIdx kb 0)
        { st := { st with dirty := false }, drec := drec0, drecRn := rn0,
          drecDirty := false, recnoList := [], uidrecno := 0,
          uidhash := [] } with
    | none =>
      simp only [hw2] at h
      exact Option.noConfusion h
    | some s1 => exact ⟨s1, rfl⟩
  simp only [hw] at h
  obtain ⟨st2, drec2, dd2, hk⟩ : ∃ st2 drec2 dd2,
      delKeyPass s1.recnoList (s1.st.nextRec + 1) s1.st s1.drec
        s1.drecDirty 0 s1.drec.keylist = some (st2, drec2, dd2) := by
    cases hk2 : delKeyPass s1.recnoList (s1.st.nextRec + 1) s1.st s1.drec
        s1.drecDirty 0 s1.drec.keylist with
    | none =>
      simp only [hk2] at h
      exact Option.noConfusion h
    | some t2 => exact ⟨t2.1, t2.2.1, t2.2.2, rfl⟩
  simp only [hk] at h
  obtain ⟨st3, drec3, dd3, hu⟩ : ∃ st3 drec3 dd3,
      delUidPass s1.recnoList (st2.nextRec + 1) st2 drec2 dd2 0
        drec2.uidlist = some (st3, drec3, dd3) := by
    cases hu2 : delUidPass s1.recnoList (st2.nextRec + 1) st2 drec2 dd2 0
        drec2.uidlist with
    | none =>
      simp only [hu2] at h
      exact Option.noConfusion h
    | some t3 => exact ⟨t3.1, t3.2.1, t3.2.2, rfl⟩
  simp only [hu, Option.some.injEq, Prod.mk.injEq] at h
  obtain ⟨-, -, hst4⟩ := h
  -- the walk preserves the invariant
  have hinv0 := C5Inv_init h1 hGB hdl hkc0 hknd0 hkfnd0 huc0 hund0 huhnd0
    hchains0 hdisj0
  have hinv1 := utrNodes_inv (withIdx kb 0) [] [] _ s1 hinv0 hw
  simp only [withIdx_map_fst, List.nil_append] at hinv1
  obtain ⟨kcl1, hkc1, hknd1, hkfnd1, ⟨kext1, hkmap1, hkext1⟩, hkret1,
    hkcomp1⟩ := hinv1.kchain
  obtain ⟨ucl1, huside1, hund1, huhnd1, ⟨uext1, humap1, huext1⟩, huret1,
    hucomp1, hunt1, hcur1⟩ := hinv1.uchain
  obtain ⟨dcur1, hdl1, hdimp1⟩ := hinv1.dir_ok
  have hGB1 := hinv1.gb
  -- the key-chain deletion pass
  obtain ⟨gk1, gk2, gk3, gk4, gk5, gk6, gk7, -⟩ :=
    delKeyPass_run hkc1 hknd1 hGB1 (fun _ => rfl)
      (fun hl => absurd rfl hl) hk
  obtain ⟨fK2, kcl2, hkc2, hkmapf⟩ := gk7 rfl
  have hkcl1mem : ∀ p ∈ kcl1, lookupRec s1.st p.1 = some (Rec.key p.2) :=
    fun p hp => readKey_lookup (keyChainL_mem hkc1 p hp)
  have hpres12 : ∀ q r, lookupRec s1.st q = some r → q ≠ 0 →
      ((∃ u, r = Rec.uid u) ∨ (∃ p2, r = Rec.pref p2) ∨
        (∃ g, r = Rec.sig g) ∨ (∃ d, r = Rec.dir d)) →
      lookupRec st2 q = some r := by
    intro q r hq hq0 hty
    have hcl : ∀ p ∈ kcl1, q ≠ p.1 := by
      intro p hp he
      have h4 := hkcl1mem p hp
      rcases hty with ⟨x, he2⟩ | ⟨x, he2⟩ | ⟨x, he2⟩ | ⟨x, he2⟩ <;>
        (subst he2; rw [he, h4] at hq; simp at hq)
    rw [gk6 q hcl hq0]
    exact hq
  have hF12 : s1.st.nextRec + 1 ≤ st2.nextRec + 1 := by
    have h9 : st2.nextRec = s1.st.nextRec := gk1
    omega
  have huside2 : USide st2 (st2.nextRec + 1) drec2.uidlist ucl1 := by
    rw [gk3]
    refine USide_transfer huside1 hF12 ?_
    intro q r hq hq0 hty
    refine hpres12 q r hq hq0 ?_
    rcases hty with h' | h' | h'
    · exact Or.inl h'
    · exact Or.inr (Or.inl h')
    · exact Or.inr (Or.inr (Or.inl h'))
  -- the uid-chain deletion pass
  obtain ⟨gu1, gu2, gu3, gu4, gu5, gu6, gu7, -⟩ :=
    delUidPass_run huside2.1 hund1 gk2 huside2.2.1 huside2.2.2
      (fun _ => rfl) (fun hl => absurd rfl hl) hu
  obtain ⟨fU3, ucl3, huc3, humapf⟩ := gu7 rfl
  -- the dir record survives both passes
  have hdl2 : lookupRec st2 rn0 = some (Rec.dir dcur1) :=
    hpres12 rn0 _ hdl1 hrn0 (Or.inr (Or.inr (Or.inr ⟨dcur1, rfl⟩)))
  have hucl1mem2 : ∀ p ∈ ucl1, lookupRec st2 p.1 = some (Rec.uid p.2) :=
    fun p hp => readUid_lookup (uidChainL_mem huside2.1 p hp)
  have hpres23 : ∀ q r, lookupRec st2 q = some r → q ≠ 0 →
      ((∃ k, r = Rec.key k) ∨ (∃ d, r = Rec.dir d)) →
      lookupRec st3 q = some r := by
    intro q r hq hq0 hty
    have hcl : ∀ p ∈ ucl1, q ≠ p.1 := by
      intro p hp he
      have h4 := hucl1mem2 p hp
      rcases hty with ⟨x, he2⟩ | ⟨x, he2⟩ <;>
        (subst he2; rw [he, h4] at hq; simp at hq)
    have hav : ∀ p ∈ ucl1, ∀ plC slC,
        prefChainRns st2 (st2.nextRec + 1) p.2.prefrec = some plC →
        sigChainRns st2 (st2.nextRec + 1) p.2.siglist = some slC →
        q ∉ plC ∧ q ∉ slC := by
      intro p hp plC slC hplC hslC
      constructor
      · intro hqin
        obtain ⟨pr, hpr⟩ := prefChainRns_mem hplC q hqin
        have h4 := readPref_lookup hpr
        rcases hty with ⟨x, he2⟩ | ⟨x, he2⟩ <;>
          (subst he2; rw [h4] at hq; simp at hq)
      · intro hqin
        obtain ⟨sg, hsg⟩ := sigChainRns_mem hslC q hqin
        have h4 := readSig_lookup hsg
        rcases hty with ⟨x, he2⟩ | ⟨x, he2⟩ <;>
          (subst he2; rw [h4] at hq; simp at hq)
    rw [gu6 q hcl hav hq0]
    exact hq
  have hdl3 : lookupRec st3 rn0 = some (Rec.dir dcur1) :=
    hpres23 rn0 _ hdl2 hrn0 (Or.inr ⟨dcur1, rfl⟩)
  -- the final write touches only the dir record
  have hstF : ∀ q, q ≠ rn0 → lookupRec stF q = lookupRec st3 q := by
    intro q hq
    rw [← hst4]
    by_cases hdd : dd3 = true
    · rw [if_pos hdd]
      exact lookupRec_writeRec_other _ _ _ _ hq
    · rw [if_neg hdd]
  have hdirF : ∃ drecF, lookupRec stF rn0 = some (Rec.dir drecF) ∧
      drecF.keylist = drec3.keylist ∧ drecF.uidlist = drec3.uidlist := by
    rw [← hst4]
    by_cases hdd : dd3 = true
    · rw [if_pos hdd]
      exact ⟨_, lookupRec_writeRec_self _ _ _, rfl, rfl⟩
    · rw [if_neg hdd]
      have hbf : dd3 = false := by
        cases dd3
        · rfl
        · exact absurd rfl hdd
      have hdc : dcur1 = drec3 := by
        rcases gu4 with ⟨he3, he4⟩ | he4
        · rcases gk4 with ⟨he1, he2⟩ | he2
          · have hsd : s1.drecDirty = false := by
              rw [← he2, ← he4]
              exact hbf
            rw [he3, he1]
            exact hdimp1 hsd
          · rw [he4, he2] at hbf
            cases hbf
        · rw [he4] at hbf
          cases hbf
      refine ⟨drec3, ?_, rfl, rfl⟩
      rw [← hdc]
      exact hdl3
  -- the final key chain
  have hkcl3 : keyChainL st3 fK2 drec3.keylist = some kcl2 := by
    rw [gu3]
    refine kchain_transfer hkc2 (Nat.le_refl _) ?_
    intro q r hq hq0 hty
    exact hpres23 q r hq hq0 (Or.inl hty)
  have hkclF : keyChainL stF fK2 drec3.keylist = some kcl2 := by
    refine kchain_transfer hkcl3 (Nat.le_refl _) ?_
    intro q r hq hq0 hty
    have hqrn : q ≠ rn0 := by
      intro he
      obtain ⟨k, he2⟩ := hty
      subst he2
      rw [he, hdl3] at hq
      simp at hq
    rw [hstF q hqrn]
    exact hq
  -- the final uid chain
  have huclF : uidChainL stF fU3 drec3.uidlist = some ucl3 := by
    refine uidChainL_congr huc3 ?_
    intro p hp
    have h4 := readUid_lookup (uidChainL_mem huc3 p hp)
    refine hstF p.1 ?_
    intro he
    rw [he, hdl3] at h4
    simp at h4
  -- fingerprint bookkeeping
  have hkfpr2 : kcl2.map (fun p => p.2.fingerprint) =
      (kcl1.filter (fun p => qryRecnoList s1.recnoList p.1
        RECTYPE_KEY)).map (fun p => p.2.fingerprint) := by
    have h4 := congrArg (List.map (fun t : Nat × List Nat => t.2)) hkmapf
    simpa [List.map_map, Function.comp] using h4
  have hkfndF : (kcl2.map (fun p => p.2.fingerprint)).Nodup := by
    rw [hkfpr2]
    exact List.Nodup.sublist (List.Sublist.map _ (List.filter_sublist _))
      hkfnd1
  have hKmemF : ∀ x, x ∈ kcl2.map (fun p => p.2.fingerprint) ↔
      x ∈ kbKeyFprs kb := by
    intro x
    rw [hkfpr2]
    constructor
    · intro hx
      obtain ⟨p, hp, he⟩ := List.mem_map.mp hx
      obtain ⟨hp1, hp2⟩ := List.mem_filter.mp hp
      rw [← he]
      exact (hkret1 p hp1).mp ((qryRecnoList_iff (by decide)).mp hp2)
    · intro hx
      obtain ⟨p, hp, he⟩ := List.mem_map.mp (hkcomp1 x hx)
      refine List.mem_map.mpr ⟨p, List.mem_filter.mpr ⟨hp, ?_⟩, he⟩
      refine (qryRecnoList_iff (by decide)).mpr ((hkret1 p hp).mpr ?_)
      rw [he]
      exact hx
  -- name-hash bookkeeping
  have hunh3 : ucl3.map (fun p => p.2.namehash) =
      (ucl1.filter (fun p => qryRecnoList s1.recnoList p.1
        RECTYPE_UID)).map (fun p => p.2.namehash) := by
    have h4 := congrArg (List.map (fun t : Nat × List Nat => t.2)) humapf
    simpa [List.map_map, Function.comp] using h4
  have huhndF : (ucl3.map (fun p => p.2.namehash)).Nodup := by
    rw [hunh3]
    exact List.Nodup.sublist (List.Sublist.map _ (List.filter_sublist _))
      huhnd1
  have hUmemF : ∀ x, x ∈ ucl3.map (fun p => p.2.namehash) ↔
      x ∈ kbUidHashes ext kb := by
    intro x
    rw [hunh3]
    constructor
    · intro hx
      obtain ⟨p, hp, he⟩ := List.mem_map.mp hx
      obtain ⟨hp1, hp2⟩ := List.mem_filter.mp hp
      rw [← he]
      exact (huret1 p hp1).mp ((qryRecnoList_iff (by decide)).mp hp2)
    · intro hx
      obtain ⟨p, hp, he⟩ := List.mem_map.mp (hucomp1 x hx)
      refine List.mem_map.mpr ⟨p, List.mem_filter.mpr ⟨hp, ?_⟩, he⟩
      refine (qryRecnoList_iff (by decide)).mpr ((huret1 p hp).mpr ?_)
      rw [he]
      exact hx
  -- deletion of unretained key records
  have hdelK : ∀ p ∈ kcl0, p.2.fingerprint ∉ kbKeyFprs kb →
      lookupRec stF p.1 = none := by
    intro p hp hnf
    have h4 : (p.1, p.2.fingerprint) ∈
        kcl1.map (fun p => (p.1, p.2.fingerprint)) := by
      rw [hkmap1]
      exact List.mem_append_left _ (List.mem_map_of_mem _ hp)
    obtain ⟨p1, hp1, he⟩ := List.mem_map.mp h4
    have e1 := congrArg Prod.fst he
    have e2 := congrArg Prod.snd he
    have e1b : p1.1 = p.1 := e1
    have e2b : p1.2.fingerprint = p.2.fingerprint := e2
    have hq : qryRecnoList s1.recnoList p1.1 RECTYPE_KEY = false := by
      cases hqc : qryRecnoList s1.recnoList p1.1 RECTYPE_KEY
      · rfl
      · exfalso
        refine hnf ?_
        rw [← e2b]
        exact (hkret1 p1 hp1).mp ((qryRecnoList_iff (by decide)).mp hqc)
    have h6 : lookupRec st2 p1.1 = none := gk5 p1 hp1 hq
    have h7 : lookupRec st3 p1.1 = none := by
      have hcl : ∀ pu ∈ ucl1, p1.1 ≠ pu.1 := by
        intro pu hpu he2
        have h8 := hucl1mem2 pu hpu
        rw [← he2] at h8
        rw [h8] at h6
        cases h6
      have hav : ∀ pu ∈ ucl1, ∀ plC slC,
          prefChainRns st2 (st2.nextRec + 1) pu.2.prefrec = some plC →
          sigChainRns st2 (st2.nextRec + 1) pu.2.siglist = some slC →
          p1.1 ∉ plC ∧ p1.1 ∉ slC := by
        intro pu hpu plC slC hplC hslC
        constructor
        · intro hin
          obtain ⟨pr, hpr⟩ := prefChainRns_mem hplC _ hin
          rw [readPref_lookup hpr] at h6
          cases h6
        · intro hin
          obtain ⟨sg, hsg⟩ := sigChainRns_mem hslC _ hin
          rw [readSig_lookup hsg] at h6
          cases h6
      rw [gu6 p1.1 hcl hav (keyChainL_mem_pos hkc1 p1 hp1)]
      exact h6
    have h8 : p1.1 ≠ rn0 := by
      intro he2
      rw [he2, hdl3] at h7
      cases h7
    rw [← e1b, hstF p1.1 h8]
    exact h7
  -- deletion of unretained uid records with their chains
  have hdelU : ∀ p ∈ ucl0, p.2.namehash ∉ kbUidHashes ext kb →
      lookupRec stF p.1 = none ∧
      ∀ plC slC,
        prefChainRns st (st.nextRec + 1) p.2.prefrec = some plC →
        sigChainRns st (st.nextRec + 1) p.2.siglist = some slC →
        (∀ x ∈ plC, lookupRec stF x = none) ∧
        (∀ x ∈ slC, lookupRec stF x = none) := by
    intro p hp hnh
    obtain ⟨p1, hp1, he1, he2, hch⟩ := hunt1 p hp hnh
    have hq : qryRecnoList s1.recnoList p1.1 RECTYPE_UID = false := by
      cases hqc : qryRecnoList s1.recnoList p1.1 RECTYPE_UID
      · rfl
      · exfalso
        refine hnh ?_
        rw [← he2]
        exact (huret1 p1 hp1).mp ((qryRecnoList_iff (by decide)).mp hqc)
    have hg := gu5 p1 hp1 hq
    have hg1 := hg.1
    have h8 : p1.1 ≠ rn0 := by
      intro he3
      rw [he3, hdl3] at hg1
      cases hg1
    constructor
    · rw [← he1, hstF p1.1 h8]
      exact hg1
    · intro plC slC hplC hslC
      obtain ⟨hp5, hs5⟩ := hch plC slC hplC hslC
      have hp6 : prefChainRns st2 (st2.nextRec + 1) p1.2.prefrec =
          some plC := by
        refine prefChainRns_transfer hp5 hF12 ?_
        intro q r hq2 hq0 hty
        exact hpres12 q r hq2 hq0 (Or.inr (Or.inl hty))
      have hs6 : sigChainRns st2 (st2.nextRec + 1) p1.2.siglist =
          some slC := by
        refine sigChainRns_transfer hs5 hF12 ?_
        intro q r hq2 hq0 hty
        exact hpres12 q r hq2 hq0 (Or.inr (Or.inr (Or.inl hty)))
      obtain ⟨hgp, hgs⟩ := hg.2 plC slC hp6 hs6
      constructor
      · intro x hx
        have h9 : x ≠ rn0 := by
          intro he3
          have h10 := hgp x hx
          rw [he3, hdl3] at h10
          cases h10
        rw [hstF x h9]
        exact hgp x hx
      · intro x hx
        have h9 : x ≠ rn0 := by
          intro he3
          have h10 := hgs x hx
          rw [he3, hdl3] at h10
          cases h10
        rw [hstF x h9]
        exact hgs x hx
  obtain ⟨drecF, hdF, hkeq, hueq⟩ := hdirF
  refine ⟨drecF, kcl2, ucl3, fK2, fU3, hdF, ?_, hkfndF, hKmemF, ?_,
    huhndF, hUmemF, hdelK, hdelU⟩
  · rw [hkeq]
    exact hkclF
  · rw [hueq]
    exact huclF

/-- The external collaborators for the C5 witness run (never consulted:
the keyblock has no uid or signature node). -/
def c5wExt : Ext :=
  { rmd160 := fun _ => [], checkKeySig := fun _ _ => 0,
    getPubkey := fun _ => none }

/-- The dir record of the C5 witness store. -/
def c5wDir : DirRec :=
  { lid := 1, keylist := 2, uidlist := 3, ownertrust := 0, dirflags := 0 }

/-- The key record of the C5 witness store; its fingerprint matches the
keyblock, so the pass retains it. -/
def c5wKey : KeyRec :=
  { lid := 1, next := 0, pubkey_algo := 17, fingerprint := [1] }

/-- The uid record of the C5 witness store; its name hash matches no
user-id packet, so the pass deletes it. -/
def c5wUid : UidRec :=
  { lid := 1, next := 0, prefrec := 0, siglist := 0, uidflags := 0,
    namehash := [9] }

/-- The C5 witness store: a dir, one key record and one stale uid
record. -/
def c5wStore : Store :=
  { recs := [(1, Rec.dir c5wDir), (2, Rec.key c5wKey),
      (3, Rec.uid c5wUid)],
    nextRec := 4, dirty := false }

/-- The primary key packet of the C5 witness keyblock. -/
def c5wPk : PubKeyPkt :=
  { fingerprint := [1], pubkey_algo := 17, keyid := (0, 0), local_id := 1 }

/-- The C5 witness keyblock: a single primary key packet. -/
def c5wKB : KeyBlock := [KBNode.publicKey c5wPk]

/-- Every recnum in use in the C5 witness store lies below the
allocation point. -/
theorem c5wGB : GB c5wStore := by
  intro q r hq
  by_cases h1 : q = 1
  · subst h1
    decide
  by_cases h2 : q = 2
  · subst h2
    decide
  by_cases h3 : q = 3
  · subst h3
    decide
  exfalso
  have b1 : (q == 1) = false := by simp [h1]
  have b2 : (q == 2) = false := by simp [h2]
  have b3 : (q == 3) = false := by simp [h3]
  simp [lookupRec, c5wStore, List.lookup, b1, b2, b3] at hq

/-- The dir record after the C5 witness run: the uid chain is empty. -/
def c5wFinalDir : DirRec :=
  { lid := 1, keylist := 2, uidlist := 0, ownertrust := 0, dirflags := 0 }

/-- The store after the C5 witness run: the stale uid record is gone. -/
def c5wFinal : Store :=
  { recs := [(1, Rec.dir c5wFinalDir), (2, Rec.key c5wKey)],
    nextRec := 4, dirty := true }

/-- Witness for C5: on the concrete run the retained key chain is
exactly the keyblock's fingerprint list, the uid chain empties, and the
stale uid record (with its empty chains) is deleted. -/
theorem claim5_witness :
    ∃ stF, update_trust_record c5wExt c5wStore c5wKB = some (0, 0, stF) ∧
      ∃ drecF kclF uclF fK fU,
        lookupRec stF 1 = some (Rec.dir drecF) ∧
        keyChainL stF fK drecF.keylist = some kclF ∧
        (kclF.map (fun p => p.2.fingerprint)).Nodup ∧
        (∀ x, x ∈ kclF.map (fun p => p.2.fingerprint) ↔
          x ∈ kbKeyFprs c5wKB) ∧
        uidChainL stF fU drecF.uidlist = some uclF ∧
        (uclF.map (fun p => p.2.namehash)).Nodup ∧
        (∀ x, x ∈ uclF.map (fun p => p.2.namehash) ↔
          x ∈ kbUidHashes c5wExt c5wKB) ∧
        (∀ p ∈ [(2, c5wKey)], p.2.fingerprint ∉ kbKeyFprs c5wKB →
          lookupRec stF p.1 = none) ∧
        (∀ p ∈ [(3, c5wUid)], p.2.namehash ∉ kbUidHashes c5wExt c5wKB →
          lookupRec stF p.1 = none ∧
          ∀ plC slC,
            prefChainRns c5wStore (c5wStore.nextRec + 1) p.2.prefrec =
              some plC →
            sigChainRns c5wStore (c5wStore.nextRec + 1) p.2.siglist =
              some slC →
            (∀ x ∈ plC, lookupRec stF x = none) ∧
            (∀ x ∈ slC, lookupRec stF x = none)) := by
  refine ⟨c5wFinal, rfl, ?_⟩
  refine @claim5_update_trust_record_reconciles c5wExt c5wStore c5wKB 0
    c5wFinal c5wPk 1 c5wDir [(2, c5wKey)] [(3, c5wUid)] rfl rfl
    (by decide) rfl (by decide) c5wGB rfl (by decide) (by decide) rfl
    (by decide) (by decide) ?_ ?_ rfl
  · intro p hp
    rw [List.mem_singleton] at hp
    subst hp
    exact ⟨[], [], rfl, List.nodup_nil, rfl, List.nodup_nil⟩
  · intro p q hp hq hne plp slp plq slq g1 g2 g3 g4 x hx
    rw [List.mem_singleton] at hp hq
    subst hp
    subst hq
    exact absurd rfl hne

end Trustdb
